import Mathlib

/-! # NNAPI runtime: ModelBuilder

A shallow embedding of `runtime/ModelBuilder.cpp` (with the parts of
`runtime/TypeManager.cpp` and `runtime/Memory.cpp` it calls) and theorems about it.

Conventions of the embedding

* C++ objects are Lean structures; a member function is a Lean function taking the object
  state and returning the new state together with the returned value.
* Unsigned 32-bit quantities are natural numbers; where the C++ arithmetic can leave the
  32-bit range the reduction modulo `2 ^ 32` is written out.
* Pointers are natural numbers (addresses); `0` is `nullptr`. An array passed as pointer plus
  count is an `Option (List Nat)` (the pointee, `none` for `nullptr`) plus the count.
* A call either returns (`Exec.ret`), stops the process through a failed `CHECK` or an
  out-of-bounds access (`Exec.abort`), or is cut off because the fuel given to an unbounded
  loop ran out (`Exec.timeout`).
* Functions whose definition is outside the embedded sources are fields of `Env`.
-/

namespace NNAPI

/-! ## Result codes and enumerators -/

/-- Modelled from the spec: the status codes of section 6 (the header declaring them is not
among the embedded sources); the numbers are those of the public `ResultCode` enum. -/
def ANEURALNETWORKS_NO_ERROR : Int := 0

/-- Modelled from the spec: status code `OUT_OF_MEMORY`. -/
def ANEURALNETWORKS_OUT_OF_MEMORY : Int := 1

/-- Modelled from the spec: status code `UNEXPECTED_NULL`. -/
def ANEURALNETWORKS_UNEXPECTED_NULL : Int := 3

/-- Modelled from the spec: status code `BAD_DATA`. -/
def ANEURALNETWORKS_BAD_DATA : Int := 4

/-- Modelled from the spec: status code `OP_FAILED`. -/
def ANEURALNETWORKS_OP_FAILED : Int := 5

/-- Modelled from the spec: status code `BAD_STATE`. -/
def ANEURALNETWORKS_BAD_STATE : Int := 6

/-- Modelled from the spec: status code `UNMAPPABLE`. -/
def ANEURALNETWORKS_UNMAPPABLE : Int := 7

/-- The constants `MAX_NUMBER_OF_OPERANDS` of ModelBuilder.cpp. -/
def MAX_NUMBER_OF_OPERANDS : Nat := 0xFFFFFFFE

/-- The constants `MAX_NUMBER_OF_OPERATIONS` of ModelBuilder.cpp. -/
def MAX_NUMBER_OF_OPERATIONS : Nat := 0xFFFFFFFE

/-- Outcome of running a piece of the program. -/
inductive Exec (α : Type) where
  | ret (a : α)
  | abort
  | timeout
deriving DecidableEq, Repr

/-- `Operand::LifeTime`. -/
inductive LifeTime where
  | TEMPORARY_VARIABLE
  | SUBGRAPH_INPUT
  | SUBGRAPH_OUTPUT
  | CONSTANT_COPY
  | CONSTANT_REFERENCE
  | NO_VALUE
  | SUBGRAPH
  | POINTER
deriving DecidableEq, Repr

/-- Operand type codes: the 32-bit pattern of an `OperandType`. -/
abbrev OperandType := Nat

/-- Operation type codes: the 32-bit pattern of an `OperationType`. -/
abbrev OperationType := Nat

namespace OperandType

/-- Modelled from the spec: enumerator `INT32` of the base operand types of section 3 (the
enum declaration is not among the embedded sources; the code is that of the public enum). -/
def INT32 : OperandType := 1

/-- Modelled from the spec: enumerator `TENSOR_FLOAT32` of the base operand types. -/
def TENSOR_FLOAT32 : OperandType := 3

/-- Modelled from the spec: enumerator `BOOL` of the base operand types. -/
def BOOL : OperandType := 6

/-- Modelled from the spec: enumerator `TENSOR_QUANT8_SYMM_PER_CHANNEL`. -/
def TENSOR_QUANT8_SYMM_PER_CHANNEL : OperandType := 11

/-- Modelled from the spec: enumerator `SUBGRAPH` (reference-to-subgraph). -/
def SUBGRAPH : OperandType := 15

/-- Modelled from the spec: enumerator `OEM`, the legacy opaque scalar type. -/
def OEM : OperandType := 10000

/-- Modelled from the spec: enumerator `TENSOR_OEM_BYTE`, the legacy opaque byte tensor. -/
def TENSOR_OEM_BYTE : OperandType := 10001

end OperandType

namespace OperationType

/-- Modelled from the spec: operation enumerators named in section 4.4 step 5 (the enum
declaration is not among the embedded sources; the codes are those of the public enum). -/
def AVERAGE_POOL_2D : OperationType := 1

/-- Modelled from the spec: enumerator `CONV_2D`. -/
def CONV_2D : OperationType := 3

/-- Modelled from the spec: enumerator `DEPTHWISE_CONV_2D`. -/
def DEPTHWISE_CONV_2D : OperationType := 4

/-- Modelled from the spec: enumerator `DEPTH_TO_SPACE`. -/
def DEPTH_TO_SPACE : OperationType := 5

/-- Modelled from the spec: enumerator `L2_NORMALIZATION`. -/
def L2_NORMALIZATION : OperationType := 11

/-- Modelled from the spec: enumerator `L2_POOL_2D`. -/
def L2_POOL_2D : OperationType := 12

/-- Modelled from the spec: enumerator `LOCAL_RESPONSE_NORMALIZATION`. -/
def LOCAL_RESPONSE_NORMALIZATION : OperationType := 13

/-- Modelled from the spec: enumerator `MAX_POOL_2D`. -/
def MAX_POOL_2D : OperationType := 17

/-- Modelled from the spec: enumerator `RESIZE_BILINEAR`. -/
def RESIZE_BILINEAR : OperationType := 23

/-- Modelled from the spec: enumerator `SOFTMAX`. -/
def SOFTMAX : OperationType := 25

/-- Modelled from the spec: enumerator `SPACE_TO_DEPTH`. -/
def SPACE_TO_DEPTH : OperationType := 26

/-- Modelled from the spec: enumerator `BATCH_TO_SPACE_ND`. -/
def BATCH_TO_SPACE_ND : OperationType := 29

/-- Modelled from the spec: enumerator `SPACE_TO_BATCH_ND`. -/
def SPACE_TO_BATCH_ND : OperationType := 33

/-- Modelled from the spec: enumerator `RESIZE_NEAREST_NEIGHBOR`. -/
def RESIZE_NEAREST_NEIGHBOR : OperationType := 94

/-- Modelled from the spec: enumerator `IF`. -/
def IF : OperationType := 96

/-- Modelled from the spec: enumerator `WHILE`. -/
def WHILE : OperationType := 97

/-- Modelled from the spec: enumerator `OEM_OPERATION`. -/
def OEM_OPERATION : OperationType := 10000

end OperationType

/-! ## Data model -/

/-- `DataLocation`: where the value of a constant lives. `pointer` is only meaningful for
lifetime `POINTER`. -/
structure DataLocation where
  pointer : Nat := 0
  poolIndex : Nat
  offset : Nat
  length : Nat
deriving DecidableEq, Repr

/-- `Operand::SymmPerChannelQuantParams`; a scale is the bit pattern of a float. -/
structure SymmPerChannelQuantParams where
  scales : List Nat
  channelDim : Nat
deriving DecidableEq, Repr

/-- `Operand::ExtraParams`, a variant. -/
inductive ExtraParams where
  | none
  | channelQuant (params : SymmPerChannelQuantParams)
  | extension (bytes : List Nat)
deriving DecidableEq, Repr

/-- `Operand`. `scale` is the bit pattern of the float. -/
structure Operand where
  type : OperandType
  dimensions : List Nat
  scale : Nat
  zeroPoint : Int
  lifetime : LifeTime
  location : DataLocation
  extraParams : ExtraParams
deriving DecidableEq, Repr

/-- `Operation`. -/
structure Operation where
  type : OperationType
  inputs : List Nat
  outputs : List Nat
deriving DecidableEq, Repr

/-- `Model::Subgraph`. -/
structure Subgraph where
  operands : List Operand
  operations : List Operation
  inputIndexes : List Nat
  outputIndexes : List Nat
deriving DecidableEq, Repr

/-- `ExtensionNameAndPrefix`. -/
structure ExtensionNameAndPrefix where
  name : String
  extPrefix : Nat
deriving DecidableEq, Repr

/-- `Model`, the value handed to validation and hashing. Pools are the addresses of the
memory objects. -/
structure Model where
  main : Subgraph
  referenced : List Subgraph
  operandValues : List Nat
  pools : List Nat
  relaxComputationFloat32toFloat16 : Bool
  extensionNameToPrefix : List ExtensionNameAndPrefix
deriving DecidableEq, Repr

/-- `Extension::OperandTypeInformation`. -/
structure OperandTypeInformation where
  type : Nat
  isTensor : Bool
  byteSize : Nat
deriving DecidableEq, Repr

/-- `Extension`. -/
structure Extension where
  name : String
  operandTypes : List OperandTypeInformation
deriving DecidableEq, Repr

/-- A client buffer: its address and the bytes readable there. -/
structure Buffer where
  addr : Nat
  bytes : List Nat
deriving DecidableEq, Repr

/-- Read `n` elements through a pointer whose pointee holds `l`. Elements beyond the modelled
extent of the pointee read as 0. -/
def readN (l : List Nat) (n : Nat) : List Nat :=
  (List.range n).map (fun i => l.getD i 0)

/-- `makeVector(data, length)`. -/
def makeVector (data : Option (List Nat)) (length : Nat) : List Nat :=
  if length > 0 then
    match data with
    | some l => readN l length
    | none => []
  else []

/-- The test of the macro `NN_VALIDATE_NULL_OR_SIZED`: true when the macro returns
`ANEURALNETWORKS_BAD_DATA`, that is when `(data == nullptr) != (length == 0)`. -/
def nullOrSizedFails {α : Type} (data : Option α) (length : Nat) : Bool :=
  data.isNone != (length == 0)

/-- `ANeuralNetworksOperandType`, the argument of `addOperand`. -/
structure ANeuralNetworksOperandType where
  type : Nat
  dimensionCount : Nat
  dimensions : Option (List Nat)
  scale : Nat
  zeroPoint : Int
deriving DecidableEq, Repr

/-- `ANeuralNetworksSymmPerChannelQuantParams`. -/
structure ANeuralNetworksSymmPerChannelQuantParams where
  channelDim : Nat
  scaleCount : Nat
  scales : Option (List Nat)
deriving DecidableEq, Repr

/-! ## Functions defined outside the embedded sources -/

/-- The functions and constants that ModelBuilder.cpp, TypeManager.cpp and Memory.cpp use
but do not define. They are parameters of the embedding; no property of them is assumed
unless a theorem says so. Functions returning `Result<void>` or `bool` are Boolean valued
(`true` for success). -/
structure Env where
  /-- Constant `kExtensionTypeBits`. -/
  kExtensionTypeBits : Nat
  /-- Constant `kExtensionPrefixBits`. -/
  kExtensionPrefixBits : Nat
  /-- Constant `ANEURALNETWORKS_MAX_SIZE_OF_IMMEDIATELY_COPIED_VALUES`. -/
  maxSizeOfImmediatelyCopiedValues : Nat
  /-- Constant `kNumberOfOperationTypes`. -/
  kNumberOfOperationTypes : Nat
  /-- Constant `kNumberOfOperationTypesOEM`. -/
  kNumberOfOperationTypesOEM : Nat
  /-- The overload `isExtension(OperandType)`. -/
  isExtensionOperandType : OperandType → Bool
  /-- The overload `isExtension(OperationType)`. -/
  isExtensionOperationType : OperationType → Bool
  /-- The free function `getExtensionPrefix(uint32_t type)`. -/
  getExtensionPrefixOfType : Nat → Nat
  /-- Function `nonExtensionOperandTypeIsScalar`. -/
  nonExtensionOperandTypeIsScalar : OperandType → Bool
  /-- Function `nonExtensionOperandSizeOfData`. -/
  nonExtensionOperandSizeOfData : OperandType → List Nat → Nat
  /-- Function `sizeOfTensorData`. -/
  sizeOfTensorData : Nat → List Nat → Nat
  /-- Function `tensorHasUnspecifiedDimensions(operand)`. -/
  tensorHasUnspecifiedDimensions : Operand → Bool
  /-- Function `alignBytesNeeded(index, length)`. -/
  alignBytesNeeded : Nat → Nat → Nat
  /-- Function `validateOperandType(operand, info, tag, allowPartial)` with `allowPartial = true`. -/
  validateOperandType : Operand → Option OperandTypeInformation → Bool
  /-- Function `validateOperandSymmPerChannelQuantParams`. -/
  validateOperandSymmPerChannelQuantParams : Operand → SymmPerChannelQuantParams → Bool
  /-- Function `validCode(codeCount, codeCountOEM, code)`. -/
  validCode : Nat → Nat → Nat → Bool
  /-- Function `validateOperationButNotOperands(operation, operands, subgraphs)`. -/
  validateOperationButNotOperands : Operation → List Operand → List Subgraph → Bool
  /-- Function `validateOperandList(list, operandCount, tag)`. -/
  validateOperandList : List Nat → Nat → Bool
  /-- The call `memory->getValidator().validate(nullptr, IOType::INPUT, index, nullptr, offset,
  length)` on the memory object at the given address. -/
  memoryValidate : Nat → Nat → Nat → Nat → Bool
  /-- The call `m->getMemory()` on the runtime memory at the given address. -/
  getMemory : Nat → Nat
  /-- Function `MemoryAshmem::create(size)`: the status and the address of the new memory
  object (`none` for a null pointer). -/
  memoryAshmemCreate : Nat → Int × Option Nat
  /-- Function `validate(model)`: the version needed by the model, `none` for an error. -/
  validate : Model → Option Nat
  /-- Function `isCompliantVersion(version, runtimeVersion)`. -/
  isCompliantVersion : Nat → Nat → Bool
  /-- The value of `DeviceManager::get()->getRuntimeVersion()`. -/
  runtimeVersion : Nat
  /-- Function `calcModelArchHash(model, hash)`: the digest written to `hash`, `none` when it
  returns false. -/
  calcModelArchHash : Model → Option (List Nat)
  /-- Function `removeDeadOperands(&model)`. -/
  removeDeadOperands : Model → Model
  /-- Function `Model::OperandValues::append(data, length)`: the new arena and the location of
  the appended value. -/
  operandValuesAppend : List Nat → List Nat → List Nat × DataLocation
  /-- The value read through a `POINTER` operand location by `matchesSpec`: the bytes at the
  given address. -/
  readPointer : Nat → List Nat

/-! ## TypeManager (TypeManager.cpp) -/

/-- The state of the `TypeManager` singleton. A `std::map` is an association list. An
`Extension*` pointing into `mExtensionNameToExtension` is the key of the map node it points
to (`none` for `nullptr`). -/
structure TypeManager where
  mExtensionsAllowed : Bool
  mExtensionNameToExtension : List (String × Extension)
  mExtensionNameToFirstDevice : List (String × String)
  mDisabledExtensions : List String
  mExtensionNameToPrefix : List (String × Nat)
  mPrefixToExtension : List (Option String)
deriving DecidableEq, Repr

namespace TypeManager

/-- `TypeManager::areExtensionsAllowed()`. -/
def areExtensionsAllowed (tm : TypeManager) : Bool := tm.mExtensionsAllowed

/-- Dereference an `Extension*`; `none` when the pointer is null or dangling. -/
def deref (tm : TypeManager) (p : Option String) : Option Extension :=
  match p with
  | none => none
  | some key => tm.mExtensionNameToExtension.lookup key

/-- `TypeManager::getExtensionInfo(prefix, &extension)`: `none` when it returns false,
otherwise the pointer stored in `*extension`. -/
def getExtensionInfo (tm : TypeManager) (pfx : Nat) : Option (Option String) :=
  if pfx = 0 then none
  else if ¬ (pfx < tm.mPrefixToExtension.length) then none
  else some (tm.mPrefixToExtension.getD pfx none)

/-- The loop of `std::lower_bound` over `operandTypes` with the comparison
`info.type < typeSought`: `first` is the current iterator, `count` the remaining length. -/
def lowerBoundLoop (l : List OperandTypeInformation) (typeSought : Nat) :
    Nat → Nat → Nat → Nat
  | 0, first, _ => first
  | fuel + 1, first, count =>
    if count > 0 then
      let step := count / 2
      let it := first + step
      if (l.getD it ⟨0, false, 0⟩).type < typeSought then
        lowerBoundLoop l typeSought fuel (it + 1) (count - (step + 1))
      else
        lowerBoundLoop l typeSought fuel first step
    else first

/-- `std::lower_bound(operandTypes.begin(), operandTypes.end(), typeSought, comp)` as an
index into the list; the loop halves `count`, so `length` iterations are enough. -/
def lowerBound (l : List OperandTypeInformation) (typeSought : Nat) : Nat :=
  lowerBoundLoop l typeSought l.length 0 l.length

/-- `TypeManager::getExtensionOperandTypeInfo(type, &info)`: `ret none` when it returns
false, `ret (some info)` when it returns true. -/
def getExtensionOperandTypeInfo (env : Env) (tm : TypeManager) (type : OperandType) :
    Exec (Option OperandTypeInformation) :=
  let operandType := type % 2 ^ 32
  let pfx := (operandType / 2 ^ env.kExtensionTypeBits) % 2 ^ 16
  let typeWithinExtension := (operandType % 2 ^ env.kExtensionTypeBits) % 2 ^ 16
  match tm.getExtensionInfo pfx with
  | none => .ret none
  | some p =>
    match tm.deref p with
    | none => .abort
    | some extension =>
      let it := lowerBound extension.operandTypes typeWithinExtension
      match extension.operandTypes.get? it with
      | none => .ret none
      | some info => if info.type = typeWithinExtension then .ret (some info) else .ret none

/-- `TypeManager::isTensorType(type)`. -/
def isTensorType (env : Env) (tm : TypeManager) (type : OperandType) : Exec Bool :=
  if !env.isExtensionOperandType type then
    .ret (!env.nonExtensionOperandTypeIsScalar type)
  else
    match getExtensionOperandTypeInfo env tm type with
    | .ret (some info) => .ret info.isTensor
    | .ret none => .abort
    | .abort => .abort
    | .timeout => .timeout

/-- `TypeManager::getSizeOfData(type, dimensions)`; the result is a `uint32_t`. -/
def getSizeOfData (env : Env) (tm : TypeManager) (type : OperandType) (dimensions : List Nat) :
    Exec Nat :=
  if !env.isExtensionOperandType type then
    .ret (env.nonExtensionOperandSizeOfData type dimensions % 2 ^ 32)
  else
    match getExtensionOperandTypeInfo env tm type with
    | .ret (some info) =>
      .ret ((if info.isTensor then env.sizeOfTensorData info.byteSize dimensions
            else info.byteSize) % 2 ^ 32)
    | .ret none => .abort
    | .abort => .abort
    | .timeout => .timeout

end TypeManager

/-! ## MemoryTracker (Memory.cpp) -/

/-- `MemoryTracker`: the vector `mMemories` and the map `mKnown` from memory object to
index. -/
structure MemoryTracker where
  mMemories : List Nat
  mKnown : List (Nat × Nat)
deriving DecidableEq, Repr

/-- `MemoryTracker::add(memory)`. -/
def MemoryTracker.add (t : MemoryTracker) (memory : Nat) : Nat × MemoryTracker :=
  match t.mKnown.lookup memory with
  | some i => (i, t)
  | none =>
    let next := t.mKnown.length
    if next > 0xFFFFFFFF then (ANEURALNETWORKS_BAD_DATA.toNat, t)
    else (next, { mMemories := t.mMemories ++ [memory], mKnown := t.mKnown ++ [(memory, next)] })

/-! ## ModelBuilder: state -/

/-- `ModelBuilder::LargeValue`: the operand and the client buffer recorded for it. -/
structure LargeValue where
  operandIndex : Nat
  buffer : Buffer
deriving DecidableEq, Repr

/-- The shared memory object owned through `mLargeValueMemory`: its address and the bytes
reachable through `getPointer()`. -/
structure MemoryAshmem where
  addr : Nat
  bytes : List Nat
deriving DecidableEq, Repr

/-- The data members of `ModelBuilder`. `mReferencedModels` holds pointers to other
builders. -/
structure ModelBuilder where
  mOperations : List Operation := []
  mSortedOperationIndexMap : List Nat := []
  mHasOEMOperation : Bool := false
  mHasExtensionOperation : Bool := false
  mHasOEMOperand : Bool := false
  mHasControlFlow : Bool := false
  mOperands : List Operand := []
  mInputIndexes : List Nat := []
  mOutputIndexes : List Nat := []
  mSimplifyModel : Bool := false
  mMemories : MemoryTracker := { mMemories := [], mKnown := [] }
  mSmallOperandValues : List Nat := []
  mLargeOperandValues : List LargeValue := []
  mLargeValueMemory : Option MemoryAshmem := none
  mCompletedModel : Bool := false
  mInvalidModel : Bool := false
  mRelaxComputationFloat32toFloat16 : Bool := false
  mReferencedModels : List Nat := []
  mReferencedSubgraphsForValidation : List Subgraph := []
  mModelArchHash : List Nat := []
deriving DecidableEq, Repr

/-- The builders other than `this` that a call may reach through a pointer: the object at
each address, `none` where there is none. -/
abbrev Heap := Nat → Option ModelBuilder

namespace Exec

/-- Sequencing of outcomes: `abort` and `timeout` end the run. -/
def bind {α β : Type} (x : Exec α) (f : α → Exec β) : Exec β :=
  match x with
  | .ret a => f a
  | .abort => .abort
  | .timeout => .timeout

/-- Run `f` over a list from left to right, threading the state. -/
def foldl {σ α : Type} (f : σ → α → Exec σ) : σ → List α → Exec σ
  | s, [] => .ret s
  | s, a :: rest => (f s a).bind (fun s1 => foldl f s1 rest)

end Exec

namespace ModelBuilder

/-- `ModelBuilder::operandCount()`: the size of `mOperands` as `uint32_t`. -/
def operandCount (b : ModelBuilder) : Nat := b.mOperands.length % 2 ^ 32

/-- `ModelBuilder::operationCount()`: the size of `mOperations` as `uint32_t`. -/
def operationCount (b : ModelBuilder) : Nat := b.mOperations.length % 2 ^ 32

/-- `ModelBuilder::badState(name)`. -/
def badState (b : ModelBuilder) : Bool :=
  if b.mCompletedModel then true
  else if b.mInvalidModel then true
  else false

/-! ## ModelMaker -/

/-- The data members of `ModelBuilder::ModelMaker`. -/
structure ModelMaker where
  mSimplifyModel : Bool
  mRefSubgraphs : List Subgraph := []
  mOperandValues : List Nat := []
  mMemories : MemoryTracker := { mMemories := [], mKnown := [] }
  mExtensionNameToPrefix : List ExtensionNameAndPrefix := []
  mPrefixSet : List Nat := []
deriving DecidableEq, Repr

/-- `ModelMaker::addExtensionWithPrefix(prefix)`; the argument is already converted to
`uint16_t`. -/
def addExtensionWithPrefix (tm : TypeManager) (mm : ModelMaker) (pfx : Nat) : Exec ModelMaker :=
  if pfx ∈ mm.mPrefixSet then .ret mm
  else
    match tm.getExtensionInfo pfx with
    | none => .abort
    | some p =>
      match tm.deref p with
      | none => .abort
      | some extension =>
        .ret { mm with
          mPrefixSet := mm.mPrefixSet ++ [pfx]
          mExtensionNameToPrefix :=
            mm.mExtensionNameToPrefix ++ [{ name := extension.name, extPrefix := pfx }] }

/-- The conversion of `static_cast<uint32_t>(type) >> kExtensionTypeBits` to the `uint16_t`
parameter of `addExtensionWithPrefix`. -/
def prefixOfType (env : Env) (type : Nat) : Nat :=
  ((type % 2 ^ 32) / 2 ^ env.kExtensionTypeBits) % 2 ^ 16

/-- `ModelMaker::addExtensions(model)`; one unit of fuel per level of recursion into the
referenced models. -/
def addExtensions (env : Env) (tm : TypeManager) (heap : Heap) :
    Nat → ModelMaker → ModelBuilder → Exec ModelMaker
  | 0, _, _ => .timeout
  | fuel + 1, mm, model =>
    (Exec.foldl (fun (mm : ModelMaker) (operand : Operand) =>
        if env.isExtensionOperandType operand.type then
          addExtensionWithPrefix tm mm (prefixOfType env operand.type)
        else .ret mm) mm model.mOperands).bind fun mm1 =>
    (Exec.foldl (fun (mm : ModelMaker) (operation : Operation) =>
        if env.isExtensionOperationType operation.type then
          addExtensionWithPrefix tm mm (prefixOfType env operation.type)
        else .ret mm) mm1 model.mOperations).bind fun mm2 =>
    Exec.foldl (fun (mm : ModelMaker) (refModel : Nat) =>
        match heap refModel with
        | none => .abort
        | some r => addExtensions env tm heap fuel mm r) mm2 model.mReferencedModels

/-- `ModelMaker::makeSubgraph(model)`. -/
def makeSubgraph (model : ModelBuilder) : Subgraph :=
  { operands := model.mOperands
    operations := model.mOperations
    inputIndexes := model.mInputIndexes
    outputIndexes := model.mOutputIndexes }

/-- The first loop of `ModelMaker::updateOperandLocations`, for one operand. -/
def updateConstantLocation (env : Env) (refModel : ModelBuilder) (mm : ModelMaker)
    (operand : Operand) : Exec (ModelMaker × Operand) :=
  if operand.lifetime = LifeTime.CONSTANT_COPY then
    let valueLength := operand.location.length
    let originalOffset := operand.location.offset
    if originalOffset + valueLength ≤ refModel.mSmallOperandValues.length then
      let r := env.operandValuesAppend mm.mOperandValues
        ((refModel.mSmallOperandValues.drop originalOffset).take valueLength)
      .ret ({ mm with mOperandValues := r.1 }, { operand with location := r.2 })
    else .abort
  else if operand.lifetime = LifeTime.CONSTANT_REFERENCE then
    let originalPoolIndex := operand.location.poolIndex
    match refModel.mMemories.mMemories.get? originalPoolIndex with
    | none => .abort
    | some memory =>
      let r := mm.mMemories.add memory
      .ret ({ mm with mMemories := r.2 },
            { operand with location := { operand.location with poolIndex := r.1 } })
  else .ret (mm, operand)

/-- Run a state-threading update over the elements of a list, collecting the results. -/
def mapAccum {σ α : Type} (f : σ → α → Exec (σ × α)) : σ → List α → Exec (σ × List α)
  | s, [] => .ret (s, [])
  | s, a :: rest =>
    (f s a).bind fun r1 =>
    (mapAccum f r1.1 rest).bind fun r2 => .ret (r2.1, r1.2 :: r2.2)

/-- `ModelMaker::updateOperandLocations(refModel, subgraph)` together with
`ModelMaker::addSubgraph`, which it calls for every operand of lifetime `SUBGRAPH`; one unit
of fuel per level of recursion. The subgraph being updated is passed and returned by value;
`addSubgraph` writes it back to the slot of `mRefSubgraphs` it was pushed to. -/
def updateOperandLocations (env : Env) (heap : Heap) :
    Nat → ModelMaker → ModelBuilder → Subgraph → Exec (ModelMaker × Subgraph)
  | 0, _, _, _ => .timeout
  | fuel + 1, mm, refModel, subgraph =>
    (mapAccum (updateConstantLocation env refModel) mm subgraph.operands).bind fun r1 =>
    (mapAccum (fun (mm : ModelMaker) (operand : Operand) =>
        if operand.lifetime = LifeTime.SUBGRAPH then
          let refModelIndex := operand.location.offset
          match refModel.mReferencedModels.get? refModelIndex with
          | none => .abort
          | some ptr =>
            match heap ptr with
            | none => .abort
            | some r =>
              -- addSubgraph(r)
              let index := mm.mRefSubgraphs.length % 2 ^ 32
              let pos := mm.mRefSubgraphs.length
              let mmPushed := { mm with mRefSubgraphs := mm.mRefSubgraphs ++ [makeSubgraph r] }
              (updateOperandLocations env heap fuel mmPushed r (makeSubgraph r)).bind fun u =>
              .ret ({ u.1 with mRefSubgraphs := u.1.mRefSubgraphs.set pos u.2 },
                    { operand with location := { operand.location with offset := index } })
        else .ret (mm, operand)) r1.1 r1.2).bind fun r2 =>
    .ret (r2.1, { subgraph with operands := r2.2 })

/-- `ModelMaker::makeModel(mainModel)`, run on a fresh `ModelMaker(simplifyModel)` as
`ModelMaker::run` does. -/
def ModelMaker.run (env : Env) (tm : TypeManager) (heap : Heap) (fuel : Nat)
    (mainModel : ModelBuilder) (simplifyModel : Bool) : Exec Model :=
  (addExtensions env tm heap fuel { mSimplifyModel := simplifyModel } mainModel).bind fun mm1 =>
  (updateOperandLocations env heap fuel mm1 mainModel (makeSubgraph mainModel)).bind fun r =>
  let mm2 := r.1
  let model : Model :=
    { main := r.2
      referenced := mm2.mRefSubgraphs
      operandValues := mm2.mOperandValues
      pools := mm2.mMemories.mMemories.map env.getMemory
      relaxComputationFloat32toFloat16 := mainModel.mRelaxComputationFloat32toFloat16
      extensionNameToPrefix := mm2.mExtensionNameToPrefix }
  .ret (if mm2.mSimplifyModel then env.removeDeadOperands model else model)

/-- `ModelBuilder::makeModel()`. -/
def makeModel (env : Env) (tm : TypeManager) (heap : Heap) (fuel : Nat) (b : ModelBuilder) :
    Exec Model :=
  ModelMaker.run env tm heap fuel b b.mSimplifyModel

/-! ## ModelBuilder: the mutators -/

/-- `ModelBuilder::addOperand(type)`. -/
def addOperand (env : Env) (tm : TypeManager) (b : ModelBuilder)
    (type : ANeuralNetworksOperandType) : Exec (Int × ModelBuilder) :=
  if b.badState then .ret (ANEURALNETWORKS_BAD_STATE, b)
  else
    let operandType : OperandType := type.type
    if env.isExtensionOperandType operandType && !tm.areExtensionsAllowed then
      .ret (ANEURALNETWORKS_BAD_DATA, b)
    else
      let isOemOperand :=
        operandType == OperandType.OEM || operandType == OperandType.TENSOR_OEM_BYTE
      -- info stays nullptr for a base type
      (if env.isExtensionOperandType operandType then
          tm.getExtensionOperandTypeInfo env operandType
        else .ret none).bind fun info =>
      if env.isExtensionOperandType operandType && info.isNone then
        .ret (ANEURALNETWORKS_BAD_DATA, b)
      else if nullOrSizedFails type.dimensions type.dimensionCount then
        .ret (ANEURALNETWORKS_BAD_DATA, b)
      else
        let operand : Operand :=
          { type := operandType
            dimensions := makeVector type.dimensions type.dimensionCount
            scale := type.scale
            zeroPoint := type.zeroPoint
            lifetime := LifeTime.TEMPORARY_VARIABLE
            location := { poolIndex := 0, offset := 0, length := 0 }
            extraParams := ExtraParams.none }
        if !env.validateOperandType operand info then .ret (ANEURALNETWORKS_BAD_DATA, b)
        else
          let idx := b.mOperands.length
          if idx ≥ MAX_NUMBER_OF_OPERANDS then .ret (ANEURALNETWORKS_BAD_DATA, b)
          else
            .ret (ANEURALNETWORKS_NO_ERROR,
              { b with
                mOperands := b.mOperands ++ [operand]
                mHasOEMOperand := b.mHasOEMOperand || isOemOperand
                mHasControlFlow := b.mHasControlFlow || (operandType == OperandType.SUBGRAPH) })

/-- `std::vector::resize(n)` on a vector of bytes or of indices: new elements are zero. -/
def resizeVector (l : List Nat) (n : Nat) : List Nat :=
  l.take n ++ List.replicate (n - l.length) 0

/-- The effect of `memcpy(&v[offset], data, data.size())` on a byte vector `v` that has room
for it. -/
def writeBytes (v : List Nat) (offset : Nat) (data : List Nat) : List Nat :=
  v.take offset ++ data ++ v.drop (offset + data.length)

/-- `ModelBuilder::setOperandValue(index, buffer, length)`. -/
def setOperandValue (env : Env) (tm : TypeManager) (b : ModelBuilder) (index : Nat)
    (buffer : Option Buffer) (length : Nat) : Exec (Int × ModelBuilder) :=
  if b.badState then .ret (ANEURALNETWORKS_BAD_STATE, b)
  else if index ≥ b.operandCount then .ret (ANEURALNETWORKS_BAD_DATA, b)
  else
    match b.mOperands.get? index with
    | none => .abort
    | some operand =>
      if nullOrSizedFails buffer length then .ret (ANEURALNETWORKS_BAD_DATA, b)
      else
        match buffer with
        | none =>
          .ret (ANEURALNETWORKS_NO_ERROR,
            { b with
              mOperands := b.mOperands.set index
                { operand with
                  lifetime := LifeTime.NO_VALUE
                  location := { poolIndex := 0, offset := 0, length := 0 } } })
        | some buf =>
          (tm.isTensorType env operand.type).bind fun isTensor =>
          if isTensor && env.tensorHasUnspecifiedDimensions operand then
            .ret (ANEURALNETWORKS_BAD_DATA, b)
          else if length > 0xFFFFFFFF then .ret (ANEURALNETWORKS_BAD_DATA, b)
          else
            let valueLength := length
            (if operand.type ≠ OperandType.OEM then
                (tm.getSizeOfData env operand.type operand.dimensions).bind fun neededLength =>
                  .ret (decide (neededLength ≠ valueLength))
              else .ret false).bind fun wrongLength =>
            if wrongLength then .ret (ANEURALNETWORKS_BAD_DATA, b)
            else if valueLength ≤ env.maxSizeOfImmediatelyCopiedValues then
              let existingSize := b.mSmallOperandValues.length % 2 ^ 32
              let extraBytes := env.alignBytesNeeded existingSize valueLength % 2 ^ 32
              let newSize := (existingSize + extraBytes + valueLength) % 2 ^ 32
              let resized := resizeVector b.mSmallOperandValues newSize
              let offset := (existingSize + extraBytes) % 2 ^ 32
              if offset + valueLength ≤ resized.length then
                .ret (ANEURALNETWORKS_NO_ERROR,
                  { b with
                    mSmallOperandValues := writeBytes resized offset (readN buf.bytes valueLength)
                    mOperands := b.mOperands.set index
                      { operand with
                        lifetime := LifeTime.CONSTANT_COPY
                        location := { poolIndex := 0, offset := offset, length := valueLength } } })
              else .abort
            else
              .ret (ANEURALNETWORKS_NO_ERROR,
                { b with
                  mOperands := b.mOperands.set index
                    { operand with
                      lifetime := LifeTime.CONSTANT_REFERENCE
                      location :=
                        { poolIndex := 0xFFFFFFFF, offset := 0xFFFFFFFF, length := valueLength } }
                  mLargeOperandValues :=
                    b.mLargeOperandValues ++ [{ operandIndex := index, buffer := buf }] })

/-- `ModelBuilder::setOperandValueFromModel(index, value)`; `value` is a pointer to another
builder. -/
def setOperandValueFromModel (env : Env) (tm : TypeManager) (heap : Heap) (fuel : Nat)
    (b : ModelBuilder) (index : Nat) (value : Nat) : Exec (Int × ModelBuilder) :=
  if b.badState then .ret (ANEURALNETWORKS_BAD_STATE, b)
  else
    match heap value with
    | none => .abort
    | some v =>
      if !v.mCompletedModel then .ret (ANEURALNETWORKS_BAD_STATE, b)
      else if v.mInvalidModel then .ret (ANEURALNETWORKS_BAD_STATE, b)
      else if index ≥ b.operandCount then .ret (ANEURALNETWORKS_BAD_DATA, b)
      else
        match b.mOperands.get? index with
        | none => .abort
        | some operand =>
          (makeModel env tm heap fuel v).bind fun m =>
          .ret (ANEURALNETWORKS_NO_ERROR,
            { b with
              mOperands := b.mOperands.set index
                { operand with
                  lifetime := LifeTime.SUBGRAPH
                  location :=
                    { poolIndex := 0, offset := b.mReferencedModels.length % 2 ^ 32, length := 0 } }
              mReferencedModels := b.mReferencedModels ++ [value]
              mReferencedSubgraphsForValidation :=
                b.mReferencedSubgraphsForValidation ++ [m.main] })

/-- `ModelBuilder::setOperandSymmPerChannelQuantParams(index, channelQuant)`. -/
def setOperandSymmPerChannelQuantParams (env : Env) (b : ModelBuilder) (index : Nat)
    (channelQuant : ANeuralNetworksSymmPerChannelQuantParams) : Exec (Int × ModelBuilder) :=
  if b.badState then .ret (ANEURALNETWORKS_BAD_STATE, b)
  else if index ≥ b.operandCount then .ret (ANEURALNETWORKS_BAD_DATA, b)
  else
    match b.mOperands.get? index with
    | none => .abort
    | some operand =>
      if nullOrSizedFails channelQuant.scales channelQuant.scaleCount then
        .ret (ANEURALNETWORKS_BAD_DATA, b)
      else
        let extraParams : SymmPerChannelQuantParams :=
          { scales := makeVector channelQuant.scales channelQuant.scaleCount
            channelDim := channelQuant.channelDim }
        if !env.validateOperandSymmPerChannelQuantParams operand extraParams then
          .ret (ANEURALNETWORKS_BAD_DATA, b)
        else if operand.type = OperandType.TENSOR_QUANT8_SYMM_PER_CHANNEL then
          .ret (ANEURALNETWORKS_NO_ERROR,
            { b with
              mOperands := b.mOperands.set index
                { operand with extraParams := ExtraParams.channelQuant extraParams } })
        else .ret (ANEURALNETWORKS_BAD_DATA, b)

/-- `ModelBuilder::setOperandExtensionData(index, data, length)`. -/
def setOperandExtensionData (env : Env) (b : ModelBuilder) (index : Nat)
    (data : Option (List Nat)) (length : Nat) : Exec (Int × ModelBuilder) :=
  if b.badState then .ret (ANEURALNETWORKS_BAD_STATE, b)
  else if index ≥ b.operandCount then .ret (ANEURALNETWORKS_BAD_DATA, b)
  else
    match b.mOperands.get? index with
    | none => .abort
    | some operand =>
      if !env.isExtensionOperandType operand.type then .ret (ANEURALNETWORKS_BAD_DATA, b)
      else if nullOrSizedFails data length then .ret (ANEURALNETWORKS_BAD_DATA, b)
      else
        match data with
        | none =>
          .ret (ANEURALNETWORKS_NO_ERROR,
            { b with
              mOperands := b.mOperands.set index
                { operand with extraParams := ExtraParams.none } })
        | some bytes =>
          .ret (ANEURALNETWORKS_NO_ERROR,
            { b with
              mOperands := b.mOperands.set index
                { operand with extraParams := ExtraParams.extension (readN bytes length) } })

/-- `ModelBuilder::setOperandValueFromMemory(index, memory, offset, length)`; `memory` is the
address of the runtime memory object. -/
def setOperandValueFromMemory (env : Env) (tm : TypeManager) (b : ModelBuilder) (index : Nat)
    (memory : Nat) (offset : Nat) (length : Nat) : Exec (Int × ModelBuilder) :=
  if b.badState then .ret (ANEURALNETWORKS_BAD_STATE, b)
  else if index ≥ b.operandCount then .ret (ANEURALNETWORKS_BAD_DATA, b)
  else
    match b.mOperands.get? index with
    | none => .abort
    | some operand =>
      (tm.isTensorType env operand.type).bind fun isTensor =>
      if isTensor && env.tensorHasUnspecifiedDimensions operand then
        .ret (ANEURALNETWORKS_BAD_DATA, b)
      else
        (tm.getSizeOfData env operand.type operand.dimensions).bind fun neededLength =>
        if neededLength ≠ length then .ret (ANEURALNETWORKS_BAD_DATA, b)
        else if !env.memoryValidate memory index offset length then
          .ret (ANEURALNETWORKS_BAD_DATA, b)
        else
          let r := b.mMemories.add memory
          .ret (ANEURALNETWORKS_NO_ERROR,
            { b with
              mMemories := r.2
              mOperands := b.mOperands.set index
                { operand with
                  lifetime := LifeTime.CONSTANT_REFERENCE
                  location := { poolIndex := r.1, offset := offset, length := length % 2 ^ 32 } } })

/-- `ModelBuilder::addOperation(type, inputCount, inputs, outputCount, outputs)`, built
without `NN_EXPERIMENTAL_FEATURE`. -/
def addOperation (env : Env) (tm : TypeManager) (b : ModelBuilder) (type : Nat)
    (inputCount : Nat) (inputs : Option (List Nat)) (outputCount : Nat)
    (outputs : Option (List Nat)) : Exec (Int × ModelBuilder) :=
  if b.badState then .ret (ANEURALNETWORKS_BAD_STATE, b)
  else
    let operationType : OperationType := type
    if env.isExtensionOperationType operationType && !tm.areExtensionsAllowed then
      .ret (ANEURALNETWORKS_BAD_DATA, b)
    else if !env.isExtensionOperationType operationType &&
        !env.validCode env.kNumberOfOperationTypes env.kNumberOfOperationTypesOEM type then
      .ret (ANEURALNETWORKS_BAD_DATA, b)
    else if env.isExtensionOperationType operationType &&
        (tm.getExtensionInfo (env.getExtensionPrefixOfType (operationType % 2 ^ 32) % 2 ^ 16)).isNone
        then
      .ret (ANEURALNETWORKS_BAD_DATA, b)
    else if nullOrSizedFails inputs inputCount then .ret (ANEURALNETWORKS_BAD_DATA, b)
    else if nullOrSizedFails outputs outputCount then .ret (ANEURALNETWORKS_BAD_DATA, b)
    else
      let operation : Operation :=
        { type := operationType
          inputs := makeVector inputs inputCount
          outputs := makeVector outputs outputCount }
      if !env.validateOperationButNotOperands operation b.mOperands
          b.mReferencedSubgraphsForValidation then
        .ret (ANEURALNETWORKS_BAD_DATA, b)
      else
        let operationIndex := b.operationCount
        if operationIndex ≥ MAX_NUMBER_OF_OPERATIONS then .ret (ANEURALNETWORKS_BAD_DATA, b)
        else
          .ret (ANEURALNETWORKS_NO_ERROR,
            { b with
              mOperations := b.mOperations ++ [operation]
              mHasOEMOperation :=
                b.mHasOEMOperation || (operationType == OperationType.OEM_OPERATION)
              mHasExtensionOperation :=
                b.mHasExtensionOperation || env.isExtensionOperationType operationType
              mHasControlFlow :=
                b.mHasControlFlow ||
                  (operationType == OperationType.IF || operationType == OperationType.WHILE) })

/-- The lambda `setArguments` of `identifyInputsAndOutputs` after its `resize`: the loop over
`i`, from position `i` on, over the values `indexList[i], indexList[i+1], ...` still to be
read. It returns the value of the lambda with the index vector and the operands as the loop
left them. -/
def setArgumentsLoop (lifetime : LifeTime) :
    Nat → List Nat → List Nat → List Operand → Bool × List Nat × List Operand
  | _, [], indexVector, operands => (true, indexVector, operands)
  | i, operandIndex :: rest, indexVector, operands =>
    if operandIndex ≥ operands.length then (false, indexVector, operands)
    else
      let indexVector1 := indexVector.set i operandIndex
      match operands.get? operandIndex with
      | none => (false, indexVector1, operands)
      | some operand =>
        if operand.lifetime ≠ LifeTime.TEMPORARY_VARIABLE then (false, indexVector1, operands)
        else
          setArgumentsLoop lifetime (i + 1) rest indexVector1
            (operands.set operandIndex { operand with lifetime := lifetime })

/-- The lambda `setArguments(indexVector, indexCount, indexList, lifetime)`. -/
def setArguments (indexVector : List Nat) (operands : List Operand) (indexCount : Nat)
    (indexList : Option (List Nat)) (lifetime : LifeTime) : Bool × List Nat × List Operand :=
  setArgumentsLoop lifetime 0 (readN (indexList.getD []) indexCount)
    (resizeVector indexVector indexCount) operands

/-- `ModelBuilder::identifyInputsAndOutputs(inputCount, inputs, outputCount, outputs)`. -/
def identifyInputsAndOutputs (env : Env) (b : ModelBuilder) (inputCount : Nat)
    (inputs : Option (List Nat)) (outputCount : Nat) (outputs : Option (List Nat)) :
    Exec (Int × ModelBuilder) :=
  if b.badState then .ret (ANEURALNETWORKS_BAD_STATE, b)
  else if nullOrSizedFails inputs inputCount then .ret (ANEURALNETWORKS_BAD_DATA, b)
  else if !env.validateOperandList (makeVector inputs inputCount) b.operandCount then
    .ret (ANEURALNETWORKS_BAD_DATA, b)
  else if nullOrSizedFails outputs outputCount then .ret (ANEURALNETWORKS_BAD_DATA, b)
  else if !env.validateOperandList (makeVector outputs outputCount) b.operandCount then
    .ret (ANEURALNETWORKS_BAD_DATA, b)
  else
    let r1 := setArguments b.mInputIndexes b.mOperands inputCount inputs LifeTime.SUBGRAPH_INPUT
    let b1 := { b with mInputIndexes := r1.2.1, mOperands := r1.2.2 }
    if !r1.1 then .ret (ANEURALNETWORKS_BAD_DATA, b1)
    else
      let r2 :=
        setArguments b1.mOutputIndexes b1.mOperands outputCount outputs LifeTime.SUBGRAPH_OUTPUT
      let b2 := { b1 with mOutputIndexes := r2.2.1, mOperands := r2.2.2 }
      if !r2.1 then .ret (ANEURALNETWORKS_BAD_DATA, b2)
      else .ret (ANEURALNETWORKS_NO_ERROR, b2)

/-- `ModelBuilder::relaxComputationFloat32toFloat16(allow)`. -/
def relaxComputationFloat32toFloat16 (b : ModelBuilder) (allow : Bool) :
    Exec (Int × ModelBuilder) :=
  if b.badState then .ret (ANEURALNETWORKS_BAD_STATE, b)
  else .ret (ANEURALNETWORKS_NO_ERROR, { b with mRelaxComputationFloat32toFloat16 := allow })

/-! ## Consolidation of the large values -/

/-- The first loop of `copyLargeValuesToSharedMemory`: it walks the recorded values with the
running `poolSize` and stores each operand's offset (converted to `uint32_t`). -/
def assignLargeValueOffsets (env : Env) :
    List LargeValue → Nat → List Operand → Exec (Nat × List Operand)
  | [], poolSize, operands => .ret (poolSize, operands)
  | l :: rest, poolSize, operands =>
    match operands.get? l.operandIndex with
    | none => .abort
    | some operand =>
      if operand.lifetime ≠ LifeTime.CONSTANT_REFERENCE then .abort
      else
        let poolSize1 :=
          poolSize + env.alignBytesNeeded (poolSize % 2 ^ 32) operand.location.length
        let operand1 :=
          { operand with location := { operand.location with offset := poolSize1 % 2 ^ 32 } }
        assignLargeValueOffsets env rest (poolSize1 + operand.location.length)
          (operands.set l.operandIndex operand1)

/-- The second loop of `copyLargeValuesToSharedMemory`: it stores the pool index in each
operand and copies the recorded buffer to the operand's region of the pool. -/
def copyLargeValues (poolIndex : Nat) :
    List LargeValue → List Nat → List Operand → Exec (List Nat × List Operand)
  | [], pool, operands => .ret (pool, operands)
  | l :: rest, pool, operands =>
    match operands.get? l.operandIndex with
    | none => .abort
    | some operand =>
      let operand1 :=
        { operand with location := { operand.location with poolIndex := poolIndex } }
      if operand1.location.offset + operand1.location.length ≤ pool.length then
        copyLargeValues poolIndex rest
          (writeBytes pool operand1.location.offset
            (readN l.buffer.bytes operand1.location.length))
          (operands.set l.operandIndex operand1)
      else .abort

/-- `ModelBuilder::copyLargeValuesToSharedMemory()`. The memory obtained from
`MemoryAshmem::create(poolSize)` has `poolSize` bytes, initially zero. -/
def copyLargeValuesToSharedMemory (env : Env) (b : ModelBuilder) : Exec (Int × ModelBuilder) :=
  if b.mLargeOperandValues.isEmpty then .ret (ANEURALNETWORKS_NO_ERROR, b)
  else
    (assignLargeValueOffsets env b.mLargeOperandValues 0 b.mOperands).bind fun r1 =>
    let poolSize := r1.1
    let created := env.memoryAshmemCreate poolSize
    let n := created.1
    let memory : Option MemoryAshmem :=
      created.2.map fun a => { addr := a, bytes := List.replicate poolSize 0 }
    let b1 := { b with mOperands := r1.2, mLargeValueMemory := memory }
    if n ≠ ANEURALNETWORKS_NO_ERROR then .ret (n, b1)
    else
      match memory with
      | none => .abort
      | some m =>
        let added := b1.mMemories.add m.addr
        let poolIndex := added.1
        (copyLargeValues poolIndex b1.mLargeOperandValues m.bytes b1.mOperands).bind fun r2 =>
        .ret (ANEURALNETWORKS_NO_ERROR,
          { b1 with
            mMemories := added.2
            mOperands := r2.2
            mLargeValueMemory := some { m with bytes := r2.1 } })

/-! ## The topological sort -/

/-- The test `lifetime == TEMPORARY_VARIABLE || lifetime == SUBGRAPH_OUTPUT` of
`sortIntoRunOrder`. -/
def isUnknownLifetime (lifetime : LifeTime) : Bool :=
  lifetime == LifeTime.TEMPORARY_VARIABLE || lifetime == LifeTime.SUBGRAPH_OUTPUT

/-- `--count` on a `uint32_t`. -/
def dec32 (count : Nat) : Nat := if count = 0 then 0xFFFFFFFF else count - 1

/-- The inner loop over the inputs of operation `operationIndex` in the first loop of
`sortIntoRunOrder`. The state is `count` and `operandToOperations`; the multimap is the list
of its entries, entries with equal keys in insertion order. An operation has fewer than
`2 ^ 32` inputs, so `count++` does not wrap. -/
def countUnknownInputs (operands : List Operand) (operationIndex : Nat) :
    List Nat → Nat × List (Nat × Nat) → Exec (Nat × List (Nat × Nat))
  | [], s => .ret s
  | operandIndex :: rest, (count, operandToOperations) =>
    match operands.get? operandIndex with
    | none => .abort
    | some operand =>
      if isUnknownLifetime operand.lifetime then
        countUnknownInputs operands operationIndex rest
          (count + 1, operandToOperations ++ [(operandIndex, operationIndex)])
      else countUnknownInputs operands operationIndex rest (count, operandToOperations)

/-- The state built by the first loop of `sortIntoRunOrder`. The vector `opsReadyToRun` is
kept as a stack: the head of the list is `opsReadyToRun.back()`. -/
structure SortState where
  operandToOperations : List (Nat × Nat)
  unknownInputCount : List Nat
  opsReadyToRun : List Nat
deriving DecidableEq, Repr

/-- The first loop of `sortIntoRunOrder`, over the operation indices still to visit. -/
def sortInit (operands : List Operand) (operations : List Operation) :
    List Nat → SortState → Exec SortState
  | [], s => .ret s
  | operationIndex :: rest, s =>
    match operations.get? operationIndex with
    | none => .abort
    | some operation =>
      (countUnknownInputs operands operationIndex operation.inputs
        (0, s.operandToOperations)).bind fun r =>
      sortInit operands operations rest
        { operandToOperations := r.2
          unknownInputCount := s.unknownInputCount.set operationIndex r.1
          opsReadyToRun :=
            if r.1 = 0 then operationIndex :: s.opsReadyToRun else s.opsReadyToRun }

/-- The body of the loop over `equal_range(operandIndex)`: one consumer `i->second`. -/
def markConsumer (s : List Nat × List Nat) (consumer : Nat) : List Nat × List Nat :=
  let count := dec32 (s.1.getD consumer 0)
  (s.1.set consumer count, if count = 0 then consumer :: s.2 else s.2)

/-- "Mark all its outputs as known": the loop over `operation.outputs` in the while loop of
`sortIntoRunOrder`. The state is `unknownInputCount` and `opsReadyToRun`. -/
def markOutputs (operandToOperations : List (Nat × Nat)) (outputs : List Nat)
    (s : List Nat × List Nat) : List Nat × List Nat :=
  outputs.foldl (fun s operandIndex =>
    ((operandToOperations.filter (fun e => e.1 == operandIndex)).map Prod.snd).foldl
      markConsumer s) s

/-- The while loop of `sortIntoRunOrder`; one unit of fuel per iteration. The result is
`runOrder` and `sortedOperationIndexMap`. `opIndex` is an `int` in the source; the index is
kept as a natural number here, which is the same below `2 ^ 31` operations. -/
def sortLoop (operations : List Operation) (operandToOperations : List (Nat × Nat)) :
    Nat → List Nat → List Nat → List Operation → List Nat → Exec (List Operation × List Nat)
  | 0, _, _, _, _ => .timeout
  | fuel + 1, opsReadyToRun, unknownInputCount, runOrder, sortedOperationIndexMap =>
    match opsReadyToRun with
    | [] => .ret (runOrder, sortedOperationIndexMap)
    | opIndex :: ready =>
      match operations.get? opIndex with
      | none => .abort
      | some operation =>
        let s := markOutputs operandToOperations operation.outputs (unknownInputCount, ready)
        sortLoop operations operandToOperations fuel s.2 s.1 (runOrder ++ [operation])
          (sortedOperationIndexMap ++ [opIndex])

/-- `ModelBuilder::sortIntoRunOrder()`. -/
def sortIntoRunOrder (fuel : Nat) (b : ModelBuilder) : Exec (Bool × ModelBuilder) :=
  if !b.mSortedOperationIndexMap.isEmpty then .ret (true, b)
  else
    (sortInit b.mOperands b.mOperations (List.range b.operationCount)
      { operandToOperations := []
        unknownInputCount := List.replicate b.operationCount 0
        opsReadyToRun := [] }).bind fun s =>
    (sortLoop b.mOperations s.operandToOperations fuel s.opsReadyToRun s.unknownInputCount
      [] []).bind fun r =>
    let runOrder := r.1
    if runOrder.length ≠ b.mOperations.length then
      if runOrder.length < b.mOperations.length then .ret (false, b) else .abort
    else .ret (true, { b with mSortedOperationIndexMap := r.2, mOperations := runOrder })

/-! ## Trimming of trailing default arguments -/

/-- `enum class TailSpec`. -/
inductive TailSpec where
  | BOOL_FALSE
  | INT32_ONE
  | INT32_NEGATIVE_ONE
deriving DecidableEq, Repr

/-- The bytes `matchesSpec` can read through `valuePtr`: `n` bytes of the inline arena from
the operand's offset for `CONSTANT_COPY` (an access outside the arena aborts), the bytes at
the pointer for `POINTER`. Only called for these two lifetimes. -/
def readValue (env : Env) (operand : Operand) (mSmallOperandValues : List Nat) (n : Nat) :
    Exec (List Nat) :=
  if operand.lifetime = LifeTime.CONSTANT_COPY then
    if operand.location.offset + n ≤ mSmallOperandValues.length then
      .ret ((mSmallOperandValues.drop operand.location.offset).take n)
    else .abort
  else .ret (readN (env.readPointer operand.location.pointer) n)

/-- `matchesSpec(spec, operand, mSmallOperandValues)`. A `bool8` is one byte; an `int32_t`
is four bytes, least significant first. -/
def matchesSpec (env : Env) (spec : TailSpec) (operand : Operand)
    (mSmallOperandValues : List Nat) : Exec Bool :=
  if operand.lifetime ≠ LifeTime.CONSTANT_COPY ∧ operand.lifetime ≠ LifeTime.POINTER then
    .ret false
  else
    match spec with
    | .BOOL_FALSE =>
      if operand.type = OperandType.BOOL then
        (readValue env operand mSmallOperandValues 1).bind fun v => .ret (v == [0])
      else .ret false
    | .INT32_ONE =>
      if operand.type = OperandType.INT32 then
        (readValue env operand mSmallOperandValues 4).bind fun v => .ret (v == [1, 0, 0, 0])
      else .ret false
    | .INT32_NEGATIVE_ONE =>
      if operand.type = OperandType.INT32 then
        (readValue env operand mSmallOperandValues 4).bind fun v =>
          .ret (v == [255, 255, 255, 255])
      else .ret false

/-- The loop of `countMatchingTrailingArguments`: `k` is the number of indices from
`tailStartIndex` up to the current `i`, that is `i = tailStartIndex + k - 1`; the loop ends
when `i` drops below `tailStartIndex` (`k = 0`) or at the `break`. -/
def countMatchingLoop (env : Env) (tailStartIndex : Nat) (tail : List TailSpec)
    (operation : Operation) (operands : List Operand) (smallOperandValues : List Nat) :
    Nat → Nat → Exec Nat
  | 0, count => .ret count
  | k + 1, count =>
    let i := tailStartIndex + k
    match operation.inputs.get? i with
    | none => .abort
    | some operandIndex =>
      match operands.get? operandIndex with
      | none => .abort
      | some operand =>
        match tail.get? (i - tailStartIndex) with
        | none => .abort
        | some spec =>
          (matchesSpec env spec operand smallOperandValues).bind fun m =>
          if !m then .ret count
          else
            countMatchingLoop env tailStartIndex tail operation operands smallOperandValues k
              (count + 1)

/-- `countMatchingTrailingArguments(tailStartIndex, tail, operation, operands,
smallOperandValues)`. With no inputs the loop index starts at `2 ^ 32 - 1`, an access outside
the input list. -/
def countMatchingTrailingArguments (env : Env) (tailStartIndex : Nat) (tail : List TailSpec)
    (operation : Operation) (operands : List Operand) (smallOperandValues : List Nat) :
    Exec Nat :=
  let inputCount := operation.inputs.length % 2 ^ 32
  if inputCount = 0 then .abort
  else
    countMatchingLoop env tailStartIndex tail operation operands smallOperandValues
      (inputCount - tailStartIndex) 0

/-- The type of the operand `mOperands[operation.inputs[i]]`. -/
def inputOperandType (b : ModelBuilder) (operation : Operation) (i : Nat) : Exec OperandType :=
  match operation.inputs.get? i with
  | none => .abort
  | some operandIndex =>
    match b.mOperands.get? operandIndex with
    | none => .abort
    | some operand => .ret operand.type

/-- The pooling case of `getNumTrailingArgumentsToRemove` (AVERAGE_POOL_2D, L2_POOL_2D,
MAX_POOL_2D). -/
def poolTrailing (env : Env) (b : ModelBuilder) (operation : Operation) (inputCount : Nat) :
    Exec Nat :=
  let getCount := fun (tailStartIndex : Nat) (tail : List TailSpec) =>
    countMatchingTrailingArguments env tailStartIndex tail operation b.mOperands
      b.mSmallOperandValues
  if inputCount = 11 then
    (inputOperandType b operation 7).bind fun t =>
    if t = OperandType.INT32 then getCount 10 [.BOOL_FALSE] else .ret 0
  else if inputCount = 8 then
    (inputOperandType b operation 7).bind fun t =>
    if t = OperandType.BOOL then getCount 7 [.BOOL_FALSE] else .ret 0
  else .ret 0

/-- The convolution cases of `getNumTrailingArgumentsToRemove`: CONV_2D with `k = 7`
(explicit padding: 10 < inputCount <= 13, tail from 10, pair rule at 12; implicit padding:
7 < inputCount <= 10, tail from 7, pair rule at 9) and DEPTHWISE_CONV_2D with `k = 8`
(11 < inputCount <= 14, tail from 11, pair rule at 13; 8 < inputCount <= 11, tail from 8, pair
rule at 10); `k` is the input whose type tells explicit from implicit padding. -/
def convTrailing (env : Env) (b : ModelBuilder) (operation : Operation) (inputCount : Nat)
    (k : Nat) : Exec Nat :=
  let getCount := fun (tailStartIndex : Nat) (tail : List TailSpec) =>
    countMatchingTrailingArguments env tailStartIndex tail operation b.mOperands
      b.mSmallOperandValues
  if k + 3 < inputCount ∧ inputCount ≤ k + 6 then
    (inputOperandType b operation k).bind fun t =>
    if t = OperandType.INT32 then
      (getCount (k + 3) [.BOOL_FALSE, .INT32_ONE, .INT32_ONE]).bind fun count =>
      .ret (if inputCount - count = k + 5 then 0 else count)
    else .ret 0
  else if k < inputCount ∧ inputCount ≤ k + 3 then
    (inputOperandType b operation k).bind fun t =>
    if t = OperandType.BOOL then
      (getCount k [.BOOL_FALSE, .INT32_ONE, .INT32_ONE]).bind fun count =>
      .ret (if inputCount - count = k + 2 then 0 else count)
    else .ret 0
  else .ret 0

/-- `ModelBuilder::getNumTrailingArgumentsToRemove(operation)`. -/
def getNumTrailingArgumentsToRemove (env : Env) (b : ModelBuilder) (operation : Operation) :
    Exec Nat :=
  let inputCount := operation.inputs.length % 2 ^ 32
  let getCount := fun (tailStartIndex : Nat) (tail : List TailSpec) =>
    countMatchingTrailingArguments env tailStartIndex tail operation b.mOperands
      b.mSmallOperandValues
  if operation.type = OperationType.AVERAGE_POOL_2D then poolTrailing env b operation inputCount
  else if operation.type = OperationType.CONV_2D then convTrailing env b operation inputCount 7
  else if operation.type = OperationType.DEPTHWISE_CONV_2D then
    convTrailing env b operation inputCount 8
  else if operation.type = OperationType.DEPTH_TO_SPACE then
    if inputCount = 3 then getCount 2 [.BOOL_FALSE] else .ret 0
  else if operation.type = OperationType.L2_NORMALIZATION then
    if inputCount = 2 then getCount 1 [.INT32_NEGATIVE_ONE] else .ret 0
  else if operation.type = OperationType.L2_POOL_2D then poolTrailing env b operation inputCount
  else if operation.type = OperationType.LOCAL_RESPONSE_NORMALIZATION then
    if inputCount = 6 then getCount 5 [.INT32_NEGATIVE_ONE] else .ret 0
  else if operation.type = OperationType.MAX_POOL_2D then poolTrailing env b operation inputCount
  else if operation.type = OperationType.RESIZE_BILINEAR then
    if 3 < inputCount ∧ inputCount ≤ 6 then getCount 3 [.BOOL_FALSE, .BOOL_FALSE, .BOOL_FALSE]
    else .ret 0
  else if operation.type = OperationType.SOFTMAX then
    if inputCount = 3 then getCount 2 [.INT32_NEGATIVE_ONE] else .ret 0
  else if operation.type = OperationType.SPACE_TO_DEPTH then
    if inputCount = 3 then getCount 2 [.BOOL_FALSE] else .ret 0
  else if operation.type = OperationType.BATCH_TO_SPACE_ND then
    if inputCount = 3 then getCount 2 [.BOOL_FALSE] else .ret 0
  else if operation.type = OperationType.SPACE_TO_BATCH_ND then
    if inputCount = 4 then getCount 3 [.BOOL_FALSE] else .ret 0
  else if operation.type = OperationType.RESIZE_NEAREST_NEIGHBOR then
    if 4 < inputCount ∧ inputCount ≤ 6 then getCount 4 [.BOOL_FALSE, .BOOL_FALSE] else .ret 0
  else .ret 0

/-- The body of the loop of `removeTrailingArgumentsWithDefaultValues`, for one operation. -/
def removeTrailingArguments (env : Env) (b : ModelBuilder) (operation : Operation) :
    Exec Operation :=
  (getNumTrailingArgumentsToRemove env b operation).bind fun count =>
  if count = 0 then .ret operation
  else
    let inputCount := operation.inputs.length % 2 ^ 32
    if count < inputCount then
      let newInputCount := inputCount - count
      .ret { operation with inputs := resizeVector operation.inputs newInputCount }
    else .abort

/-- The loop of `removeTrailingArgumentsWithDefaultValues` over the operations still to
visit; the operand table and the arena it reads do not change. -/
def removeTrailingLoop (env : Env) (b : ModelBuilder) : List Operation → Exec (List Operation)
  | [] => .ret []
  | operation :: rest =>
    (removeTrailingArguments env b operation).bind fun operation1 =>
    (removeTrailingLoop env b rest).bind fun rest1 => .ret (operation1 :: rest1)

/-- `ModelBuilder::removeTrailingArgumentsWithDefaultValues()`. -/
def removeTrailingArgumentsWithDefaultValues (env : Env) (b : ModelBuilder) :
    Exec ModelBuilder :=
  (removeTrailingLoop env b b.mOperations).bind fun operations =>
  .ret { b with mOperations := operations }

/-- `ModelBuilder::simplifyModel()`. -/
def simplifyModel (b : ModelBuilder) : ModelBuilder := { b with mSimplifyModel := true }

/-! ## finish -/

/-- `ModelBuilder::finish()`. `fuel` bounds the while loop of `sortIntoRunOrder` and the
recursion of `makeModel` into the referenced models. -/
def finish (env : Env) (tm : TypeManager) (heap : Heap) (fuel : Nat) (b : ModelBuilder) :
    Exec (Int × ModelBuilder) :=
  if b.mCompletedModel then .ret (ANEURALNETWORKS_BAD_STATE, b)
  else if b.mInvalidModel then .ret (ANEURALNETWORKS_BAD_STATE, b)
  else
    (copyLargeValuesToSharedMemory env b).bind fun c =>
    if c.1 ≠ ANEURALNETWORKS_NO_ERROR then .ret (c.1, c.2)
    else
      (sortIntoRunOrder fuel c.2).bind fun s =>
      if !s.1 then .ret (ANEURALNETWORKS_BAD_DATA, { s.2 with mInvalidModel := true })
      else
        (makeModel env tm heap fuel s.2).bind fun modelForValidation =>
        match env.validate modelForValidation with
        | none => .ret (ANEURALNETWORKS_BAD_DATA, { s.2 with mInvalidModel := true })
        | some version =>
          if !env.isCompliantVersion version env.runtimeVersion then
            .ret (ANEURALNETWORKS_BAD_DATA, { s.2 with mInvalidModel := true })
          else
            (removeTrailingArgumentsWithDefaultValues env s.2).bind fun t =>
            let b1 := { simplifyModel t with mCompletedModel := true }
            match env.calcModelArchHash modelForValidation with
            | none => .abort
            | some hash => .ret (ANEURALNETWORKS_NO_ERROR, { b1 with mModelArchHash := hash })

end ModelBuilder

/-! ## Builder calls and reachable builder states -/

/-- One call of a mutating member function of `ModelBuilder`, with its arguments. -/
inductive Call where
  | addOperand (type : ANeuralNetworksOperandType)
  | setOperandValue (index : Nat) (buffer : Option Buffer) (length : Nat)
  | setOperandValueFromMemory (index memory offset length : Nat)
  | setOperandValueFromModel (index value : Nat)
  | setOperandSymmPerChannelQuantParams (index : Nat)
      (channelQuant : ANeuralNetworksSymmPerChannelQuantParams)
  | setOperandExtensionData (index : Nat) (data : Option (List Nat)) (length : Nat)
  | addOperation (type inputCount : Nat) (inputs : Option (List Nat)) (outputCount : Nat)
      (outputs : Option (List Nat))
  | identifyInputsAndOutputs (inputCount : Nat) (inputs : Option (List Nat)) (outputCount : Nat)
      (outputs : Option (List Nat))
  | relaxComputationFloat32toFloat16 (allow : Bool)
  | finish
deriving DecidableEq, Repr

/-- Run one call on a builder, in a given state of the type manager and of the other
builders. -/
def Call.run (env : Env) (tm : TypeManager) (heap : Heap) (fuel : Nat) :
    Call → ModelBuilder → Exec (Int × ModelBuilder)
  | .addOperand type, b => b.addOperand env tm type
  | .setOperandValue index buffer length, b => b.setOperandValue env tm index buffer length
  | .setOperandValueFromMemory index memory offset length, b =>
    b.setOperandValueFromMemory env tm index memory offset length
  | .setOperandValueFromModel index value, b =>
    b.setOperandValueFromModel env tm heap fuel index value
  | .setOperandSymmPerChannelQuantParams index channelQuant, b =>
    b.setOperandSymmPerChannelQuantParams env index channelQuant
  | .setOperandExtensionData index data length, b =>
    b.setOperandExtensionData env index data length
  | .addOperation type inputCount inputs outputCount outputs, b =>
    b.addOperation env tm type inputCount inputs outputCount outputs
  | .identifyInputsAndOutputs inputCount inputs outputCount outputs, b =>
    b.identifyInputsAndOutputs env inputCount inputs outputCount outputs
  | .relaxComputationFloat32toFloat16 allow, b => b.relaxComputationFloat32toFloat16 allow
  | .finish, b => b.finish env tm heap fuel

/-- The builder states that a sequence of calls can produce from a freshly constructed
builder. Between two calls the type manager and the other builders may be in any state. -/
inductive Reachable (env : Env) : ModelBuilder → Prop where
  | init : Reachable env {}
  | step {b b1 : ModelBuilder} (tm : TypeManager) (heap : Heap) (fuel : Nat) (call : Call)
      (code : Int) : Reachable env b → call.run env tm heap fuel b = .ret (code, b1) →
      Reachable env b1

/-! ## The dataflow relation between operations -/

/-- The operand `v` exists and its lifetime is `TEMPORARY_VARIABLE` or `SUBGRAPH_OUTPUT`. -/
def isUnknownOperand (operands : List Operand) (v : Nat) : Bool :=
  match operands.get? v with
  | some operand => ModelBuilder.isUnknownLifetime operand.lifetime
  | none => false

/-- Operation number `a` feeds operation number `c`: an output operand of `a`, of lifetime
`TEMPORARY_VARIABLE` or `SUBGRAPH_OUTPUT`, is an input of `c`. -/
def Feeds (operands : List Operand) (operations : List Operation) (a c : Nat) : Prop :=
  ∃ opA opC v, operations.get? a = some opA ∧ operations.get? c = some opC ∧
    v ∈ opA.outputs ∧ v ∈ opC.inputs ∧ isUnknownOperand operands v = true

/-- The stored order is a topological order of the dataflow through the operands selected
by `sel`: every selected input of the operation at position `i` is an output of an operation
of the list, and every operation that has it as an output is at a position before `i`. -/
def ProducersFirst (sel : Nat → Prop) (operations : List Operation) : Prop :=
  ∀ i op v, operations.get? i = some op → v ∈ op.inputs → sel v →
    (∃ j p, operations.get? j = some p ∧ v ∈ p.outputs) ∧
    (∀ j p, operations.get? j = some p → v ∈ p.outputs → j < i)

/-- Modelled from the spec: the part of the contract of `validate` (its definition is not
among the embedded sources) that section 4.4 step 3 describes as "every operand's lifetime is
consistent with producer/consumer positions" and that section 8, P1, relies on when it speaks
of "the producer" of an operand: a model in which some operand is listed twice among the
outputs of the operations of the main subgraph is rejected. -/
def ValidateRejectsRewrittenOperands (env : Env) : Prop :=
  ∀ m : Model, (env.validate m).isSome = true →
    (m.main.operations.flatMap (fun op => op.outputs)).Nodup

/-! ## A concrete environment -/

/-- Modelled from the spec: `alignBytesNeeded` ("natural alignment padding", section 4.2):
the padding that brings `index` to a multiple of 1, 2 or 4 for a value of `length` bytes. -/
def naturalAlignBytesNeeded (index length : Nat) : Nat :=
  let alignment := if length < 2 then 1 else if length < 4 then 2 else 4
  (alignment - index % alignment) % alignment

/-- Modelled from the spec: the per-element byte size of the base operand types of section 3
(float32, int32, uint32: 4; float16, 16-bit quantized: 2; bool, 8-bit quantized, opaque byte
tensor: 1). -/
def baseElementSize (type : OperandType) : Nat :=
  if type ∈ [0, 1, 2, 3, 4] then 4
  else if type ∈ [7, 8, 10, 12] then 2
  else if type ∈ [5, 6, 9, 11, 13, 14, 10001] then 1
  else 0

/-- Modelled from the spec: the scalar base operand types (float32 0, int32 1, uint32 2,
bool 6, float16 10, subgraph reference 15, opaque scalar 10000); the other base types are
tensors. -/
def baseTypeIsScalar (type : OperandType) : Bool :=
  decide (type ∈ [0, 1, 2, 6, 10, 15, 10000])

/-- Modelled from the spec: an instance of the functions that the embedded sources use but
do not define, for evaluating the builder on concrete inputs. Sizes follow section 3
("product of dims × per-element bytes for tensors; fixed for scalars"), a dimension 0 is
unspecified, the inline threshold is 128 bytes, type ids are composed with 16 type bits, an
operand list is valid when its indices are below the operand count, and `validate` accepts
the models in which no operand is written twice. -/
def sampleEnv : Env where
  kExtensionTypeBits := 16
  kExtensionPrefixBits := 15
  maxSizeOfImmediatelyCopiedValues := 128
  kNumberOfOperationTypes := 105
  kNumberOfOperationTypesOEM := 1
  isExtensionOperandType := fun t => decide (t / 2 ^ 16 ≠ 0)
  isExtensionOperationType := fun t => decide (t / 2 ^ 16 ≠ 0)
  getExtensionPrefixOfType := fun t => t / 2 ^ 16
  nonExtensionOperandTypeIsScalar := baseTypeIsScalar
  nonExtensionOperandSizeOfData := fun t dims =>
    if baseTypeIsScalar t then baseElementSize t
    else if dims.isEmpty then 0 else baseElementSize t * dims.prod
  sizeOfTensorData := fun size dims => if dims.isEmpty then 0 else size * dims.prod
  tensorHasUnspecifiedDimensions := fun operand =>
    operand.dimensions.isEmpty || operand.dimensions.contains 0
  alignBytesNeeded := naturalAlignBytesNeeded
  validateOperandType := fun _ _ => true
  validateOperandSymmPerChannelQuantParams := fun operand params =>
    decide (operand.dimensions.get? params.channelDim = some params.scales.length)
  validCode := fun count countOEM code =>
    decide (code < count ∨ (10000 ≤ code ∧ code - 10000 < countOEM))
  validateOperationButNotOperands := fun operation operands _ =>
    operation.inputs.all (fun i => decide (i < operands.length)) &&
      operation.outputs.all (fun i => decide (i < operands.length))
  validateOperandList := fun list count => list.all (fun i => decide (i < count))
  memoryValidate := fun _ _ _ _ => true
  getMemory := fun m => m
  memoryAshmemCreate := fun _ => (ANEURALNETWORKS_NO_ERROR, some 1)
  validate := fun m =>
    if (m.main.operations.flatMap (fun op => op.outputs)).Nodup then some 0 else none
  isCompliantVersion := fun _ _ => true
  runtimeVersion := 0
  calcModelArchHash := fun _ => some []
  removeDeadOperands := fun m => m
  operandValuesAppend := fun arena data =>
    let pad := naturalAlignBytesNeeded arena.length data.length
    (arena ++ List.replicate pad 0 ++ data,
      { poolIndex := 0, offset := arena.length + pad, length := data.length })
  readPointer := fun _ => []

/-- A type manager with extensions allowed and none registered; `mPrefixToExtension` holds
the null entry of prefix 0. -/
def sampleTypeManager : TypeManager :=
  { mExtensionsAllowed := true
    mExtensionNameToExtension := []
    mExtensionNameToFirstDevice := []
    mDisabledExtensions := []
    mExtensionNameToPrefix := []
    mPrefixToExtension := [none] }

/-- No other builder. -/
def emptyHeap : Heap := fun _ => none

/-! ## Predicates used in the statements -/

/-- A call that returned an error code left the builder as it was. -/
def FailsClean (b : ModelBuilder) (r : Exec (Int × ModelBuilder)) : Prop :=
  ∀ code b1, r = .ret (code, b1) → code ≠ ANEURALNETWORKS_NO_ERROR → b1 = b

/-- The calls that add an operand or set a property of one operand. -/
def Call.isOperandMutation : Call → Bool
  | .addOperand _ => true
  | .setOperandValue _ _ _ => true
  | .setOperandValueFromMemory _ _ _ _ => true
  | .setOperandValueFromModel _ _ => true
  | .setOperandSymmPerChannelQuantParams _ _ => true
  | .setOperandExtensionData _ _ _ => true
  | _ => false

/-- The lifetime changes a single call can make to an existing operand: none; a change to
`CONSTANT_COPY`, `CONSTANT_REFERENCE`, `NO_VALUE` or `SUBGRAPH`; or a change from
`TEMPORARY_VARIABLE` to `SUBGRAPH_INPUT` or `SUBGRAPH_OUTPUT`. -/
def AllowedLifetimeChange (old new : LifeTime) : Prop :=
  new = old ∨
  (new = LifeTime.CONSTANT_COPY ∨ new = LifeTime.CONSTANT_REFERENCE ∨
    new = LifeTime.NO_VALUE ∨ new = LifeTime.SUBGRAPH) ∨
  (old = LifeTime.TEMPORARY_VARIABLE ∧
    (new = LifeTime.SUBGRAPH_INPUT ∨ new = LifeTime.SUBGRAPH_OUTPUT))

/-- Every operand of the first table is still there in the second, with a lifetime that a
call may give it. -/
def LifetimesStep (ops ops1 : List Operand) : Prop :=
  ∀ i o, ops.get? i = some o →
    ∃ o1, ops1.get? i = some o1 ∧ AllowedLifetimeChange o.lifetime o1.lifetime

/-- A call that returned changed the lifetimes of the existing operands only in the allowed
ways. -/
def KeepsLifetimes (b : ModelBuilder) (r : Exec (Int × ModelBuilder)) : Prop :=
  ∀ code b1, r = .ret (code, b1) → LifetimesStep b.mOperands b1.mOperands

/-! ## Concrete builders -/

/-- A scalar `INT32` operand type, as passed to `addOperand`. -/
def int32Type : ANeuralNetworksOperandType :=
  { type := OperandType.INT32, dimensionCount := 0, dimensions := none, scale := 0,
    zeroPoint := 0 }

/-- The operand that `addOperand` stores for `int32Type`, with a given lifetime and
location. -/
def int32Operand (lifetime : LifeTime) (location : DataLocation) : Operand :=
  { type := OperandType.INT32, dimensions := [], scale := 0, zeroPoint := 0,
    lifetime := lifetime, location := location, extraParams := ExtraParams.none }

/-- The builder after `addOperand(int32Type)`. -/
def oneOperandBuilder : ModelBuilder :=
  { mOperands :=
      [int32Operand LifeTime.TEMPORARY_VARIABLE { poolIndex := 0, offset := 0, length := 0 }] }

/-- The builder after `addOperand(int32Type)` and `setOperandValue(0, buffer, 4)` with a
buffer holding the constant 1. -/
def constantBuilder : ModelBuilder :=
  { mOperands :=
      [int32Operand LifeTime.CONSTANT_COPY { poolIndex := 0, offset := 0, length := 4 }]
    mSmallOperandValues := [1, 0, 0, 0] }

/-- A finished builder. -/
def finishedBuilder : ModelBuilder := { mCompletedModel := true }

/-- The builder `constantBuilder` after `setOperandValue(0, nullptr, 0)`. -/
def noValueBuilder : ModelBuilder :=
  { constantBuilder with
    mOperands := [int32Operand LifeTime.NO_VALUE { poolIndex := 0, offset := 0, length := 0 }] }

/-- A `TENSOR_FLOAT32` operand type of rank 1 whose only dimension is unspecified (0). -/
def unspecifiedTensorType : ANeuralNetworksOperandType :=
  { type := OperandType.TENSOR_FLOAT32, dimensionCount := 1, dimensions := some [0], scale := 0,
    zeroPoint := 0 }

/-- The builder after `addOperand(unspecifiedTensorType)`. -/
def unspecifiedTensorBuilder : ModelBuilder :=
  { mOperands :=
      [{ type := OperandType.TENSOR_FLOAT32, dimensions := [0], scale := 0, zeroPoint := 0,
         lifetime := LifeTime.TEMPORARY_VARIABLE,
         location := { poolIndex := 0, offset := 0, length := 0 },
         extraParams := ExtraParams.none }] }

/-! ## Notions used in the analysis of the sort -/

/-- The inputs of an operation that `sortIntoRunOrder` counts as unknown, with their
multiplicity and in order. -/
def unknownInputs (operands : List Operand) (op : Operation) : List Nat :=
  op.inputs.filter (isUnknownOperand operands)

/-- The unknown inputs of operation number `j` (none when there is no such operation). -/
def unknownInputsAt (operands : List Operand) (operations : List Operation) (j : Nat) :
    List Nat :=
  match operations.get? j with
  | some op => unknownInputs operands op
  | none => []

/-- The entries that the first loop of `sortIntoRunOrder` adds to `operandToOperations` for
operation number `j`. -/
def consumerEntries (operands : List Operand) (operations : List Operation) (j : Nat) :
    List (Nat × Nat) :=
  (unknownInputsAt operands operations j).map (fun v => (v, j))

/-- The consumers recorded for operand `v`: the values of `equal_range(v)` in order. -/
def consumers (operandToOperations : List (Nat × Nat)) (v : Nat) : List Nat :=
  (operandToOperations.filter (fun e => e.1 == v)).map Prod.snd

/-- The operands written by a list of operations, with multiplicity. -/
def produced (runOrder : List Operation) : List Nat :=
  runOrder.flatMap (fun op => op.outputs)

/-- The number of pairs of an occurrence in `xs` and an equal occurrence in `l`. -/
def hits (xs l : List Nat) : Nat := (xs.map (fun x => l.count x)).sum

/-- The invariant of the while loop of `sortIntoRunOrder`, between two iterations:
`opsReadyToRun`, `unknownInputCount`, `runOrder` and `sortedOperationIndexMap` are the loop
variables. -/
structure SortInv (operands : List Operand) (operations : List Operation)
    (opsReadyToRun unknownInputCount : List Nat) (runOrder : List Operation)
    (sortedOperationIndexMap : List Nat) : Prop where
  len : unknownInputCount.length = operations.length
  run : runOrder = sortedOperationIndexMap.filterMap (fun j => operations.get? j)
  bound : ∀ j ∈ sortedOperationIndexMap ++ opsReadyToRun, j < operations.length
  nodup : (sortedOperationIndexMap ++ opsReadyToRun).Nodup
  count : ∀ j, j < operations.length →
    unknownInputCount.getD j 0 + hits (unknownInputsAt operands operations j) (produced runOrder)
      = (unknownInputsAt operands operations j).length
  zero : ∀ j, j < operations.length →
    (j ∈ sortedOperationIndexMap ++ opsReadyToRun ↔ unknownInputCount.getD j 0 = 0)
  topo : ∀ i j, sortedOperationIndexMap.get? i = some j →
    ∀ v ∈ unknownInputsAt operands operations j, v ∈ produced (runOrder.take i)

/-- No unknown input of any operation is written twice by the operations of `runOrder`. -/
def WrittenOnce (operands : List Operand) (operations : List Operation)
    (runOrder : List Operation) : Prop :=
  ∀ j, ∀ v ∈ unknownInputsAt operands operations j, (produced runOrder).count v ≤ 1

/-- Every input of every operation is the index of an operand. -/
def InputsValid (operands : List Operand) (operations : List Operation) : Prop :=
  ∀ op ∈ operations, ∀ v ∈ op.inputs, v < operands.length

/-- No operation input whose operand has lifetime `TEMPORARY_VARIABLE` or `SUBGRAPH_OUTPUT`
is listed more than once among the outputs of all operations. -/
def NoUnknownInputWrittenTwice (operands : List Operand) (operations : List Operation) :
    Prop :=
  ∀ op ∈ operations, ∀ v ∈ op.inputs, isUnknownOperand operands v = true →
    (produced operations).count v ≤ 1

/-- A computable form of `Feeds`. -/
def feedsBool (operands : List Operand) (operations : List Operation) (a c : Nat) : Bool :=
  match operations.get? a, operations.get? c with
  | some opA, some opC =>
    opA.outputs.any (fun v => opC.inputs.contains v && isUnknownOperand operands v)
  | _, _ => false

/-- What every reachable builder satisfies: the operation count is within its limit, and a
builder that is neither finished nor invalid has not been sorted and is not marked for
simplification. -/
def StateInv (b : ModelBuilder) : Prop :=
  b.mOperations.length ≤ MAX_NUMBER_OF_OPERATIONS ∧
  (b.mCompletedModel = true ∨ b.mInvalidModel = true ∨
    (b.mSortedOperationIndexMap = [] ∧ b.mSimplifyModel = false))

/-- Every builder that the call can return satisfies `P`. -/
def Ensures (P : ModelBuilder → Prop) (r : Exec (Int × ModelBuilder)) : Prop :=
  ∀ code b1, r = .ret (code, b1) → P b1

/-! ## Sequences of calls and the builders of the scenarios -/

/-- Run a sequence of calls one after the other, whatever the codes they return; `none` when
one of the calls does not return. -/
def runCalls (env : Env) (tm : TypeManager) (heap : Heap) (fuel : Nat) :
    List Call → ModelBuilder → Option ModelBuilder
  | [], b => some b
  | call :: rest, b =>
    match call.run env tm heap fuel b with
    | .ret r => runCalls env tm heap fuel rest r.2
    | _ => none

/-- A `TENSOR_FLOAT32` operand type of dimensions `[2]`, as passed to `addOperand`. -/
def tensorType : ANeuralNetworksOperandType :=
  { type := OperandType.TENSOR_FLOAT32, dimensionCount := 1, dimensions := some [2], scale := 0,
    zeroPoint := 0 }

/-- The operand that `addOperand` stores for `tensorType`, with a given lifetime. -/
def tensorOperand (lifetime : LifeTime) : Operand :=
  { type := OperandType.TENSOR_FLOAT32, dimensions := [2], scale := 0, zeroPoint := 0,
    lifetime := lifetime, location := { poolIndex := 0, offset := 0, length := 0 },
    extraParams := ExtraParams.none }

/-- Operation A of the second scenario of section 8: it consumes operands 0 and 1 and
produces operand 2 (operation code 0). -/
def operationA : Operation := { type := 0, inputs := [0, 1], outputs := [2] }

/-- Operation B of the second scenario of section 8: it consumes operand 2 and produces
operand 3 (operation code 19). -/
def operationB : Operation := { type := 19, inputs := [2], outputs := [3] }

/-- The calls of the second scenario: four operands, operation B, then operation A, then
operands 0 and 1 as the inputs and operand 3 as the output of the model. -/
def scenarioTwoCalls : List Call :=
  [.addOperand tensorType, .addOperand tensorType, .addOperand tensorType,
   .addOperand tensorType,
   .addOperation 19 1 (some [2]) 1 (some [3]),
   .addOperation 0 2 (some [0, 1]) 1 (some [2]),
   .identifyInputsAndOutputs 2 (some [0, 1]) 1 (some [3])]

/-- The builder after `scenarioTwoCalls`: B is stored before A. -/
def scenarioTwoBuilder : ModelBuilder :=
  { mOperands :=
      [tensorOperand LifeTime.SUBGRAPH_INPUT, tensorOperand LifeTime.SUBGRAPH_INPUT,
       tensorOperand LifeTime.TEMPORARY_VARIABLE, tensorOperand LifeTime.SUBGRAPH_OUTPUT]
    mOperations := [operationB, operationA]
    mInputIndexes := [0, 1]
    mOutputIndexes := [3] }

/-- The builder `scenarioTwoBuilder` after a successful `finish` in `sampleEnv`. -/
def scenarioTwoFinished : ModelBuilder :=
  { scenarioTwoBuilder with
    mOperations := [operationA, operationB]
    mSortedOperationIndexMap := [1, 0]
    mSimplifyModel := true
    mCompletedModel := true }

/-- The calls that build a cycle: operation X consumes operands 0 and 2 and produces
operand 1, operation Y consumes operand 1 and produces operand 2; operand 0 is the input of
the model. -/
def cycleCalls : List Call :=
  [.addOperand tensorType, .addOperand tensorType, .addOperand tensorType,
   .addOperation 0 2 (some [0, 2]) 1 (some [1]),
   .addOperation 19 1 (some [1]) 1 (some [2]),
   .identifyInputsAndOutputs 1 (some [0]) 0 none]

/-- The builder after `cycleCalls`. -/
def cycleBuilder : ModelBuilder :=
  { mOperands :=
      [tensorOperand LifeTime.SUBGRAPH_INPUT, tensorOperand LifeTime.TEMPORARY_VARIABLE,
       tensorOperand LifeTime.TEMPORARY_VARIABLE]
    mOperations :=
      [{ type := 0, inputs := [0, 2], outputs := [1] },
       { type := 19, inputs := [1], outputs := [2] }]
    mInputIndexes := [0] }

/-- The builder `cycleBuilder` after `finish` has rejected it. -/
def cycleRejectedBuilder : ModelBuilder := { cycleBuilder with mInvalidModel := true }

/-- The builder states that a sequence of calls can produce from the state `b`. Between two
calls the type manager and the other builders may be in any state. -/
inductive ReachableFrom (env : Env) (b : ModelBuilder) : ModelBuilder → Prop where
  | refl : ReachableFrom env b b
  | step {b1 b2 : ModelBuilder} (tm : TypeManager) (heap : Heap) (fuel : Nat) (call : Call)
      (code : Int) : ReachableFrom env b b1 → call.run env tm heap fuel b1 = .ret (code, b2) →
      ReachableFrom env b b2

/-- The builder of the third scenario of section 8: operands 0 to 3, operand 0 the input and
operand 3 the output of the model, and the operations X (consumes 0 and 2, produces 1),
Y (consumes 1, produces 2), Z (consumes 2, produces 3) and W (consumes 1, produces 2). -/
def scenarioThreeBuilder : ModelBuilder :=
  { mOperands :=
      [tensorOperand LifeTime.SUBGRAPH_INPUT, tensorOperand LifeTime.TEMPORARY_VARIABLE,
       tensorOperand LifeTime.TEMPORARY_VARIABLE, tensorOperand LifeTime.SUBGRAPH_OUTPUT]
    mOperations :=
      [{ type := 0, inputs := [0, 2], outputs := [1] },
       { type := 19, inputs := [1], outputs := [2] },
       { type := 19, inputs := [2], outputs := [3] },
       { type := 19, inputs := [1], outputs := [2] }]
    mInputIndexes := [0]
    mOutputIndexes := [3] }

/-- A builder with four operands of lifetime `TEMPORARY_VARIABLE` and nothing else. -/
def fourOperandsBuilder : ModelBuilder :=
  { mOperands :=
      [tensorOperand LifeTime.TEMPORARY_VARIABLE, tensorOperand LifeTime.TEMPORARY_VARIABLE,
       tensorOperand LifeTime.TEMPORARY_VARIABLE, tensorOperand LifeTime.TEMPORARY_VARIABLE] }

/-- The builder `fourOperandsBuilder` after `identifyInputsAndOutputs([0], [1])`. -/
def identifiedBuilder : ModelBuilder :=
  { mOperands :=
      [tensorOperand LifeTime.SUBGRAPH_INPUT, tensorOperand LifeTime.SUBGRAPH_OUTPUT,
       tensorOperand LifeTime.TEMPORARY_VARIABLE, tensorOperand LifeTime.TEMPORARY_VARIABLE]
    mInputIndexes := [0]
    mOutputIndexes := [1] }

/-- The builder `identifiedBuilder` after a second call, `identifyInputsAndOutputs([2], [3])`. -/
def reidentifiedBuilder : ModelBuilder :=
  { mOperands :=
      [tensorOperand LifeTime.SUBGRAPH_INPUT, tensorOperand LifeTime.SUBGRAPH_OUTPUT,
       tensorOperand LifeTime.SUBGRAPH_INPUT, tensorOperand LifeTime.SUBGRAPH_OUTPUT]
    mInputIndexes := [2]
    mOutputIndexes := [3] }

/-! ## Builders for the inline arena -/

/-- The builder after `addOperand(int32Type)`, with a given content of the inline arena. -/
def arenaBuilder (a : List Nat) : ModelBuilder :=
  { oneOperandBuilder with mSmallOperandValues := a }

/-- A builder whose inline arena holds `2 ^ 32 - 2` bytes. -/
def fullArenaBuilder : ModelBuilder := arenaBuilder (List.replicate 4294967294 0)

/-! ## The layout of the pool of large values -/

/-- The length recorded in the operand of a deferred value (0 when the operand does not
exist). -/
def recordedLength (operands : List Operand) (l : LargeValue) : Nat :=
  match operands.get? l.operandIndex with
  | some operand => operand.location.length
  | none => 0

/-- The regions (offset, length) obtained by advancing the running pool size by
`alignBytesNeeded(poolSize, length)` before each value, for values of the given lengths and
a pool that already holds `poolSize` bytes. -/
def layoutRegions (align : Nat → Nat → Nat) : List Nat → Nat → List (Nat × Nat)
  | [], _ => []
  | length :: rest, poolSize =>
    (poolSize + align poolSize length, length) ::
      layoutRegions align rest (poolSize + align poolSize length + length)

/-- The pool size after the last of these regions. -/
def layoutSize (align : Nat → Nat → Nat) : List Nat → Nat → Nat
  | [], poolSize => poolSize
  | length :: rest, poolSize =>
    layoutSize align rest (poolSize + align poolSize length + length)

/-- Regions that follow one another without overlap between `lo` and `hi`. -/
def RegionChain : Nat → List (Nat × Nat) → Nat → Prop
  | lo, [], hi => lo ≤ hi
  | lo, r :: rest, hi => lo ≤ r.1 ∧ RegionChain (r.1 + r.2) rest hi

/-- An environment in which no shared memory can be created. -/
def noMemoryEnv : Env :=
  { sampleEnv with memoryAshmemCreate := fun _ => (ANEURALNETWORKS_OUT_OF_MEMORY, none) }

/-- A `TENSOR_FLOAT32` operand type of dimensions `[33]`: 132 bytes. -/
def largeTensorType : ANeuralNetworksOperandType :=
  { type := OperandType.TENSOR_FLOAT32, dimensionCount := 1, dimensions := some [33], scale := 0,
    zeroPoint := 0 }

/-- The operand that `addOperand` stores for `largeTensorType`, with a given lifetime and
location. -/
def largeTensorOperand (lifetime : LifeTime) (location : DataLocation) : Operand :=
  { type := OperandType.TENSOR_FLOAT32, dimensions := [33], scale := 0, zeroPoint := 0,
    lifetime := lifetime, location := location, extraParams := ExtraParams.none }

/-- The calls that add two operands of 132 bytes and give each a value from a client
buffer. -/
def twoLargeValuesCalls : List Call :=
  [.addOperand largeTensorType, .addOperand largeTensorType,
   .setOperandValue 0 (some { addr := 1, bytes := List.replicate 132 7 }) 132,
   .setOperandValue 1 (some { addr := 2, bytes := List.replicate 132 9 }) 132]

/-- The builder after `twoLargeValuesCalls`: two deferred values. -/
def twoLargeValuesBuilder : ModelBuilder :=
  { mOperands :=
      [largeTensorOperand LifeTime.CONSTANT_REFERENCE
         { poolIndex := 0xFFFFFFFF, offset := 0xFFFFFFFF, length := 132 },
       largeTensorOperand LifeTime.CONSTANT_REFERENCE
         { poolIndex := 0xFFFFFFFF, offset := 0xFFFFFFFF, length := 132 }]
    mLargeOperandValues :=
      [{ operandIndex := 0, buffer := { addr := 1, bytes := List.replicate 132 7 } },
       { operandIndex := 1, buffer := { addr := 2, bytes := List.replicate 132 9 } }] }

/-- The calls that give an operand of 132 bytes a value from a client buffer and then no
value. -/
def resetLargeValueCalls : List Call :=
  [.addOperand largeTensorType,
   .setOperandValue 0 (some { addr := 1, bytes := List.replicate 132 7 }) 132,
   .setOperandValue 0 none 0]

/-- The builder after `resetLargeValueCalls`: the deferred value is still recorded. -/
def resetLargeValueBuilder : ModelBuilder :=
  { mOperands :=
      [largeTensorOperand LifeTime.NO_VALUE { poolIndex := 0, offset := 0, length := 0 }]
    mLargeOperandValues :=
      [{ operandIndex := 0, buffer := { addr := 1, bytes := List.replicate 132 7 } }] }

/-! ## Notions used for the trimming -/

/-- The reads that `getNumTrailingArgumentsToRemove` can make for the operation are defined:
every input is the index of an operand, and the value of a `CONSTANT_COPY` operand of type
`BOOL` (one byte) or `INT32` (four bytes) lies inside the inline arena. -/
def InputsReadable (b : ModelBuilder) (operation : Operation) : Prop :=
  ∀ v ∈ operation.inputs, ∃ operand, b.mOperands.get? v = some operand ∧
    (operand.lifetime = LifeTime.CONSTANT_COPY →
      (operand.type = OperandType.BOOL →
        operand.location.offset + 1 ≤ b.mSmallOperandValues.length) ∧
      (operand.type = OperandType.INT32 →
        operand.location.offset + 4 ≤ b.mSmallOperandValues.length))

/-! ## Builders for the trimming -/

/-- An `INT32` constant held in the inline arena at `offset`. -/
def int32Constant (offset : Nat) : Operand :=
  int32Operand LifeTime.CONSTANT_COPY { poolIndex := 0, offset := offset, length := 4 }

/-- A `BOOL` operand with a given lifetime and location. -/
def boolOperand (lifetime : LifeTime) (location : DataLocation) : Operand :=
  { type := OperandType.BOOL, dimensions := [], scale := 0, zeroPoint := 0,
    lifetime := lifetime, location := location, extraParams := ExtraParams.none }

/-- The operation of the fourth scenario of section 8: `AVERAGE_POOL_2D` with implicit
padding and 8 inputs, the 8th the layout flag. -/
def poolOperation : Operation :=
  { type := OperationType.AVERAGE_POOL_2D, inputs := [0, 1, 2, 3, 4, 5, 6, 7], outputs := [8] }

/-- The operands of the fourth scenario: the input tensor, six `INT32` constants (padding
scheme, strides, filter size, activation), the layout flag held in the inline arena, and the
output tensor. -/
def poolOperands : List Operand :=
  [tensorOperand LifeTime.SUBGRAPH_INPUT, int32Constant 0, int32Constant 4, int32Constant 8,
   int32Constant 12, int32Constant 16, int32Constant 20,
   boolOperand LifeTime.CONSTANT_COPY { poolIndex := 0, offset := 24, length := 1 },
   tensorOperand LifeTime.SUBGRAPH_OUTPUT]

/-- The inline arena of the fourth scenario with a given layout flag: six `INT32` values and
one byte. -/
def poolArena (flag : Nat) : List Nat :=
  [1, 0, 0, 0, 1, 0, 0, 0, 1, 0, 0, 0, 2, 0, 0, 0, 2, 0, 0, 0, 0, 0, 0, 0, flag]

/-- The builder of the fourth scenario, with a given layout flag. -/
def poolBuilder (flag : Nat) : ModelBuilder :=
  { mOperands := poolOperands
    mOperations := [poolOperation]
    mInputIndexes := [0]
    mOutputIndexes := [8]
    mSmallOperandValues := poolArena flag }

/-- The builder of the fourth scenario with the layout flag held in external memory
(lifetime `CONSTANT_REFERENCE`). -/
def poolReferenceBuilder : ModelBuilder :=
  { mOperands := poolOperands.set 7
      (boolOperand LifeTime.CONSTANT_REFERENCE { poolIndex := 0, offset := 0, length := 1 })
    mOperations := [poolOperation]
    mInputIndexes := [0]
    mOutputIndexes := [8]
    mSmallOperandValues := poolArena 0 }

/-- A `CONV_2D` operation with explicit padding and 13 inputs: input, filter, bias, seven
`INT32` scalars, the layout flag (input 10) and the two dilation factors (inputs 11 and
12). -/
def convOperation : Operation :=
  { type := OperationType.CONV_2D, inputs := [0, 1, 2, 3, 4, 5, 6, 7, 8, 9, 10, 11, 12],
    outputs := [13] }

/-- The builder of `convOperation`; the layout flag is false, the dilation factors are
`width` and 1. -/
def convBuilder (width : Nat) : ModelBuilder :=
  { mOperands :=
      [tensorOperand LifeTime.SUBGRAPH_INPUT, tensorOperand LifeTime.SUBGRAPH_INPUT,
       tensorOperand LifeTime.SUBGRAPH_INPUT, int32Constant 0, int32Constant 0,
       int32Constant 0, int32Constant 0, int32Constant 4, int32Constant 4, int32Constant 0,
       boolOperand LifeTime.CONSTANT_COPY { poolIndex := 0, offset := 8, length := 1 },
       int32Constant 12, int32Constant 4, tensorOperand LifeTime.SUBGRAPH_OUTPUT]
    mOperations := [convOperation]
    mInputIndexes := [0, 1, 2]
    mOutputIndexes := [13]
    mSmallOperandValues := [0, 0, 0, 0, 1, 0, 0, 0, 0, 0, 0, 0, width, 0, 0, 0] }

/-! ## The model that finish validates and hashes -/

/-- The local `modelForValidation` of `finish`: the model made after the consolidation of the
large values and the sort, before the trimming. -/
def modelForValidation (env : Env) (tm : TypeManager) (heap : Heap) (fuel : Nat)
    (b : ModelBuilder) : Exec Model :=
  (ModelBuilder.copyLargeValuesToSharedMemory env b).bind fun c =>
  (ModelBuilder.sortIntoRunOrder fuel c.2).bind fun s =>
  ModelBuilder.makeModel env tm heap fuel s.2

/-- Modelled from the spec: an instance of `calcModelArchHash` (not among the embedded
sources) that depends on the edges of the model, which section 4.4 step 7 lists among the
hashed attributes ("types, dims, ops, edges, subgraph refs"): the digest is the list of the
numbers of inputs of the operations of the main subgraph. -/
def hashingEnv : Env :=
  { sampleEnv with
    calcModelArchHash := fun m => some (m.main.operations.map fun op => op.inputs.length) }

/-- The builder of the fourth scenario with the operation given 7 inputs only; the operand
of the layout flag is there but not used. -/
def poolSevenBuilder : ModelBuilder :=
  { poolBuilder 0 with
    mOperations := [{ poolOperation with inputs := [0, 1, 2, 3, 4, 5, 6] }] }

/-- The state that `finish` leaves for `poolBuilder 0` and for `poolSevenBuilder`, up to the
stored hash. -/
def poolFinished (hash : List Nat) : ModelBuilder :=
  { poolBuilder 0 with
    mOperations := [{ poolOperation with inputs := [0, 1, 2, 3, 4, 5, 6] }]
    mSortedOperationIndexMap := [0]
    mSimplifyModel := true
    mCompletedModel := true
    mModelArchHash := hash }

/-- The second scenario with the operations added in the order A, B. -/
def scenarioTwoOrderedBuilder : ModelBuilder :=
  { scenarioTwoBuilder with mOperations := [operationA, operationB] }

/-! ## CompilationBuilder (CompilationBuilder.cpp) -/

/-- Modelled from the spec: status code `MISSED_DEADLINE_TRANSIENT` of section 6, with the
number of the public `ResultCode` enum. -/
def ANEURALNETWORKS_MISSED_DEADLINE_TRANSIENT : Int := 10

/-- Modelled from the spec: status code `MISSED_DEADLINE_PERSISTENT`. -/
def ANEURALNETWORKS_MISSED_DEADLINE_PERSISTENT : Int := 11

/-- Modelled from the spec: preference `FAST_SINGLE_ANSWER = 1` of section 6, the initial
value of `mPreference` (the class declaration is not among the embedded sources). -/
def ANEURALNETWORKS_PREFER_FAST_SINGLE_ANSWER : Int := 1

/-- A method that CompilationBuilder.cpp calls on its `ExecutionPlan mPlan`. The class is
defined outside the embedded sources, so the plan is the record of the calls made on it,
oldest first. -/
inductive PlanCall where
  /-- `mPlan.setCaching(&mCacheInfo, mToken)`. -/
  | setCaching
  /-- `mModel->partitionTheWork(..., &mPlan, ...)`, which fills the plan. -/
  | partitionTheWork
  /-- `mPlan.reset()`. -/
  | reset
  /-- `mPlan.becomeSingleStep(DeviceManager::getCpuDevice(), mModel)`. -/
  | becomeSingleStepCpu
  /-- `mPlan.finish(...)`. -/
  | finish
deriving DecidableEq, Repr

/-- The alternatives of `CacheInfo::variant`: the cache directory, or the handles made by
`setCachingFromFds` (addresses). -/
inductive CacheInfo where
  | cacheDir (path : String)
  | cacheHandles (modelCache dataCache : List Nat)
deriving DecidableEq, Repr

/-- The members of `CompilationBuilder` that the embedded functions read or write. Devices
are addresses of `Device` objects; `mFallbackToCpuFromError` is the field
`fallbackToCpuFromError` of `mTelemetryInfo` (`none` while `mTelemetryInfo` is empty), and
`mCacheInfo` is the member `variant` of `mCacheInfo`. Modelled from the spec: the
initial values of the members, which the class declaration (not among the embedded sources)
gives: medium priority 100, no timeout, no cache information, an empty plan. -/
structure CompilationBuilder where
  mModel : ModelBuilder
  mPartitioning : Nat
  mDevices : List Nat
  mExplicitDeviceList : Bool
  mFinished : Bool := false
  mPreference : Int := ANEURALNETWORKS_PREFER_FAST_SINGLE_ANSWER
  mPriority : Int := 100
  mTimeoutDuration : Option Nat := none
  mIsCacheInfoProvided : Bool := false
  mCacheInfo : CacheInfo := CacheInfo.cacheDir ""
  mToken : List Nat := []
  mMetadata : List (Int × List Nat) := []
  mFailPartitioning : Int := 0
  mFallbackToCpuFromError : Option Bool := none
  mPlan : List PlanCall := []
deriving DecidableEq, Repr

/-- The functions and constants that CompilationBuilder.cpp uses but does not define. They
are parameters of the embedding. -/
structure CompilationEnv where
  /-- Constant `DeviceManager::kPartitioningWithoutFallback`. -/
  kPartitioningWithoutFallback : Nat
  /-- The value of `DeviceManager::get()->getPartitioning()`. -/
  getPartitioning : Nat
  /-- Function `DeviceManager::partitioningAllowsFallback(partitioning)`. -/
  partitioningAllowsFallback : Nat → Bool
  /-- The status returned by `mModel->partitionTheWork(mDevices, mPreference, mPriority,
  deadline, &mPlan, mMetadata, mFailPartitioning)`, all of whose arguments are members of the
  compilation. -/
  partitionTheWork : CompilationBuilder → Int
  /-- The status returned by `mPlan.finish(mPreference, mPriority, deadline, mMetadata,
  ANEURALNETWORKS_NO_ERROR)`. -/
  planFinish : CompilationBuilder → Int
  /-- Constant `kNumberOfPreferences`, declared `const int`. -/
  kNumberOfPreferences : Int

/-- Modelled from the spec: the accessor `ModelBuilder::hasOEMOperation()` of the class
declaration, which is not among the embedded sources; it reads the flag that `addOperation`
maintains. -/
def ModelBuilder.hasOEMOperation (b : ModelBuilder) : Bool := b.mHasOEMOperation

/-- Modelled from the spec: the accessor `ModelBuilder::hasExtensionOperation()`, like
`hasOEMOperation`. -/
def ModelBuilder.hasExtensionOperation (b : ModelBuilder) : Bool := b.mHasExtensionOperation

namespace CompilationBuilder

/-- The constructor `CompilationBuilder(model, devices, explicitDeviceList)`. -/
def create (cenv : CompilationEnv) (model : ModelBuilder) (devices : List Nat)
    (explicitDeviceList : Bool) : CompilationBuilder :=
  { mModel := model
    mPartitioning :=
      if explicitDeviceList then cenv.kPartitioningWithoutFallback else cenv.getPartitioning
    mDevices := devices
    mExplicitDeviceList := explicitDeviceList }

/-- The tail of `CompilationBuilder::finish` after the partitioning switch: the fallback to
a single step on the CPU device. -/
def fallbackToCpu (cenv : CompilationEnv) (c : CompilationBuilder) : Int × CompilationBuilder :=
  let c1 := { c with mFallbackToCpuFromError := some true }
  let c2 := { c1 with mPlan := c1.mPlan ++ [PlanCall.reset] }
  let c3 := { c2 with mPlan := c2.mPlan ++ [PlanCall.becomeSingleStepCpu] }
  (cenv.planFinish c3, { c3 with mPlan := c3.mPlan ++ [PlanCall.finish] })

/-- The head of `CompilationBuilder::finish` on an unfinished compilation, up to the
partitioning switch: fresh telemetry, `mFinished = true`, and the cache information handed
to the plan. -/
def started (c : CompilationBuilder) : CompilationBuilder :=
  let c1 := { c with mFallbackToCpuFromError := some false }
  let c2 := { c1 with mFinished := true }
  if c2.mIsCacheInfoProvided then { c2 with mPlan := c2.mPlan ++ [PlanCall.setCaching] }
  else c2

/-- `CompilationBuilder::finish()`. -/
def finish (cenv : CompilationEnv) (c : CompilationBuilder) : Int × CompilationBuilder :=
  if c.mFinished then (ANEURALNETWORKS_BAD_STATE, c)
  else
    let c3 := started c
    if c3.mPartitioning ≠ 0 then
      let n := cenv.partitionTheWork c3
      let c4 := { c3 with mPlan := c3.mPlan ++ [PlanCall.partitionTheWork] }
      if n = ANEURALNETWORKS_NO_ERROR then (n, c4)
      else if n = ANEURALNETWORKS_UNEXPECTED_NULL ∨ n = ANEURALNETWORKS_BAD_DATA then (n, c4)
      else if !cenv.partitioningAllowsFallback c4.mPartitioning then (n, c4)
      else if c4.mModel.hasOEMOperation then (n, c4)
      else if c4.mModel.hasExtensionOperation then (n, c4)
      else fallbackToCpu cenv c4
    else fallbackToCpu cenv c3

/-- `CompilationBuilder::setPreference(preference)`; `preference` is an `int32_t`. -/
def setPreference (cenv : CompilationEnv) (c : CompilationBuilder) (preference : Int) :
    Int × CompilationBuilder :=
  if c.mFinished then (ANEURALNETWORKS_BAD_STATE, c)
  else if preference ≥ cenv.kNumberOfPreferences then (ANEURALNETWORKS_BAD_DATA, c)
  else (ANEURALNETWORKS_NO_ERROR, { c with mPreference := preference })

/-- `CompilationBuilder::setTimeoutDuration(duration)`; `duration` is a `uint64_t`. -/
def setTimeoutDuration (c : CompilationBuilder) (duration : Nat) : Int × CompilationBuilder :=
  if c.mFinished then (ANEURALNETWORKS_BAD_STATE, c)
  else if !c.mExplicitDeviceList || decide (c.mDevices.length ≠ 1) then
    (ANEURALNETWORKS_BAD_DATA, c)
  else if duration > 0 then (ANEURALNETWORKS_NO_ERROR, { c with mTimeoutDuration := some duration })
  else (ANEURALNETWORKS_NO_ERROR, { c with mTimeoutDuration := none })

/-- `CompilationBuilder::forTest_setPartitioning(partitioning)`. -/
def forTest_setPartitioning (c : CompilationBuilder) (partitioning : Nat) :
    Int × CompilationBuilder :=
  if c.mFinished then (ANEURALNETWORKS_BAD_STATE, c)
  else (ANEURALNETWORKS_NO_ERROR, { c with mPartitioning := partitioning })

/-- `CompilationBuilder::forTest_failPartitioning(fail)`. -/
def forTest_failPartitioning (c : CompilationBuilder) (fail : Int) : Int × CompilationBuilder :=
  if c.mFinished then (ANEURALNETWORKS_BAD_STATE, c)
  else (ANEURALNETWORKS_NO_ERROR, { c with mFailPartitioning := fail })

/-- The compilation fell back: `finish` made the plan a single step on the CPU device. -/
def fellBack (c : CompilationBuilder) : Bool := c.mPlan.contains PlanCall.becomeSingleStepCpu

end CompilationBuilder

/-- Modelled from the spec: an instance of the functions that CompilationBuilder.cpp uses but
does not define, for evaluating a compilation on concrete inputs. The partitioning policies
of section 4 are numbered NO_PARTITION 0, PARTITION_WITH_FALLBACK 1 and
PARTITION_WITHOUT_FALLBACK 2, the process default is partitioning with fallback,
`partitionTheWork` fails with the code injected by `forTest_failPartitioning`, finishing the
plan succeeds, and there are three preferences. -/
def sampleCompilationEnv : CompilationEnv where
  kPartitioningWithoutFallback := 2
  getPartitioning := 1
  partitioningAllowsFallback := fun p => decide (p = 1)
  partitionTheWork := fun c => c.mFailPartitioning
  planFinish := fun _ => ANEURALNETWORKS_NO_ERROR
  kNumberOfPreferences := 3

/-- A compilation of the empty model made without a device list, in which partitioning has
been made to fail with `MISSED_DEADLINE_TRANSIENT`. -/
def missedDeadlineCompilation : CompilationBuilder :=
  (CompilationBuilder.forTest_failPartitioning
    (CompilationBuilder.create sampleCompilationEnv {} [] false)
    ANEURALNETWORKS_MISSED_DEADLINE_TRANSIENT).2

/-- An unfinished compilation of the empty model for one explicitly listed device. -/
def oneDeviceCompilation : CompilationBuilder :=
  CompilationBuilder.create sampleCompilationEnv {} [7] true

/-- The sample instance with a `partitionTheWork` that fails with
`MISSED_DEADLINE_PERSISTENT`. -/
def missedPersistentEnv : CompilationEnv :=
  { sampleCompilationEnv with
    partitionTheWork := fun _ => ANEURALNETWORKS_MISSED_DEADLINE_PERSISTENT }

/-! ## TypeManager: registration and prefixes (TypeManager.cpp) -/

/-- The conversion of an unsigned 32-bit pattern to `int32_t`. -/
def toInt32 (n : Nat) : Int :=
  if n % 2 ^ 32 < 2 ^ 31 then (n % 2 ^ 32 : Nat) else ((n % 2 ^ 32 : Nat) : Int) - 2 ^ 32

namespace TypeManager

/-- Constant `kMaxPrefix = (1 << kExtensionPrefixBits) - 1`, a `uint32_t`. -/
def kMaxPrefix (env : Env) : Nat := (2 ^ env.kExtensionPrefixBits - 1) % 2 ^ 32

/-- The call of `std::sort` in `registerExtension`, which orders the operand types by their
16-bit code. Operand types with equal codes keep their order here; `std::sort` leaves it
unspecified. -/
def sortOperandTypes (l : List OperandTypeInformation) : List OperandTypeInformation :=
  l.insertionSort (fun a b => a.type % 2 ^ 16 ≤ b.type % 2 ^ 16)

/-- The static function `equal(a, b)` of TypeManager.cpp. -/
def equal (a b : Extension) : Bool :=
  if a.name ≠ b.name then false
  else if ¬ (a.operandTypes = b.operandTypes) then false
  else true

/-- `TypeManager::registerExtension(extension, deviceName)`: the value returned and the new
state. -/
def registerExtension (tm : TypeManager) (extension : Extension) (deviceName : String) :
    Bool × TypeManager :=
  if tm.mDisabledExtensions.contains extension.name then (false, tm)
  else
    let extension : Extension :=
      { extension with operandTypes := sortOperandTypes extension.operandTypes }
    match tm.mExtensionNameToExtension.lookup extension.name with
    | none =>
      -- emplace inserted the extension: isNew
      let tm1 :=
        { tm with
          mExtensionNameToExtension :=
            tm.mExtensionNameToExtension ++ [(extension.name, extension)] }
      (true,
        { tm1 with
          mExtensionNameToFirstDevice :=
            match tm1.mExtensionNameToFirstDevice.lookup extension.name with
            | none => tm1.mExtensionNameToFirstDevice ++ [(extension.name, deviceName)]
            | some _ => tm1.mExtensionNameToFirstDevice })
    | some existing =>
      if !equal extension existing then
        -- the log message reads mExtensionNameToFirstDevice[extension.name]
        let tm1 :=
          { tm with
            mExtensionNameToFirstDevice :=
              match tm.mExtensionNameToFirstDevice.lookup extension.name with
              | none => tm.mExtensionNameToFirstDevice ++ [(extension.name, "")]
              | some _ => tm.mExtensionNameToFirstDevice }
        let tm2 :=
          { tm1 with
            mExtensionNameToExtension :=
              tm1.mExtensionNameToExtension.filter (fun e => e.1 != extension.name) }
        (false,
          { tm2 with
            mDisabledExtensions :=
              if tm2.mDisabledExtensions.contains extension.name then tm2.mDisabledExtensions
              else tm2.mDisabledExtensions ++ [extension.name] })
      else (true, tm)

/-- `TypeManager::getExtensionPrefix(extensionName, &prefix)`: `none` when it returns false,
otherwise the value stored in `*prefix` (a `uint16_t`), and the new state.
`mExtensionNameToExtension[extensionName]` adds a default-constructed `Extension` when the
name has no entry. -/
def getExtensionPrefix (env : Env) (tm : TypeManager) (extensionName : String) :
    Option Nat × TypeManager :=
  match tm.mExtensionNameToPrefix.lookup extensionName with
  | some p => (some p, tm)
  | none =>
    if ¬ (tm.mPrefixToExtension.length ≤ kMaxPrefix env) then (none, tm)
    else
      let pfx := tm.mPrefixToExtension.length % 2 ^ 16
      let tm1 :=
        { tm with mExtensionNameToPrefix := tm.mExtensionNameToPrefix ++ [(extensionName, pfx)] }
      let tm2 :=
        { tm1 with
          mExtensionNameToExtension :=
            match tm1.mExtensionNameToExtension.lookup extensionName with
            | none =>
              tm1.mExtensionNameToExtension ++
                [(extensionName, ({ name := "", operandTypes := [] } : Extension))]
            | some _ => tm1.mExtensionNameToExtension }
      (some pfx, { tm2 with mPrefixToExtension := tm2.mPrefixToExtension ++ [some extensionName] })

/-- `TypeManager::getExtensionType(extensionName, typeWithinExtension, &type)`: `none` when
it returns false, otherwise the `int32_t` stored in `*type`, and the new state.
`typeWithinExtension` is a `uint16_t`. -/
def getExtensionType (env : Env) (tm : TypeManager) (extensionName : String)
    (typeWithinExtension : Nat) : Option Int × TypeManager :=
  match getExtensionPrefix env tm extensionName with
  | (none, tm1) => (none, tm1)
  | (some pfx, tm1) =>
    (some (toInt32 ((pfx <<< env.kExtensionTypeBits) ||| (typeWithinExtension % 2 ^ 16))), tm1)

/-- Modelled from the spec: the state in which the constructor of `TypeManager` starts to
register the extensions of the devices. The member initialisers are in the class
declaration, which is not among the embedded sources: the maps are empty and
`mPrefixToExtension` holds the null entry of prefix 0, the prefix that `getExtensionInfo`
refuses to look up. -/
def initial (extensionsAllowed : Bool) : TypeManager :=
  { mExtensionsAllowed := extensionsAllowed
    mExtensionNameToExtension := []
    mExtensionNameToFirstDevice := []
    mDisabledExtensions := []
    mExtensionNameToPrefix := []
    mPrefixToExtension := [none] }

/-- One call of a member function of `TypeManager` that changes its state. The state left by
`getExtensionType` is the one left by `getExtensionPrefix`. -/
inductive Call where
  | registerExtension (extension : Extension) (deviceName : String)
  | getExtensionPrefix (extensionName : String)
deriving DecidableEq, Repr

/-- The state after one call. -/
def Call.run (env : Env) : Call → TypeManager → TypeManager
  | .registerExtension extension deviceName, tm => (tm.registerExtension extension deviceName).2
  | .getExtensionPrefix extensionName, tm =>
    (TypeManager.getExtensionPrefix env tm extensionName).2

/-- The state after a sequence of calls. -/
def runCalls (env : Env) (calls : List Call) (tm : TypeManager) : TypeManager :=
  calls.foldl (fun tm call => call.run env tm) tm

/-- The call is a `getExtensionPrefix`. -/
def Call.isPrefixCall : Call → Bool
  | .getExtensionPrefix _ => true
  | .registerExtension _ _ => false

/-- The states that a sequence of calls can produce from the constructor's initial state. -/
def Reachable (env : Env) (tm : TypeManager) : Prop :=
  ∃ (extensionsAllowed : Bool) (calls : List Call),
    tm = runCalls env calls (initial extensionsAllowed)

end TypeManager

/-- `ModelBuilder::getExtensionType(extensionName, typeWithinExtension, &type)`: the status,
the value stored in `*type` if any, and the new state of the type manager. -/
def ModelBuilder.getExtensionType (env : Env) (tm : TypeManager) (extensionName : String)
    (typeWithinExtension : Nat) : Int × Option Int × TypeManager :=
  match TypeManager.getExtensionType env tm extensionName typeWithinExtension with
  | (some type, tm1) => (ANEURALNETWORKS_NO_ERROR, some type, tm1)
  | (none, tm1) => (ANEURALNETWORKS_BAD_DATA, none, tm1)

/-- What the prefix tables of every reachable type manager satisfy: `mPrefixToExtension` is
the null entry followed by the names of `mExtensionNameToPrefix` in order, the entry at
position `k` of `mExtensionNameToPrefix` holds prefix `k + 1`, and no prefix exceeds
`kMaxPrefix`. -/
def TypeManager.PrefixInv (env : Env) (tm : TypeManager) : Prop :=
  tm.mPrefixToExtension = none :: tm.mExtensionNameToPrefix.map (fun e => some e.1) ∧
  (∀ k e, tm.mExtensionNameToPrefix.get? k = some e → e.2 = k + 1) ∧
  tm.mExtensionNameToPrefix.length ≤ TypeManager.kMaxPrefix env

/-- An extension with one tensor operand type of 4 bytes per element. -/
def extensionA : Extension :=
  { name := "com.example.a", operandTypes := [{ type := 0, isTensor := true, byteSize := 4 }] }

/-- The extension of the same name that a second device announces with 8 bytes per
element. -/
def extensionA2 : Extension :=
  { name := "com.example.a", operandTypes := [{ type := 0, isTensor := true, byteSize := 8 }] }

/-- The type manager after two devices have registered the two definitions of
`com.example.a`. -/
def disabledTypeManager : TypeManager :=
  TypeManager.runCalls sampleEnv
    [TypeManager.Call.registerExtension extensionA "device1",
      TypeManager.Call.registerExtension extensionA2 "device2"]
    (TypeManager.initial true)

/-- What is left under a name in the registry once the name is disabled and when its prefix,
if any, was assigned after that: no entry or the default-constructed one, the latter as soon
as the name has a prefix. -/
def TypeManager.DisabledInv (tm : TypeManager) (name : String) : Prop :=
  tm.mDisabledExtensions.contains name = true ∧
  (tm.mExtensionNameToExtension.lookup name = none ∨
    tm.mExtensionNameToExtension.lookup name =
      some ({ name := "", operandTypes := [] } : Extension)) ∧
  (∀ p, tm.mExtensionNameToPrefix.lookup name = some p →
    tm.mExtensionNameToExtension.lookup name ≠ none)

/-! ## MemoryTracker: sequences of add calls -/

/-- The tracker after the calls `add(m)` for the memories of a list, in order. -/
def MemoryTracker.addAll (t : MemoryTracker) (ms : List Nat) : MemoryTracker :=
  ms.foldl (fun t m => (t.add m).2) t

/-- The trackers that a sequence of `add` calls produces from a new, empty tracker. -/
def MemoryTracker.Reachable (t : MemoryTracker) : Prop :=
  ∃ ms, t = MemoryTracker.addAll { mMemories := [], mKnown := [] } ms

/-- The tracker that holds the memories `0, 1, ..., n - 1`, added in that order. -/
def rangeTracker (n : Nat) : MemoryTracker :=
  { mMemories := List.range n, mKnown := (List.range n).map (fun i => (i, i)) }

/-! ## Counting the operands added -/

/-- The call is an `addOperand`. -/
def Call.isAddOperand : Call → Bool
  | .addOperand _ => true
  | _ => false

/-- The builders that a sequence of calls produces from a freshly constructed builder, with
the number `k` of `addOperand` calls of the sequence that returned `NO_ERROR`. -/
inductive ReachableWithOperands (env : Env) : Nat → ModelBuilder → Prop where
  | init : ReachableWithOperands env 0 {}
  | added {k : Nat} {b b1 : ModelBuilder} (tm : TypeManager)
      (type : ANeuralNetworksOperandType) : ReachableWithOperands env k b →
      b.addOperand env tm type = .ret (ANEURALNETWORKS_NO_ERROR, b1) →
      ReachableWithOperands env (k + 1) b1
  | failed {k : Nat} {b b1 : ModelBuilder} (tm : TypeManager)
      (type : ANeuralNetworksOperandType) (code : Int) : ReachableWithOperands env k b →
      b.addOperand env tm type = .ret (code, b1) → code ≠ ANEURALNETWORKS_NO_ERROR →
      ReachableWithOperands env k b1
  | other {k : Nat} {b b1 : ModelBuilder} (tm : TypeManager) (heap : Heap) (fuel : Nat)
      (call : Call) (code : Int) : ReachableWithOperands env k b →
      call.isAddOperand = false → call.run env tm heap fuel b = .ret (code, b1) →
      ReachableWithOperands env k b1

/-! ## Builders for the order of the ready set -/

/-- An OEM operation without inputs that lists operand 0 as its output 65537 times. -/
def wrapProducer : Operation :=
  { type := OperationType.OEM_OPERATION, inputs := [], outputs := List.replicate (65536 + 1) 0 }

/-- An OEM operation without outputs that lists operand 0 as its input 65536 times. -/
def wrapConsumer : Operation :=
  { type := OperationType.OEM_OPERATION, inputs := List.replicate (65535 + 1) 0, outputs := [] }

/-- The builder with one temporary operand and the operations `wrapProducer` and
`wrapConsumer`: the 32-bit counter of the unknown inputs of `wrapConsumer` is decremented
`65537 * 65536 = 2^32 + 65536` times when `wrapProducer` runs. -/
def wrapBuilder : ModelBuilder :=
  { mOperands := [tensorOperand LifeTime.TEMPORARY_VARIABLE]
    mOperations := [wrapProducer, wrapConsumer] }

/-! ## CompilationBuilder: the remaining setters (CompilationBuilder.cpp) -/

/-- Modelled from the spec: the three legal values of a compilation priority, low 90, medium
100 (the default of section 6) and high 110; the header that defines them is not among the
embedded sources. -/
def ANEURALNETWORKS_PRIORITY_LOW : Int := 90

/-- Modelled from the spec: see `ANEURALNETWORKS_PRIORITY_LOW`. -/
def ANEURALNETWORKS_PRIORITY_MEDIUM : Int := 100

/-- Modelled from the spec: see `ANEURALNETWORKS_PRIORITY_LOW`. -/
def ANEURALNETWORKS_PRIORITY_HIGH : Int := 110

/-- The result of `std::string::back()`: the last character, `none` for the empty string
(on which the call is undefined). -/
def stringBack (s : String) : Option Char := s.data.getLast?

namespace CompilationBuilder

/-- The local variable `path` of `setCaching` when it is moved into `mCacheInfo.variant`. -/
def cachePath (cacheDir : String) : String :=
  let path := cacheDir
  if path ≠ "" ∧ stringBack path ≠ some '/' then path.push '/' else path

/-- `CompilationBuilder::setCaching(cacheDir, token)`; `token` is the sequence of the
`ANEURALNETWORKS_BYTE_SIZE_OF_CACHE_TOKEN` bytes read at the pointer `token`. -/
def setCaching (c : CompilationBuilder) (cacheDir : String) (token : List Nat) :
    Int × CompilationBuilder :=
  if c.mFinished then (ANEURALNETWORKS_BAD_STATE, c)
  else
    (ANEURALNETWORKS_NO_ERROR,
      { c with
        mCacheInfo := CacheInfo.cacheDir (cachePath cacheDir)
        mToken := token
        mIsCacheInfoProvided := true })

/-- `CompilationBuilder::setCachingFromFds(modelCacheFds, numModelCacheFiles, dataCacheFds,
numDataCacheFiles, token)`. The arguments `modelCache` and `dataCache` are the results of
`createCacheHandleVec` on the two arrays of descriptors: the duplicated handles, or `none`
when `dupFd`, a function defined outside the embedded sources, fails. -/
def setCachingFromFds (c : CompilationBuilder) (modelCache dataCache : Option (List Nat))
    (token : List Nat) : Int × CompilationBuilder :=
  if c.mFinished then (ANEURALNETWORKS_BAD_STATE, c)
  else
    match modelCache with
    | none => (ANEURALNETWORKS_BAD_DATA, c)
    | some modelCache =>
      match dataCache with
      | none => (ANEURALNETWORKS_BAD_DATA, c)
      | some dataCache =>
        (ANEURALNETWORKS_NO_ERROR,
          { c with
            mCacheInfo := CacheInfo.cacheHandles modelCache dataCache
            mToken := token
            mIsCacheInfoProvided := true })

/-- `CompilationBuilder::setPriority(priority)`. -/
def setPriority (c : CompilationBuilder) (priority : Int) : Int × CompilationBuilder :=
  if c.mFinished then (ANEURALNETWORKS_BAD_STATE, c)
  else if priority ≠ ANEURALNETWORKS_PRIORITY_LOW ∧ priority ≠ ANEURALNETWORKS_PRIORITY_MEDIUM ∧
      priority ≠ ANEURALNETWORKS_PRIORITY_HIGH then (ANEURALNETWORKS_BAD_DATA, c)
  else (ANEURALNETWORKS_NO_ERROR, { c with mPriority := priority })

/-- `CompilationBuilder::addExtensionAttribute(extensionName, attributeCodeWithinExtension,
data, length)`: the status, the new compilation and the new state of the type manager.
`data` is the sequence of the `length` bytes read at the pointer `data`. -/
def addExtensionAttribute (env : Env) (tm : TypeManager) (c : CompilationBuilder)
    (extensionName : String) (attributeCodeWithinExtension : Nat) (data : List Nat) :
    Int × CompilationBuilder × TypeManager :=
  if c.mFinished then (ANEURALNETWORKS_BAD_STATE, c, tm)
  else if !c.mExplicitDeviceList || decide (c.mDevices.length ≠ 1) then
    (ANEURALNETWORKS_BAD_DATA, c, tm)
  else
    match TypeManager.getExtensionType env tm extensionName attributeCodeWithinExtension with
    | (none, tm1) => (ANEURALNETWORKS_BAD_DATA, c, tm1)
    | (some attributeToken, tm1) =>
      if c.mMetadata.any (fun entry => decide (attributeToken = entry.1)) then
        (ANEURALNETWORKS_BAD_DATA, c, tm1)
      else
        (ANEURALNETWORKS_NO_ERROR,
          { c with mMetadata := c.mMetadata ++ [(attributeToken, data)] }, tm1)

/-- One call of a member function of `CompilationBuilder` that can change the
compilation. -/
inductive Call where
  | setPreference (preference : Int)
  | setCaching (cacheDir : String) (token : List Nat)
  | setCachingFromFds (modelCache dataCache : Option (List Nat)) (token : List Nat)
  | setPriority (priority : Int)
  | setTimeoutDuration (duration : Nat)
  | addExtensionAttribute (tm : TypeManager) (extensionName : String)
      (attributeCodeWithinExtension : Nat) (data : List Nat)
  | forTest_setPartitioning (partitioning : Nat)
  | forTest_failPartitioning (fail : Int)
  | finish

/-- The status that a call returns and the compilation that it leaves. The type manager is
an argument of the call `addExtensionAttribute`: between two calls on a compilation it may
have been used by others. -/
def Call.run (cenv : CompilationEnv) (env : Env) :
    Call → CompilationBuilder → Int × CompilationBuilder
  | .setPreference preference, c => CompilationBuilder.setPreference cenv c preference
  | .setCaching cacheDir token, c => CompilationBuilder.setCaching c cacheDir token
  | .setCachingFromFds modelCache dataCache token, c =>
    CompilationBuilder.setCachingFromFds c modelCache dataCache token
  | .setPriority priority, c => CompilationBuilder.setPriority c priority
  | .setTimeoutDuration duration, c => CompilationBuilder.setTimeoutDuration c duration
  | .addExtensionAttribute tm extensionName attributeCodeWithinExtension data, c =>
    let r := CompilationBuilder.addExtensionAttribute env tm c extensionName
      attributeCodeWithinExtension data
    (r.1, r.2.1)
  | .forTest_setPartitioning partitioning, c =>
    CompilationBuilder.forTest_setPartitioning c partitioning
  | .forTest_failPartitioning fail, c => CompilationBuilder.forTest_failPartitioning c fail
  | .finish, c => CompilationBuilder.finish cenv c

/-- The compilation after a sequence of calls. -/
def runCalls (cenv : CompilationEnv) (env : Env) (calls : List Call) (c : CompilationBuilder) :
    CompilationBuilder :=
  calls.foldl (fun c call => (call.run cenv env c).2) c

/-- The compilations that a sequence of calls produces from a newly constructed one. -/
def Reachable (cenv : CompilationEnv) (env : Env) (c : CompilationBuilder) : Prop :=
  ∃ (model : ModelBuilder) (devices : List Nat) (explicitDeviceList : Bool) (calls : List Call),
    c = runCalls cenv env calls (create cenv model devices explicitDeviceList)

end CompilationBuilder

/-- The calls that add the attribute 1 of `com.example.a` to a compilation and then finish
it. -/
def attributeCalls : List CompilationBuilder.Call :=
  [CompilationBuilder.Call.addExtensionAttribute (TypeManager.initial true) "com.example.a" 1
      [1, 2],
    CompilationBuilder.Call.finish]

/-! ## Memory (Memory.cpp) -/

/-- `Memory::validateSize(offset, length)`. The argument `size` is the value of
`mHidlMemory.size()`, a 64-bit size of a class defined outside the embedded sources; the sum
of the two `uint32_t` arguments is a `uint32_t`. -/
def Memory.validateSize (size : Nat) (offset length : Nat) : Bool :=
  if (offset + length) % 2 ^ 32 > size then false else true

/-- The tokens of the metadata are pairwise distinct. -/
def CompilationBuilder.TokensDistinct (c : CompilationBuilder) : Prop :=
  (c.mMetadata.map (fun entry => entry.1)).Nodup

/-! ## The registry of operand types -/

/-- Every list of operand types in the registry is ordered by the 16-bit code. -/
def TypeManager.RegistrySorted (tm : TypeManager) : Prop :=
  ∀ e ∈ tm.mExtensionNameToExtension,
    e.2.operandTypes.Sorted (fun a b => a.type % 2 ^ 16 ≤ b.type % 2 ^ 16)

/-- An extension whose operand types the device lists out of order. -/
def extensionB : Extension :=
  { name := "com.example.b",
    operandTypes :=
      [{ type := 5, isTensor := true, byteSize := 4 },
       { type := 2, isTensor := false, byteSize := 8 },
       { type := 9, isTensor := true, byteSize := 2 }] }

/-- The type manager after a device has registered `extensionB` and the extension has been
given a prefix. -/
def extensionBTypeManager : TypeManager :=
  TypeManager.runCalls sampleEnv
    [TypeManager.Call.registerExtension extensionB "device1",
      TypeManager.Call.getExtensionPrefix "com.example.b"]
    (TypeManager.initial true)

/-- What `getNumTrailingArgumentsToRemove` returns for an operation: 0, or the count that
`countMatchingTrailingArguments` returns for a start index `start` with
`1 ≤ start < inputCount` and a tail specification that has an entry for each of the
`inputCount - start` optional inputs present. -/
def TrailingCount (env : Env) (b : ModelBuilder) (op : Operation) (n : Nat) : Prop :=
  n = 0 ∨ ∃ start tail, 1 ≤ start ∧ start < op.inputs.length ∧
    op.inputs.length - start ≤ tail.length ∧
    ModelBuilder.countMatchingTrailingArguments env start tail op b.mOperands
      b.mSmallOperandValues = .ret n

/-- The operation of the test `space_to_batch_quant8_nonzero`: `SPACE_TO_BATCH_ND` with its
three required inputs. -/
def spaceToBatchOperation : Operation :=
  { type := OperationType.SPACE_TO_BATCH_ND, inputs := [0, 1, 2], outputs := [3] }

/-- An OEM operation without inputs and outputs. -/
def noInputOperation : Operation :=
  { type := OperationType.OEM_OPERATION, inputs := [], outputs := [] }

/-! ## The values held in the inline arena -/

/-- Every operand with lifetime `CONSTANT_COPY` has pool index 0, at least one byte, a region
inside the inline arena and, unless its type is `OEM`, the length that `getSizeOfData` gave
for its type and dimensions when the value was set. -/
def ConstantCopyInv (env : Env) (b : ModelBuilder) : Prop :=
  ∀ i o, b.mOperands.get? i = some o → o.lifetime = LifeTime.CONSTANT_COPY →
    o.location.poolIndex = 0 ∧ 1 ≤ o.location.length ∧
    o.location.offset + o.location.length ≤ b.mSmallOperandValues.length ∧
    (o.type ≠ OperandType.OEM →
      ∃ tm : TypeManager, tm.getSizeOfData env o.type o.dimensions = .ret o.location.length)

/-- The operands with lifetime `CONSTANT_COPY` of the second list are operands of the first
list, at the same index, with the same lifetime, location, type and dimensions. -/
def ConstantCopiesKept (ops ops1 : List Operand) : Prop :=
  ∀ i o1, ops1.get? i = some o1 → o1.lifetime = LifeTime.CONSTANT_COPY →
    ∃ o, ops.get? i = some o ∧ o.lifetime = LifeTime.CONSTANT_COPY ∧
      o.location = o1.location ∧ o.type = o1.type ∧ o.dimensions = o1.dimensions

/-- The call does not take the inline arena of the builder to `2 ^ 32` bytes or more: true of
every call but a `setOperandValue` with a buffer of at most
`ANEURALNETWORKS_MAX_SIZE_OF_IMMEDIATELY_COPIED_VALUES` bytes, for which the size of the
arena, the padding and the length must add up to less than `2 ^ 32`. -/
def Call.keepsArenaBelow (env : Env) (b : ModelBuilder) : Call → Prop
  | .setOperandValue _ (some _) length =>
    length ≤ env.maxSizeOfImmediatelyCopiedValues →
      b.mSmallOperandValues.length +
        env.alignBytesNeeded b.mSmallOperandValues.length length + length < 2 ^ 32
  | _ => True

/-- The builders that a sequence of calls produces from a freshly constructed builder without
taking the inline arena to `2 ^ 32` bytes. -/
inductive ReachableBelow (env : Env) : ModelBuilder → Prop where
  | init : ReachableBelow env {}
  | step {b b1 : ModelBuilder} (tm : TypeManager) (heap : Heap) (fuel : Nat) (call : Call)
      (code : Int) : ReachableBelow env b → call.keepsArenaBelow env b →
      call.run env tm heap fuel b = .ret (code, b1) → ReachableBelow env b1

/-- A scalar `BOOL` operand type, as passed to `addOperand`. -/
def boolType : ANeuralNetworksOperandType :=
  { type := OperandType.BOOL, dimensionCount := 0, dimensions := none, scale := 0,
    zeroPoint := 0 }

/-- The builder after `addOperand(boolType)`, `addOperand(int32Type)` and `n + 1` calls
`setOperandValue(0, buffer, 1)` with a buffer that holds the byte 0: each call appends one
byte to the inline arena, and operand 0 refers to the last one. -/
def copiedBoolBuilder (n : Nat) : ModelBuilder :=
  { mOperands :=
      [boolOperand LifeTime.CONSTANT_COPY { poolIndex := 0, offset := n, length := 1 },
       int32Operand LifeTime.TEMPORARY_VARIABLE { poolIndex := 0, offset := 0, length := 0 }]
    mSmallOperandValues := List.replicate (n + 1) 0 }

/-- The builder `copiedBoolBuilder (2 ^ 32 - 2)`, whose arena holds `2 ^ 32 - 1` bytes, after
`setOperandValue(1, buffer, 4)` with a buffer that holds the constant 1: the arena has 4
bytes, and operand 0 still refers to the byte at offset `2 ^ 32 - 2`. -/
def wrappedArenaBuilder : ModelBuilder :=
  { mOperands :=
      [boolOperand LifeTime.CONSTANT_COPY { poolIndex := 0, offset := 4294967294, length := 1 },
       int32Operand LifeTime.CONSTANT_COPY { poolIndex := 0, offset := 0, length := 4 }]
    mSmallOperandValues := [1, 0, 0, 0] }

/-! ## Sets of builders -/

/-- The builders in existence: the builder at address `a` is `builders.get? a`. -/
structure World where
  builders : List ModelBuilder

namespace World

/-- The builders that a call can reach through a pointer. -/
def heap (w : World) : Heap := fun a => w.builders.get? a

/-- The worlds that creating builders and calling their member functions produce. A call on
the builder at address `a` sees the other builders, and the builder itself, through the
heap. The destruction of a builder is not modelled. -/
inductive Reachable (env : Env) : World → Prop where
  | init : Reachable env { builders := [] }
  | create {w : World} : Reachable env w → Reachable env { builders := w.builders ++ [{}] }
  | call {w : World} {b b1 : ModelBuilder} (a : Nat) (tm : TypeManager) (fuel : Nat)
      (call : Call) (code : Int) : Reachable env w → w.builders.get? a = some b →
      call.run env tm w.heap fuel b = .ret (code, b1) →
      Reachable env { builders := w.builders.set a b1 }

/-- The builder at address `a` holds a pointer to the builder at address `r` in
`mReferencedModels`. -/
def References (w : World) (a r : Nat) : Prop :=
  ∃ b, w.builders.get? a = some b ∧ r ∈ b.mReferencedModels

/-- Every referenced builder exists, is finished and is valid, and every builder that holds
a reference is ranked above the builder it refers to. -/
def Ranked (w : World) (rank : Nat → Nat) : Prop :=
  (∀ a r, w.References a r →
    ∃ br, w.builders.get? r = some br ∧ br.mCompletedModel = true ∧
      br.mInvalidModel = false) ∧
  ∀ a r, w.References a r → rank r < rank a

end World

/-- The world after two builders are created, the builder at address 0 is finished, and the
builder at address 1 is given an operand whose value is the builder at address 0. -/
def referenceWorld : World :=
  { builders :=
      [{ mCompletedModel := true, mSimplifyModel := true },
       { mOperands :=
           [int32Operand LifeTime.SUBGRAPH { poolIndex := 0, offset := 0, length := 0 }]
         mReferencedModels := [0]
         mReferencedSubgraphsForValidation :=
           [{ operands := [], operations := [], inputIndexes := [], outputIndexes := [] }] }] }

/-! ## TOPK_V2 (cpu_operations/TopK_V2.cpp) -/

namespace topk_v2

/-- The comparison `operator<` of `std::pair<T, int32_t>` for an integer type `T`: the
lexicographic order of value and index. -/
def pairLt (a b : Int × Int) : Prop := a.1 < b.1 ∨ (a.1 = b.1 ∧ a.2 < b.2)

instance (a b : Int × Int) : Decidable (pairLt a b) :=
  inferInstanceAs (Decidable (a.1 < b.1 ∨ (a.1 = b.1 ∧ a.2 < b.2)))

/-- The order in which `std::sort` leaves two elements: the second is not less than the
first. -/
def pairLe (a b : Int × Int) : Prop := ¬ pairLt b a

instance (a b : Int × Int) : Decidable (pairLe a b) :=
  inferInstanceAs (Decidable (¬ pairLt b a))

/-- What the C++ standard says of `std::nth_element(first, first + n, last)`, for a function
`nthElement values n` that gives the content of the range after the call: the elements are
rearranged, and no element from position `n` on is less than an element before position
`n`. -/
def NthElementContract (nthElement : List (Int × Int) → Nat → List (Int × Int)) : Prop :=
  ∀ (values : List (Int × Int)) (n : Nat),
    (nthElement values n).Perm values ∧
    ∀ p ∈ (nthElement values n).take n, ∀ q ∈ (nthElement values n).drop n, ¬ pairLt q p

/-- The first inner loop of `evalGeneric`: `values[i] = make_pair(inputData[rowBegin + i],
i)` for the elements of one row. -/
def makePairs (row : List Int) : List (Int × Int) :=
  (List.range row.length).map fun i => (row.getD i 0, (i : Int))

/-- The body of the loop of `evalGeneric` over the rows, for one row: the `k` pairs written
to the outputs, in the order in which they are written. `std::nth_element` is the parameter
`nthElement`; `std::sort` on the last `k` elements leaves them in ascending order. -/
def evalRow (nthElement : List (Int × Int) → Nat → List (Int × Int)) (row : List Int)
    (k : Nat) : List (Int × Int) :=
  let rowSize := row.length
  let values := makePairs row
  let values := nthElement values (rowSize - k)
  let values := values.take (rowSize - k) ++ (values.drop (rowSize - k)).insertionSort pairLe
  let values := values.reverse
  values.take k

/-- The loop of `evalGeneric` over the rows, from `rowBegin` on; `out` holds the values and
indices written so far through `curOutputValue` and `curOutputIndex`. `rowSize`, `totalSize`
and `rowBegin` are `int` and `k` is `int32_t`, as in the source. A read outside `inputData`
aborts, and so does an iterator `values.begin() + (rowSize - k)` outside the vector and an
overflow of `rowBegin += rowSize`. One unit of fuel per row. -/
def evalRows (nthElement : List (Int × Int) → Nat → List (Int × Int)) (inputData : List Int)
    (rowSize totalSize k : Int) : Nat → Int → List Int × List Int → Exec (List Int × List Int)
  | 0, rowBegin, out => if rowBegin < totalSize then .timeout else .ret out
  | fuel + 1, rowBegin, out =>
    if rowBegin < totalSize then
      if 0 ≤ rowBegin ∧ rowBegin + rowSize ≤ inputData.length then
        if 0 ≤ k ∧ k ≤ rowSize then
          let written :=
            evalRow nthElement ((inputData.drop rowBegin.toNat).take rowSize.toNat) k.toNat
          if rowBegin + rowSize < 2 ^ 31 then
            evalRows nthElement inputData rowSize totalSize k fuel (rowBegin + rowSize)
              (out.1 ++ written.map (fun p => p.1), out.2 ++ written.map (fun p => p.2))
          else .abort
        else .abort
      else .abort
    else .ret out

/-- `topk_v2::evalGeneric(inputData, inputShape, k, valuesData, indicesData)` for an integer
element type: the value returned and the sequences of values and of indices written to the
two output buffers. `dimensionsBack` is the `uint32_t` value `inputShape.dimensions.back()`
and `numberOfElements` the `uint32_t` value of `getNumberOfElements(inputShape)` (a function
defined outside the embedded sources); both are converted to `int` as in the source. The
vector `values(rowSize)` cannot be constructed with a negative size. -/
def evalGeneric (nthElement : List (Int × Int) → Nat → List (Int × Int))
    (inputData : List Int) (dimensionsBack numberOfElements : Nat) (k : Int) (fuel : Nat) :
    Exec (Bool × List Int × List Int) :=
  let rowSize := toInt32 dimensionsBack
  let totalSize := toInt32 numberOfElements
  if rowSize < 0 then .abort
  else
    (evalRows nthElement inputData rowSize totalSize k fuel 0 ([], [])).bind fun out =>
    .ret (true, out.1, out.2)

/-- The row `r` of an input whose last dimension has size `n`. -/
def rowOf (inputData : List Int) (n r : Nat) : List Int := (inputData.drop (r * n)).take n

/-- An implementation of `std::nth_element`: it sorts the whole range. -/
def sortingNthElement (values : List (Int × Int)) (_ : Nat) : List (Int × Int) :=
  values.insertionSort pairLe

end topk_v2

/-! ## CHANNEL_SHUFFLE (cpu_operations/ChannelShuffle.cpp) -/

namespace channel_shuffle

/-- The body of the innermost loop of `eval`, for one `j`:
`*outputBase = inputBase[innerSize * (i + j * groupSize)]`, followed by the increment
`outputBase += innerSize` of the loop header. The state is the output buffer and the offset
of `outputBase` in it; `inputBase` is the offset of the pointer `inputBase` in `inputData`.
The index is computed in `uint32_t`; an access outside a buffer aborts. -/
def copyElement (inputData : List Int) (innerSize groupSize inputBase i : Nat)
    (state : List Int × Nat) (j : Nat) : Exec (List Int × Nat) :=
  match inputData.get?
      (inputBase + innerSize * ((i + j * groupSize % 2 ^ 32) % 2 ^ 32) % 2 ^ 32) with
  | none => .abort
  | some value =>
    if state.2 < state.1.length then .ret (state.1.set state.2 value, state.2 + innerSize)
    else .abort

/-- The body of the loop over `inner`: the two pointers are set to the offset
`outer * axisSize * innerSize + inner`, computed in `uint32_t`, and the loops over `i` and
`j` run. -/
def evalInner (inputData : List Int) (axisSize innerSize groupSize numGroups outer : Nat)
    (outputData : List Int) (inner : Nat) : Exec (List Int) :=
  let base := ((outer * axisSize % 2 ^ 32) * innerSize % 2 ^ 32 + inner) % 2 ^ 32
  (Exec.foldl (fun state i =>
      Exec.foldl (copyElement inputData innerSize groupSize base i) state
        (List.range numGroups))
    (outputData, base) (List.range groupSize)).bind fun state => .ret state.1

/-- `channel_shuffle::eval(inputData, inputShape, numGroups, axis, outputData)`: the value
returned and the output buffer. `outerSize`, `axisSize` and `innerSize` are the values of the
three `uint32_t` variables of these names, which functions defined outside the embedded
sources compute from the shape and the axis; `numGroups` is the value of
`static_cast<uint32_t>(numGroups)`. A division by 0 aborts. -/
def eval (inputData : List Int) (outerSize axisSize innerSize numGroups : Nat)
    (outputData : List Int) : Exec (Bool × List Int) :=
  if numGroups = 0 then .abort
  else
    let groupSize := axisSize / numGroups
    (Exec.foldl (fun out outer =>
        Exec.foldl (evalInner inputData axisSize innerSize groupSize numGroups outer) out
          (List.range innerSize))
      outputData (List.range outerSize)).bind fun out => .ret (true, out)

/-- The offset in the input of the element that the shuffle puts at offset `p` of the
output: with `p = o * A * I + c * I + n`, `c < A` and `n < I`, the channel `c = i * G + j`
(`j < G`) receives the channel `j * (A / G) + i`. -/
def sourceOffset (axisSize innerSize numGroups p : Nat) : Nat :=
  let o := p / (axisSize * innerSize)
  let c := p / innerSize % axisSize
  let n := p % innerSize
  o * axisSize * innerSize + (c % numGroups * (axisSize / numGroups) + c / numGroups) * innerSize
    + n

/-- The output buffer holds the shuffled input at every offset that satisfies `D`. -/
def ShuffledOn (inputData : List Int) (axisSize innerSize numGroups total : Nat)
    (D : Nat → Prop) (out : List Int) : Prop :=
  out.length = total ∧
  ∀ p, D p → out.get? p = inputData.get? (sourceOffset axisSize innerSize numGroups p)

end channel_shuffle

/-- The offsets of the output written before the iteration of `eval` with the counters
`outer = o`, `inner = n` and `i * numGroups + j = t`: those of the earlier values of `outer`,
those of the earlier values of `inner`, and those of the earlier values of `i` and `j`. -/
def channel_shuffle.doneBefore (A I o n t : Nat) (p : Nat) : Prop :=
  (∃ o1 n1 t1, o1 < o ∧ n1 < I ∧ t1 < A ∧ p = o1 * A * I + t1 * I + n1) ∨
  (∃ n1 t1, n1 < n ∧ t1 < A ∧ p = o * A * I + t1 * I + n1) ∨
  (∃ t1, t1 < t ∧ p = o * A * I + t1 * I + n)

/-! ## Builders with a cycle -/

/-- The calls that build the cycle X, Y with a second writer of operand 2: operation X
consumes operands 0 and 2 and produces operand 1, operation Y consumes operand 1 and
produces operand 2, operation W consumes operand 0 and produces operand 2 as well; operand 0
is the input of the model. -/
def rewrittenCycleCalls : List Call :=
  [.addOperand tensorType, .addOperand tensorType, .addOperand tensorType,
   .addOperation 0 2 (some [0, 2]) 1 (some [1]),
   .addOperation 19 1 (some [1]) 1 (some [2]),
   .addOperation 19 1 (some [0]) 1 (some [2]),
   .identifyInputsAndOutputs 1 (some [0]) 0 none]

/-- The builder after `rewrittenCycleCalls`. -/
def rewrittenCycleBuilder : ModelBuilder :=
  { mOperands :=
      [tensorOperand LifeTime.SUBGRAPH_INPUT, tensorOperand LifeTime.TEMPORARY_VARIABLE,
       tensorOperand LifeTime.TEMPORARY_VARIABLE]
    mOperations :=
      [{ type := 0, inputs := [0, 2], outputs := [1] },
       { type := 19, inputs := [1], outputs := [2] },
       { type := 19, inputs := [0], outputs := [2] }]
    mInputIndexes := [0] }

/-- The builder `rewrittenCycleBuilder` as `sortIntoRunOrder` leaves it: the run order is
W, X, Y. -/
def rewrittenCycleSorted : ModelBuilder :=
  { rewrittenCycleBuilder with
    mOperations :=
      [{ type := 19, inputs := [0], outputs := [2] },
       { type := 0, inputs := [0, 2], outputs := [1] },
       { type := 19, inputs := [1], outputs := [2] }]
    mSortedOperationIndexMap := [2, 0, 1] }

/-- The calls that build the cycle X, Y of `cycleCalls` next to an operand of 132 bytes that
is given a value from a client buffer and then no value. -/
def cycleResetCalls : List Call :=
  [.addOperand tensorType, .addOperand tensorType, .addOperand tensorType,
   .addOperand largeTensorType,
   .setOperandValue 3 (some { addr := 1, bytes := List.replicate 132 7 }) 132,
   .setOperandValue 3 none 0,
   .addOperation 0 2 (some [0, 2]) 1 (some [1]),
   .addOperation 19 1 (some [1]) 1 (some [2]),
   .identifyInputsAndOutputs 1 (some [0]) 0 none]

/-- The builder after `cycleResetCalls`: the deferred value is still recorded. -/
def cycleResetBuilder : ModelBuilder :=
  { mOperands :=
      [tensorOperand LifeTime.SUBGRAPH_INPUT, tensorOperand LifeTime.TEMPORARY_VARIABLE,
       tensorOperand LifeTime.TEMPORARY_VARIABLE,
       largeTensorOperand LifeTime.NO_VALUE { poolIndex := 0, offset := 0, length := 0 }]
    mOperations :=
      [{ type := 0, inputs := [0, 2], outputs := [1] },
       { type := 19, inputs := [1], outputs := [2] }]
    mInputIndexes := [0]
    mLargeOperandValues :=
      [{ operandIndex := 3, buffer := { addr := 1, bytes := List.replicate 132 7 } }] }

/-- The calls that build the third scenario of section 8. -/
def scenarioThreeCalls : List Call :=
  [.addOperand tensorType, .addOperand tensorType, .addOperand tensorType,
   .addOperand tensorType,
   .addOperation 0 2 (some [0, 2]) 1 (some [1]),
   .addOperation 19 1 (some [1]) 1 (some [2]),
   .addOperation 19 1 (some [2]) 1 (some [3]),
   .addOperation 19 1 (some [1]) 1 (some [2]),
   .identifyInputsAndOutputs 1 (some [0]) 1 (some [3])]

/-- An OEM operation without inputs that lists operand 0 as its output 131073 times. -/
def wrapTwiceProducer : Operation :=
  { type := OperationType.OEM_OPERATION, inputs := [],
    outputs := List.replicate (131072 + 1) 0 }

/-- An OEM operation that consumes and produces operand 1: a cycle of length one. -/
def selfLoopOperation : Operation :=
  { type := OperationType.OEM_OPERATION, inputs := [1], outputs := [1] }

/-- The builder with two temporary operands and the operations `wrapTwiceProducer`,
`wrapConsumer` and `selfLoopOperation`: the 32-bit counter of the unknown inputs of
`wrapConsumer` is decremented `131073 * 65536 = 2 * 2^32 + 65536` times when
`wrapTwiceProducer` runs, and `selfLoopOperation` feeds itself. It is built by two
`addOperand` calls and one `addOperation` call for each operation. -/
def wrapCycleBuilder : ModelBuilder :=
  { mOperands :=
      [tensorOperand LifeTime.TEMPORARY_VARIABLE, tensorOperand LifeTime.TEMPORARY_VARIABLE]
    mOperations := [wrapTwiceProducer, wrapConsumer, selfLoopOperation]
    mHasOEMOperation := true }

/-! # Theorems -/

open ModelBuilder

/-! ## Outcomes -/

theorem Exec.bind_eq_ret {α β : Type} {x : Exec α} {f : α → Exec β} {r : β} :
    x.bind f = .ret r ↔ ∃ a, x = .ret a ∧ f a = .ret r := by
  cases x <;> simp [Exec.bind]

theorem failsClean_err (b : ModelBuilder) (c : Int) : FailsClean b (.ret (c, b)) := by
  intro code b1 h _; injection h with h; injection h with _ h2; exact h2.symm

theorem failsClean_ok (b b2 : ModelBuilder) :
    FailsClean b (.ret (ANEURALNETWORKS_NO_ERROR, b2)) := by
  intro code b1 h hne; injection h with h; injection h with h1 _; exact absurd h1.symm hne

theorem failsClean_abort (b : ModelBuilder) : FailsClean b .abort := by
  intro code b1 h; cases h

theorem failsClean_timeout (b : ModelBuilder) : FailsClean b .timeout := by
  intro code b1 h; cases h

theorem failsClean_bind {α : Type} (b : ModelBuilder) (x : Exec α)
    (f : α → Exec (Int × ModelBuilder)) (h : ∀ a, FailsClean b (f a)) :
    FailsClean b (x.bind f) := by
  cases x with
  | ret a => exact h a
  | abort => exact failsClean_abort b
  | timeout => exact failsClean_timeout b

/-! ## Failed calls that leave the builder unchanged -/

theorem addOperand_failsClean (env : Env) (tm : TypeManager) (b : ModelBuilder)
    (type : ANeuralNetworksOperandType) : FailsClean b (b.addOperand env tm type) := by
  unfold ModelBuilder.addOperand
  repeat' first
    | apply failsClean_err
    | apply failsClean_ok
    | (apply failsClean_bind; intro _)
    | (dsimp only)
    | split

theorem setOperandValue_failsClean (env : Env) (tm : TypeManager) (b : ModelBuilder)
    (index : Nat) (buffer : Option Buffer) (length : Nat) :
    FailsClean b (b.setOperandValue env tm index buffer length) := by
  unfold ModelBuilder.setOperandValue
  repeat' first
    | apply failsClean_err
    | apply failsClean_ok
    | apply failsClean_abort
    | (apply failsClean_bind; intro _)
    | (dsimp only)
    | split

theorem setOperandValueFromMemory_failsClean (env : Env) (tm : TypeManager) (b : ModelBuilder)
    (index memory offset length : Nat) :
    FailsClean b (b.setOperandValueFromMemory env tm index memory offset length) := by
  unfold ModelBuilder.setOperandValueFromMemory
  repeat' first
    | apply failsClean_err
    | apply failsClean_ok
    | apply failsClean_abort
    | (apply failsClean_bind; intro _)
    | (dsimp only)
    | split

theorem setOperandValueFromModel_failsClean (env : Env) (tm : TypeManager) (heap : Heap)
    (fuel : Nat) (b : ModelBuilder) (index value : Nat) :
    FailsClean b (b.setOperandValueFromModel env tm heap fuel index value) := by
  unfold ModelBuilder.setOperandValueFromModel
  repeat' first
    | apply failsClean_err
    | apply failsClean_ok
    | apply failsClean_abort
    | (apply failsClean_bind; intro _)
    | (dsimp only)
    | split

theorem setOperandSymmPerChannelQuantParams_failsClean (env : Env) (b : ModelBuilder)
    (index : Nat) (channelQuant : ANeuralNetworksSymmPerChannelQuantParams) :
    FailsClean b (b.setOperandSymmPerChannelQuantParams env index channelQuant) := by
  unfold ModelBuilder.setOperandSymmPerChannelQuantParams
  repeat' first
    | apply failsClean_err
    | apply failsClean_ok
    | apply failsClean_abort
    | (dsimp only)
    | split

theorem setOperandExtensionData_failsClean (env : Env) (b : ModelBuilder)
    (index : Nat) (data : Option (List Nat)) (length : Nat) :
    FailsClean b (b.setOperandExtensionData env index data length) := by
  unfold ModelBuilder.setOperandExtensionData
  repeat' first
    | apply failsClean_err
    | apply failsClean_ok
    | apply failsClean_abort
    | (dsimp only)
    | split

theorem addOperation_failsClean (env : Env) (tm : TypeManager) (b : ModelBuilder)
    (type inputCount : Nat) (inputs : Option (List Nat)) (outputCount : Nat)
    (outputs : Option (List Nat)) :
    FailsClean b (b.addOperation env tm type inputCount inputs outputCount outputs) := by
  unfold ModelBuilder.addOperation
  repeat' first
    | apply failsClean_err
    | apply failsClean_ok
    | (dsimp only)
    | split

theorem badState_of_flag {b : ModelBuilder}
    (h : b.mCompletedModel = true ∨ b.mInvalidModel = true) : b.badState = true := by
  unfold ModelBuilder.badState
  rcases h with h | h <;> simp [h]

/-! ## Lifetimes across a call -/

theorem allowed_refl (a : LifeTime) : AllowedLifetimeChange a a := Or.inl rfl

theorem allowed_trans {a b c : LifeTime} (h1 : AllowedLifetimeChange a b)
    (h2 : AllowedLifetimeChange b c) : AllowedLifetimeChange a c := by
  unfold AllowedLifetimeChange at *
  rcases h2 with h2 | h2 | ⟨h2, h3⟩
  · subst h2; exact h1
  · exact Or.inr (Or.inl h2)
  · subst h2
    rcases h1 with h1 | h1 | ⟨_, h1⟩
    · exact Or.inr (Or.inr ⟨h1.symm, h3⟩)
    · rcases h1 with h | h | h | h <;> cases h
    · rcases h1 with h | h <;> cases h

theorem lifetimesStep_refl (ops : List Operand) : LifetimesStep ops ops :=
  fun _ o h => ⟨o, h, allowed_refl _⟩

theorem lifetimesStep_trans {a b c : List Operand} (h1 : LifetimesStep a b)
    (h2 : LifetimesStep b c) : LifetimesStep a c := by
  intro i o h
  obtain ⟨o1, h3, h4⟩ := h1 i o h
  obtain ⟨o2, h5, h6⟩ := h2 i o1 h3
  exact ⟨o2, h5, allowed_trans h4 h6⟩

theorem lifetimesStep_set {ops : List Operand} {idx : Nat} {o o1 : Operand}
    (h : ops.get? idx = some o) (ha : AllowedLifetimeChange o.lifetime o1.lifetime) :
    LifetimesStep ops (ops.set idx o1) := by
  intro i x hx
  by_cases hi : idx = i
  · subst hi
    rw [h] at hx; injection hx with hx; subst hx
    refine ⟨o1, ?_, ha⟩
    have hlt : idx < ops.length := by
      rw [List.get?_eq_getElem?] at h
      exact (List.getElem?_eq_some_iff.mp h).1
    simp [List.getElem?_set, hlt]
  · refine ⟨x, ?_, allowed_refl _⟩
    rw [List.get?_eq_getElem?] at hx ⊢
    rw [List.getElem?_set_ne hi]; exact hx

theorem lifetimesStep_append (ops l : List Operand) : LifetimesStep ops (ops ++ l) := by
  intro i o h
  refine ⟨o, ?_, allowed_refl _⟩
  rw [List.get?_eq_getElem?] at h ⊢
  have hlt : i < ops.length := (List.getElem?_eq_some_iff.mp h).1
  rw [List.getElem?_append_left hlt]; exact h

theorem lifetimesStep_of_map_eq {ops ops1 : List Operand}
    (h : ops1.map (fun o => o.lifetime) = ops.map (fun o => o.lifetime)) :
    LifetimesStep ops ops1 := by
  intro i o hi
  rw [List.get?_eq_getElem?] at hi
  have h1 : (ops1.map (fun o => o.lifetime))[i]? = some o.lifetime := by
    rw [h]; simp [hi]
  rw [List.getElem?_map] at h1
  cases h2 : ops1[i]? with
  | none => simp [h2] at h1
  | some o1 =>
    simp [h2] at h1
    exact ⟨o1, by simpa using h2, Or.inl h1⟩

theorem keeps_ret (b b1 : ModelBuilder) (c : Int)
    (h : LifetimesStep b.mOperands b1.mOperands) : KeepsLifetimes b (.ret (c, b1)) := by
  intro code b2 h2; injection h2 with h2; injection h2 with _ h3; subst h3; exact h

theorem keeps_abort (b : ModelBuilder) : KeepsLifetimes b .abort := by
  intro code b1 h; cases h

theorem keeps_timeout (b : ModelBuilder) : KeepsLifetimes b .timeout := by
  intro code b1 h; cases h

theorem keeps_bind {α : Type} (b : ModelBuilder) (x : Exec α)
    (f : α → Exec (Int × ModelBuilder)) (h : ∀ a, KeepsLifetimes b (f a)) :
    KeepsLifetimes b (x.bind f) := by
  cases x with
  | ret a => exact h a
  | abort => exact keeps_abort b
  | timeout => exact keeps_timeout b

theorem addOperand_keeps (env : Env) (tm : TypeManager) (b : ModelBuilder)
    (type : ANeuralNetworksOperandType) : KeepsLifetimes b (b.addOperand env tm type) := by
  unfold ModelBuilder.addOperand
  repeat' first
    | (apply keeps_ret; first | exact lifetimesStep_refl _ | exact lifetimesStep_append _ _)
    | (apply keeps_bind; intro _)
    | (dsimp only)
    | split

theorem setOperandValue_keeps (env : Env) (tm : TypeManager) (b : ModelBuilder)
    (index : Nat) (buffer : Option Buffer) (length : Nat) :
    KeepsLifetimes b (b.setOperandValue env tm index buffer length) := by
  unfold ModelBuilder.setOperandValue
  repeat' first
    | (apply keeps_ret; first
        | exact lifetimesStep_refl _
        | (apply lifetimesStep_set (by assumption); simp [AllowedLifetimeChange]))
    | apply keeps_abort
    | (apply keeps_bind; intro _)
    | (dsimp only)
    | split

theorem setOperandValueFromMemory_keeps (env : Env) (tm : TypeManager) (b : ModelBuilder)
    (index memory offset length : Nat) :
    KeepsLifetimes b (b.setOperandValueFromMemory env tm index memory offset length) := by
  unfold ModelBuilder.setOperandValueFromMemory
  repeat' first
    | (apply keeps_ret; first
        | exact lifetimesStep_refl _
        | (apply lifetimesStep_set (by assumption); simp [AllowedLifetimeChange]))
    | apply keeps_abort
    | (apply keeps_bind; intro _)
    | (dsimp only)
    | split

theorem setOperandValueFromModel_keeps (env : Env) (tm : TypeManager) (heap : Heap)
    (fuel : Nat) (b : ModelBuilder) (index value : Nat) :
    KeepsLifetimes b (b.setOperandValueFromModel env tm heap fuel index value) := by
  unfold ModelBuilder.setOperandValueFromModel
  repeat' first
    | (apply keeps_ret; first
        | exact lifetimesStep_refl _
        | (apply lifetimesStep_set (by assumption); simp [AllowedLifetimeChange]))
    | apply keeps_abort
    | (apply keeps_bind; intro _)
    | (dsimp only)
    | split

theorem setOperandSymmPerChannelQuantParams_keeps (env : Env) (b : ModelBuilder)
    (index : Nat) (channelQuant : ANeuralNetworksSymmPerChannelQuantParams) :
    KeepsLifetimes b (b.setOperandSymmPerChannelQuantParams env index channelQuant) := by
  unfold ModelBuilder.setOperandSymmPerChannelQuantParams
  repeat' first
    | (apply keeps_ret; first
        | exact lifetimesStep_refl _
        | (apply lifetimesStep_set (by assumption); simp [AllowedLifetimeChange]))
    | apply keeps_abort
    | (dsimp only)
    | split

theorem setOperandExtensionData_keeps (env : Env) (b : ModelBuilder)
    (index : Nat) (data : Option (List Nat)) (length : Nat) :
    KeepsLifetimes b (b.setOperandExtensionData env index data length) := by
  unfold ModelBuilder.setOperandExtensionData
  repeat' first
    | (apply keeps_ret; first
        | exact lifetimesStep_refl _
        | (apply lifetimesStep_set (by assumption); simp [AllowedLifetimeChange]))
    | apply keeps_abort
    | (dsimp only)
    | split

theorem addOperation_keeps (env : Env) (tm : TypeManager) (b : ModelBuilder)
    (type inputCount : Nat) (inputs : Option (List Nat)) (outputCount : Nat)
    (outputs : Option (List Nat)) :
    KeepsLifetimes b (b.addOperation env tm type inputCount inputs outputCount outputs) := by
  unfold ModelBuilder.addOperation
  repeat' first
    | (apply keeps_ret; exact lifetimesStep_refl _)
    | (dsimp only)
    | split

theorem setArgumentsLoop_keeps (lifetime : LifeTime)
    (hl : lifetime = LifeTime.SUBGRAPH_INPUT ∨ lifetime = LifeTime.SUBGRAPH_OUTPUT)
    (vals : List Nat) : ∀ (i : Nat) (vec : List Nat) (operands : List Operand),
    LifetimesStep operands (setArgumentsLoop lifetime i vals vec operands).2.2 := by
  induction vals with
  | nil => intro i vec operands; exact lifetimesStep_refl _
  | cons v rest ih =>
    intro i vec operands
    unfold ModelBuilder.setArgumentsLoop
    split
    · exact lifetimesStep_refl _
    · dsimp only
      split
      · exact lifetimesStep_refl _
      · rename_i operand hop
        split
        · exact lifetimesStep_refl _
        · rename_i hlt
          have hlt2 : operand.lifetime = LifeTime.TEMPORARY_VARIABLE := by
            simpa using hlt
          refine lifetimesStep_trans (lifetimesStep_set hop ?_) (ih _ _ _)
          exact Or.inr (Or.inr ⟨hlt2, hl⟩)

theorem identifyInputsAndOutputs_keeps (env : Env) (b : ModelBuilder) (inputCount : Nat)
    (inputs : Option (List Nat)) (outputCount : Nat) (outputs : Option (List Nat)) :
    KeepsLifetimes b (b.identifyInputsAndOutputs env inputCount inputs outputCount outputs) := by
  have h1 : LifetimesStep b.mOperands
      (setArguments b.mInputIndexes b.mOperands inputCount inputs LifeTime.SUBGRAPH_INPUT).2.2 :=
    setArgumentsLoop_keeps _ (Or.inl rfl) _ _ _ _
  unfold ModelBuilder.identifyInputsAndOutputs
  repeat' first
    | (apply keeps_ret; first
        | exact lifetimesStep_refl _
        | exact h1
        | exact lifetimesStep_trans h1 (setArgumentsLoop_keeps _ (Or.inr rfl) _ _ _ _))
    | (dsimp only)
    | split

theorem relax_keeps (b : ModelBuilder) (allow : Bool) :
    KeepsLifetimes b (b.relaxComputationFloat32toFloat16 allow) := by
  unfold ModelBuilder.relaxComputationFloat32toFloat16
  split <;> exact keeps_ret _ _ _ (lifetimesStep_refl _)

theorem map_lifetime_set {ops : List Operand} {idx : Nat} {o o1 : Operand}
    (h : ops.get? idx = some o) (hl : o1.lifetime = o.lifetime) :
    (ops.set idx o1).map (fun x => x.lifetime) = ops.map (fun x => x.lifetime) := by
  rw [List.map_set]
  apply List.ext_getElem?
  intro i
  rw [List.get?_eq_getElem?] at h
  by_cases hi : idx = i
  · subst hi
    obtain ⟨hlt, hget⟩ := List.getElem?_eq_some_iff.mp h
    simp [List.getElem?_set, hlt, hl, hget]
  · rw [List.getElem?_set_ne hi]

theorem assignLargeValueOffsets_lifetimes (env : Env) (l : List LargeValue) :
    ∀ (poolSize : Nat) (ops : List Operand) (r : Nat × List Operand),
      assignLargeValueOffsets env l poolSize ops = .ret r →
      r.2.map (fun x => x.lifetime) = ops.map (fun x => x.lifetime) := by
  induction l with
  | nil =>
    intro p ops r h
    simp [assignLargeValueOffsets] at h
    subst h; rfl
  | cons x rest ih =>
    intro p ops r h
    unfold assignLargeValueOffsets at h
    split at h
    · cases h
    · rename_i operand hop
      split at h
      · cases h
      · rw [ih _ _ _ h]
        exact map_lifetime_set hop rfl

theorem copyLargeValues_lifetimes (poolIndex : Nat) (l : List LargeValue) :
    ∀ (pool : List Nat) (ops : List Operand) (r : List Nat × List Operand),
      copyLargeValues poolIndex l pool ops = .ret r →
      r.2.map (fun x => x.lifetime) = ops.map (fun x => x.lifetime) := by
  induction l with
  | nil =>
    intro p ops r h
    simp [copyLargeValues] at h
    subst h; rfl
  | cons x rest ih =>
    intro p ops r h
    unfold copyLargeValues at h
    split at h
    · cases h
    · rename_i operand hop
      dsimp only at h
      split at h
      · rw [ih _ _ _ h]
        exact map_lifetime_set hop rfl
      · cases h

/-- What `copyLargeValuesToSharedMemory` leaves alone. -/
theorem copyLargeValuesToSharedMemory_frame (env : Env) (b : ModelBuilder) (n : Int)
    (b1 : ModelBuilder) (h : copyLargeValuesToSharedMemory env b = .ret (n, b1)) :
    b1.mOperands.map (fun x => x.lifetime) = b.mOperands.map (fun x => x.lifetime) ∧
    b1.mOperations = b.mOperations ∧
    b1.mSortedOperationIndexMap = b.mSortedOperationIndexMap ∧
    b1.mSimplifyModel = b.mSimplifyModel ∧
    b1.mCompletedModel = b.mCompletedModel ∧
    b1.mInvalidModel = b.mInvalidModel ∧
    b1.mInputIndexes = b.mInputIndexes ∧
    b1.mOutputIndexes = b.mOutputIndexes ∧
    b1.mSmallOperandValues = b.mSmallOperandValues := by
  unfold copyLargeValuesToSharedMemory at h
  split at h
  · injection h with h; injection h with _ h; subst h; simp
  · rw [Exec.bind_eq_ret] at h
    obtain ⟨r1, h1, h⟩ := h
    have e1 := assignLargeValueOffsets_lifetimes env _ _ _ _ h1
    dsimp only at h
    split at h
    · injection h with h; injection h with _ h; subst h; simp [e1]
    · split at h
      · cases h
      · rw [Exec.bind_eq_ret] at h
        obtain ⟨r2, h2, h⟩ := h
        have e2 := copyLargeValues_lifetimes _ _ _ _ _ h2
        injection h with h; injection h with _ h; subst h
        simp [e2, e1]

/-- What `sortIntoRunOrder` leaves alone. -/
theorem sortIntoRunOrder_frame (fuel : Nat) (b : ModelBuilder) (ok : Bool) (b1 : ModelBuilder)
    (h : sortIntoRunOrder fuel b = .ret (ok, b1)) :
    b1 = b ∨ ∃ runOrder sortedMap, ok = true ∧ runOrder.length = b.mOperations.length ∧
      b1 = { b with mSortedOperationIndexMap := sortedMap, mOperations := runOrder } := by
  unfold sortIntoRunOrder at h
  split at h
  · injection h with h; injection h with _ h; exact Or.inl h.symm
  · rw [Exec.bind_eq_ret] at h
    obtain ⟨s, _, h⟩ := h
    rw [Exec.bind_eq_ret] at h
    obtain ⟨r, _, h⟩ := h
    dsimp only at h
    split at h
    · split at h
      · injection h with h; injection h with _ h; exact Or.inl h.symm
      · cases h
    · rename_i hlen
      injection h with h; injection h with h1 h2
      exact Or.inr ⟨r.1, r.2, h1.symm, by simpa using hlen, h2.symm⟩

theorem removeTrailingArgumentsWithDefaultValues_frame (env : Env) (b b1 : ModelBuilder)
    (h : removeTrailingArgumentsWithDefaultValues env b = .ret b1) :
    ∃ ops, b1 = { b with mOperations := ops } := by
  unfold removeTrailingArgumentsWithDefaultValues at h
  rw [Exec.bind_eq_ret] at h
  obtain ⟨ops, _, h⟩ := h
  injection h with h
  exact ⟨ops, h.symm⟩

/-- The ways in which `finish` returns. -/
theorem finish_cases (env : Env) (tm : TypeManager) (heap : Heap) (fuel : Nat)
    (b : ModelBuilder) (code : Int) (b1 : ModelBuilder)
    (h : b.finish env tm heap fuel = .ret (code, b1)) :
    ((b.mCompletedModel = true ∨ b.mInvalidModel = true) ∧
      code = ANEURALNETWORKS_BAD_STATE ∧ b1 = b) ∨
    (b.mCompletedModel = false ∧ b.mInvalidModel = false ∧
      code ≠ ANEURALNETWORKS_NO_ERROR ∧ copyLargeValuesToSharedMemory env b = .ret (code, b1)) ∨
    (b.mCompletedModel = false ∧ b.mInvalidModel = false ∧ ∃ c s,
      copyLargeValuesToSharedMemory env b = .ret (ANEURALNETWORKS_NO_ERROR, c) ∧
      sortIntoRunOrder fuel c = .ret (false, s) ∧
      code = ANEURALNETWORKS_BAD_DATA ∧ b1 = { s with mInvalidModel := true }) ∨
    (b.mCompletedModel = false ∧ b.mInvalidModel = false ∧ ∃ c s m,
      copyLargeValuesToSharedMemory env b = .ret (ANEURALNETWORKS_NO_ERROR, c) ∧
      sortIntoRunOrder fuel c = .ret (true, s) ∧
      makeModel env tm heap fuel s = .ret m ∧
      (env.validate m = none ∨
        ∃ v, env.validate m = some v ∧ env.isCompliantVersion v env.runtimeVersion = false) ∧
      code = ANEURALNETWORKS_BAD_DATA ∧ b1 = { s with mInvalidModel := true }) ∨
    (b.mCompletedModel = false ∧ b.mInvalidModel = false ∧ ∃ c s m v t hash,
      copyLargeValuesToSharedMemory env b = .ret (ANEURALNETWORKS_NO_ERROR, c) ∧
      sortIntoRunOrder fuel c = .ret (true, s) ∧
      makeModel env tm heap fuel s = .ret m ∧
      env.validate m = some v ∧ env.isCompliantVersion v env.runtimeVersion = true ∧
      removeTrailingArgumentsWithDefaultValues env s = .ret t ∧
      env.calcModelArchHash m = some hash ∧
      code = ANEURALNETWORKS_NO_ERROR ∧
      b1 = { simplifyModel t with mCompletedModel := true, mModelArchHash := hash }) := by
  unfold ModelBuilder.finish at h
  split at h
  · rename_i hc
    injection h with h; injection h with h1 h2
    exact Or.inl ⟨Or.inl hc, h1.symm, h2.symm⟩
  · rename_i hc
    split at h
    · rename_i hi
      injection h with h; injection h with h1 h2
      exact Or.inl ⟨Or.inr hi, h1.symm, h2.symm⟩
    · rename_i hi
      have hc1 : b.mCompletedModel = false := by simpa using hc
      have hi1 : b.mInvalidModel = false := by simpa using hi
      right
      rw [Exec.bind_eq_ret] at h
      obtain ⟨c, hcopy, h⟩ := h
      split at h
      · rename_i hn
        injection h with h; injection h with h1 h2
        left
        refine ⟨hc1, hi1, ?_, ?_⟩
        · rw [← h1]; exact hn
        · rw [hcopy, ← h1, ← h2]
      · rename_i hn
        have hn1 : c.1 = ANEURALNETWORKS_NO_ERROR := by simpa using hn
        have hcopy1 : copyLargeValuesToSharedMemory env b =
            .ret (ANEURALNETWORKS_NO_ERROR, c.2) := by rw [hcopy, ← hn1]
        right
        rw [Exec.bind_eq_ret] at h
        obtain ⟨s, hsort, h⟩ := h
        split at h
        · rename_i hs
          injection h with h; injection h with h1 h2
          left
          refine ⟨hc1, hi1, c.2, s.2, hcopy1, ?_, h1.symm, h2.symm⟩
          have : s.1 = false := by simpa using hs
          rw [hsort, ← this]
        · rename_i hs
          have hs1 : s.1 = true := by simpa using hs
          have hsort1 : sortIntoRunOrder fuel c.2 = .ret (true, s.2) := by
            rw [hsort, ← hs1]
          right
          rw [Exec.bind_eq_ret] at h
          obtain ⟨m, hm, h⟩ := h
          split at h
          · rename_i hv
            injection h with h; injection h with h1 h2
            left
            exact ⟨hc1, hi1, c.2, s.2, m, hcopy1, hsort1, hm, Or.inl hv, h1.symm, h2.symm⟩
          · rename_i v hv
            split at h
            · rename_i hcomp
              injection h with h; injection h with h1 h2
              left
              refine ⟨hc1, hi1, c.2, s.2, m, hcopy1, hsort1, hm, Or.inr ⟨v, hv, ?_⟩,
                h1.symm, h2.symm⟩
              simpa using hcomp
            · rename_i hcomp
              right
              rw [Exec.bind_eq_ret] at h
              obtain ⟨t, ht, h⟩ := h
              dsimp only at h
              split at h
              · cases h
              · rename_i hash hh
                injection h with h; injection h with h1 h2
                refine ⟨hc1, hi1, c.2, s.2, m, v, t, hash, hcopy1, hsort1, hm, hv, ?_, ht, hh,
                  h1.symm, h2.symm⟩
                simpa using hcomp

theorem finish_keeps (env : Env) (tm : TypeManager) (heap : Heap) (fuel : Nat)
    (b : ModelBuilder) : KeepsLifetimes b (b.finish env tm heap fuel) := by
  intro code b1 h
  have hsort : ∀ c ok s, sortIntoRunOrder fuel c = .ret (ok, s) → s.mOperands = c.mOperands := by
    intro c ok s hs
    rcases sortIntoRunOrder_frame fuel c ok s hs with h1 | ⟨_, _, _, _, h1⟩ <;> rw [h1]
  rcases finish_cases env tm heap fuel b code b1 h with
    ⟨_, _, h1⟩ | ⟨_, _, _, h1⟩ | ⟨_, _, c, s, h1, h2, _, h3⟩ |
    ⟨_, _, c, s, m, h1, h2, _, _, _, h3⟩ | ⟨_, _, c, s, m, v, t, hash, h1, h2, _, _, _, h4, _, _, h3⟩
  · rw [h1]; exact lifetimesStep_refl _
  · exact lifetimesStep_of_map_eq (copyLargeValuesToSharedMemory_frame env b _ _ h1).1
  · apply lifetimesStep_of_map_eq
    rw [h3]
    show s.mOperands.map _ = _
    rw [hsort _ _ _ h2]
    exact (copyLargeValuesToSharedMemory_frame env b _ _ h1).1
  · apply lifetimesStep_of_map_eq
    rw [h3]
    show s.mOperands.map _ = _
    rw [hsort _ _ _ h2]
    exact (copyLargeValuesToSharedMemory_frame env b _ _ h1).1
  · apply lifetimesStep_of_map_eq
    obtain ⟨ops, ht⟩ := removeTrailingArgumentsWithDefaultValues_frame env s t h4
    rw [h3, ht]
    show s.mOperands.map _ = _
    rw [hsort _ _ _ h2]
    exact (copyLargeValuesToSharedMemory_frame env b _ _ h1).1

theorem run_keeps (env : Env) (tm : TypeManager) (heap : Heap) (fuel : Nat) (call : Call)
    (b : ModelBuilder) : KeepsLifetimes b (call.run env tm heap fuel b) := by
  cases call with
  | addOperand type => exact addOperand_keeps env tm b type
  | setOperandValue index buffer length => exact setOperandValue_keeps env tm b index buffer length
  | setOperandValueFromMemory index memory offset length =>
    exact setOperandValueFromMemory_keeps env tm b index memory offset length
  | setOperandValueFromModel index value =>
    exact setOperandValueFromModel_keeps env tm heap fuel b index value
  | setOperandSymmPerChannelQuantParams index channelQuant =>
    exact setOperandSymmPerChannelQuantParams_keeps env b index channelQuant
  | setOperandExtensionData index data length =>
    exact setOperandExtensionData_keeps env b index data length
  | addOperation type inputCount inputs outputCount outputs =>
    exact addOperation_keeps env tm b type inputCount inputs outputCount outputs
  | identifyInputsAndOutputs inputCount inputs outputCount outputs =>
    exact identifyInputsAndOutputs_keeps env b inputCount inputs outputCount outputs
  | relaxComputationFloat32toFloat16 allow => exact relax_keeps b allow
  | finish => exact finish_keeps env tm heap fuel b

/-! ## Claims about failed calls and about the state check -/

/-- C10: on a builder that is finished (`mCompletedModel`) or invalid (`mInvalidModel`),
every one of the ten mutating calls, `finish` included, returns `BAD_STATE` whatever its
arguments and leaves the builder state unchanged. -/
theorem C10_bad_state_rejects_every_call (env : Env) (tm : TypeManager) (heap : Heap)
    (fuel : Nat) (call : Call) (b : ModelBuilder)
    (h : b.mCompletedModel = true ∨ b.mInvalidModel = true) :
    call.run env tm heap fuel b = .ret (ANEURALNETWORKS_BAD_STATE, b) := by
  have hb := badState_of_flag h
  cases call <;>
    simp only [Call.run, ModelBuilder.addOperand, ModelBuilder.setOperandValue,
      ModelBuilder.setOperandValueFromMemory, ModelBuilder.setOperandValueFromModel,
      ModelBuilder.setOperandSymmPerChannelQuantParams, ModelBuilder.setOperandExtensionData,
      ModelBuilder.addOperation, ModelBuilder.identifyInputsAndOutputs,
      ModelBuilder.relaxComputationFloat32toFloat16, hb, if_true]
  unfold ModelBuilder.finish
  rcases h with h | h
  · simp [h]
  · by_cases hc : b.mCompletedModel = true <;> simp [h, hc]

/-- C10 at a concrete input: `addOperand` on a finished builder. -/
theorem C10_bad_state_rejects_every_call_witness :
    (finishedBuilder.mCompletedModel = true ∨ finishedBuilder.mInvalidModel = true) ∧
    (Call.addOperand int32Type).run sampleEnv sampleTypeManager emptyHeap 0 finishedBuilder =
      .ret (ANEURALNETWORKS_BAD_STATE, finishedBuilder) :=
  ⟨Or.inl rfl,
    C10_bad_state_rejects_every_call sampleEnv sampleTypeManager emptyHeap 0
      (Call.addOperand int32Type) finishedBuilder (Or.inl rfl)⟩

/-- C8: when `addOperand`, `setOperandValue`, `setOperandValueFromMemory`,
`setOperandValueFromModel`, `setOperandSymmPerChannelQuantParams` or
`setOperandExtensionData` returns a code other than `NO_ERROR`, the whole builder state is
the one before the call (so the builder is not invalidated). -/
theorem C8_failed_operand_mutation_changes_nothing (env : Env) (tm : TypeManager)
    (heap : Heap) (fuel : Nat) (call : Call) (b : ModelBuilder) (code : Int)
    (b1 : ModelBuilder) (hcall : call.isOperandMutation = true)
    (h : call.run env tm heap fuel b = .ret (code, b1))
    (hne : code ≠ ANEURALNETWORKS_NO_ERROR) : b1 = b := by
  cases call with
  | addOperand type => exact addOperand_failsClean env tm b type code b1 h hne
  | setOperandValue index buffer length =>
    exact setOperandValue_failsClean env tm b index buffer length code b1 h hne
  | setOperandValueFromMemory index memory offset length =>
    exact setOperandValueFromMemory_failsClean env tm b index memory offset length code b1 h hne
  | setOperandValueFromModel index value =>
    exact setOperandValueFromModel_failsClean env tm heap fuel b index value code b1 h hne
  | setOperandSymmPerChannelQuantParams index channelQuant =>
    exact setOperandSymmPerChannelQuantParams_failsClean env b index channelQuant code b1 h hne
  | setOperandExtensionData index data length =>
    exact setOperandExtensionData_failsClean env b index data length code b1 h hne
  | addOperation _ _ _ _ _ => cases hcall
  | identifyInputsAndOutputs _ _ _ _ => cases hcall
  | relaxComputationFloat32toFloat16 _ => cases hcall
  | finish => cases hcall

/-- C8 at a concrete input: `setOperandValue` with 3 bytes on an `INT32` operand returns
`BAD_DATA`. -/
theorem C8_failed_operand_mutation_changes_nothing_witness :
    (Call.setOperandValue 0 (some { addr := 1, bytes := [1, 0, 0] }) 3).isOperandMutation = true ∧
    (Call.setOperandValue 0 (some { addr := 1, bytes := [1, 0, 0] }) 3).run sampleEnv
      sampleTypeManager emptyHeap 0 oneOperandBuilder =
      .ret (ANEURALNETWORKS_BAD_DATA, oneOperandBuilder) ∧
    ANEURALNETWORKS_BAD_DATA ≠ ANEURALNETWORKS_NO_ERROR ∧
    oneOperandBuilder = oneOperandBuilder :=
  ⟨rfl, by decide, by decide,
    C8_failed_operand_mutation_changes_nothing sampleEnv sampleTypeManager emptyHeap 0
      (Call.setOperandValue 0 (some { addr := 1, bytes := [1, 0, 0] }) 3) oneOperandBuilder
      ANEURALNETWORKS_BAD_DATA oneOperandBuilder rfl (by decide) (by decide)⟩

/-- C9, counterexample: `addOperation` with a null input list and `inputCount = 1` returns
`BAD_DATA`, and the builder it leaves has `mInvalidModel = false`. -/
theorem C9_counterexample :
    ModelBuilder.addOperation sampleEnv sampleTypeManager oneOperandBuilder 0 1 none 0 none =
      .ret (ANEURALNETWORKS_BAD_DATA, oneOperandBuilder) ∧
    oneOperandBuilder.mInvalidModel = false := by
  decide

/-- C9 as amended: when `addOperation` returns a code other than `NO_ERROR` (in particular
`BAD_DATA`), the builder state is the one before the call: `mInvalidModel` is not set, so the
failed call alone does not make a later `finish` fail. -/
theorem C9_failed_addOperation_changes_nothing (env : Env) (tm : TypeManager)
    (b : ModelBuilder) (type inputCount : Nat) (inputs : Option (List Nat)) (outputCount : Nat)
    (outputs : Option (List Nat)) (code : Int) (b1 : ModelBuilder)
    (h : b.addOperation env tm type inputCount inputs outputCount outputs = .ret (code, b1))
    (hne : code ≠ ANEURALNETWORKS_NO_ERROR) :
    b1 = b ∧ b1.mInvalidModel = b.mInvalidModel := by
  have := addOperation_failsClean env tm b type inputCount inputs outputCount outputs code b1
    h hne
  exact ⟨this, by rw [this]⟩

/-- C9 as amended, at a concrete input. -/
theorem C9_failed_addOperation_changes_nothing_witness :
    ModelBuilder.addOperation sampleEnv sampleTypeManager oneOperandBuilder 0 1 none 0 none =
      .ret (ANEURALNETWORKS_BAD_DATA, oneOperandBuilder) ∧
    ANEURALNETWORKS_BAD_DATA ≠ ANEURALNETWORKS_NO_ERROR ∧
    (oneOperandBuilder = oneOperandBuilder ∧
      oneOperandBuilder.mInvalidModel = oneOperandBuilder.mInvalidModel) :=
  ⟨by decide, by decide,
    C9_failed_addOperation_changes_nothing sampleEnv sampleTypeManager oneOperandBuilder 0 1
      none 0 none ANEURALNETWORKS_BAD_DATA oneOperandBuilder (by decide) (by decide)⟩

/-- C7, the code at the failing input: `identifyInputsAndOutputs` with inputs `[0, 0]` and no
outputs on a builder with one `TEMPORARY_VARIABLE` operand returns `BAD_DATA`, yet operand 0
has become `SUBGRAPH_INPUT` and the input index list has become `[0, 0]`. -/
theorem C7_identifyInputsAndOutputs_half_applies :
    ModelBuilder.identifyInputsAndOutputs sampleEnv oneOperandBuilder 2 (some [0, 0]) 0 none =
      .ret (ANEURALNETWORKS_BAD_DATA,
        { mOperands :=
            [int32Operand LifeTime.SUBGRAPH_INPUT { poolIndex := 0, offset := 0, length := 0 }]
          mInputIndexes := [0, 0] }) ∧
    oneOperandBuilder.mInputIndexes = [] ∧
    oneOperandBuilder.mOperands.map (fun o => o.lifetime) = [LifeTime.TEMPORARY_VARIABLE] := by
  decide

/-! ## Claims about lifetimes -/

/-- C5, counterexample: `setOperandValue(0, nullptr, 0)` on an operand whose lifetime is
`CONSTANT_COPY` returns `NO_ERROR` and changes the lifetime to `NO_VALUE`; the builder is the
one that `addOperand` and `setOperandValue` with a 4-byte buffer produce. -/
theorem C5_counterexample :
    ModelBuilder.addOperand sampleEnv sampleTypeManager {} int32Type =
      .ret (ANEURALNETWORKS_NO_ERROR, oneOperandBuilder) ∧
    ModelBuilder.setOperandValue sampleEnv sampleTypeManager oneOperandBuilder 0
      (some { addr := 1, bytes := [1, 0, 0, 0] }) 4 =
      .ret (ANEURALNETWORKS_NO_ERROR, constantBuilder) ∧
    constantBuilder.mOperands.map (fun o => o.lifetime) = [LifeTime.CONSTANT_COPY] ∧
    ModelBuilder.setOperandValue sampleEnv sampleTypeManager constantBuilder 0 none 0 =
      .ret (ANEURALNETWORKS_NO_ERROR, noValueBuilder) := by
  decide

/-- C5 as amended: across every single call, an existing operand is still there and its
lifetime either stays the same, or becomes `CONSTANT_COPY`, `CONSTANT_REFERENCE`, `NO_VALUE`
or `SUBGRAPH` (whatever it was before), or changes from `TEMPORARY_VARIABLE` to
`SUBGRAPH_INPUT` or `SUBGRAPH_OUTPUT`. -/
theorem C5_lifetime_changes_of_a_call (env : Env) (tm : TypeManager) (heap : Heap)
    (fuel : Nat) (call : Call) (b : ModelBuilder) (code : Int) (b1 : ModelBuilder)
    (h : call.run env tm heap fuel b = .ret (code, b1)) (i : Nat) (o : Operand)
    (hi : b.mOperands.get? i = some o) :
    ∃ o1, b1.mOperands.get? i = some o1 ∧ AllowedLifetimeChange o.lifetime o1.lifetime :=
  run_keeps env tm heap fuel call b code b1 h i o hi

/-- C5 as amended, at a concrete input. -/
theorem C5_lifetime_changes_of_a_call_witness :
    (Call.setOperandValue 0 none 0).run sampleEnv sampleTypeManager emptyHeap 0 constantBuilder =
      .ret (ANEURALNETWORKS_NO_ERROR, noValueBuilder) ∧
    constantBuilder.mOperands.get? 0 =
      some (int32Operand LifeTime.CONSTANT_COPY { poolIndex := 0, offset := 0, length := 4 }) ∧
    ∃ o1, noValueBuilder.mOperands.get? 0 = some o1 ∧
      AllowedLifetimeChange
        (int32Operand LifeTime.CONSTANT_COPY { poolIndex := 0, offset := 0, length := 4 }).lifetime
        o1.lifetime :=
  ⟨by decide, by decide,
    C5_lifetime_changes_of_a_call sampleEnv sampleTypeManager emptyHeap 0
      (Call.setOperandValue 0 none 0) constantBuilder ANEURALNETWORKS_NO_ERROR noValueBuilder
      (by decide) 0
      (int32Operand LifeTime.CONSTANT_COPY { poolIndex := 0, offset := 0, length := 4 })
      (by decide)⟩

/-- C6: no call changes an operand's lifetime back to `TEMPORARY_VARIABLE`: an operand that
exists before the call with a lifetime other than `TEMPORARY_VARIABLE` exists after it with a
lifetime other than `TEMPORARY_VARIABLE`. -/
theorem C6_lifetime_never_back_to_temporary (env : Env) (tm : TypeManager) (heap : Heap)
    (fuel : Nat) (call : Call) (b : ModelBuilder) (code : Int) (b1 : ModelBuilder)
    (h : call.run env tm heap fuel b = .ret (code, b1)) (i : Nat) (o : Operand)
    (hi : b.mOperands.get? i = some o) (hl : o.lifetime ≠ LifeTime.TEMPORARY_VARIABLE) :
    ∃ o1, b1.mOperands.get? i = some o1 ∧ o1.lifetime ≠ LifeTime.TEMPORARY_VARIABLE := by
  obtain ⟨o1, h1, h2⟩ := run_keeps env tm heap fuel call b code b1 h i o hi
  refine ⟨o1, h1, ?_⟩
  intro h3
  rcases h2 with h2 | h2 | ⟨h2, _⟩
  · exact hl (h2 ▸ h3)
  · rw [h3] at h2
    rcases h2 with h | h | h | h <;> cases h
  · exact hl h2

/-- C6 at a concrete input: a `CONSTANT_COPY` operand across `setOperandValue(0, nullptr, 0)`. -/
theorem C6_lifetime_never_back_to_temporary_witness :
    (Call.setOperandValue 0 none 0).run sampleEnv sampleTypeManager emptyHeap 0 constantBuilder =
      .ret (ANEURALNETWORKS_NO_ERROR, noValueBuilder) ∧
    constantBuilder.mOperands.get? 0 =
      some (int32Operand LifeTime.CONSTANT_COPY { poolIndex := 0, offset := 0, length := 4 }) ∧
    (int32Operand LifeTime.CONSTANT_COPY { poolIndex := 0, offset := 0, length := 4 }).lifetime ≠
      LifeTime.TEMPORARY_VARIABLE ∧
    ∃ o1, noValueBuilder.mOperands.get? 0 = some o1 ∧
      o1.lifetime ≠ LifeTime.TEMPORARY_VARIABLE :=
  ⟨by decide, by decide, by decide,
    C6_lifetime_never_back_to_temporary sampleEnv sampleTypeManager emptyHeap 0
      (Call.setOperandValue 0 none 0) constantBuilder ANEURALNETWORKS_NO_ERROR noValueBuilder
      (by decide) 0
      (int32Operand LifeTime.CONSTANT_COPY { poolIndex := 0, offset := 0, length := 4 })
      (by decide) (by decide)⟩

/-! ## Claims about setOperandValue -/

theorem getSizeOfData_lt (env : Env) (tm : TypeManager) (type : OperandType)
    (dimensions : List Nat) (n : Nat)
    (h : tm.getSizeOfData env type dimensions = .ret n) : n < 2 ^ 32 := by
  unfold TypeManager.getSizeOfData at h
  split at h
  · injection h with h; rw [← h]; exact Nat.mod_lt _ (by norm_num)
  · split at h
    · injection h with h; rw [← h]; exact Nat.mod_lt _ (by norm_num)
    · cases h
    · cases h
    · cases h

theorem length_resizeVector (l : List Nat) (n : Nat) : (resizeVector l n).length = n := by
  unfold ModelBuilder.resizeVector
  simp
  omega

/-- C4 as amended: on an unfinished, valid builder, for a valid operand index whose operand
is not of type `OEM`, whose type the type manager knows, and while the inline arena stays
below `2 ^ 32` bytes: with a non-null buffer of `length >= 1` bytes, `setOperandValue` returns
`NO_ERROR` if and only if `length` equals `getSizeOfData` of the operand and the operand is not
a tensor with unspecified dimensions; with a null buffer and length 0 it returns `NO_ERROR` and
the operand gets lifetime `NO_VALUE` and an all-zero location. -/
theorem C4_setOperandValue_length_exact (env : Env) (tm : TypeManager) (b : ModelBuilder)
    (index : Nat) (operand : Operand) (buf : Buffer) (length : Nat) (isTensor : Bool)
    (neededLength : Nat)
    (hstate : b.badState = false) (hidx : index < b.operandCount)
    (hop : b.mOperands.get? index = some operand)
    (htype : operand.type ≠ OperandType.OEM)
    (ht : tm.isTensorType env operand.type = .ret isTensor)
    (hs : tm.getSizeOfData env operand.type operand.dimensions = .ret neededLength)
    (hroom : b.mSmallOperandValues.length +
      env.alignBytesNeeded b.mSmallOperandValues.length length + length < 2 ^ 32) :
    (0 < length →
      ((∃ b1, b.setOperandValue env tm index (some buf) length =
          .ret (ANEURALNETWORKS_NO_ERROR, b1)) ↔
        (length = neededLength ∧
          (isTensor && env.tensorHasUnspecifiedDimensions operand) = false))) ∧
    b.setOperandValue env tm index none 0 =
      .ret (ANEURALNETWORKS_NO_ERROR,
        { b with
          mOperands := b.mOperands.set index
            { operand with
              lifetime := LifeTime.NO_VALUE
              location := { poolIndex := 0, offset := 0, length := 0 } } }) := by
  have hn := getSizeOfData_lt env tm _ _ _ hs
  have hidx2 : ¬ index ≥ b.operandCount := by omega
  constructor
  · intro hlen
    have hnos : nullOrSizedFails (some buf) length = false := by
      simp [nullOrSizedFails]; omega
    unfold ModelBuilder.setOperandValue
    simp only [hstate, hidx2, hop, hnos, ht, hs, Exec.bind, htype]
    by_cases hu : (isTensor && env.tensorHasUnspecifiedDimensions operand) = true
    · simp [htype, hu, ANEURALNETWORKS_BAD_DATA, ANEURALNETWORKS_NO_ERROR]
    · have hu2 : (isTensor && env.tensorHasUnspecifiedDimensions operand) = false := by
        simpa using hu
      by_cases hbig : length > 0xFFFFFFFF
      · have : length ≠ neededLength := by
          have : (2:Nat) ^ 32 = 4294967296 := by norm_num
          omega
        simp [htype, hu2, hbig, this, ANEURALNETWORKS_BAD_DATA, ANEURALNETWORKS_NO_ERROR]
      · by_cases hne : neededLength = length
        · subst hne
          by_cases hsmall : neededLength ≤ env.maxSizeOfImmediatelyCopiedValues
          · have h32 : (2:Nat) ^ 32 = 4294967296 := by norm_num
            rw [h32] at hroom
            have e1 : b.mSmallOperandValues.length % 4294967296 = b.mSmallOperandValues.length :=
              Nat.mod_eq_of_lt (by omega)
            have e2 : env.alignBytesNeeded b.mSmallOperandValues.length neededLength % 4294967296 =
                env.alignBytesNeeded b.mSmallOperandValues.length neededLength :=
              Nat.mod_eq_of_lt (by omega)
            have e3 : (b.mSmallOperandValues.length +
                env.alignBytesNeeded b.mSmallOperandValues.length neededLength + neededLength)
                  % 4294967296 = b.mSmallOperandValues.length +
                env.alignBytesNeeded b.mSmallOperandValues.length neededLength + neededLength :=
              Nat.mod_eq_of_lt (by omega)
            have e4 : (b.mSmallOperandValues.length +
                env.alignBytesNeeded b.mSmallOperandValues.length neededLength)
                  % 4294967296 = b.mSmallOperandValues.length +
                env.alignBytesNeeded b.mSmallOperandValues.length neededLength :=
              Nat.mod_eq_of_lt (by omega)
            simp [htype, hu2, hbig, hsmall, e1, e2, e3, e4, length_resizeVector]
          · simp [htype, hu2, hbig, hsmall]
        · have hne2 : ¬ length = neededLength := fun h => hne h.symm
          simp [htype, hu2, hbig, hne, hne2, ANEURALNETWORKS_BAD_DATA, ANEURALNETWORKS_NO_ERROR]
  · unfold ModelBuilder.setOperandValue
    simp only [hstate, hidx2, hop]
    simp [nullOrSizedFails]

/-- C4 as amended, at a concrete input: a 4-byte buffer for an `INT32` operand. -/
theorem C4_setOperandValue_length_exact_witness :
    oneOperandBuilder.badState = false ∧ 0 < oneOperandBuilder.operandCount ∧
    oneOperandBuilder.mOperands.get? 0 =
      some (int32Operand LifeTime.TEMPORARY_VARIABLE
        { poolIndex := 0, offset := 0, length := 0 }) ∧
    ((0 < 4 →
      ((∃ b1, oneOperandBuilder.setOperandValue sampleEnv sampleTypeManager 0
          (some { addr := 1, bytes := [1, 0, 0, 0] }) 4 = .ret (ANEURALNETWORKS_NO_ERROR, b1)) ↔
        (4 = 4 ∧ (false && sampleEnv.tensorHasUnspecifiedDimensions
          (int32Operand LifeTime.TEMPORARY_VARIABLE
            { poolIndex := 0, offset := 0, length := 0 })) = false))) ∧
    oneOperandBuilder.setOperandValue sampleEnv sampleTypeManager 0 none 0 =
      .ret (ANEURALNETWORKS_NO_ERROR,
        { oneOperandBuilder with
          mOperands := oneOperandBuilder.mOperands.set 0
            { int32Operand LifeTime.TEMPORARY_VARIABLE
                { poolIndex := 0, offset := 0, length := 0 } with
              lifetime := LifeTime.NO_VALUE
              location := { poolIndex := 0, offset := 0, length := 0 } } })) :=
  ⟨by decide, by decide, by decide,
    C4_setOperandValue_length_exact sampleEnv sampleTypeManager oneOperandBuilder 0
      (int32Operand LifeTime.TEMPORARY_VARIABLE { poolIndex := 0, offset := 0, length := 0 })
      { addr := 1, bytes := [1, 0, 0, 0] } 4 false 4 (by decide) (by decide) (by decide)
      (by decide) (by decide) (by decide) (by decide)⟩

/-- C4, counterexample: the operand added for a `TENSOR_FLOAT32` type with dimensions `[0]`
has `getSizeOfData = 0`; `setOperandValue` with a non-null buffer and `length = 0` returns
`BAD_DATA` although `length` equals that size. -/
theorem C4_counterexample :
    ModelBuilder.addOperand sampleEnv sampleTypeManager {} unspecifiedTensorType =
      .ret (ANEURALNETWORKS_NO_ERROR, unspecifiedTensorBuilder) ∧
    sampleTypeManager.getSizeOfData sampleEnv OperandType.TENSOR_FLOAT32 [0] = .ret 0 ∧
    OperandType.TENSOR_FLOAT32 ≠ OperandType.OEM ∧
    ModelBuilder.setOperandValue sampleEnv sampleTypeManager unspecifiedTensorBuilder 0
      (some { addr := 1, bytes := [] }) 0 =
      .ret (ANEURALNETWORKS_BAD_DATA, unspecifiedTensorBuilder) := by
  decide

/-! ## The first loop of sortIntoRunOrder -/

theorem countUnknownInputs_eq (operands : List Operand) (j : Nat) (inputs : List Nat) :
    ∀ (c : Nat) (m : List (Nat × Nat)) (r : Nat × List (Nat × Nat)),
      countUnknownInputs operands j inputs (c, m) = .ret r →
      r = (c + (inputs.filter (isUnknownOperand operands)).length,
        m ++ (inputs.filter (isUnknownOperand operands)).map (fun v => (v, j))) := by
  induction inputs with
  | nil => intro c m r h; simp [countUnknownInputs] at h; simp [← h]
  | cons v rest ih =>
    intro c m r h
    unfold countUnknownInputs at h
    split at h
    · cases h
    · rename_i operand hop
      have hu : isUnknownOperand operands v = isUnknownLifetime operand.lifetime := by
        simp only [isUnknownOperand, hop]
      split at h
      · rename_i hl
        rw [ih _ _ _ h]
        simp [List.filter_cons, hu, hl]
        omega
      · rename_i hl
        rw [ih _ _ _ h]
        simp [List.filter_cons, hu, hl]

theorem countUnknownInputs_returns (operands : List Operand) (j : Nat) (inputs : List Nat)
    (hv : ∀ v ∈ inputs, v < operands.length) :
    ∀ (s : Nat × List (Nat × Nat)), ∃ r, countUnknownInputs operands j inputs s = .ret r := by
  induction inputs with
  | nil => intro s; exact ⟨s, by simp [countUnknownInputs]⟩
  | cons v rest ih =>
    intro s
    obtain ⟨c, m⟩ := s
    have hlt : v < operands.length := hv v (List.mem_cons_self _ _)
    have hrest : ∀ v ∈ rest, v < operands.length := fun x hx => hv x (List.mem_cons_of_mem _ hx)
    obtain ⟨operand, hop⟩ : ∃ operand, operands.get? v = some operand :=
      ⟨operands[v], by simp [List.getElem?_eq_getElem hlt]⟩
    unfold countUnknownInputs
    simp only [hop]
    split
    · exact ih hrest _
    · exact ih hrest _

/-- The state after the first loop has visited the operations `js`. -/
theorem sortInit_eq (operands : List Operand) (operations : List Operation) (js : List Nat) :
    ∀ (s r : SortState), sortInit operands operations js s = .ret r →
      r.operandToOperations =
        s.operandToOperations ++ js.flatMap (consumerEntries operands operations) ∧
      r.opsReadyToRun =
        (js.filter (fun j => (unknownInputsAt operands operations j).length == 0)).reverse ++
          s.opsReadyToRun ∧
      r.unknownInputCount.length = s.unknownInputCount.length ∧
      ∀ j, j < s.unknownInputCount.length → r.unknownInputCount.getD j 0 =
        if j ∈ js then (unknownInputsAt operands operations j).length
        else s.unknownInputCount.getD j 0 := by
  induction js with
  | nil =>
    intro s r h
    simp [sortInit] at h
    subst h
    simp
  | cons j0 rest ih =>
    intro s r h
    unfold sortInit at h
    split at h
    · cases h
    · rename_i operation hop
      rw [Exec.bind_eq_ret] at h
      obtain ⟨c, hc, h⟩ := h
      have hc2 := countUnknownInputs_eq operands j0 operation.inputs _ _ _ hc
      obtain ⟨h1, h2, h3, h4⟩ := ih _ _ h
      have hU : unknownInputsAt operands operations j0 =
          operation.inputs.filter (isUnknownOperand operands) := by
        simp only [unknownInputsAt, hop, unknownInputs]
      have hc1 : c.1 = (unknownInputsAt operands operations j0).length := by
        rw [hc2, hU]; simp
      have hcm : c.2 = s.operandToOperations ++ consumerEntries operands operations j0 := by
        rw [hc2, consumerEntries, hU]
      refine ⟨?_, ?_, ?_, ?_⟩
      · rw [h1]; simp [hcm, List.flatMap_cons]
      · rw [h2]
        simp only [List.filter_cons]
        by_cases hz : c.1 = 0
        · have : ((unknownInputsAt operands operations j0).length == 0) = true := by
            simp [← hc1, hz]
          simp [hz, this]
        · have : ((unknownInputsAt operands operations j0).length == 0) = false := by
            simp [← hc1, hz]
          simp [hz, this]
      · rw [h3]; simp
      · intro j hj
        have hj' : j < (s.unknownInputCount.set j0 c.1).length := by simpa using hj
        rw [h4 j hj']
        by_cases hm : j ∈ rest
        · simp [hm]
        · simp only [hm, if_false, List.mem_cons, or_false]
          by_cases hjj : j = j0
          · subst hjj
            simp [List.getD_eq_getElem?_getD, List.getElem?_set, hj, hc1]
          · have hne : j0 ≠ j := fun h => hjj h.symm
            simp [List.getD_eq_getElem?_getD, List.getElem?_set_ne hne, hjj]

theorem sortInit_returns (operands : List Operand) (operations : List Operation)
    (hv : ∀ op ∈ operations, ∀ v ∈ op.inputs, v < operands.length) (js : List Nat)
    (hjs : ∀ j ∈ js, j < operations.length) :
    ∀ (s : SortState), ∃ r, sortInit operands operations js s = .ret r := by
  induction js with
  | nil => intro s; exact ⟨s, by simp [sortInit]⟩
  | cons j0 rest ih =>
    intro s
    have hlt : j0 < operations.length := hjs j0 (List.mem_cons_self _ _)
    have hop : operations.get? j0 = some operations[j0] := by
      simp [List.getElem?_eq_getElem hlt]
    obtain ⟨c, hc⟩ := countUnknownInputs_returns operands j0 operations[j0].inputs
      (hv _ (List.getElem_mem _)) (0, s.operandToOperations)
    unfold sortInit
    simp only [hop, hc, Exec.bind]
    exact ih (fun j hj => hjs j (List.mem_cons_of_mem _ hj)) _

/-! ## Counting the decrements of the while loop -/

theorem hits_nil_right (xs : List Nat) : hits xs [] = 0 := by
  induction xs with
  | nil => rfl
  | cons x rest ih => simp [hits] at ih ⊢

theorem hits_cons_right (xs : List Nat) (a : Nat) (l : List Nat) :
    hits xs (a :: l) = xs.count a + hits xs l := by
  induction xs with
  | nil => simp [hits]
  | cons x rest ih =>
    simp only [hits, List.map_cons, List.sum_cons] at ih ⊢
    rw [ih, List.count_cons, List.count_cons]
    by_cases h : x = a
    · subst h; simp; omega
    · have h2 : ¬ a = x := fun e => h e.symm
      simp [h, h2]; omega

theorem hits_append_right (xs l1 l2 : List Nat) :
    hits xs (l1 ++ l2) = hits xs l1 + hits xs l2 := by
  induction l1 with
  | nil => simp [hits_nil_right]
  | cons a rest ih => rw [List.cons_append, hits_cons_right, hits_cons_right, ih]; omega

theorem hits_le_length (xs l : List Nat) (h : ∀ x ∈ xs, l.count x ≤ 1) :
    hits xs l ≤ xs.length := by
  induction xs with
  | nil => simp [hits]
  | cons x rest ih =>
    simp only [hits, List.map_cons, List.sum_cons, List.length_cons] at ih ⊢
    have h1 := h x (List.mem_cons_self _ _)
    have h2 := ih (fun y hy => h y (List.mem_cons_of_mem _ hy))
    omega

theorem mem_of_hits_eq_length (xs l : List Nat) (h : ∀ x ∈ xs, l.count x ≤ 1)
    (he : hits xs l = xs.length) : ∀ x ∈ xs, x ∈ l := by
  induction xs with
  | nil => intro x hx; cases hx
  | cons y rest ih =>
    simp only [hits, List.map_cons, List.sum_cons, List.length_cons] at ih he
    have h1 := h y (List.mem_cons_self _ _)
    have h2 := hits_le_length rest l (fun z hz => h z (List.mem_cons_of_mem _ hz))
    simp only [hits] at h2
    intro x hx
    rcases List.mem_cons.mp hx with hx | hx
    · subst hx
      have : 0 < l.count x := by omega
      exact List.count_pos_iff.mp this
    · exact ih (fun z hz => h z (List.mem_cons_of_mem _ hz)) (by omega) x hx

theorem consumers_append (m1 m2 : List (Nat × Nat)) (v : Nat) :
    consumers (m1 ++ m2) v = consumers m1 v ++ consumers m2 v := by
  simp [consumers]

theorem consumers_cons (x j v : Nat) (m : List (Nat × Nat)) :
    consumers ((x, j) :: m) v = if x = v then j :: consumers m v else consumers m v := by
  by_cases hx : x = v
  · simp [consumers, List.filter_cons, hx]
  · simp [consumers, List.filter_cons, hx]

theorem count_consumers_map (xs : List Nat) (j j1 v : Nat) :
    (consumers (xs.map (fun x => (x, j))) v).count j1 = if j = j1 then xs.count v else 0 := by
  induction xs with
  | nil => simp [consumers]
  | cons x rest ih =>
    rw [List.map_cons, consumers_cons]
    by_cases hx : x = v
    · rw [if_pos hx, List.count_cons, ih, hx, List.count_cons_self]
      by_cases hj : j = j1
      · subst hj; simp
      · have : (j == j1) = false := by simpa using hj
        simp [hj, this]
    · rw [if_neg hx, ih, List.count_cons_of_ne (fun e => hx e.symm)]

theorem count_consumers_flatMap (operands : List Operand) (operations : List Operation)
    (js : List Nat) (j1 v : Nat) :
    (consumers (js.flatMap (consumerEntries operands operations)) v).count j1 =
      js.count j1 * (unknownInputsAt operands operations j1).count v := by
  induction js with
  | nil => simp [consumers]
  | cons j rest ih =>
    rw [List.flatMap_cons, consumers_append, List.count_append, ih, consumerEntries,
      count_consumers_map, List.count_cons]
    by_cases hj : j = j1
    · subst hj; simp; ring
    · simp [hj]

theorem count_range (n j : Nat) : (List.range n).count j = if j < n then 1 else 0 := by
  by_cases h : j < n
  · simp only [h, if_true]
    exact List.count_eq_one_of_mem (List.nodup_range n) (List.mem_range.mpr h)
  · simp only [h, if_false]
    exact List.count_eq_zero_of_not_mem (fun hm => h (List.mem_range.mp hm))

theorem markOutputs_eq_foldl (m : List (Nat × Nat)) (outputs : List Nat)
    (s : List Nat × List Nat) :
    markOutputs m outputs s = (outputs.flatMap (consumers m)).foldl markConsumer s := by
  unfold markOutputs
  induction outputs generalizing s with
  | nil => rfl
  | cons v rest ih =>
    rw [List.foldl_cons, List.flatMap_cons, List.foldl_append, ih]
    rfl

/-- The number of times the while loop decrements the counter of operation `j1` when it marks
the outputs `outputs` as known. -/
theorem count_events (operands : List Operand) (operations : List Operation) (outputs : List Nat)
    (j1 : Nat) :
    (outputs.flatMap (consumers ((List.range operations.length).flatMap
      (consumerEntries operands operations)))).count j1 =
      if j1 < operations.length then hits (unknownInputsAt operands operations j1) outputs
      else 0 := by
  induction outputs with
  | nil => simp [hits_nil_right]
  | cons v rest ih =>
    rw [List.flatMap_cons, List.count_append, ih, count_consumers_flatMap, count_range,
      hits_cons_right]
    by_cases h : j1 < operations.length <;> simp [h]

/-- The effect of a run of decrements that does not take any counter below zero. -/
theorem foldl_markConsumer (events : List Nat) :
    ∀ (cnt stack : List Nat), (∀ j, events.count j ≤ cnt.getD j 0) →
      (∀ j ∈ events, j < cnt.length) →
      ((events.foldl markConsumer (cnt, stack)).1.length = cnt.length) ∧
      (∀ j, (events.foldl markConsumer (cnt, stack)).1.getD j 0 =
        cnt.getD j 0 - events.count j) ∧
      ∃ pushed, (events.foldl markConsumer (cnt, stack)).2 = pushed ++ stack ∧ pushed.Nodup ∧
        ∀ j, j ∈ pushed ↔ (0 < events.count j ∧ events.count j = cnt.getD j 0) := by
  induction events with
  | nil =>
    intro cnt stack _ _
    exact ⟨rfl, fun j => by simp, [], by simp, List.nodup_nil, fun j => by simp⟩
  | cons e rest ih =>
    intro cnt stack hle hlt
    have helt : e < cnt.length := hlt e (List.mem_cons_self _ _)
    have he1 : 1 ≤ cnt.getD e 0 := by
      have := hle e
      simp only [List.count_cons_self] at this
      omega
    have hdec : dec32 (cnt.getD e 0) = cnt.getD e 0 - 1 := by
      unfold dec32
      split
      · omega
      · rfl
    have hget : ∀ j, (cnt.set e (cnt.getD e 0 - 1)).getD j 0 =
        if j = e then cnt.getD e 0 - 1 else cnt.getD j 0 := by
      intro j
      by_cases hj : j = e
      · subst hj
        simp [List.getD_eq_getElem?_getD, List.getElem?_set, helt]
      · have hne : e ≠ j := fun h => hj h.symm
        simp [List.getD_eq_getElem?_getD, List.getElem?_set_ne hne, hj]
    have hcnt : ∀ j, (e :: rest).count j = rest.count j + if j = e then 1 else 0 := by
      intro j
      by_cases hj : j = e
      · subst hj; rw [List.count_cons_self, if_pos rfl]
      · rw [List.count_cons_of_ne hj, if_neg hj]; rfl
    have hle1 : ∀ j, rest.count j ≤ (cnt.set e (cnt.getD e 0 - 1)).getD j 0 := by
      intro j
      rw [hget]
      have := hle j
      rw [hcnt] at this
      by_cases hj : j = e
      · subst hj; rw [if_pos rfl] at this ⊢; omega
      · rw [if_neg hj] at this ⊢; exact this
    have hlt1 : ∀ j ∈ rest, j < (cnt.set e (cnt.getD e 0 - 1)).length := by
      intro j hj
      rw [List.length_set]
      exact hlt j (List.mem_cons_of_mem _ hj)
    rw [List.foldl_cons]
    have hstep : markConsumer (cnt, stack) e =
        (cnt.set e (cnt.getD e 0 - 1),
          if cnt.getD e 0 - 1 = 0 then e :: stack else stack) := by
      simp only [markConsumer, hdec]
    rw [hstep]
    obtain ⟨h1, h2, pushed, h3, h4, h5⟩ :=
      ih (cnt.set e (cnt.getD e 0 - 1)) (if cnt.getD e 0 - 1 = 0 then e :: stack else stack)
        hle1 hlt1
    refine ⟨by rw [h1, List.length_set], ?_, ?_⟩
    · intro j
      rw [h2, hget, hcnt]
      by_cases hj : j = e
      · subst hj; rw [if_pos rfl, if_pos rfl]; omega
      · rw [if_neg hj, if_neg hj]; rfl
    · by_cases hz : cnt.getD e 0 - 1 = 0
      · -- the counter of `e` reaches zero: `e` is pushed
        have hc1 : cnt.getD e 0 = 1 := by omega
        have hr0 : rest.count e = 0 := by
          have := hle e
          rw [hcnt, if_pos rfl] at this
          omega
        have hnot : e ∉ pushed := by
          intro hm
          have := (h5 e).mp hm
          omega
        refine ⟨pushed ++ [e], ?_, ?_, ?_⟩
        · rw [h3, if_pos hz, List.append_assoc]; rfl
        · rw [List.nodup_append]
          refine ⟨h4, List.nodup_singleton e, ?_⟩
          intro a ha hb
          rw [List.mem_singleton] at hb
          subst hb
          exact hnot ha
        · intro j
          rw [List.mem_append, List.mem_singleton, h5, hget, hcnt]
          by_cases hj : j = e
          · subst hj
            rw [if_pos rfl, if_pos rfl]
            constructor
            · intro _; omega
            · intro _; exact Or.inr rfl
          · rw [if_neg hj, if_neg hj]
            constructor
            · rintro (h | h)
              · exact h
              · exact absurd h hj
            · intro h; exact Or.inl h
      · refine ⟨pushed, ?_, h4, ?_⟩
        · rw [h3, if_neg hz]
        · intro j
          rw [h5, hget, hcnt]
          by_cases hj : j = e
          · subst hj
            rw [if_pos rfl, if_pos rfl]
            constructor
            · intro ⟨_, hb⟩; omega
            · intro ⟨_, hb⟩; omega
          · rw [if_neg hj, if_neg hj]
            exact Iff.rfl

/-! ## The invariant of the while loop -/

theorem length_filterMap_get (operations : List Operation) (order : List Nat)
    (h : ∀ j ∈ order, j < operations.length) :
    (order.filterMap (fun j => operations.get? j)).length = order.length := by
  induction order with
  | nil => rfl
  | cons j rest ih =>
    have hj : j < operations.length := h j (List.mem_cons_self _ _)
    have hget : operations.get? j = some operations[j] := by
      rw [List.get?_eq_getElem?, List.getElem?_eq_getElem hj]
    rw [List.filterMap_cons, hget]
    simp only [List.length_cons]
    rw [ih (fun x hx => h x (List.mem_cons_of_mem _ hx))]

theorem produced_append (l1 l2 : List Operation) :
    produced (l1 ++ l2) = produced l1 ++ produced l2 := by
  simp [produced]

theorem produced_singleton (op : Operation) : produced [op] = op.outputs := by
  simp [produced]

theorem writtenOnce_left (operands : List Operand) (operations : List Operation)
    (l1 l2 : List Operation) (h : WrittenOnce operands operations (l1 ++ l2)) :
    WrittenOnce operands operations l1 := by
  intro j v hv
  have := h j v hv
  rw [produced_append, List.count_append] at this
  omega

/-- One iteration of the while loop preserves the invariant, as long as no unknown input is
written twice by the operations run so far. -/
theorem sortInv_step (operands : List Operand) (operations : List Operation)
    (p : Nat) (rest cnt : List Nat) (runOrder : List Operation) (order : List Nat)
    (op : Operation)
    (hinv : SortInv operands operations (p :: rest) cnt runOrder order)
    (hop : operations.get? p = some op)
    (hw : WrittenOnce operands operations (runOrder ++ [op])) :
    SortInv operands operations
      (markOutputs ((List.range operations.length).flatMap
        (consumerEntries operands operations)) op.outputs (cnt, rest)).2
      (markOutputs ((List.range operations.length).flatMap
        (consumerEntries operands operations)) op.outputs (cnt, rest)).1
      (runOrder ++ [op]) (order ++ [p]) := by
  rw [markOutputs_eq_foldl]
  have hE := count_events operands operations op.outputs
  generalize hEdef : op.outputs.flatMap (consumers ((List.range operations.length).flatMap
      (consumerEntries operands operations))) = events at hE
  have hprod : produced (runOrder ++ [op]) = produced runOrder ++ op.outputs := by
    rw [produced_append, produced_singleton]
  have hsplit : ∀ j, hits (unknownInputsAt operands operations j) (produced (runOrder ++ [op])) =
      hits (unknownInputsAt operands operations j) (produced runOrder) +
        hits (unknownInputsAt operands operations j) op.outputs := by
    intro j; rw [hprod, hits_append_right]
  have hbound2 : ∀ j, hits (unknownInputsAt operands operations j)
      (produced (runOrder ++ [op])) ≤ (unknownInputsAt operands operations j).length :=
    fun j => hits_le_length _ _ (hw j)
  have hle : ∀ j, events.count j ≤ cnt.getD j 0 := by
    intro j
    rw [hE]
    by_cases hj : j < operations.length
    · rw [if_pos hj]
      have h1 := hinv.count j hj
      have h2 := hbound2 j
      rw [hsplit] at h2
      omega
    · rw [if_neg hj]; exact Nat.zero_le _
  have hmemE : ∀ j ∈ events, j < operations.length := by
    intro j hj
    by_contra hn
    have h0 := hE j
    rw [if_neg hn] at h0
    exact (List.count_pos_iff.mpr hj).ne' h0
  have hlt : ∀ j ∈ events, j < cnt.length := by
    intro j hj; rw [hinv.len]; exact hmemE j hj
  obtain ⟨h1, h2, pushed, h3, h4, h5⟩ := foldl_markConsumer events cnt rest hle hlt
  have hnd := hinv.nodup
  rw [List.nodup_append] at hnd
  obtain ⟨hnd1, hnd2, hnd3⟩ := hnd
  rw [List.nodup_cons] at hnd2
  have hpushed_new : ∀ j ∈ pushed, j < operations.length ∧ j ∉ order ++ p :: rest := by
    intro j hj
    have hc := (h5 j).mp hj
    have hjn : j < operations.length := by
      apply hmemE
      exact List.count_pos_iff.mp hc.1
    refine ⟨hjn, ?_⟩
    intro hm
    have := (hinv.zero j hjn).mp hm
    omega
  have hplt : p < operations.length := hinv.bound p (by simp)
  refine ⟨?_, ?_, ?_, ?_, ?_, ?_, ?_⟩
  · rw [h1, hinv.len]
  · rw [List.filterMap_append, ← hinv.run]
    have hop2 : operations[p]? = some op := by rw [← List.get?_eq_getElem?]; exact hop
    simp [hop2]
  · intro j hj
    rw [h3] at hj
    simp only [List.mem_append, List.mem_singleton] at hj
    rcases hj with (hj | hj) | hj | hj
    · exact hinv.bound j (by simp [hj])
    · subst hj; exact hplt
    · exact (hpushed_new j hj).1
    · exact hinv.bound j (by simp [hj])
  · rw [h3]
    have hdisj : ∀ j ∈ pushed, j ∉ order ∧ j ≠ p ∧ j ∉ rest := by
      intro j hj
      have := (hpushed_new j hj).2
      simp only [List.mem_append, List.mem_cons, not_or] at this
      exact ⟨this.1, this.2.1, this.2.2⟩
    rw [List.nodup_append]
    refine ⟨?_, ?_, ?_⟩
    · rw [List.nodup_append]
      refine ⟨hnd1, List.nodup_singleton p, ?_⟩
      intro a ha hb
      rw [List.mem_singleton] at hb
      subst hb
      exact hnd3 ha (List.mem_cons_self _ _)
    · rw [List.nodup_append]
      refine ⟨h4, hnd2.2, ?_⟩
      intro a ha hb
      exact (hdisj a ha).2.2 hb
    · intro a ha hb
      simp only [List.mem_append, List.mem_singleton] at ha hb
      rcases ha with ha | ha
      · rcases hb with hb | hb
        · exact (hdisj a hb).1 ha
        · exact hnd3 ha (List.mem_cons_of_mem _ hb)
      · subst ha
        rcases hb with hb | hb
        · exact (hdisj a hb).2.1 rfl
        · exact hnd2.1 hb
  · intro j hj
    rw [h2, hE, if_pos hj, hsplit]
    have h6 := hinv.count j hj
    have h7 := hbound2 j
    rw [hsplit] at h7
    omega
  · intro j hj
    rw [h2, h3]
    have hz := hinv.zero j hj
    have hEj := hE j
    rw [if_pos hj] at hEj
    have hlej := hle j
    constructor
    · intro hm
      simp only [List.mem_append, List.mem_singleton] at hm
      rcases hm with (hm | hm) | hm | hm
      · have := hz.mp (by simp [hm]); omega
      · have := hz.mp (by simp [hm]); omega
      · have := (h5 j).mp hm; omega
      · have := hz.mp (by simp [hm]); omega
    · intro hc
      by_cases he : events.count j = 0
      · have : j ∈ order ++ p :: rest := hz.mpr (by omega)
        simp only [List.mem_append, List.mem_cons] at this
        simp only [List.mem_append, List.mem_singleton]
        rcases this with h | h | h
        · exact Or.inl (Or.inl h)
        · exact Or.inl (Or.inr h)
        · exact Or.inr (Or.inr h)
      · have : j ∈ pushed := (h5 j).mpr ⟨by omega, by omega⟩
        simp only [List.mem_append]
        exact Or.inr (Or.inl this)
  · intro i j hij v hv
    have hlen : runOrder.length = order.length := by
      rw [hinv.run]
      exact length_filterMap_get operations order
        (fun x hx => hinv.bound x (List.mem_append_left _ hx))
    rw [List.get?_eq_getElem?] at hij
    by_cases hi : i < order.length
    · rw [List.getElem?_append_left hi] at hij
      have := hinv.topo i j (by rw [List.get?_eq_getElem?]; exact hij) v hv
      rw [List.take_append_of_le_length (by omega)]
      exact this
    · have hi2 : i = order.length := by
        have := (List.getElem?_eq_some_iff.mp hij).1
        simp at this
        omega
      subst hi2
      rw [List.getElem?_append_right (le_refl _)] at hij
      simp at hij
      subst hij
      rw [← hlen, List.take_append_of_le_length (le_refl _), List.take_length]
      have hz := (hinv.zero p hplt).mp (by simp)
      have hc := hinv.count p hplt
      exact mem_of_hits_eq_length _ _ (writtenOnce_left operands operations _ _ hw p) (by omega)
        v hv

/-- The state left by the first loop satisfies the invariant of the while loop. -/
theorem sortInit_spec (operands : List Operand) (operations : List Operation) (r : SortState)
    (h : sortInit operands operations (List.range operations.length)
      { operandToOperations := []
        unknownInputCount := List.replicate operations.length 0
        opsReadyToRun := [] } = .ret r) :
    r.operandToOperations =
      (List.range operations.length).flatMap (consumerEntries operands operations) ∧
    SortInv operands operations r.opsReadyToRun r.unknownInputCount [] [] := by
  obtain ⟨h1, h2, h3, h4⟩ := sortInit_eq operands operations _ _ _ h
  simp only [List.nil_append, List.append_nil, List.length_replicate] at h1 h2 h3 h4
  refine ⟨h1, ?_, ?_, ?_, ?_, ?_, ?_, ?_⟩
  · exact h3
  · rfl
  · intro j hj
    rw [List.nil_append, h2, List.mem_reverse] at hj
    exact List.mem_range.mp (List.mem_filter.mp hj).1
  · rw [List.nil_append, h2, List.nodup_reverse]
    exact (List.nodup_range _).filter _
  · intro j hj
    rw [h4 j hj, if_pos (List.mem_range.mpr hj)]
    show _ + hits _ [] = _
    rw [hits_nil_right]
    rfl
  · intro j hj
    rw [List.nil_append, h2, List.mem_reverse, List.mem_filter, h4 j hj,
      if_pos (List.mem_range.mpr hj)]
    constructor
    · intro hm; simpa using hm.2
    · intro hz; exact ⟨List.mem_range.mpr hj, by simpa using hz⟩
  · intro i j hij
    simp at hij

theorem sortLoop_prefix (operations : List Operation) (m : List (Nat × Nat)) :
    ∀ (fuel : Nat) (stack cnt : List Nat) (runOrder : List Operation) (order : List Nat)
      (r : List Operation × List Nat),
      sortLoop operations m fuel stack cnt runOrder order = .ret r → order <+: r.2 := by
  intro fuel
  induction fuel with
  | zero => intro stack cnt runOrder order r h; simp [sortLoop] at h
  | succ fuel ih =>
    intro stack cnt runOrder order r h
    unfold sortLoop at h
    split at h
    · injection h with h; rw [← h]
    · split at h
      · cases h
      · have := ih _ _ _ _ _ h
        exact List.IsPrefix.trans (List.prefix_append _ _) this

/-- When the while loop ends, the invariant holds with an empty ready stack, provided no
unknown input is written twice by the operations of a prefix of the resulting order. -/
theorem sortLoop_sound (operands : List Operand) (operations : List Operation) :
    ∀ (fuel : Nat) (stack cnt : List Nat) (runOrder : List Operation) (order : List Nat)
      (r : List Operation × List Nat),
      SortInv operands operations stack cnt runOrder order →
      sortLoop operations ((List.range operations.length).flatMap
        (consumerEntries operands operations)) fuel stack cnt runOrder order = .ret r →
      (∀ order1, order1 <+: r.2 → order1.Nodup → (∀ j ∈ order1, j < operations.length) →
        WrittenOnce operands operations (order1.filterMap (fun j => operations.get? j))) →
      ∃ cntF, SortInv operands operations [] cntF r.1 r.2 := by
  intro fuel
  induction fuel with
  | zero => intro stack cnt runOrder order r _ h; simp [sortLoop] at h
  | succ fuel ih =>
    intro stack cnt runOrder order r hinv h hrel
    unfold sortLoop at h
    split at h
    · injection h with h; rw [← h]; exact ⟨cnt, hinv⟩
    · rename_i p rest
      split at h
      · cases h
      · rename_i op hop
        have hpre := sortLoop_prefix _ _ _ _ _ _ _ _ h
        have hnd : (order ++ [p]).Nodup := by
          have := hinv.nodup
          rw [List.nodup_append] at this ⊢
          refine ⟨this.1, List.nodup_singleton p, ?_⟩
          intro a ha hb
          rw [List.mem_singleton] at hb
          subst hb
          exact this.2.2 ha (List.mem_cons_self _ _)
        have hbd : ∀ j ∈ order ++ [p], j < operations.length := by
          intro j hj
          apply hinv.bound
          simp only [List.mem_append, List.mem_singleton] at hj
          rcases hj with hj | hj
          · simp [hj]
          · simp [hj]
        have hw := hrel (order ++ [p]) hpre hnd hbd
        have hop2 : operations[p]? = some op := by rw [← List.get?_eq_getElem?]; exact hop
        have hrun : (order ++ [p]).filterMap (fun j => operations.get? j) = runOrder ++ [op] := by
          rw [List.filterMap_append, ← hinv.run]
          simp [hop2]
        rw [hrun] at hw
        exact ih _ _ _ _ _ (sortInv_step operands operations p rest cnt runOrder order op hinv
          hop hw) h hrel

theorem length_le_of_nodup_bound (order : List Nat) (n : Nat) (hnd : order.Nodup)
    (hb : ∀ j ∈ order, j < n) : order.length ≤ n := by
  have hsub : order ⊆ List.range n := fun j hj => List.mem_range.mpr (hb j hj)
  have := (List.subperm_of_subset hnd hsub).length_le
  simpa using this

/-- The while loop ends within as many iterations as there are operations not yet run,
provided no unknown input is written twice by a duplicate-free selection of operations. -/
theorem sortLoop_returns (operands : List Operand) (operations : List Operation)
    (hrel : ∀ order1 : List Nat, order1.Nodup → (∀ j ∈ order1, j < operations.length) →
      WrittenOnce operands operations (order1.filterMap (fun j => operations.get? j))) :
    ∀ (fuel : Nat) (stack cnt : List Nat) (runOrder : List Operation) (order : List Nat),
      SortInv operands operations stack cnt runOrder order →
      operations.length - order.length < fuel →
      ∃ r, sortLoop operations ((List.range operations.length).flatMap
        (consumerEntries operands operations)) fuel stack cnt runOrder order = .ret r := by
  intro fuel
  induction fuel with
  | zero => intro stack cnt runOrder order _ h; omega
  | succ fuel ih =>
    intro stack cnt runOrder order hinv hfuel
    unfold sortLoop
    cases stack with
    | nil => exact ⟨_, rfl⟩
    | cons p rest =>
      have hplt : p < operations.length := hinv.bound p (by simp)
      have hop : operations.get? p = some operations[p] := by
        rw [List.get?_eq_getElem?, List.getElem?_eq_getElem hplt]
      simp only [hop]
      have hnd : (order ++ [p]).Nodup := by
        have := hinv.nodup
        rw [List.nodup_append] at this ⊢
        refine ⟨this.1, List.nodup_singleton p, ?_⟩
        intro a ha hb
        rw [List.mem_singleton] at hb
        subst hb
        exact this.2.2 ha (List.mem_cons_self _ _)
      have hbd : ∀ j ∈ order ++ [p], j < operations.length := by
        intro j hj
        apply hinv.bound
        simp only [List.mem_append, List.mem_singleton] at hj
        rcases hj with hj | hj
        · simp [hj]
        · simp [hj]
      have hw := hrel (order ++ [p]) hnd hbd
      have hop2 : operations[p]? = some operations[p] := List.getElem?_eq_getElem hplt
      have hrun : (order ++ [p]).filterMap (fun j => operations.get? j) =
          runOrder ++ [operations[p]] := by
        rw [List.filterMap_append, ← hinv.run]
        simp [hop2]
      rw [hrun] at hw
      have hlen := length_le_of_nodup_bound _ _ hnd hbd
      rw [List.length_append, List.length_singleton] at hlen
      apply ih _ _ _ _ (sortInv_step operands operations p rest cnt runOrder order _ hinv hop hw)
      rw [List.length_append, List.length_singleton]
      omega

/-! ## Orders and producers -/

theorem sublist_flatMap {α β : Type} (f : α → List β) {l1 l2 : List α} (h : List.Sublist l1 l2) :
    List.Sublist (l1.flatMap f) (l2.flatMap f) := by
  induction h with
  | slnil => exact List.Sublist.refl _
  | cons a _ ih =>
    rw [List.flatMap_cons]
    exact List.sublist_append_of_sublist_right ih
  | cons₂ a _ ih =>
    rw [List.flatMap_cons, List.flatMap_cons]
    exact List.Sublist.append_left ih _

theorem range_filterMap_get (operations : List Operation) :
    (List.range operations.length).filterMap (fun j => operations.get? j) = operations := by
  induction operations using List.reverseRecOn with
  | nil => rfl
  | append_singleton l a ih =>
    rw [List.length_append, List.length_singleton, List.range_succ, List.filterMap_append]
    have h1 : (List.range l.length).filterMap (fun j => (l ++ [a]).get? j) =
        (List.range l.length).filterMap (fun j => l.get? j) := by
      apply List.filterMap_congr
      intro j hj
      have hlt := List.mem_range.mp hj
      rw [List.get?_eq_getElem?, List.get?_eq_getElem?, List.getElem?_append_left hlt]
    rw [h1, ih]
    simp

theorem count_produced_le (operations : List Operation) (order : List Nat) (hnd : order.Nodup)
    (hb : ∀ j ∈ order, j < operations.length) (v : Nat) :
    (produced (order.filterMap (fun j => operations.get? j))).count v ≤
      (produced operations).count v := by
  have hsub : order ⊆ List.range operations.length :=
    fun j hj => List.mem_range.mpr (hb j hj)
  obtain ⟨l, hperm, hsl⟩ := List.subperm_of_subset hnd hsub
  have h1 : (produced (order.filterMap (fun j => operations.get? j))).count v =
      (produced (l.filterMap (fun j => operations.get? j))).count v := by
    apply List.Perm.count_eq
    exact List.Perm.flatMap_right _ (List.Perm.filterMap _ hperm.symm)
  rw [h1]
  have h2 := sublist_flatMap (fun op : Operation => op.outputs)
    (List.Sublist.filterMap (fun j => operations.get? j) hsl)
  rw [range_filterMap_get] at h2
  exact h2.count_le v

theorem perm_of_full (operations : List Operation) (order : List Nat) (hnd : order.Nodup)
    (hb : ∀ j ∈ order, j < operations.length) (hlen : order.length = operations.length) :
    (order.filterMap (fun j => operations.get? j)).Perm operations := by
  have hsub : order ⊆ List.range operations.length :=
    fun j hj => List.mem_range.mpr (hb j hj)
  have hp : order.Perm (List.range operations.length) :=
    (List.subperm_of_subset hnd hsub).perm_of_length_le (by simp [hlen])
  have := List.Perm.filterMap (fun j => operations.get? j) hp
  rw [range_filterMap_get] at this
  exact this

theorem get_filterMap_get (operations : List Operation) (order : List Nat)
    (hb : ∀ j ∈ order, j < operations.length) :
    ∀ (i : Nat) (op : Operation),
      (order.filterMap (fun j => operations.get? j)).get? i = some op →
      ∃ j, order.get? i = some j ∧ operations.get? j = some op := by
  induction order with
  | nil => intro i op h; simp at h
  | cons j rest ih =>
    intro i op h
    have hj : j < operations.length := hb j (List.mem_cons_self _ _)
    have hget : operations.get? j = some operations[j] := by
      rw [List.get?_eq_getElem?, List.getElem?_eq_getElem hj]
    rw [List.filterMap_cons, hget] at h
    cases i with
    | zero =>
      simp only [List.get?_cons_zero, Option.some.injEq] at h
      exact ⟨j, rfl, by rw [hget, h]⟩
    | succ i =>
      simp only [List.get?_cons_succ] at h ⊢
      exact ih (fun x hx => hb x (List.mem_cons_of_mem _ hx)) i op h

/-- In the order produced by the while loop every unknown input of an operation is written by
an operation at an earlier position. -/
theorem producers_before (operands : List Operand) (operations : List Operation)
    (cnt : List Nat) (runOrder : List Operation) (order : List Nat)
    (hinv : SortInv operands operations [] cnt runOrder order) (i : Nat) (op : Operation)
    (v : Nat) (hi : runOrder.get? i = some op) (hv : v ∈ op.inputs)
    (hu : isUnknownOperand operands v = true) :
    ∃ k p, k < i ∧ runOrder.get? k = some p ∧ v ∈ p.outputs := by
  have hb : ∀ j ∈ order, j < operations.length :=
    fun j hj => hinv.bound j (List.mem_append_left _ hj)
  rw [hinv.run] at hi
  obtain ⟨j, hj1, hj2⟩ := get_filterMap_get operations order hb i op hi
  have hvU : v ∈ unknownInputsAt operands operations j := by
    simp only [unknownInputsAt, hj2, unknownInputs]
    exact List.mem_filter.mpr ⟨hv, hu⟩
  have := hinv.topo i j hj1 v hvU
  simp only [produced, List.mem_flatMap] at this
  obtain ⟨p, hp1, hp2⟩ := this
  obtain ⟨k, hk⟩ := List.mem_iff_getElem?.mp hp1
  rw [List.getElem?_take] at hk
  split at hk
  · rename_i hlt
    exact ⟨k, p, hlt, by rw [List.get?_eq_getElem?]; exact hk, hp2⟩
  · cases hk

theorem unique_producer (runOrder : List Operation) (v : Nat) :
    (produced runOrder).count v ≤ 1 → ∀ (k1 k2 : Nat) (p1 p2 : Operation),
      runOrder.get? k1 = some p1 → v ∈ p1.outputs → runOrder.get? k2 = some p2 →
      v ∈ p2.outputs → k1 = k2 := by
  induction runOrder with
  | nil => intro _ k1 k2 p1 p2 h; simp at h
  | cons x rest ih =>
    intro hc k1 k2 p1 p2 h1 hv1 h2 hv2
    have hsplit : (produced (x :: rest)).count v = x.outputs.count v + (produced rest).count v := by
      simp [produced, List.flatMap_cons, List.count_append]
    rw [hsplit] at hc
    have hmem : ∀ (k : Nat) (p : Operation), rest.get? k = some p → v ∈ p.outputs →
        0 < (produced rest).count v := by
      intro k p hk hp
      apply List.count_pos_iff.mpr
      simp only [produced, List.mem_flatMap]
      exact ⟨p, List.mem_iff_get?.mpr ⟨k, hk⟩, hp⟩
    cases k1 with
    | zero =>
      cases k2 with
      | zero => rfl
      | succ k2 =>
        simp only [List.get?_cons_zero, Option.some.injEq] at h1
        simp only [List.get?_cons_succ] at h2
        subst h1
        have := List.count_pos_iff.mpr hv1
        have := hmem k2 p2 h2 hv2
        omega
    | succ k1 =>
      cases k2 with
      | zero =>
        simp only [List.get?_cons_zero, Option.some.injEq] at h2
        simp only [List.get?_cons_succ] at h1
        subst h2
        have := List.count_pos_iff.mpr hv2
        have := hmem k1 p1 h1 hv1
        omega
      | succ k2 =>
        simp only [List.get?_cons_succ] at h1 h2
        have := ih (by omega) k1 k2 p1 p2 h1 hv1 h2 hv2
        omega

/-- From "written before" and "written at most once" to `ProducersFirst`. -/
theorem producersFirst_of (sel : Nat → Prop) (runOrder : List Operation)
    (hbefore : ∀ i op v, runOrder.get? i = some op → v ∈ op.inputs → sel v →
      ∃ k p, k < i ∧ runOrder.get? k = some p ∧ v ∈ p.outputs)
    (honce : ∀ i op v, runOrder.get? i = some op → v ∈ op.inputs → sel v →
      (produced runOrder).count v ≤ 1) :
    ProducersFirst sel runOrder := by
  intro i op v hi hv hs
  obtain ⟨k, p, hk, hp, hpv⟩ := hbefore i op v hi hv hs
  refine ⟨⟨k, p, hp, hpv⟩, ?_⟩
  intro j q hq hqv
  have := unique_producer runOrder v (honce i op v hi hv hs) j k q p hq hqv hp hpv
  omega

/-! ## sortIntoRunOrder -/

theorem sortLoop_run (operations : List Operation) (m : List (Nat × Nat)) :
    ∀ (fuel : Nat) (stack cnt : List Nat) (runOrder : List Operation) (order : List Nat)
      (r : List Operation × List Nat),
      runOrder = order.filterMap (fun j => operations.get? j) →
      sortLoop operations m fuel stack cnt runOrder order = .ret r →
      r.1 = r.2.filterMap (fun j => operations.get? j) := by
  intro fuel
  induction fuel with
  | zero => intro stack cnt runOrder order r _ h; simp [sortLoop] at h
  | succ fuel ih =>
    intro stack cnt runOrder order r hrun h
    unfold sortLoop at h
    split at h
    · injection h with h; rw [← h]; exact hrun
    · rename_i p rest
      split at h
      · cases h
      · rename_i op hop
        apply ih _ _ _ _ _ ?_ h
        have hop2 : operations[p]? = some op := by rw [← List.get?_eq_getElem?]; exact hop
        rw [List.filterMap_append, ← hrun]
        simp [hop2]

theorem operationCount_eq (b : ModelBuilder) (hlen : b.mOperations.length < 2 ^ 32) :
    b.operationCount = b.mOperations.length := by
  unfold ModelBuilder.operationCount
  exact Nat.mod_eq_of_lt hlen

/-- The ways in which `sortIntoRunOrder` returns on operations not sorted before. -/
theorem sortIntoRunOrder_result (fuel : Nat) (b : ModelBuilder) (ok : Bool)
    (b1 : ModelBuilder) (hmap : b.mSortedOperationIndexMap = [])
    (hlen : b.mOperations.length < 2 ^ 32)
    (h : sortIntoRunOrder fuel b = .ret (ok, b1)) :
    ∃ s r, sortInit b.mOperands b.mOperations (List.range b.mOperations.length)
        { operandToOperations := []
          unknownInputCount := List.replicate b.mOperations.length 0
          opsReadyToRun := [] } = .ret s ∧
      sortLoop b.mOperations s.operandToOperations fuel s.opsReadyToRun s.unknownInputCount
        [] [] = .ret r ∧
      ((ok = true ∧ r.1.length = b.mOperations.length ∧
          b1 = { b with mSortedOperationIndexMap := r.2, mOperations := r.1 }) ∨
        (ok = false ∧ r.1.length < b.mOperations.length ∧ b1 = b)) := by
  unfold sortIntoRunOrder at h
  rw [hmap, operationCount_eq b hlen] at h
  simp only [List.isEmpty_nil, Bool.not_true, Bool.false_eq_true, if_false] at h
  rw [Exec.bind_eq_ret] at h
  obtain ⟨s, hs, h⟩ := h
  rw [Exec.bind_eq_ret] at h
  obtain ⟨r, hr, h⟩ := h
  refine ⟨s, r, hs, hr, ?_⟩
  split at h
  · split at h
    · rename_i hlt
      injection h with h; injection h with h1 h2
      exact Or.inr ⟨h1.symm, hlt, h2.symm⟩
    · cases h
  · rename_i hl
    injection h with h; injection h with h1 h2
    exact Or.inl ⟨h1.symm, by simpa using hl, h2.symm⟩

/-- What `sortIntoRunOrder` returns when the while loop, started from the state of the first
loop, ends with a given run order. -/
theorem sortIntoRunOrder_of_loop (fuel : Nat) (b : ModelBuilder) (s : SortState)
    (r : List Operation × List Nat) (hmap : b.mSortedOperationIndexMap = [])
    (hlen : b.mOperations.length < 2 ^ 32)
    (hs : sortInit b.mOperands b.mOperations (List.range b.mOperations.length)
        { operandToOperations := []
          unknownInputCount := List.replicate b.mOperations.length 0
          opsReadyToRun := [] } = .ret s)
    (hr : sortLoop b.mOperations s.operandToOperations fuel s.opsReadyToRun s.unknownInputCount
        [] [] = .ret r)
    (hle : r.1.length ≤ b.mOperations.length) :
    sortIntoRunOrder fuel b =
      if r.1.length = b.mOperations.length then
        .ret (true, { b with mSortedOperationIndexMap := r.2, mOperations := r.1 })
      else .ret (false, b) := by
  unfold sortIntoRunOrder
  rw [hmap, operationCount_eq b hlen]
  simp only [List.isEmpty_nil, Bool.not_true, Bool.false_eq_true, if_false, hs, hr, Exec.bind]
  by_cases he : r.1.length = b.mOperations.length
  · simp [he]
  · have hlt : r.1.length < b.mOperations.length := by omega
    simp [he, hlt]

/-- Soundness of the sort: when it succeeds on operations not sorted before and the stored
order writes no operand twice, every unknown input of a stored operation is written by
exactly the operations before it. -/
theorem sortIntoRunOrder_topological (fuel : Nat) (b b1 : ModelBuilder)
    (hmap : b.mSortedOperationIndexMap = []) (hlen : b.mOperations.length < 2 ^ 32)
    (h : sortIntoRunOrder fuel b = .ret (true, b1))
    (hnd : (produced b1.mOperations).Nodup) :
    b1.mOperands = b.mOperands ∧ b1.mOperations.length = b.mOperations.length ∧
    ProducersFirst (fun v => isUnknownOperand b.mOperands v = true) b1.mOperations := by
  obtain ⟨s, r, hs, hr, hcase⟩ := sortIntoRunOrder_result fuel b true b1 hmap hlen h
  rcases hcase with ⟨_, hl, hb1⟩ | ⟨hf, _, _⟩
  swap
  · cases hf
  obtain ⟨hm, hinv0⟩ := sortInit_spec b.mOperands b.mOperations s hs
  rw [hm] at hr
  have hrun := sortLoop_run b.mOperations _ fuel _ _ [] [] r rfl hr
  have hops : b1.mOperations = r.1 := by rw [hb1]
  rw [hops] at hnd
  have hrel : ∀ order1, order1 <+: r.2 → order1.Nodup →
      (∀ j ∈ order1, j < b.mOperations.length) →
      WrittenOnce b.mOperands b.mOperations
        (order1.filterMap (fun j => b.mOperations.get? j)) := by
    intro order1 hpre _ _ j v _
    obtain ⟨t, ht⟩ := hpre
    have : produced r.1 = produced (order1.filterMap (fun j => b.mOperations.get? j)) ++
        produced (t.filterMap (fun j => b.mOperations.get? j)) := by
      rw [hrun, ← ht, List.filterMap_append, produced_append]
    have hc := List.nodup_iff_count_le_one.mp hnd v
    rw [this, List.count_append] at hc
    omega
  obtain ⟨cntF, hinv⟩ := sortLoop_sound b.mOperands b.mOperations fuel _ _ _ _ r hinv0 hr hrel
  refine ⟨by rw [hb1], by rw [hops, hl], ?_⟩
  rw [hops]
  apply producersFirst_of
  · intro i op v hi hv hu
    exact producers_before b.mOperands b.mOperations cntF r.1 r.2 hinv i op v hi hv hu
  · intro i op v _ _ _
    exact List.nodup_iff_count_le_one.mp hnd v

theorem writtenOnce_of_noTwice (operands : List Operand) (operations : List Operation)
    (h : NoUnknownInputWrittenTwice operands operations) (order : List Nat) (hnd : order.Nodup)
    (hb : ∀ j ∈ order, j < operations.length) :
    WrittenOnce operands operations (order.filterMap (fun j => operations.get? j)) := by
  intro j v hv
  have h1 := count_produced_le operations order hnd hb v
  unfold unknownInputsAt at hv
  split at hv
  · rename_i op hop
    have hmem : op ∈ operations := List.mem_iff_get?.mpr ⟨j, hop⟩
    have hv2 := List.mem_filter.mp hv
    have := h op hmem v hv2.1 hv2.2
    omega
  · cases hv

/-- The sort runs to the end of its while loop when the inputs are valid and no unknown input
is written twice. -/
theorem sort_runs (fuel : Nat) (operands : List Operand) (operations : List Operation)
    (hvalid : InputsValid operands operations)
    (hsingle : NoUnknownInputWrittenTwice operands operations)
    (hfuel : operations.length < fuel) :
    ∃ s r cntF, sortInit operands operations (List.range operations.length)
        { operandToOperations := []
          unknownInputCount := List.replicate operations.length 0
          opsReadyToRun := [] } = .ret s ∧
      sortLoop operations s.operandToOperations fuel s.opsReadyToRun s.unknownInputCount
        [] [] = .ret r ∧
      SortInv operands operations [] cntF r.1 r.2 := by
  obtain ⟨s, hs⟩ := sortInit_returns operands operations hvalid (List.range operations.length)
    (fun j hj => List.mem_range.mp hj)
    { operandToOperations := []
      unknownInputCount := List.replicate operations.length 0
      opsReadyToRun := [] }
  obtain ⟨hm, hinv0⟩ := sortInit_spec operands operations s hs
  have hrel := writtenOnce_of_noTwice operands operations hsingle
  obtain ⟨r, hr⟩ := sortLoop_returns operands operations hrel fuel _ _ _ _ hinv0
    (by simp only [List.length_nil]; omega)
  obtain ⟨cntF, hinv⟩ := sortLoop_sound operands operations fuel _ _ _ _ r hinv0 hr
    (fun order1 _ hnd hb => hrel order1 hnd hb)
  rw [← hm] at hr
  exact ⟨s, r, cntF, hs, hr, hinv⟩

theorem get_filterMap_get_forward (operations : List Operation) (order : List Nat)
    (hb : ∀ j ∈ order, j < operations.length) :
    ∀ (i j : Nat), order.get? i = some j →
      (order.filterMap (fun j => operations.get? j)).get? i = operations.get? j := by
  induction order with
  | nil => intro i j h; simp at h
  | cons j0 rest ih =>
    intro i j h
    have hj : j0 < operations.length := hb j0 (List.mem_cons_self _ _)
    have hget : operations.get? j0 = some operations[j0] := by
      rw [List.get?_eq_getElem?, List.getElem?_eq_getElem hj]
    rw [List.filterMap_cons, hget]
    cases i with
    | zero =>
      simp only [List.get?_cons_zero, Option.some.injEq] at h ⊢
      rw [← h, hget]
    | succ i =>
      simp only [List.get?_cons_succ] at h ⊢
      exact ih (fun x hx => hb x (List.mem_cons_of_mem _ hx)) i j h

theorem nodup_get_inj (l : List Nat) (hnd : l.Nodup) :
    ∀ (k1 k2 x : Nat), l.get? k1 = some x → l.get? k2 = some x → k1 = k2 := by
  induction l with
  | nil => intro k1 k2 x h; simp at h
  | cons a rest ih =>
    intro k1 k2 x h1 h2
    rw [List.nodup_cons] at hnd
    cases k1 with
    | zero =>
      cases k2 with
      | zero => rfl
      | succ k2 =>
        simp only [List.get?_cons_zero, Option.some.injEq] at h1
        simp only [List.get?_cons_succ] at h2
        subst h1
        exact absurd (List.mem_iff_get?.mpr ⟨k2, h2⟩) hnd.1
    | succ k1 =>
      cases k2 with
      | zero =>
        simp only [List.get?_cons_zero, Option.some.injEq] at h2
        simp only [List.get?_cons_succ] at h1
        subst h2
        exact absurd (List.mem_iff_get?.mpr ⟨k1, h1⟩) hnd.1
      | succ k2 =>
        simp only [List.get?_cons_succ] at h1 h2
        rw [ih hnd.2 k1 k2 x h1 h2]

theorem feeds_iff (operands : List Operand) (operations : List Operation) (a c : Nat) :
    Feeds operands operations a c ↔ feedsBool operands operations a c = true := by
  unfold Feeds feedsBool
  constructor
  · rintro ⟨opA, opC, v, hA, hC, hvA, hvC, hu⟩
    simp only [hA, hC, List.any_eq_true, Bool.and_eq_true]
    exact ⟨v, hvA, by simpa using hvC, hu⟩
  · intro h
    split at h
    · rename_i opA opC hA hC
      simp only [List.any_eq_true, Bool.and_eq_true] at h
      obtain ⟨v, hvA, hvC, hu⟩ := h
      exact ⟨opA, opC, v, hA, hC, hvA, by simpa using hvC, hu⟩
    · cases h

/-- When every operation was run, every producer stands before its consumers in the order. -/
theorem feeds_forward (operands : List Operand) (operations : List Operation)
    (cnt : List Nat) (runOrder : List Operation) (order : List Nat)
    (hinv : SortInv operands operations [] cnt runOrder order)
    (hfull : order.length = operations.length)
    (hsingle : NoUnknownInputWrittenTwice operands operations) (a c : Nat)
    (h : Feeds operands operations a c) :
    ∃ ka kc, order.get? ka = some a ∧ order.get? kc = some c ∧ ka < kc := by
  obtain ⟨opA, opC, v, hA, hC, hvA, hvC, hu⟩ := h
  have hb : ∀ j ∈ order, j < operations.length :=
    fun j hj => hinv.bound j (List.mem_append_left _ hj)
  have hnd : order.Nodup := by
    have := hinv.nodup
    rw [List.append_nil] at this
    exact this
  have hperm : order.Perm (List.range operations.length) :=
    (List.subperm_of_subset hnd (fun j hj => List.mem_range.mpr (hb j hj))).perm_of_length_le
      (by simp [hfull])
  have hclt : c < operations.length := by
    rw [List.get?_eq_getElem?] at hC
    exact (List.getElem?_eq_some_iff.mp hC).1
  have hcmem : c ∈ order := hperm.mem_iff.mpr (List.mem_range.mpr hclt)
  obtain ⟨kc, hkc⟩ := List.mem_iff_get?.mp hcmem
  have hRc : runOrder.get? kc = some opC := by
    rw [hinv.run, get_filterMap_get_forward operations order hb kc c hkc, hC]
  obtain ⟨k, p, hk, hp, hpv⟩ :=
    producers_before operands operations cnt runOrder order hinv kc opC v hRc hvC hu
  rw [hinv.run] at hp
  obtain ⟨a1, ha1, hpa1⟩ := get_filterMap_get operations order hb k p hp
  have hcount := hsingle opC (List.mem_iff_get?.mpr ⟨c, hC⟩) v hvC hu
  have := unique_producer operations v hcount a1 a p opA hpa1 hpv hA hvA
  subst this
  exact ⟨k, kc, ha1, hkc, hk⟩

theorem transGen_forward (operands : List Operand) (operations : List Operation)
    (cnt : List Nat) (runOrder : List Operation) (order : List Nat)
    (hinv : SortInv operands operations [] cnt runOrder order)
    (hfull : order.length = operations.length)
    (hsingle : NoUnknownInputWrittenTwice operands operations) (a c : Nat)
    (h : Relation.TransGen (Feeds operands operations) a c) :
    ∃ ka kc, order.get? ka = some a ∧ order.get? kc = some c ∧ ka < kc := by
  have hnd : order.Nodup := by
    have := hinv.nodup
    rw [List.append_nil] at this
    exact this
  induction h with
  | single hf => exact feeds_forward operands operations cnt runOrder order hinv hfull hsingle _ _ hf
  | tail _ hf ih =>
    obtain ⟨ka, kb, h1, h2, h3⟩ := ih
    obtain ⟨kb1, kc, h4, h5, h6⟩ :=
      feeds_forward operands operations cnt runOrder order hinv hfull hsingle _ _ hf
    have := nodup_get_inj order hnd kb kb1 _ h2 h4
    exact ⟨ka, kc, h1, h5, by omega⟩

/-- `sortIntoRunOrder` fails on a graph with a cycle in which the inputs are valid and no
unknown input is written twice. -/
theorem sortIntoRunOrder_fails_on_cycle (fuel : Nat) (b : ModelBuilder)
    (hmap : b.mSortedOperationIndexMap = []) (hlen : b.mOperations.length < 2 ^ 32)
    (hvalid : InputsValid b.mOperands b.mOperations)
    (hsingle : NoUnknownInputWrittenTwice b.mOperands b.mOperations)
    (hcycle : ∃ j, Relation.TransGen (Feeds b.mOperands b.mOperations) j j)
    (hfuel : b.mOperations.length < fuel) :
    sortIntoRunOrder fuel b = .ret (false, b) := by
  obtain ⟨s, r, cntF, hs, hr, hinv⟩ :=
    sort_runs fuel b.mOperands b.mOperations hvalid hsingle hfuel
  have hb : ∀ j ∈ r.2, j < b.mOperations.length :=
    fun j hj => hinv.bound j (List.mem_append_left _ hj)
  have hnd : r.2.Nodup := by
    have := hinv.nodup
    rw [List.append_nil] at this
    exact this
  have hle := length_le_of_nodup_bound r.2 b.mOperations.length hnd hb
  have hlen1 : r.1.length = r.2.length := by
    rw [hinv.run, length_filterMap_get b.mOperations r.2 hb]
  have hne : r.1.length ≠ b.mOperations.length := by
    intro hfull
    obtain ⟨j, hj⟩ := hcycle
    obtain ⟨ka, kc, h1, h2, h3⟩ := transGen_forward b.mOperands b.mOperations cntF r.1 r.2 hinv
      (by omega) hsingle j j hj
    have := nodup_get_inj r.2 hnd ka kc j h1 h2
    omega
  rw [sortIntoRunOrder_of_loop fuel b s r hmap hlen hs hr (by omega), if_neg hne]

/-! ## makeModel and the trimming keep the operation order -/

theorem foldl_inv {σ α : Type} (P : σ → Prop) (f : σ → α → Exec σ)
    (hf : ∀ s a s1, P s → f s a = .ret s1 → P s1) :
    ∀ (l : List α) (s s1 : σ), P s → Exec.foldl f s l = .ret s1 → P s1 := by
  intro l
  induction l with
  | nil => intro s s1 hs h; injection h with h; exact h ▸ hs
  | cons a rest ih =>
    intro s s1 hs h
    unfold Exec.foldl at h
    rw [Exec.bind_eq_ret] at h
    obtain ⟨s2, h2, h3⟩ := h
    exact ih s2 s1 (hf s a s2 hs h2) h3

theorem mapAccum_inv {σ α : Type} (P : σ → Prop) (f : σ → α → Exec (σ × α))
    (hf : ∀ s a r, P s → f s a = .ret r → P r.1) :
    ∀ (l : List α) (s : σ) (r : σ × List α), P s → mapAccum f s l = .ret r → P r.1 := by
  intro l
  induction l with
  | nil => intro s r hs h; injection h with h; exact h ▸ hs
  | cons a rest ih =>
    intro s r hs h
    unfold mapAccum at h
    rw [Exec.bind_eq_ret] at h
    obtain ⟨r1, h1, h⟩ := h
    rw [Exec.bind_eq_ret] at h
    obtain ⟨r2, h2, h⟩ := h
    injection h with h
    rw [← h]
    exact ih r1.1 r2 (hf s a r1 hs h1) h2

theorem addExtensionWithPrefix_simplify (tm : TypeManager) (mm mm1 : ModelMaker) (pfx : Nat)
    (h : addExtensionWithPrefix tm mm pfx = .ret mm1) :
    mm1.mSimplifyModel = mm.mSimplifyModel := by
  unfold addExtensionWithPrefix at h
  split at h
  · injection h with h; rw [h]
  · split at h
    · cases h
    · split at h
      · cases h
      · injection h with h; rw [← h]

theorem addExtensions_simplify (env : Env) (tm : TypeManager) (heap : Heap) (c : Bool) :
    ∀ (fuel : Nat) (mm mm1 : ModelMaker) (model : ModelBuilder),
      mm.mSimplifyModel = c → addExtensions env tm heap fuel mm model = .ret mm1 →
      mm1.mSimplifyModel = c := by
  intro fuel
  induction fuel with
  | zero => intro mm mm1 model _ h; simp [addExtensions] at h
  | succ fuel ih =>
    intro mm mm1 model hc h
    unfold addExtensions at h
    rw [Exec.bind_eq_ret] at h
    obtain ⟨m1, h1, h⟩ := h
    rw [Exec.bind_eq_ret] at h
    obtain ⟨m2, h2, h3⟩ := h
    have e1 : m1.mSimplifyModel = c := by
      refine foldl_inv (fun m : ModelMaker => m.mSimplifyModel = c) _ ?_ _ _ _ hc h1
      intro s a s1 hs hf
      split at hf
      · rw [addExtensionWithPrefix_simplify tm s s1 _ hf]; exact hs
      · injection hf with hf; rw [← hf]; exact hs
    have e2 : m2.mSimplifyModel = c := by
      refine foldl_inv (fun m : ModelMaker => m.mSimplifyModel = c) _ ?_ _ _ _ e1 h2
      intro s a s1 hs hf
      split at hf
      · rw [addExtensionWithPrefix_simplify tm s s1 _ hf]; exact hs
      · injection hf with hf; rw [← hf]; exact hs
    refine foldl_inv (fun m : ModelMaker => m.mSimplifyModel = c) _ ?_ _ _ _ e2 h3
    intro s a s1 hs hf
    split at hf
    · cases hf
    · exact ih _ _ _ hs hf

theorem updateConstantLocation_simplify (env : Env) (refModel : ModelBuilder)
    (mm : ModelMaker) (operand : Operand) (r : ModelMaker × Operand)
    (h : updateConstantLocation env refModel mm operand = .ret r) :
    r.1.mSimplifyModel = mm.mSimplifyModel := by
  unfold updateConstantLocation at h
  split at h
  · dsimp only at h
    split at h
    · injection h with h; rw [← h]
    · cases h
  · split at h
    · dsimp only at h
      split at h
      · cases h
      · injection h with h; rw [← h]
    · injection h with h; rw [← h]

theorem updateOperandLocations_spec (env : Env) (heap : Heap) (c : Bool) :
    ∀ (fuel : Nat) (mm : ModelMaker) (refModel : ModelBuilder) (subgraph : Subgraph)
      (r : ModelMaker × Subgraph), mm.mSimplifyModel = c →
      updateOperandLocations env heap fuel mm refModel subgraph = .ret r →
      r.1.mSimplifyModel = c ∧ r.2.operations = subgraph.operations := by
  intro fuel
  induction fuel with
  | zero => intro mm refModel subgraph r _ h; simp [updateOperandLocations] at h
  | succ fuel ih =>
    intro mm refModel subgraph r hc h
    unfold updateOperandLocations at h
    rw [Exec.bind_eq_ret] at h
    obtain ⟨r1, h1, h⟩ := h
    rw [Exec.bind_eq_ret] at h
    obtain ⟨r2, h2, h⟩ := h
    injection h with h
    have e1 : r1.1.mSimplifyModel = c := by
      refine mapAccum_inv (fun m : ModelMaker => m.mSimplifyModel = c) _ ?_ _ _ _ hc h1
      intro s a r hs hf
      rw [updateConstantLocation_simplify env refModel s a r hf]; exact hs
    have e2 : r2.1.mSimplifyModel = c := by
      refine mapAccum_inv (fun m : ModelMaker => m.mSimplifyModel = c) _ ?_ _ _ _ e1 h2
      intro s a r hs hf
      split at hf
      · dsimp only at hf
        split at hf
        · cases hf
        · split at hf
          · cases hf
          · rw [Exec.bind_eq_ret] at hf
            obtain ⟨u, hu, hf⟩ := hf
            injection hf with hf
            rw [← hf]
            exact (ih _ _ _ u (by exact hs) hu).1
      · injection hf with hf; rw [← hf]; exact hs
    rw [← h]
    exact ⟨e2, rfl⟩

/-- The model made from a builder that is not to be simplified lists the operations of the
builder, in the same order. -/
theorem makeModel_operations (env : Env) (tm : TypeManager) (heap : Heap) (fuel : Nat)
    (b : ModelBuilder) (m : Model) (hs : b.mSimplifyModel = false)
    (h : makeModel env tm heap fuel b = .ret m) : m.main.operations = b.mOperations := by
  unfold makeModel ModelMaker.run at h
  rw [Exec.bind_eq_ret] at h
  obtain ⟨mm1, h1, h⟩ := h
  rw [Exec.bind_eq_ret] at h
  obtain ⟨r, h2, h⟩ := h
  have e1 := addExtensions_simplify env tm heap false fuel _ mm1 b hs h1
  obtain ⟨e2, e3⟩ := updateOperandLocations_spec env heap false fuel mm1 b _ r e1 h2
  injection h with h
  rw [← h, e2]
  simp only [Bool.false_eq_true, if_false]
  rw [e3]
  rfl

theorem take_of_resizeVector (l : List Nat) (n : Nat) (h : n ≤ l.length) :
    resizeVector l n = l.take n := by
  unfold resizeVector
  rw [Nat.sub_eq_zero_of_le h]
  simp

/-- Trimming one operation keeps its type and outputs and keeps a prefix of its inputs. -/
theorem removeTrailingArguments_spec (env : Env) (b : ModelBuilder) (op op1 : Operation)
    (h : removeTrailingArguments env b op = .ret op1) :
    op1.outputs = op.outputs ∧ ∀ v ∈ op1.inputs, v ∈ op.inputs := by
  unfold removeTrailingArguments at h
  rw [Exec.bind_eq_ret] at h
  obtain ⟨count, _, h⟩ := h
  split at h
  · injection h with h; rw [← h]; exact ⟨rfl, fun v hv => hv⟩
  · dsimp only at h
    split at h
    · injection h with h
      rw [← h]
      refine ⟨rfl, ?_⟩
      intro v hv
      dsimp only at hv
      rw [take_of_resizeVector _ _ (by
        have := Nat.mod_le op.inputs.length (2 ^ 32)
        omega)] at hv
      exact List.mem_of_mem_take hv
    · cases h

theorem removeTrailingLoop_get (env : Env) (b : ModelBuilder) (ops : List Operation) :
    ∀ (ops1 : List Operation), removeTrailingLoop env b ops = .ret ops1 →
      ∀ i, (∀ op1, ops1.get? i = some op1 → ∃ op, ops.get? i = some op ∧
          op1.outputs = op.outputs ∧ ∀ v ∈ op1.inputs, v ∈ op.inputs) ∧
        (∀ op, ops.get? i = some op → ∃ op1, ops1.get? i = some op1 ∧
          op1.outputs = op.outputs) := by
  induction ops with
  | nil =>
    intro ops1 h i
    simp only [removeTrailingLoop] at h
    injection h with h
    subst h
    exact ⟨fun op1 h1 => by simp at h1, fun op h1 => by simp at h1⟩
  | cons x rest ih =>
    intro ops1 h i
    unfold removeTrailingLoop at h
    rw [Exec.bind_eq_ret] at h
    obtain ⟨x1, hx, h⟩ := h
    rw [Exec.bind_eq_ret] at h
    obtain ⟨rest1, hrest, h⟩ := h
    injection h with h
    subst h
    have hspec := removeTrailingArguments_spec env b x x1 hx
    cases i with
    | zero =>
      constructor
      · intro op1 h1
        simp only [List.get?_cons_zero, Option.some.injEq] at h1
        subst h1
        exact ⟨x, rfl, hspec.1, hspec.2⟩
      · intro op h1
        simp only [List.get?_cons_zero, Option.some.injEq] at h1
        subst h1
        exact ⟨x1, rfl, hspec.1⟩
    | succ i =>
      simp only [List.get?_cons_succ]
      exact ih rest1 hrest i

theorem removeTrailingLoop_length (env : Env) (b : ModelBuilder) (ops : List Operation) :
    ∀ (ops1 : List Operation), removeTrailingLoop env b ops = .ret ops1 →
      ops1.length = ops.length := by
  induction ops with
  | nil =>
    intro ops1 h
    simp only [removeTrailingLoop] at h
    injection h with h
    subst h
    rfl
  | cons x rest ih =>
    intro ops1 h
    unfold removeTrailingLoop at h
    rw [Exec.bind_eq_ret] at h
    obtain ⟨x1, hx, h⟩ := h
    rw [Exec.bind_eq_ret] at h
    obtain ⟨rest1, hrest, h⟩ := h
    injection h with h
    subst h
    simp [ih rest1 hrest]

/-- Trimming keeps a topological order topological. -/
theorem producersFirst_trim (env : Env) (b : ModelBuilder) (sel : Nat → Prop)
    (ops ops1 : List Operation) (h : removeTrailingLoop env b ops = .ret ops1)
    (hp : ProducersFirst sel ops) : ProducersFirst sel ops1 := by
  intro i op1 v hi hv hs
  obtain ⟨op, hop, _, hin⟩ := (removeTrailingLoop_get env b ops ops1 h i).1 op1 hi
  obtain ⟨⟨j, p, hj, hpv⟩, hall⟩ := hp i op v hop (hin v hv) hs
  constructor
  · obtain ⟨p1, hp1, hout⟩ := (removeTrailingLoop_get env b ops ops1 h j).2 p hj
    exact ⟨j, p1, hp1, by rw [hout]; exact hpv⟩
  · intro j q1 hq1 hqv
    obtain ⟨q, hq, hout, _⟩ := (removeTrailingLoop_get env b ops ops1 h j).1 q1 hq1
    exact hall j q hq (by rw [← hout]; exact hqv)

/-! ## An invariant of the reachable builders -/

theorem ensures_ret (P : ModelBuilder → Prop) (b1 : ModelBuilder) (c : Int) (h : P b1) :
    Ensures P (.ret (c, b1)) := by
  intro code b2 h2; injection h2 with h2; injection h2 with _ h3; subst h3; exact h

theorem ensures_abort (P : ModelBuilder → Prop) : Ensures P .abort := by
  intro code b1 h; cases h

theorem ensures_timeout (P : ModelBuilder → Prop) : Ensures P .timeout := by
  intro code b1 h; cases h

theorem ensures_bind {α : Type} (P : ModelBuilder → Prop) (x : Exec α)
    (f : α → Exec (Int × ModelBuilder)) (h : ∀ a, Ensures P (f a)) :
    Ensures P (x.bind f) := by
  cases x with
  | ret a => exact h a
  | abort => exact ensures_abort P
  | timeout => exact ensures_timeout P

theorem stateInv_of_frame {b b1 : ModelBuilder} (h : StateInv b)
    (hops : b1.mOperations = b.mOperations)
    (hc : b1.mCompletedModel = b.mCompletedModel)
    (hi : b1.mInvalidModel = b.mInvalidModel)
    (hm : b1.mSortedOperationIndexMap = b.mSortedOperationIndexMap)
    (hs : b1.mSimplifyModel = b.mSimplifyModel) : StateInv b1 := by
  unfold StateInv at *
  rw [hops, hc, hi, hm, hs]
  exact h

theorem addOperand_inv (env : Env) (tm : TypeManager) (b : ModelBuilder)
    (type : ANeuralNetworksOperandType) (hb : StateInv b) :
    Ensures StateInv (b.addOperand env tm type) := by
  unfold ModelBuilder.addOperand
  repeat' first
    | (apply ensures_ret; exact hb)
    | apply ensures_abort
    | (apply ensures_bind; intro _)
    | (dsimp only)
    | split

theorem setOperandValue_inv (env : Env) (tm : TypeManager) (b : ModelBuilder)
    (index : Nat) (buffer : Option Buffer) (length : Nat) (hb : StateInv b) :
    Ensures StateInv (b.setOperandValue env tm index buffer length) := by
  unfold ModelBuilder.setOperandValue
  repeat' first
    | (apply ensures_ret; exact hb)
    | apply ensures_abort
    | (apply ensures_bind; intro _)
    | (dsimp only)
    | split

theorem setOperandValueFromMemory_inv (env : Env) (tm : TypeManager) (b : ModelBuilder)
    (index memory offset length : Nat) (hb : StateInv b) :
    Ensures StateInv (b.setOperandValueFromMemory env tm index memory offset length) := by
  unfold ModelBuilder.setOperandValueFromMemory
  repeat' first
    | (apply ensures_ret; exact hb)
    | apply ensures_abort
    | (apply ensures_bind; intro _)
    | (dsimp only)
    | split

theorem setOperandValueFromModel_inv (env : Env) (tm : TypeManager) (heap : Heap)
    (fuel : Nat) (b : ModelBuilder) (index value : Nat) (hb : StateInv b) :
    Ensures StateInv (b.setOperandValueFromModel env tm heap fuel index value) := by
  unfold ModelBuilder.setOperandValueFromModel
  repeat' first
    | (apply ensures_ret; exact hb)
    | apply ensures_abort
    | (apply ensures_bind; intro _)
    | (dsimp only)
    | split

theorem setOperandSymmPerChannelQuantParams_inv (env : Env) (b : ModelBuilder)
    (index : Nat) (channelQuant : ANeuralNetworksSymmPerChannelQuantParams)
    (hb : StateInv b) :
    Ensures StateInv (b.setOperandSymmPerChannelQuantParams env index channelQuant) := by
  unfold ModelBuilder.setOperandSymmPerChannelQuantParams
  repeat' first
    | (apply ensures_ret; exact hb)
    | apply ensures_abort
    | (dsimp only)
    | split

theorem setOperandExtensionData_inv (env : Env) (b : ModelBuilder)
    (index : Nat) (data : Option (List Nat)) (length : Nat) (hb : StateInv b) :
    Ensures StateInv (b.setOperandExtensionData env index data length) := by
  unfold ModelBuilder.setOperandExtensionData
  repeat' first
    | (apply ensures_ret; exact hb)
    | apply ensures_abort
    | (dsimp only)
    | split

theorem addOperation_inv (env : Env) (tm : TypeManager) (b : ModelBuilder)
    (type inputCount : Nat) (inputs : Option (List Nat)) (outputCount : Nat)
    (outputs : Option (List Nat)) (hb : StateInv b) :
    Ensures StateInv (b.addOperation env tm type inputCount inputs outputCount outputs) := by
  have hmax : MAX_NUMBER_OF_OPERATIONS = 4294967294 := rfl
  have hcount : b.operationCount = b.mOperations.length := by
    unfold ModelBuilder.operationCount
    have := hb.1
    rw [hmax] at this
    omega
  unfold ModelBuilder.addOperation
  repeat' first
    | (apply ensures_ret; first
        | exact hb
        | (constructor
           · rename_i hlt
             rw [hcount] at hlt
             simp only [List.length_append, List.length_singleton]
             omega
           · exact hb.2))
    | (dsimp only)
    | split

theorem identifyInputsAndOutputs_inv (env : Env) (b : ModelBuilder) (inputCount : Nat)
    (inputs : Option (List Nat)) (outputCount : Nat) (outputs : Option (List Nat))
    (hb : StateInv b) :
    Ensures StateInv
      (b.identifyInputsAndOutputs env inputCount inputs outputCount outputs) := by
  unfold ModelBuilder.identifyInputsAndOutputs
  repeat' first
    | (apply ensures_ret; exact hb)
    | (dsimp only)
    | split

theorem relax_inv (b : ModelBuilder) (allow : Bool) (hb : StateInv b) :
    Ensures StateInv (b.relaxComputationFloat32toFloat16 allow) := by
  unfold ModelBuilder.relaxComputationFloat32toFloat16
  split
  · exact ensures_ret _ _ _ hb
  · exact ensures_ret _ _ _ (stateInv_of_frame hb rfl rfl rfl rfl rfl)

theorem removeTrailingArgumentsWithDefaultValues_spec (env : Env) (b b1 : ModelBuilder)
    (h : removeTrailingArgumentsWithDefaultValues env b = .ret b1) :
    ∃ ops, removeTrailingLoop env b b.mOperations = .ret ops ∧
      b1 = { b with mOperations := ops } := by
  unfold removeTrailingArgumentsWithDefaultValues at h
  rw [Exec.bind_eq_ret] at h
  obtain ⟨ops, hops, h⟩ := h
  injection h with h
  exact ⟨ops, hops, h.symm⟩

theorem sortIntoRunOrder_length (fuel : Nat) (b : ModelBuilder) (ok : Bool)
    (b1 : ModelBuilder) (h : sortIntoRunOrder fuel b = .ret (ok, b1)) :
    b1.mOperations.length = b.mOperations.length := by
  rcases sortIntoRunOrder_frame fuel b ok b1 h with h1 | ⟨_, _, _, hl, h1⟩
  · rw [h1]
  · rw [h1]; exact hl

theorem finish_inv (env : Env) (tm : TypeManager) (heap : Heap) (fuel : Nat)
    (b : ModelBuilder) (hb : StateInv b) : Ensures StateInv (b.finish env tm heap fuel) := by
  intro code b1 h
  rcases finish_cases env tm heap fuel b code b1 h with
    ⟨_, _, h1⟩ | ⟨_, _, _, h1⟩ | ⟨_, _, c, s, h1, h2, _, h3⟩ |
    ⟨_, _, c, s, m, h1, h2, _, _, _, h3⟩ | ⟨_, _, c, s, m, v, t, hash, h1, h2, _, _, _, h4, _, _, h3⟩
  · rw [h1]; exact hb
  · obtain ⟨_, e1, e2, e3, e4, e5, _⟩ := copyLargeValuesToSharedMemory_frame env b _ _ h1
    exact stateInv_of_frame hb e1 e4 e5 e2 e3
  · obtain ⟨_, e1, _⟩ := copyLargeValuesToSharedMemory_frame env b _ _ h1
    have hl := sortIntoRunOrder_length fuel c _ s h2
    rw [h3]
    refine ⟨?_, Or.inr (Or.inl rfl)⟩
    show s.mOperations.length ≤ _
    rw [hl, e1]; exact hb.1
  · obtain ⟨_, e1, _⟩ := copyLargeValuesToSharedMemory_frame env b _ _ h1
    have hl := sortIntoRunOrder_length fuel c _ s h2
    rw [h3]
    refine ⟨?_, Or.inr (Or.inl rfl)⟩
    show s.mOperations.length ≤ _
    rw [hl, e1]; exact hb.1
  · obtain ⟨_, e1, _⟩ := copyLargeValuesToSharedMemory_frame env b _ _ h1
    have hl := sortIntoRunOrder_length fuel c _ s h2
    obtain ⟨ops, hops, ht⟩ := removeTrailingArgumentsWithDefaultValues_spec env s t h4
    have hl2 := removeTrailingLoop_length env s _ ops hops
    rw [h3, ht]
    refine ⟨?_, Or.inl rfl⟩
    show ops.length ≤ _
    rw [hl2, hl, e1]; exact hb.1

theorem run_inv (env : Env) (tm : TypeManager) (heap : Heap) (fuel : Nat) (call : Call)
    (b : ModelBuilder) (hb : StateInv b) : Ensures StateInv (call.run env tm heap fuel b) := by
  cases call with
  | addOperand type => exact addOperand_inv env tm b type hb
  | setOperandValue index buffer length =>
    exact setOperandValue_inv env tm b index buffer length hb
  | setOperandValueFromMemory index memory offset length =>
    exact setOperandValueFromMemory_inv env tm b index memory offset length hb
  | setOperandValueFromModel index value =>
    exact setOperandValueFromModel_inv env tm heap fuel b index value hb
  | setOperandSymmPerChannelQuantParams index channelQuant =>
    exact setOperandSymmPerChannelQuantParams_inv env b index channelQuant hb
  | setOperandExtensionData index data length =>
    exact setOperandExtensionData_inv env b index data length hb
  | addOperation type inputCount inputs outputCount outputs =>
    exact addOperation_inv env tm b type inputCount inputs outputCount outputs hb
  | identifyInputsAndOutputs inputCount inputs outputCount outputs =>
    exact identifyInputsAndOutputs_inv env b inputCount inputs outputCount outputs hb
  | relaxComputationFloat32toFloat16 allow => exact relax_inv b allow hb
  | finish => exact finish_inv env tm heap fuel b hb

/-- Every reachable builder satisfies the invariant. -/
theorem reachable_inv (env : Env) (b : ModelBuilder) (h : Reachable env b) : StateInv b := by
  induction h with
  | init => exact ⟨by decide, Or.inr (Or.inr ⟨rfl, rfl⟩)⟩
  | step tm heap fuel call code _ hrun ih => exact run_inv env tm heap fuel call _ ih _ _ hrun

theorem producersFirst_mono {sel sel1 : Nat → Prop} (operations : List Operation)
    (h : ∀ v, sel1 v → sel v) (hp : ProducersFirst sel operations) :
    ProducersFirst sel1 operations :=
  fun i op v hi hv hs => hp i op v hi hv (h v hs)

theorem isUnknownOperand_of_map_eq {ops ops1 : List Operand}
    (h : ops1.map (fun x => x.lifetime) = ops.map (fun x => x.lifetime)) (v : Nat) :
    isUnknownOperand ops1 v = isUnknownOperand ops v := by
  have h1 : (ops1.map (fun x => x.lifetime))[v]? = (ops.map (fun x => x.lifetime))[v]? := by
    rw [h]
  rw [List.getElem?_map, List.getElem?_map] at h1
  unfold isUnknownOperand
  rw [List.get?_eq_getElem?, List.get?_eq_getElem?]
  cases h2 : ops1[v]? with
  | none =>
    cases h3 : ops[v]? with
    | none => rfl
    | some o => rw [h2, h3] at h1; cases h1
  | some o1 =>
    cases h3 : ops[v]? with
    | none => rw [h2, h3] at h1; cases h1
    | some o =>
      rw [h2, h3] at h1
      simp only [Option.map_some', Option.some.injEq] at h1
      dsimp only
      rw [h1]

/-! ## Sequences of calls, cycles and ranks -/

theorem reachable_runCalls (env : Env) (tm : TypeManager) (heap : Heap) (fuel : Nat) :
    ∀ (calls : List Call) (b b1 : ModelBuilder), Reachable env b →
      runCalls env tm heap fuel calls b = some b1 → Reachable env b1 := by
  intro calls
  induction calls with
  | nil =>
    intro b b1 hb h
    simp only [runCalls, Option.some.injEq] at h
    exact h ▸ hb
  | cons call rest ih =>
    intro b b1 hb h
    unfold runCalls at h
    split at h
    · rename_i r hr
      exact ih r.2 b1 (Reachable.step tm heap fuel call r.1 hb hr) h
    · cases h

theorem feeds_of_map_eq {ops ops1 : List Operand}
    (h : ops1.map (fun x => x.lifetime) = ops.map (fun x => x.lifetime))
    (operations : List Operation) : Feeds ops1 operations = Feeds ops operations := by
  funext a c
  unfold Feeds
  simp only [isUnknownOperand_of_map_eq h]

theorem cycleBuilder_cycle :
    ∃ j, Relation.TransGen (Feeds cycleBuilder.mOperands cycleBuilder.mOperations) j j :=
  ⟨0, Relation.TransGen.tail
    (Relation.TransGen.single ((feeds_iff _ _ 0 1).mpr (by decide)))
    ((feeds_iff _ _ 1 0).mpr (by decide))⟩

theorem cycleBuilder_reachable : Reachable sampleEnv cycleBuilder :=
  reachable_runCalls sampleEnv sampleTypeManager emptyHeap 0 cycleCalls _ _ Reachable.init
    (by decide)

theorem scenarioTwoBuilder_reachable : Reachable sampleEnv scenarioTwoBuilder :=
  reachable_runCalls sampleEnv sampleTypeManager emptyHeap 0 scenarioTwoCalls _ _
    Reachable.init (by decide)

theorem sampleEnv_validate : ValidateRejectsRewrittenOperands sampleEnv := by
  intro m h
  by_contra hn
  have : sampleEnv.validate m = none := by
    show (if (m.main.operations.flatMap (fun op => op.outputs)).Nodup then some 0 else none)
      = none
    rw [if_neg hn]
  rw [this] at h
  cases h

/-! ## Claims about the run order -/

/-- C1: when `finish` succeeds on a reachable builder, and `validate` rejects the models in
which an operand is written more than once, the stored operation order is topological: for
every operation stored at position `i` and every input operand `v` of it whose lifetime is
`TEMPORARY_VARIABLE`, an operation listing `v` among its outputs exists, and every operation
listing `v` among its outputs is stored at a position smaller than `i`. -/
theorem C1_finished_order_is_topological (env : Env) (tm : TypeManager) (heap : Heap)
    (fuel : Nat) (b b1 : ModelBuilder) (hv : ValidateRejectsRewrittenOperands env)
    (hr : Reachable env b)
    (h : b.finish env tm heap fuel = .ret (ANEURALNETWORKS_NO_ERROR, b1)) :
    ProducersFirst
      (fun v => ∃ o, b1.mOperands.get? v = some o ∧ o.lifetime = LifeTime.TEMPORARY_VARIABLE)
      b1.mOperations := by
  obtain ⟨hl, hinv⟩ := reachable_inv env b hr
  rcases finish_cases env tm heap fuel b _ b1 h with
    ⟨_, hcode, _⟩ | ⟨_, _, hcode, _⟩ | ⟨_, _, _, _, _, _, hcode, _⟩ |
    ⟨_, _, _, _, _, _, _, _, _, hcode, _⟩ |
    ⟨hc, hi, c, s, m, v, t, hash, h1, h2, hm, hval, _, h4, _, _, h3⟩
  · exact absurd hcode (by decide)
  · exact absurd rfl hcode
  · exact absurd hcode (by decide)
  · exact absurd hcode (by decide)
  · obtain ⟨e0, e1, e2, e3, _⟩ := copyLargeValuesToSharedMemory_frame env b _ _ h1
    have hfresh : b.mSortedOperationIndexMap = [] ∧ b.mSimplifyModel = false := by
      rcases hinv with h | h | h
      · rw [hc] at h; cases h
      · rw [hi] at h; cases h
      · exact h
    have hmax : MAX_NUMBER_OF_OPERATIONS = 4294967294 := rfl
    have hlen : c.mOperations.length < 2 ^ 32 := by
      rw [e1]; rw [hmax] at hl; omega
    have hsimp : s.mSimplifyModel = false := by
      rcases sortIntoRunOrder_frame fuel c _ s h2 with hs | ⟨_, _, _, _, hs⟩ <;>
        rw [hs] <;> show c.mSimplifyModel = false <;> rw [e3] <;> exact hfresh.2
    have hnd : (produced s.mOperations).Nodup := by
      have := hv m (by rw [hval]; rfl)
      rw [makeModel_operations env tm heap fuel s m hsimp hm] at this
      exact this
    obtain ⟨hops, _, htopo⟩ :=
      sortIntoRunOrder_topological fuel c s (by rw [e2]; exact hfresh.1) hlen h2 hnd
    obtain ⟨ops, hloop, ht⟩ := removeTrailingArgumentsWithDefaultValues_spec env s t h4
    have htrim := producersFirst_trim env s _ _ ops hloop htopo
    rw [h3, ht]
    show ProducersFirst
      (fun v => ∃ o, s.mOperands.get? v = some o ∧ o.lifetime = LifeTime.TEMPORARY_VARIABLE)
      ops
    refine producersFirst_mono ops ?_ htrim
    rintro v ⟨o, ho, hlt⟩
    rw [hops] at ho
    unfold isUnknownOperand
    rw [ho]
    show isUnknownLifetime o.lifetime = true
    rw [hlt]
    rfl

/-- C1 (witness): the second scenario; after `finish` the stored order is A, B. -/
theorem C1_finished_order_is_topological_witness :
    (ValidateRejectsRewrittenOperands sampleEnv ∧ Reachable sampleEnv scenarioTwoBuilder ∧
      scenarioTwoBuilder.finish sampleEnv sampleTypeManager emptyHeap 3 =
        .ret (ANEURALNETWORKS_NO_ERROR, scenarioTwoFinished)) ∧
    scenarioTwoFinished.mOperations = [operationA, operationB] ∧
    ProducersFirst
      (fun v => ∃ o, scenarioTwoFinished.mOperands.get? v = some o ∧
        o.lifetime = LifeTime.TEMPORARY_VARIABLE)
      scenarioTwoFinished.mOperations :=
  ⟨⟨sampleEnv_validate, scenarioTwoBuilder_reachable, by decide⟩, rfl,
    C1_finished_order_is_topological sampleEnv sampleTypeManager emptyHeap 3
      scenarioTwoBuilder scenarioTwoFinished sampleEnv_validate scenarioTwoBuilder_reachable
      (by decide)⟩

/-! ## Calls on an invalid builder; identifyInputsAndOutputs -/

theorem run_of_badState (env : Env) (tm : TypeManager) (heap : Heap) (fuel : Nat)
    (call : Call) (b : ModelBuilder)
    (h : b.mCompletedModel = true ∨ b.mInvalidModel = true) :
    call.run env tm heap fuel b = .ret (ANEURALNETWORKS_BAD_STATE, b) := by
  have hb := badState_of_flag h
  cases call <;>
    simp only [Call.run, ModelBuilder.addOperand, ModelBuilder.setOperandValue,
      ModelBuilder.setOperandValueFromMemory, ModelBuilder.setOperandValueFromModel,
      ModelBuilder.setOperandSymmPerChannelQuantParams, ModelBuilder.setOperandExtensionData,
      ModelBuilder.addOperation, ModelBuilder.identifyInputsAndOutputs,
      ModelBuilder.relaxComputationFloat32toFloat16, hb, if_true]
  unfold ModelBuilder.finish
  rcases h with h | h
  · simp [h]
  · by_cases hc : b.mCompletedModel = true <;> simp [h, hc]

/-- A finished or invalid builder never changes again. -/
theorem reachableFrom_of_badState (env : Env) (b b2 : ModelBuilder)
    (h : b.mCompletedModel = true ∨ b.mInvalidModel = true)
    (hr : ReachableFrom env b b2) : b2 = b := by
  induction hr with
  | refl => rfl
  | step tm heap fuel call code _ hrun ih =>
    subst ih
    rw [run_of_badState env tm heap fuel call _ h] at hrun
    injection hrun with hrun
    injection hrun with _ h2
    exact h2.symm

/-- Lifetimes over any number of calls. -/
theorem reachableFrom_keeps (env : Env) (b b2 : ModelBuilder)
    (hr : ReachableFrom env b b2) : LifetimesStep b.mOperands b2.mOperands := by
  induction hr with
  | refl => exact lifetimesStep_refl _
  | step tm heap fuel call code _ hrun ih =>
    exact lifetimesStep_trans ih (run_keeps env tm heap fuel call _ _ _ hrun)

theorem readN_eq_makeVector (data : Option (List Nat)) (n : Nat)
    (h : nullOrSizedFails data n = false) : readN (data.getD []) n = makeVector data n := by
  unfold makeVector
  cases data with
  | none =>
    have hn : n = 0 := by simpa [nullOrSizedFails] using h
    subst hn
    rfl
  | some l =>
    have hn : n ≠ 0 := by simpa [nullOrSizedFails] using h
    rw [if_pos (Nat.pos_of_ne_zero hn)]
    rfl

theorem take_set_self (l : List Nat) (i a : Nat) : (l.set i a).take i = l.take i := by
  rw [List.set_take]
  exact List.set_eq_of_length_le (by rw [List.length_take]; exact Nat.min_le_left _ _)

theorem length_readN (l : List Nat) (n : Nat) : (readN l n).length = n := by
  unfold readN
  simp

/-- What a successful run of the loop of `setArguments` says about its arguments and its
results. -/
theorem setArgumentsLoop_spec (lifetime : LifeTime)
    (hl : lifetime ≠ LifeTime.TEMPORARY_VARIABLE) (vals : List Nat) :
    ∀ (i : Nat) (vec : List Nat) (operands : List Operand),
      (setArgumentsLoop lifetime i vals vec operands).1 = true →
      vec.length = i + vals.length →
      vals.Nodup ∧
      (∀ v ∈ vals, ∃ o, operands.get? v = some o ∧
        o.lifetime = LifeTime.TEMPORARY_VARIABLE) ∧
      (setArgumentsLoop lifetime i vals vec operands).2.1 = vec.take i ++ vals ∧
      (∀ v ∈ vals, ∃ o, (setArgumentsLoop lifetime i vals vec operands).2.2.get? v = some o ∧
        o.lifetime = lifetime) ∧
      (∀ v, v ∉ vals →
        (setArgumentsLoop lifetime i vals vec operands).2.2.get? v = operands.get? v) := by
  induction vals with
  | nil =>
    intro i vec operands _ hlen
    refine ⟨List.nodup_nil, fun v hv => absurd hv (List.not_mem_nil v), ?_,
      fun v hv => absurd hv (List.not_mem_nil v), fun v _ => rfl⟩
    show vec = vec.take i ++ []
    rw [List.append_nil, List.take_of_length_le (by simp at hlen; omega)]
  | cons x rest ih =>
    intro i vec operands h hlen
    by_cases hx : x ≥ operands.length
    · rw [ModelBuilder.setArgumentsLoop, if_pos hx] at h
      exact absurd h (by simp)
    cases hop : operands.get? x with
    | none =>
      rw [ModelBuilder.setArgumentsLoop, if_neg hx] at h
      simp only [hop] at h
      exact absurd h (by simp)
    | some operand =>
      by_cases hlt : operand.lifetime ≠ LifeTime.TEMPORARY_VARIABLE
      · rw [ModelBuilder.setArgumentsLoop, if_neg hx] at h
        simp only [hop] at h
        rw [if_pos hlt] at h
        exact absurd h (by simp)
      have heq : setArgumentsLoop lifetime i (x :: rest) vec operands =
          setArgumentsLoop lifetime (i + 1) rest (vec.set i x)
            (operands.set x { operand with lifetime := lifetime }) := by
        rw [ModelBuilder.setArgumentsLoop, if_neg hx]
        simp only [hop]
        rw [if_neg hlt]
      rw [heq] at h ⊢
      have hlt2 : operand.lifetime = LifeTime.TEMPORARY_VARIABLE := by simpa using hlt
      have hlen1 : (vec.set i x).length = (i + 1) + rest.length := by
        simp only [List.length_set, List.length_cons] at hlen ⊢
        omega
      obtain ⟨hnd, htmp, hvec, hset, hother⟩ := ih (i + 1) (vec.set i x)
        (operands.set x { operand with lifetime := lifetime }) h hlen1
      have hxlt : x < operands.length := by omega
      have hget : (operands.set x { operand with lifetime := lifetime }).get? x =
          some { operand with lifetime := lifetime } := by
        rw [List.get?_eq_getElem?, List.getElem?_set_self hxlt]
      have hxrest : x ∉ rest := by
        intro hmem
        obtain ⟨o, ho, hot⟩ := htmp x hmem
        rw [hget] at ho
        injection ho with ho
        rw [← ho] at hot
        exact hl hot
      have hne : ∀ v ∈ rest, x ≠ v := fun v hv hxv => hxrest (hxv ▸ hv)
      refine ⟨List.nodup_cons.mpr ⟨hxrest, hnd⟩, ?_, ?_, ?_, ?_⟩
      · intro v hv
        rcases List.mem_cons.mp hv with hv | hv
        · subst hv; exact ⟨operand, hop, hlt2⟩
        · obtain ⟨o, ho, hot⟩ := htmp v hv
          rw [List.get?_eq_getElem?, List.getElem?_set_ne (hne v hv)] at ho
          exact ⟨o, by rw [List.get?_eq_getElem?]; exact ho, hot⟩
      · rw [hvec]
        have hi : i < vec.length := by
          simp only [List.length_cons] at hlen
          omega
        rw [List.take_succ, take_set_self, List.getElem?_set_self hi]
        simp
      · intro v hv
        rcases List.mem_cons.mp hv with hv | hv
        · subst hv
          rw [hother v hxrest]
          exact ⟨_, hget, rfl⟩
        · exact hset v hv
      · intro v hv
        have hvx : x ≠ v := fun hxv => hv (hxv ▸ List.mem_cons_self _ _)
        have hvr : v ∉ rest := fun hmem => hv (List.mem_cons_of_mem _ hmem)
        rw [hother v hvr, List.get?_eq_getElem?, List.getElem?_set_ne hvx,
          List.get?_eq_getElem?]

/-- What a successful `identifyInputsAndOutputs` says about its arguments and its result. -/
theorem identifyInputsAndOutputs_spec (env : Env) (b : ModelBuilder) (inputCount : Nat)
    (inputs : Option (List Nat)) (outputCount : Nat) (outputs : Option (List Nat))
    (b1 : ModelBuilder)
    (h : b.identifyInputsAndOutputs env inputCount inputs outputCount outputs =
      .ret (ANEURALNETWORKS_NO_ERROR, b1)) :
    (∀ v ∈ makeVector inputs inputCount ++ makeVector outputs outputCount,
      ∃ o, b.mOperands.get? v = some o ∧ o.lifetime = LifeTime.TEMPORARY_VARIABLE) ∧
    (makeVector inputs inputCount ++ makeVector outputs outputCount).Nodup ∧
    b1.mInputIndexes = makeVector inputs inputCount ∧
    b1.mOutputIndexes = makeVector outputs outputCount ∧
    (∀ v ∈ makeVector inputs inputCount,
      ∃ o, b1.mOperands.get? v = some o ∧ o.lifetime = LifeTime.SUBGRAPH_INPUT) ∧
    (∀ v ∈ makeVector outputs outputCount,
      ∃ o, b1.mOperands.get? v = some o ∧ o.lifetime = LifeTime.SUBGRAPH_OUTPUT) := by
  have hne : ∀ (c : Int) (x y : ModelBuilder), c ≠ ANEURALNETWORKS_NO_ERROR →
      Exec.ret (c, x) = Exec.ret (ANEURALNETWORKS_NO_ERROR, y) → False := by
    intro c x y hc he
    injection he with he
    injection he with he _
    exact hc he
  unfold ModelBuilder.identifyInputsAndOutputs at h
  split at h
  · exact (hne _ _ _ (by decide) h).elim
  split at h
  · exact (hne _ _ _ (by decide) h).elim
  rename_i hin
  split at h
  · exact (hne _ _ _ (by decide) h).elim
  split at h
  · exact (hne _ _ _ (by decide) h).elim
  rename_i hout
  split at h
  · exact (hne _ _ _ (by decide) h).elim
  dsimp only at h
  split at h
  · exact (hne _ _ _ (by decide) h).elim
  rename_i h1
  split at h
  · exact (hne _ _ _ (by decide) h).elim
  rename_i h2
  injection h with h
  injection h with _ h
  have hin1 : nullOrSizedFails inputs inputCount = false := by simpa using hin
  have hout1 : nullOrSizedFails outputs outputCount = false := by simpa using hout
  have e1 := readN_eq_makeVector inputs inputCount hin1
  have e2 := readN_eq_makeVector outputs outputCount hout1
  unfold ModelBuilder.setArguments at h1 h2 h
  rw [e1] at h1 h2 h
  rw [e2] at h2 h
  have hl1 : (makeVector inputs inputCount).length = inputCount := by
    rw [← e1]; exact length_readN _ _
  have hl2 : (makeVector outputs outputCount).length = outputCount := by
    rw [← e2]; exact length_readN _ _
  have h1t : (setArgumentsLoop LifeTime.SUBGRAPH_INPUT 0 (makeVector inputs inputCount)
      (resizeVector b.mInputIndexes inputCount) b.mOperands).1 = true := by simpa using h1
  obtain ⟨nd1, tmp1, vec1, set1, other1⟩ :=
    setArgumentsLoop_spec LifeTime.SUBGRAPH_INPUT (by decide) _ 0 _ _ h1t
      (by rw [length_resizeVector, hl1, Nat.zero_add])
  have h2t : (setArgumentsLoop LifeTime.SUBGRAPH_OUTPUT 0 (makeVector outputs outputCount)
      (resizeVector b.mOutputIndexes outputCount)
      (setArgumentsLoop LifeTime.SUBGRAPH_INPUT 0 (makeVector inputs inputCount)
        (resizeVector b.mInputIndexes inputCount) b.mOperands).2.2).1 = true := by
    simpa using h2
  obtain ⟨nd2, tmp2, vec2, set2, other2⟩ :=
    setArgumentsLoop_spec LifeTime.SUBGRAPH_OUTPUT (by decide) _ 0 _ _ h2t
      (by rw [length_resizeVector, hl2, Nat.zero_add])
  have hdisj : ∀ v ∈ makeVector outputs outputCount, v ∉ makeVector inputs inputCount := by
    intro v hv hvi
    obtain ⟨o, ho, hot⟩ := tmp2 v hv
    obtain ⟨o1, ho1, hot1⟩ := set1 v hvi
    rw [ho] at ho1
    injection ho1 with ho1
    rw [ho1, hot1] at hot
    cases hot
  rw [← h]
  refine ⟨?_, ?_, ?_, ?_, ?_, ?_⟩
  · intro v hv
    rcases List.mem_append.mp hv with hv | hv
    · exact tmp1 v hv
    · obtain ⟨o, ho, hot⟩ := tmp2 v hv
      rw [other1 v (hdisj v hv)] at ho
      exact ⟨o, ho, hot⟩
  · exact List.nodup_append.mpr ⟨nd1, nd2, fun v hvi hvo => hdisj v hvo hvi⟩
  · show (setArgumentsLoop _ _ _ _ _).2.1 = _
    rw [vec1]; rfl
  · show (setArgumentsLoop _ _ _ _ _).2.1 = _
    rw [vec2]; rfl
  · intro v hv
    show ∃ o, (setArgumentsLoop _ _ _ _ _).2.2.get? v = some o ∧ _
    rw [other2 v (fun hvo => hdisj v hvo hv)]
    exact set1 v hv
  · intro v hv
    exact set2 v hv

theorem identifyInputsAndOutputs_returns (env : Env) (b : ModelBuilder) (inputCount : Nat)
    (inputs : Option (List Nat)) (outputCount : Nat) (outputs : Option (List Nat)) :
    ∃ code b1, b.identifyInputsAndOutputs env inputCount inputs outputCount outputs =
      .ret (code, b1) := by
  unfold ModelBuilder.identifyInputsAndOutputs
  repeat' first
    | exact ⟨_, _, rfl⟩
    | (dsimp only)
    | split

/-! ## Claims about rejection by the sort and about identifyInputsAndOutputs -/

/-- C11: whenever `sortIntoRunOrder` fails inside `finish` (the builder is neither finished
nor invalid, the large values are consolidated, and the sort returns false), `finish` returns
`BAD_DATA` and marks the builder invalid; from then on the builder never changes and every
call on it, `finish` included, returns `BAD_STATE`. -/
theorem C11_failed_sort_invalidates_builder (env : Env) (tm : TypeManager) (heap : Heap)
    (fuel : Nat) (b c s : ModelBuilder)
    (hc : b.mCompletedModel = false) (hi : b.mInvalidModel = false)
    (hcopy : copyLargeValuesToSharedMemory env b = .ret (ANEURALNETWORKS_NO_ERROR, c))
    (hsort : sortIntoRunOrder fuel c = .ret (false, s)) :
    ∃ b1, b.finish env tm heap fuel = .ret (ANEURALNETWORKS_BAD_DATA, b1) ∧
      b1.mInvalidModel = true ∧
      ∀ b2, ReachableFrom env b1 b2 → ∀ (tm1 : TypeManager) (heap1 : Heap) (fuel1 : Nat)
        (call : Call),
        call.run env tm1 heap1 fuel1 b2 = .ret (ANEURALNETWORKS_BAD_STATE, b2) := by
  refine ⟨{ s with mInvalidModel := true }, ?_, rfl, ?_⟩
  · unfold ModelBuilder.finish
    rw [hc, hi, hcopy]
    simp only [Bool.false_eq_true, if_false, Exec.bind, ne_eq, not_true_eq_false, hsort,
      Bool.not_false, if_true]
  · intro b2 hr tm1 heap1 fuel1 call
    rw [reachableFrom_of_badState env _ b2 (Or.inr rfl) hr]
    exact run_of_badState env tm1 heap1 fuel1 call _ (Or.inr rfl)

/-- C11 (witness): the third scenario, operations X, Y, Z and W; the sort returns false. -/
theorem C11_failed_sort_invalidates_builder_witness :
    (scenarioThreeBuilder.mCompletedModel = false ∧
      scenarioThreeBuilder.mInvalidModel = false ∧
      copyLargeValuesToSharedMemory sampleEnv scenarioThreeBuilder =
        .ret (ANEURALNETWORKS_NO_ERROR, scenarioThreeBuilder) ∧
      sortIntoRunOrder 5 scenarioThreeBuilder = .ret (false, scenarioThreeBuilder)) ∧
    ∃ b1, scenarioThreeBuilder.finish sampleEnv sampleTypeManager emptyHeap 5 =
        .ret (ANEURALNETWORKS_BAD_DATA, b1) ∧
      b1.mInvalidModel = true ∧
      ∀ b2, ReachableFrom sampleEnv b1 b2 → ∀ (tm1 : TypeManager) (heap1 : Heap) (fuel1 : Nat)
        (call : Call),
        call.run sampleEnv tm1 heap1 fuel1 b2 = .ret (ANEURALNETWORKS_BAD_STATE, b2) :=
  ⟨⟨rfl, rfl, by decide, by decide⟩,
    C11_failed_sort_invalidates_builder sampleEnv sampleTypeManager emptyHeap 5
      scenarioThreeBuilder scenarioThreeBuilder scenarioThreeBuilder rfl rfl (by decide)
      (by decide)⟩

/-- C12: if `identifyInputsAndOutputs(inputs, outputs)` returns `NO_ERROR`, then every listed
operand had lifetime `TEMPORARY_VARIABLE` before the call, no index is repeated within
`inputs`, none within `outputs` and none occurs in both lists (the concatenation has no
duplicate), the input and output index lists of the builder equal the given lists, and each
listed operand now has lifetime `SUBGRAPH_INPUT` respectively `SUBGRAPH_OUTPUT`. -/
theorem C12_identifyInputsAndOutputs_success (env : Env) (b : ModelBuilder) (inputCount : Nat)
    (inputs : Option (List Nat)) (outputCount : Nat) (outputs : Option (List Nat))
    (b1 : ModelBuilder)
    (h : b.identifyInputsAndOutputs env inputCount inputs outputCount outputs =
      .ret (ANEURALNETWORKS_NO_ERROR, b1)) :
    (∀ v ∈ makeVector inputs inputCount ++ makeVector outputs outputCount,
      ∃ o, b.mOperands.get? v = some o ∧ o.lifetime = LifeTime.TEMPORARY_VARIABLE) ∧
    (makeVector inputs inputCount ++ makeVector outputs outputCount).Nodup ∧
    b1.mInputIndexes = makeVector inputs inputCount ∧
    b1.mOutputIndexes = makeVector outputs outputCount ∧
    (∀ v ∈ makeVector inputs inputCount,
      ∃ o, b1.mOperands.get? v = some o ∧ o.lifetime = LifeTime.SUBGRAPH_INPUT) ∧
    (∀ v ∈ makeVector outputs outputCount,
      ∃ o, b1.mOperands.get? v = some o ∧ o.lifetime = LifeTime.SUBGRAPH_OUTPUT) :=
  identifyInputsAndOutputs_spec env b inputCount inputs outputCount outputs b1 h

/-- C12 (witness): `identifyInputsAndOutputs([0], [1])` on four temporary operands. -/
theorem C12_identifyInputsAndOutputs_success_witness :
    fourOperandsBuilder.identifyInputsAndOutputs sampleEnv 1 (some [0]) 1 (some [1]) =
      .ret (ANEURALNETWORKS_NO_ERROR, identifiedBuilder) ∧
    (∀ v ∈ makeVector (some [0]) 1 ++ makeVector (some [1]) 1,
      ∃ o, fourOperandsBuilder.mOperands.get? v = some o ∧
        o.lifetime = LifeTime.TEMPORARY_VARIABLE) ∧
    (makeVector (some [0]) 1 ++ makeVector (some [1]) 1).Nodup ∧
    identifiedBuilder.mInputIndexes = makeVector (some [0]) 1 ∧
    identifiedBuilder.mOutputIndexes = makeVector (some [1]) 1 ∧
    (∀ v ∈ makeVector (some [0]) 1,
      ∃ o, identifiedBuilder.mOperands.get? v = some o ∧
        o.lifetime = LifeTime.SUBGRAPH_INPUT) ∧
    (∀ v ∈ makeVector (some [1]) 1,
      ∃ o, identifiedBuilder.mOperands.get? v = some o ∧
        o.lifetime = LifeTime.SUBGRAPH_OUTPUT) :=
  ⟨by decide,
    C12_identifyInputsAndOutputs_success sampleEnv fourOperandsBuilder 1 (some [0]) 1
      (some [1]) identifiedBuilder (by decide)⟩

/-- The loop of `setArguments` accepts a duplicate-free list of operands of lifetime
`TEMPORARY_VARIABLE`. -/
theorem setArgumentsLoop_accepts (lifetime : LifeTime) (vals : List Nat) :
    ∀ (i : Nat) (vec : List Nat) (operands : List Operand), vals.Nodup →
      (∀ v ∈ vals, ∃ o, operands.get? v = some o ∧
        o.lifetime = LifeTime.TEMPORARY_VARIABLE) →
      (setArgumentsLoop lifetime i vals vec operands).1 = true := by
  induction vals with
  | nil => intro i vec operands _ _; rfl
  | cons x rest ih =>
    intro i vec operands hnd htmp
    obtain ⟨operand, hop, hlt⟩ := htmp x (List.mem_cons_self _ _)
    have hxlt : x < operands.length := by
      rw [List.get?_eq_getElem?] at hop
      exact (List.getElem?_eq_some_iff.mp hop).1
    rw [ModelBuilder.setArgumentsLoop, if_neg (by omega)]
    simp only [hop]
    rw [if_neg (by rw [hlt]; exact fun h => h rfl)]
    rw [List.nodup_cons] at hnd
    apply ih _ _ _ hnd.2
    intro v hv
    obtain ⟨o, ho, hot⟩ := htmp v (List.mem_cons_of_mem _ hv)
    have hne : x ≠ v := fun e => hnd.1 (e ▸ hv)
    refine ⟨o, ?_, hot⟩
    rw [List.get?_eq_getElem?, List.getElem?_set_ne hne, ← List.get?_eq_getElem?]
    exact ho

/-- When `identifyInputsAndOutputs` returns `NO_ERROR`: exactly when the builder is neither
finished nor invalid, both lists pass the null-or-sized and the `validateOperandList` tests,
every listed operand has lifetime `TEMPORARY_VARIABLE` and no operand is listed twice over
the two lists. -/
theorem identifyInputsAndOutputs_accepts (env : Env) (b : ModelBuilder) (inputCount : Nat)
    (inputs : Option (List Nat)) (outputCount : Nat) (outputs : Option (List Nat)) :
    (∃ b1, b.identifyInputsAndOutputs env inputCount inputs outputCount outputs =
      .ret (ANEURALNETWORKS_NO_ERROR, b1)) ↔
    (b.badState = false ∧
      nullOrSizedFails inputs inputCount = false ∧
      env.validateOperandList (makeVector inputs inputCount) b.operandCount = true ∧
      nullOrSizedFails outputs outputCount = false ∧
      env.validateOperandList (makeVector outputs outputCount) b.operandCount = true ∧
      (∀ v ∈ makeVector inputs inputCount ++ makeVector outputs outputCount,
        ∃ o, b.mOperands.get? v = some o ∧ o.lifetime = LifeTime.TEMPORARY_VARIABLE) ∧
      (makeVector inputs inputCount ++ makeVector outputs outputCount).Nodup) := by
  constructor
  · rintro ⟨b1, h⟩
    obtain ⟨htmp, hnd, _⟩ :=
      identifyInputsAndOutputs_spec env b inputCount inputs outputCount outputs b1 h
    have hne : ∀ (c : Int) (x y : ModelBuilder), c ≠ ANEURALNETWORKS_NO_ERROR →
        Exec.ret (c, x) = Exec.ret (ANEURALNETWORKS_NO_ERROR, y) → False := by
      intro c x y hc he
      injection he with he
      injection he with he _
      exact hc he
    unfold ModelBuilder.identifyInputsAndOutputs at h
    split at h
    · exact (hne _ _ _ (by decide) h).elim
    rename_i hbad
    split at h
    · exact (hne _ _ _ (by decide) h).elim
    rename_i hin
    split at h
    · exact (hne _ _ _ (by decide) h).elim
    rename_i hvin
    split at h
    · exact (hne _ _ _ (by decide) h).elim
    rename_i hout
    split at h
    · exact (hne _ _ _ (by decide) h).elim
    rename_i hvout
    exact ⟨by simpa using hbad, by simpa using hin, by simpa using hvin, by simpa using hout,
      by simpa using hvout, htmp, hnd⟩
  · rintro ⟨hbad, hin, hvin, hout, hvout, htmp, hnd⟩
    have e1 := readN_eq_makeVector inputs inputCount hin
    have e2 := readN_eq_makeVector outputs outputCount hout
    have hl1 : (makeVector inputs inputCount).length = inputCount := by
      rw [← e1]; exact length_readN _ _
    rw [List.nodup_append] at hnd
    have h1 : (setArguments b.mInputIndexes b.mOperands inputCount inputs
        LifeTime.SUBGRAPH_INPUT).1 = true := by
      unfold ModelBuilder.setArguments
      rw [e1]
      exact setArgumentsLoop_accepts _ _ _ _ _ hnd.1
        (fun v hv => htmp v (List.mem_append_left _ hv))
    have h2 : (setArguments (b.mOutputIndexes)
        (setArguments b.mInputIndexes b.mOperands inputCount inputs
          LifeTime.SUBGRAPH_INPUT).2.2 outputCount outputs LifeTime.SUBGRAPH_OUTPUT).1 =
        true := by
      have h1a := h1
      unfold ModelBuilder.setArguments at h1a ⊢
      rw [e1] at h1a ⊢
      rw [e2]
      obtain ⟨_, _, _, _, other1⟩ :=
        setArgumentsLoop_spec LifeTime.SUBGRAPH_INPUT (by decide) _ 0 _ _ h1a
          (by rw [length_resizeVector, hl1, Nat.zero_add])
      apply setArgumentsLoop_accepts _ _ _ _ _ hnd.2.1
      intro v hv
      rw [other1 v (fun hvi => hnd.2.2 hvi hv)]
      exact htmp v (List.mem_append_right _ hv)
    unfold ModelBuilder.identifyInputsAndOutputs
    rw [hbad, hin, hvin, hout, hvout]
    simp only [Bool.false_eq_true, if_false, Bool.not_true, h1, h2]
    exact ⟨_, rfl⟩

/-- C13 (counterexample): after `identifyInputsAndOutputs([0], [1])` has returned `NO_ERROR`,
a second call `identifyInputsAndOutputs([2], [3])` on the same builder returns `NO_ERROR` too
and replaces the input and output index lists. -/
theorem C13_counterexample :
    fourOperandsBuilder.identifyInputsAndOutputs sampleEnv 1 (some [0]) 1 (some [1]) =
      .ret (ANEURALNETWORKS_NO_ERROR, identifiedBuilder) ∧
    identifiedBuilder.identifyInputsAndOutputs sampleEnv 1 (some [2]) 1 (some [3]) =
      .ret (ANEURALNETWORKS_NO_ERROR, reidentifiedBuilder) ∧
    reidentifiedBuilder.mInputIndexes ≠ identifiedBuilder.mInputIndexes ∧
    reidentifiedBuilder.mOutputIndexes ≠ identifiedBuilder.mOutputIndexes := by
  decide

/-- C13 (amended): after one `identifyInputsAndOutputs` call has returned `NO_ERROR`, and
after any further calls, every `identifyInputsAndOutputs` call that lists again, as input or
as output, an operand that the first call listed returns a code other than `NO_ERROR`. A
later call returns `NO_ERROR` exactly when the builder is neither finished nor invalid, both
lists pass the null-or-sized and the `validateOperandList` tests, every operand it lists
still has lifetime `TEMPORARY_VARIABLE` and no operand is listed twice over the two lists;
it then replaces the input and the output index list by the lists of the call. -/
theorem C13_identified_operand_is_rejected_again (env : Env) (b b1 b2 : ModelBuilder)
    (inputCount : Nat) (inputs : Option (List Nat)) (outputCount : Nat)
    (outputs : Option (List Nat)) (inputCount2 : Nat) (inputs2 : Option (List Nat))
    (outputCount2 : Nat) (outputs2 : Option (List Nat))
    (hfirst : b.identifyInputsAndOutputs env inputCount inputs outputCount outputs =
      .ret (ANEURALNETWORKS_NO_ERROR, b1))
    (hlater : ReachableFrom env b1 b2) :
    (∀ v, v ∈ makeVector inputs inputCount ++ makeVector outputs outputCount →
      v ∈ makeVector inputs2 inputCount2 ++ makeVector outputs2 outputCount2 →
      ∃ code b3, b2.identifyInputsAndOutputs env inputCount2 inputs2 outputCount2 outputs2 =
        .ret (code, b3) ∧ code ≠ ANEURALNETWORKS_NO_ERROR) ∧
    ((∃ b3, b2.identifyInputsAndOutputs env inputCount2 inputs2 outputCount2 outputs2 =
        .ret (ANEURALNETWORKS_NO_ERROR, b3)) ↔
      (b2.badState = false ∧
        nullOrSizedFails inputs2 inputCount2 = false ∧
        env.validateOperandList (makeVector inputs2 inputCount2) b2.operandCount = true ∧
        nullOrSizedFails outputs2 outputCount2 = false ∧
        env.validateOperandList (makeVector outputs2 outputCount2) b2.operandCount = true ∧
        (∀ v ∈ makeVector inputs2 inputCount2 ++ makeVector outputs2 outputCount2,
          ∃ o, b2.mOperands.get? v = some o ∧ o.lifetime = LifeTime.TEMPORARY_VARIABLE) ∧
        (makeVector inputs2 inputCount2 ++ makeVector outputs2 outputCount2).Nodup)) ∧
    (∀ b3, b2.identifyInputsAndOutputs env inputCount2 inputs2 outputCount2 outputs2 =
        .ret (ANEURALNETWORKS_NO_ERROR, b3) →
      b3.mInputIndexes = makeVector inputs2 inputCount2 ∧
      b3.mOutputIndexes = makeVector outputs2 outputCount2) := by
  refine ⟨?_, identifyInputsAndOutputs_accepts env b2 inputCount2 inputs2 outputCount2
    outputs2, ?_⟩
  · intro v hv hv2
    obtain ⟨code, b3, hrun⟩ :=
      identifyInputsAndOutputs_returns env b2 inputCount2 inputs2 outputCount2 outputs2
    refine ⟨code, b3, hrun, ?_⟩
    intro hcode
    rw [hcode] at hrun
    obtain ⟨_, _, _, _, hin, hout⟩ :=
      identifyInputsAndOutputs_spec env b inputCount inputs outputCount outputs b1 hfirst
    obtain ⟨htmp, _⟩ :=
      identifyInputsAndOutputs_spec env b2 inputCount2 inputs2 outputCount2 outputs2 b3 hrun
    have h1 : ∃ o, b1.mOperands.get? v = some o ∧
        o.lifetime ≠ LifeTime.TEMPORARY_VARIABLE := by
      rcases List.mem_append.mp hv with hv | hv
      · obtain ⟨o, ho, hot⟩ := hin v hv
        exact ⟨o, ho, by rw [hot]; decide⟩
      · obtain ⟨o, ho, hot⟩ := hout v hv
        exact ⟨o, ho, by rw [hot]; decide⟩
    obtain ⟨o, ho, hot⟩ := h1
    obtain ⟨o2, ho2, hallowed⟩ := reachableFrom_keeps env b1 b2 hlater v o ho
    obtain ⟨o3, ho3, hot3⟩ := htmp v hv2
    rw [ho2] at ho3
    injection ho3 with ho3
    rw [← ho3] at hot3
    rcases hallowed with h | h | h
    · rw [hot3] at h; exact hot h.symm
    · rw [hot3] at h
      rcases h with h | h | h | h <;> cases h
    · exact hot h.1
  · intro b3 h
    obtain ⟨_, _, h1, h2, _⟩ :=
      identifyInputsAndOutputs_spec env b2 inputCount2 inputs2 outputCount2 outputs2 b3 h
    exact ⟨h1, h2⟩

/-- C13 (witness): after `identifyInputsAndOutputs([0], [1])`, listing operand 0 again in
`identifyInputsAndOutputs([2, 0], [3])` is rejected. -/
theorem C13_identified_operand_is_rejected_again_witness :
    (fourOperandsBuilder.identifyInputsAndOutputs sampleEnv 1 (some [0]) 1 (some [1]) =
        .ret (ANEURALNETWORKS_NO_ERROR, identifiedBuilder) ∧
      ReachableFrom sampleEnv identifiedBuilder identifiedBuilder ∧
      0 ∈ makeVector (some [0]) 1 ++ makeVector (some [1]) 1 ∧
      0 ∈ makeVector (some [2, 0]) 2 ++ makeVector (some [3]) 1) ∧
    ∃ code b3, identifiedBuilder.identifyInputsAndOutputs sampleEnv 2 (some [2, 0]) 1
        (some [3]) = .ret (code, b3) ∧ code ≠ ANEURALNETWORKS_NO_ERROR :=
  ⟨⟨by decide, ReachableFrom.refl, by decide, by decide⟩,
    (C13_identified_operand_is_rejected_again sampleEnv fourOperandsBuilder identifiedBuilder
      identifiedBuilder 1 (some [0]) 1 (some [1]) 2 (some [2, 0]) 1 (some [3]) (by decide)
      ReachableFrom.refl).1 0 (by decide) (by decide)⟩

/-! ## The inline arena and the deferred values -/

/-- `setOperandValue` of four bytes on an arena of `2 ^ 32 - 2` bytes: the new size and the
offset wrap around. -/
theorem setOperandValue_wraps (a : List Nat) (ha : a.length = 4294967294) :
    ModelBuilder.setOperandValue sampleEnv sampleTypeManager (arenaBuilder a) 0
      (some { addr := 1, bytes := [1, 0, 0, 0] }) 4 =
    .ret (ANEURALNETWORKS_NO_ERROR,
      { arenaBuilder a with
        mSmallOperandValues := [1, 0, 0, 0]
        mOperands := [int32Operand LifeTime.CONSTANT_COPY
          { poolIndex := 0, offset := 0, length := 4 }] }) := by
  have h1 : (arenaBuilder a).badState = false := rfl
  have h2 : ¬ (0 ≥ (arenaBuilder a).operandCount) := by
    show ¬ (0 ≥ 1 % 2 ^ 32)
    decide
  have h3 : (arenaBuilder a).mOperands.get? 0 =
      some (int32Operand LifeTime.TEMPORARY_VARIABLE
        { poolIndex := 0, offset := 0, length := 0 }) := rfl
  have h4 : (arenaBuilder a).mSmallOperandValues = a := rfl
  have h5 : sampleTypeManager.isTensorType sampleEnv
      (int32Operand LifeTime.TEMPORARY_VARIABLE
        { poolIndex := 0, offset := 0, length := 0 }).type = .ret false := by decide
  have h6 : sampleTypeManager.getSizeOfData sampleEnv
      (int32Operand LifeTime.TEMPORARY_VARIABLE
        { poolIndex := 0, offset := 0, length := 0 }).type
      (int32Operand LifeTime.TEMPORARY_VARIABLE
        { poolIndex := 0, offset := 0, length := 0 }).dimensions = .ret 4 := by decide
  have h7 : sampleEnv.alignBytesNeeded (4294967294 % 2 ^ 32) 4 % 2 ^ 32 = 2 := by decide
  have h8 : resizeVector a 4 = a.take 4 := take_of_resizeVector a 4 (by omega)
  have h9 : (a.take 4).length = 4 := by rw [List.length_take, ha]; rfl
  have h10 : (a.take 4).drop 4 = [] := List.drop_eq_nil_of_le (by rw [h9])
  unfold ModelBuilder.setOperandValue
  rw [h1, if_neg (by decide), if_neg h2]
  simp only [h3, h4, h5, h6, ha, h7]
  simp [nullOrSizedFails, Exec.bind, sampleEnv, h8, h9, h10, writeBytes, readN, int32Operand,
    arenaBuilder, oneOperandBuilder, OperandType.INT32, OperandType.OEM]
  decide

theorem get?_set_self {α : Type} (l : List α) (i : Nat) (x y : α)
    (h : l.get? i = some y) : (l.set i x).get? i = some x := by
  rw [List.get?_eq_getElem?] at h ⊢
  exact List.getElem?_set_self (List.getElem?_eq_some_iff.mp h).1

/-- C14 (counterexample): on an inline arena of `2 ^ 32 - 2` bytes, a successful
`setOperandValue` with a non-null buffer of 4 bytes gives the operand the offset 0, not
`oldSize + alignBytesNeeded(oldSize, 4) = 2 ^ 32`, and leaves an arena of 4 bytes, so the
first `oldSize` bytes are not kept. -/
theorem C14_counterexample :
    fullArenaBuilder.mSmallOperandValues.length = 4294967294 ∧
    4294967294 + sampleEnv.alignBytesNeeded 4294967294 4 = 4294967296 ∧
    (4 : Nat) ≤ sampleEnv.maxSizeOfImmediatelyCopiedValues ∧
    ModelBuilder.setOperandValue sampleEnv sampleTypeManager fullArenaBuilder 0
      (some { addr := 1, bytes := [1, 0, 0, 0] }) 4 =
    .ret (ANEURALNETWORKS_NO_ERROR,
      { fullArenaBuilder with
        mSmallOperandValues := [1, 0, 0, 0]
        mOperands := [int32Operand LifeTime.CONSTANT_COPY
          { poolIndex := 0, offset := 0, length := 4 }] }) :=
  ⟨List.length_replicate _ _, by decide, by decide,
    setOperandValue_wraps _ (List.length_replicate _ _)⟩

/-- C14 (amended): for every successful `setOperandValue` with a non-null buffer: if `length`
is at most `ANEURALNETWORKS_MAX_SIZE_OF_IMMEDIATELY_COPIED_VALUES` and the grown arena stays
below `2 ^ 32` bytes, the operand gets lifetime `CONSTANT_COPY` and location (poolIndex 0,
offset = oldSize + alignBytesNeeded(oldSize, length), length), the inline arena has exactly
offset + length bytes, its first oldSize bytes are unchanged, its bytes from offset on are
those of the buffer, and the deferred list is unchanged; if `length` is larger, the arena is
unchanged, the operand gets lifetime `CONSTANT_REFERENCE` with that length, and exactly one
(operandIndex, buffer) entry is appended to the deferred list. -/
theorem C14_setOperandValue_small_and_large (env : Env) (tm : TypeManager)
    (b b1 : ModelBuilder) (index : Nat) (buf : Buffer) (length : Nat)
    (h : b.setOperandValue env tm index (some buf) length =
      .ret (ANEURALNETWORKS_NO_ERROR, b1))
    (hroom : length ≤ env.maxSizeOfImmediatelyCopiedValues →
      b.mSmallOperandValues.length +
        env.alignBytesNeeded b.mSmallOperandValues.length length + length < 2 ^ 32) :
    ∃ operand, b.mOperands.get? index = some operand ∧
      (length ≤ env.maxSizeOfImmediatelyCopiedValues →
        b1.mOperands.get? index = some
          { operand with
            lifetime := LifeTime.CONSTANT_COPY
            location :=
              { poolIndex := 0
                offset := b.mSmallOperandValues.length +
                  env.alignBytesNeeded b.mSmallOperandValues.length length
                length := length } } ∧
        b1.mSmallOperandValues.length =
          b.mSmallOperandValues.length +
            env.alignBytesNeeded b.mSmallOperandValues.length length + length ∧
        b1.mSmallOperandValues.take b.mSmallOperandValues.length = b.mSmallOperandValues ∧
        b1.mSmallOperandValues.drop (b.mSmallOperandValues.length +
            env.alignBytesNeeded b.mSmallOperandValues.length length) =
          readN buf.bytes length ∧
        b1.mLargeOperandValues = b.mLargeOperandValues) ∧
      (env.maxSizeOfImmediatelyCopiedValues < length →
        b1.mSmallOperandValues = b.mSmallOperandValues ∧
        b1.mOperands.get? index = some
          { operand with
            lifetime := LifeTime.CONSTANT_REFERENCE
            location := { poolIndex := 0xFFFFFFFF, offset := 0xFFFFFFFF, length := length } } ∧
        b1.mLargeOperandValues =
          b.mLargeOperandValues ++ [{ operandIndex := index, buffer := buf }]) := by
  have hne : ∀ (c : Int) (x y : ModelBuilder), c ≠ ANEURALNETWORKS_NO_ERROR →
      Exec.ret (c, x) = Exec.ret (ANEURALNETWORKS_NO_ERROR, y) → False := by
    intro c x y hc he
    injection he with he
    injection he with he _
    exact hc he
  unfold ModelBuilder.setOperandValue at h
  split at h
  · exact (hne _ _ _ (by decide) h).elim
  split at h
  · exact (hne _ _ _ (by decide) h).elim
  split at h
  · cases h
  rename_i operand hop
  split at h
  · exact (hne _ _ _ (by decide) h).elim
  dsimp only at h
  rw [Exec.bind_eq_ret] at h
  obtain ⟨isTensor, _, h⟩ := h
  split at h
  · exact (hne _ _ _ (by decide) h).elim
  split at h
  · exact (hne _ _ _ (by decide) h).elim
  rw [Exec.bind_eq_ret] at h
  obtain ⟨wrongLength, _, h⟩ := h
  split at h
  · exact (hne _ _ _ (by decide) h).elim
  refine ⟨operand, hop, ?_⟩
  split at h
  · rename_i hsmall
    have hr := hroom hsmall
    have e1 : b.mSmallOperandValues.length % 2 ^ 32 = b.mSmallOperandValues.length :=
      Nat.mod_eq_of_lt (by omega)
    have e2 : env.alignBytesNeeded b.mSmallOperandValues.length length % 2 ^ 32 =
        env.alignBytesNeeded b.mSmallOperandValues.length length :=
      Nat.mod_eq_of_lt (by omega)
    rw [e1, e2, Nat.mod_eq_of_lt hr, Nat.mod_eq_of_lt (by omega)] at h
    split at h
    swap
    · cases h
    injection h with h
    injection h with _ h
    refine ⟨fun _ => ?_, fun hl => absurd hsmall (by omega)⟩
    rw [← h]
    have hres : resizeVector b.mSmallOperandValues
        (b.mSmallOperandValues.length +
          env.alignBytesNeeded b.mSmallOperandValues.length length + length) =
        b.mSmallOperandValues ++ List.replicate
          (env.alignBytesNeeded b.mSmallOperandValues.length length + length) 0 := by
      unfold ModelBuilder.resizeVector
      rw [List.take_of_length_le (by omega)]
      congr 2
      omega
    refine ⟨get?_set_self _ _ _ _ hop, ?_, ?_, ?_, rfl⟩
    · show (writeBytes _ _ _).length = _
      unfold ModelBuilder.writeBytes
      rw [hres]
      simp only [List.length_append, List.length_take, List.length_drop, List.length_replicate,
        length_readN]
      omega
    · show (writeBytes _ _ _).take _ = _
      unfold ModelBuilder.writeBytes
      rw [hres, List.append_assoc, List.take_append_of_le_length
        (by simp only [List.length_take, List.length_append, List.length_replicate]; omega),
        List.take_take, List.take_append_of_le_length (by omega),
        List.take_of_length_le (by omega)]
    · show (writeBytes _ _ _).drop _ = _
      unfold ModelBuilder.writeBytes
      rw [hres, List.append_assoc]
      have hl : (List.take (b.mSmallOperandValues.length +
          env.alignBytesNeeded b.mSmallOperandValues.length length)
          (b.mSmallOperandValues ++ List.replicate
            (env.alignBytesNeeded b.mSmallOperandValues.length length + length) 0)).length =
          b.mSmallOperandValues.length +
            env.alignBytesNeeded b.mSmallOperandValues.length length := by
        simp only [List.length_take, List.length_append, List.length_replicate]
        omega
      rw [List.drop_append_of_le_length (by omega), List.drop_of_length_le (by omega),
        List.nil_append, List.drop_of_length_le
          (by simp only [List.length_append, List.length_replicate, length_readN]; omega),
        List.append_nil]
  · rename_i hlarge
    injection h with h
    injection h with _ h
    refine ⟨fun hs => absurd hs hlarge, fun _ => ?_⟩
    rw [← h]
    exact ⟨rfl, get?_set_self _ _ _ _ hop, rfl⟩

/-- C14 (witness): a 4-byte constant for the `INT32` operand of `oneOperandBuilder`. -/
theorem C14_setOperandValue_small_and_large_witness :
    (oneOperandBuilder.setOperandValue sampleEnv sampleTypeManager 0
        (some { addr := 1, bytes := [1, 0, 0, 0] }) 4 =
        .ret (ANEURALNETWORKS_NO_ERROR, constantBuilder) ∧
      ((4 : Nat) ≤ sampleEnv.maxSizeOfImmediatelyCopiedValues →
        oneOperandBuilder.mSmallOperandValues.length +
          sampleEnv.alignBytesNeeded oneOperandBuilder.mSmallOperandValues.length 4 + 4 <
            2 ^ 32)) ∧
    ∃ operand, oneOperandBuilder.mOperands.get? 0 = some operand ∧
      ((4 : Nat) ≤ sampleEnv.maxSizeOfImmediatelyCopiedValues →
        constantBuilder.mOperands.get? 0 = some
          { operand with
            lifetime := LifeTime.CONSTANT_COPY
            location :=
              { poolIndex := 0
                offset := oneOperandBuilder.mSmallOperandValues.length +
                  sampleEnv.alignBytesNeeded oneOperandBuilder.mSmallOperandValues.length 4
                length := 4 } } ∧
        constantBuilder.mSmallOperandValues.length =
          oneOperandBuilder.mSmallOperandValues.length +
            sampleEnv.alignBytesNeeded oneOperandBuilder.mSmallOperandValues.length 4 + 4 ∧
        constantBuilder.mSmallOperandValues.take oneOperandBuilder.mSmallOperandValues.length =
          oneOperandBuilder.mSmallOperandValues ∧
        constantBuilder.mSmallOperandValues.drop
            (oneOperandBuilder.mSmallOperandValues.length +
              sampleEnv.alignBytesNeeded oneOperandBuilder.mSmallOperandValues.length 4) =
          readN [1, 0, 0, 0] 4 ∧
        constantBuilder.mLargeOperandValues = oneOperandBuilder.mLargeOperandValues) ∧
      (sampleEnv.maxSizeOfImmediatelyCopiedValues < 4 →
        constantBuilder.mSmallOperandValues = oneOperandBuilder.mSmallOperandValues ∧
        constantBuilder.mOperands.get? 0 = some
          { operand with
            lifetime := LifeTime.CONSTANT_REFERENCE
            location := { poolIndex := 0xFFFFFFFF, offset := 0xFFFFFFFF, length := 4 } } ∧
        constantBuilder.mLargeOperandValues =
          oneOperandBuilder.mLargeOperandValues ++
            [{ operandIndex := 0, buffer := { addr := 1, bytes := [1, 0, 0, 0] } }]) :=
  ⟨⟨by decide, by decide⟩,
    C14_setOperandValue_small_and_large sampleEnv sampleTypeManager oneOperandBuilder
      constantBuilder 0 { addr := 1, bytes := [1, 0, 0, 0] } 4 (by decide) (by decide)⟩

/-! ## The consolidation of the large values -/

theorem regionChain_le : ∀ (rs : List (Nat × Nat)) (lo hi : Nat),
    RegionChain lo rs hi → lo ≤ hi := by
  intro rs
  induction rs with
  | nil => intro lo hi h; exact h
  | cons r rest ih =>
    intro lo hi h
    have := ih _ _ h.2
    have := h.1
    omega

theorem regionChain_weaken : ∀ (rs : List (Nat × Nat)) (lo lo1 hi : Nat), lo1 ≤ lo →
    RegionChain lo rs hi → RegionChain lo1 rs hi := by
  intro rs
  cases rs with
  | nil => intro lo lo1 hi hle h; exact le_trans hle h
  | cons r rest => intro lo lo1 hi hle h; exact ⟨le_trans hle h.1, h.2⟩

/-- Regions in a chain are pairwise disjoint, in order, and inside the bounds. -/
theorem regionChain_spec : ∀ (rs : List (Nat × Nat)) (lo hi : Nat), RegionChain lo rs hi →
    rs.Pairwise (fun r s => r.1 + r.2 ≤ s.1) ∧ ∀ r ∈ rs, lo ≤ r.1 ∧ r.1 + r.2 ≤ hi := by
  intro rs
  induction rs with
  | nil => intro lo hi _; exact ⟨List.Pairwise.nil, fun r hr => absurd hr (List.not_mem_nil r)⟩
  | cons r rest ih =>
    intro lo hi h
    obtain ⟨hp, hb⟩ := ih _ _ h.2
    have hle := regionChain_le _ _ _ h.2
    refine ⟨List.pairwise_cons.mpr ⟨fun s hs => (hb s hs).1, hp⟩, ?_⟩
    intro s hs
    rcases List.mem_cons.mp hs with hs | hs
    · subst hs; exact ⟨h.1, hle⟩
    · have := hb s hs
      have := h.1
      omega

theorem layout_chain (align : Nat → Nat → Nat) : ∀ (lens : List Nat) (p : Nat),
    RegionChain p (layoutRegions align lens p) (layoutSize align lens p) := by
  intro lens
  induction lens with
  | nil => intro p; exact le_refl p
  | cons len rest ih =>
    intro p
    exact ⟨Nat.le_add_right _ _, ih _⟩

theorem layoutSize_ge (align : Nat → Nat → Nat) (lens : List Nat) (p : Nat) :
    p ≤ layoutSize align lens p :=
  regionChain_le _ _ _ (layout_chain align lens p)

theorem forall₂_imp_mem {α β : Type} {R S : α → β → Prop} {l1 : List α} {l2 : List β}
    (h : List.Forall₂ R l1 l2) (himp : ∀ a ∈ l1, ∀ b, R a b → S a b) :
    List.Forall₂ S l1 l2 := by
  induction h with
  | nil => exact List.Forall₂.nil
  | cons hab _ ih =>
    exact List.Forall₂.cons (himp _ (List.mem_cons_self _ _) _ hab)
      (ih fun a ha b hr => himp a (List.mem_cons_of_mem _ ha) b hr)

theorem get?_set_ne {α : Type} (l : List α) (i j : Nat) (x : α) (h : i ≠ j) :
    (l.set i x).get? j = l.get? j := by
  rw [List.get?_eq_getElem?, List.get?_eq_getElem?, List.getElem?_set_ne h]

theorem recordedLength_set (operands : List Operand) (i : Nat) (x : Operand)
    (l : LargeValue) (h : i ≠ l.operandIndex) :
    recordedLength (operands.set i x) l = recordedLength operands l := by
  unfold recordedLength
  rw [get?_set_ne _ _ _ _ h]

/-- The first loop of `copyLargeValuesToSharedMemory`: it returns the size of the layout and
stores the offsets of the layout, when the operands are distinct and still of lifetime
`CONSTANT_REFERENCE` and the size stays below `2 ^ 32`. -/
theorem assignLargeValueOffsets_spec (env : Env) : ∀ (L : List LargeValue) (p : Nat)
    (ops : List Operand),
    (L.map (fun l => l.operandIndex)).Nodup →
    (∀ l ∈ L, ∃ o, ops.get? l.operandIndex = some o ∧
      o.lifetime = LifeTime.CONSTANT_REFERENCE) →
    layoutSize env.alignBytesNeeded (L.map (recordedLength ops)) p < 2 ^ 32 →
    ∃ ops1, assignLargeValueOffsets env L p ops =
        .ret (layoutSize env.alignBytesNeeded (L.map (recordedLength ops)) p, ops1) ∧
      List.Forall₂ (fun l r => ∃ o, ops.get? l.operandIndex = some o ∧
          o.lifetime = LifeTime.CONSTANT_REFERENCE ∧ r.2 = o.location.length ∧
          ops1.get? l.operandIndex =
            some { o with location := { o.location with offset := r.1 } })
        L (layoutRegions env.alignBytesNeeded (L.map (recordedLength ops)) p) ∧
      (∀ v, (∀ l ∈ L, l.operandIndex ≠ v) → ops1.get? v = ops.get? v) := by
  intro L
  induction L with
  | nil =>
    intro p ops _ _ _
    exact ⟨ops, rfl, List.Forall₂.nil, fun v _ => rfl⟩
  | cons l rest ih =>
    intro p ops hnd hlife hbound
    obtain ⟨o, ho, hcr⟩ := hlife l (List.mem_cons_self _ _)
    have hnd1 := List.nodup_cons.mp hnd
    have hne : ∀ l1 ∈ rest, l.operandIndex ≠ l1.operandIndex := by
      intro l1 hl1 heq
      exact hnd1.1 (by
        show l.operandIndex ∈ _
        rw [heq]
        exact List.mem_map_of_mem (fun l => l.operandIndex) hl1)
    have hrl : recordedLength ops l = o.location.length := by
      unfold recordedLength; rw [ho]
    have hmap : ∀ x : Operand,
        rest.map (recordedLength (ops.set l.operandIndex x)) =
          rest.map (recordedLength ops) :=
      fun x => List.map_congr_left fun l1 hl1 => recordedLength_set ops _ x l1 (hne l1 hl1)
    simp only [List.map_cons, layoutSize, layoutRegions, hrl] at hbound ⊢
    have hge := layoutSize_ge env.alignBytesNeeded (rest.map (recordedLength ops))
      (p + env.alignBytesNeeded p o.location.length + o.location.length)
    have hp : p % 2 ^ 32 = p := Nat.mod_eq_of_lt (by omega)
    have hoff : (p + env.alignBytesNeeded p o.location.length) % 2 ^ 32 =
        p + env.alignBytesNeeded p o.location.length := Nat.mod_eq_of_lt (by omega)
    obtain ⟨ops1, hrun, hall, hframe⟩ := ih
      (p + env.alignBytesNeeded p o.location.length + o.location.length)
      (ops.set l.operandIndex
        { o with location :=
          { o.location with offset := p + env.alignBytesNeeded p o.location.length } })
      hnd1.2
      (by
        intro l1 hl1
        obtain ⟨o1, ho1, hcr1⟩ := hlife l1 (List.mem_cons_of_mem _ hl1)
        exact ⟨o1, by rw [get?_set_ne _ _ _ _ (hne l1 hl1)]; exact ho1, hcr1⟩)
      (by rw [hmap]; exact hbound)
    rw [hmap] at hrun hall
    refine ⟨ops1, ?_, ?_, ?_⟩
    · rw [assignLargeValueOffsets]
      simp only [ho]
      rw [if_neg (by rw [hcr]; exact fun h => h rfl)]
      simp only [hp, hoff]
      exact hrun
    · refine List.Forall₂.cons ⟨o, ho, hcr, rfl, ?_⟩ ?_
      · rw [hframe _ (fun l1 hl1 heq => hne l1 hl1 heq.symm)]
        exact get?_set_self _ _ _ _ ho
      · refine forall₂_imp_mem hall ?_
        intro l1 hl1 r ⟨o1, ho1, hcr1, hr, hget⟩
        rw [get?_set_ne _ _ _ _ (hne l1 hl1)] at ho1
        exact ⟨o1, ho1, hcr1, hr, hget⟩
    · intro v hv
      rw [hframe v (fun l1 hl1 => hv l1 (List.mem_cons_of_mem _ hl1))]
      exact get?_set_ne _ _ _ _ (hv l (List.mem_cons_self _ _))

theorem writeBytes_length (v : List Nat) (offset : Nat) (data : List Nat)
    (h : offset + data.length ≤ v.length) : (writeBytes v offset data).length = v.length := by
  unfold ModelBuilder.writeBytes
  simp only [List.length_append, List.length_take, List.length_drop]
  omega

theorem writeBytes_take (v : List Nat) (offset : Nat) (data : List Nat)
    (h : offset + data.length ≤ v.length) :
    (writeBytes v offset data).take (offset + data.length) = v.take offset ++ data := by
  unfold ModelBuilder.writeBytes
  exact List.take_left' (by simp only [List.length_append, List.length_take]; omega)

/-- The bytes of a region `[m, m + k)` below `n` only depend on the first `n` bytes. -/
theorem region_of_take_eq {a c : List Nat} {n : Nat} (h : a.take n = c.take n) (m k : Nat)
    (hle : m + k ≤ n) : (a.drop m).take k = (c.drop m).take k := by
  rw [List.take_drop, List.take_drop]
  have e : ∀ l : List Nat, l.take (m + k) = (l.take n).take (m + k) := by
    intro l
    rw [List.take_take, Nat.min_eq_left hle]
  rw [e a, e c, h]

/-- The second loop of `copyLargeValuesToSharedMemory`: it stores the pool index in every
deferred operand and copies every buffer to its region, when the operands are distinct and
the regions follow one another inside the pool. -/
theorem copyLargeValues_spec (poolIndex : Nat) : ∀ (L : List LargeValue)
    (regions : List (Nat × Nat)) (lo : Nat) (pool : List Nat) (ops : List Operand),
    (L.map (fun l => l.operandIndex)).Nodup →
    List.Forall₂ (fun l r => ∃ o, ops.get? l.operandIndex = some o ∧
      o.location.offset = r.1 ∧ o.location.length = r.2) L regions →
    RegionChain lo regions pool.length →
    ∃ pool1 ops1, copyLargeValues poolIndex L pool ops = .ret (pool1, ops1) ∧
      pool1.length = pool.length ∧ pool1.take lo = pool.take lo ∧
      List.Forall₂ (fun l r =>
          (∃ o, ops.get? l.operandIndex = some o ∧ ops1.get? l.operandIndex =
            some { o with location := { o.location with poolIndex := poolIndex } }) ∧
          (pool1.drop r.1).take r.2 = readN l.buffer.bytes r.2) L regions ∧
      (∀ v, (∀ l ∈ L, l.operandIndex ≠ v) → ops1.get? v = ops.get? v) := by
  intro L
  induction L with
  | nil =>
    intro regions lo pool ops _ hall _
    cases hall
    exact ⟨pool, ops, rfl, rfl, rfl, List.Forall₂.nil, fun v _ => rfl⟩
  | cons l rest ih =>
    intro regions lo pool ops hnd hall hchain
    cases hall with
    | cons hhead htail =>
      rename_i r rs
      obtain ⟨o, ho, hoff, hlen⟩ := hhead
      have hnd1 := List.nodup_cons.mp hnd
      have hne : ∀ l1 ∈ rest, l.operandIndex ≠ l1.operandIndex := by
        intro l1 hl1 heq
        exact hnd1.1 (by
          show l.operandIndex ∈ _
          rw [heq]
          exact List.mem_map_of_mem (fun l => l.operandIndex) hl1)
      have hfit : r.1 + r.2 ≤ pool.length := regionChain_le _ _ _ hchain.2
      have hdata : (readN l.buffer.bytes r.2).length = r.2 := length_readN _ _
      have hwl : (writeBytes pool r.1 (readN l.buffer.bytes r.2)).length = pool.length :=
        writeBytes_length _ _ _ (by rw [hdata]; exact hfit)
      have hwt : (writeBytes pool r.1 (readN l.buffer.bytes r.2)).take (r.1 + r.2) =
          pool.take r.1 ++ readN l.buffer.bytes r.2 := by
        have := writeBytes_take pool r.1 (readN l.buffer.bytes r.2) (by rw [hdata]; exact hfit)
        rw [hdata] at this
        exact this
      obtain ⟨pool2, ops2, hrun, hl2, ht2, hall2, hframe2⟩ := ih rs (r.1 + r.2)
        (writeBytes pool r.1 (readN l.buffer.bytes r.2))
        (ops.set l.operandIndex
          { o with location := { o.location with poolIndex := poolIndex } })
        hnd1.2
        (forall₂_imp_mem htail (by
          intro l1 hl1 r1 ⟨o1, ho1, h1, h2⟩
          exact ⟨o1, by rw [get?_set_ne _ _ _ _ (hne l1 hl1)]; exact ho1, h1, h2⟩))
        (by rw [hwl]; exact hchain.2)
      refine ⟨pool2, ops2, ?_, ?_, ?_, ?_, ?_⟩
      · rw [copyLargeValues]
        simp only [ho]
        rw [if_pos (by rw [hoff, hlen]; exact hfit)]
        rw [← hoff, ← hlen] at hrun
        exact hrun
      · rw [hl2, hwl]
      · have hlo : lo ≤ r.1 := hchain.1
        have e : ∀ x : List Nat, x.take lo = (x.take (r.1 + r.2)).take lo := by
          intro x
          rw [List.take_take, Nat.min_eq_left (by omega)]
        rw [e pool2, ht2, hwt, List.take_append_of_le_length
          (by rw [List.length_take]; omega), List.take_take, Nat.min_eq_left hlo]
      · refine List.Forall₂.cons ⟨⟨o, ho, ?_⟩, ?_⟩ ?_
        · rw [hframe2 _ (fun l1 hl1 heq => hne l1 hl1 heq.symm)]
          exact get?_set_self _ _ _ _ ho
        · rw [region_of_take_eq ht2 r.1 r.2 (le_refl _), List.take_drop, hwt,
            List.drop_left' (by rw [List.length_take]; omega)]
        · refine forall₂_imp_mem hall2 ?_
          intro l1 hl1 r1 ⟨⟨o1, ho1, hget⟩, hbytes⟩
          rw [get?_set_ne _ _ _ _ (hne l1 hl1)] at ho1
          exact ⟨⟨o1, ho1, hget⟩, hbytes⟩
      · intro v hv
        rw [hframe2 v (fun l1 hl1 => hv l1 (List.mem_cons_of_mem _ hl1))]
        exact get?_set_ne _ _ _ _ (hv l (List.mem_cons_self _ _))

theorem forall₂_and {α β : Type} {R S : α → β → Prop} : ∀ {l1 : List α} {l2 : List β},
    List.Forall₂ R l1 l2 → List.Forall₂ S l1 l2 → List.Forall₂ (fun a c => R a c ∧ S a c) l1 l2
  | _, _, .nil, _ => List.Forall₂.nil
  | _, _, .cons h1 t1, .cons h2 t2 => List.Forall₂.cons ⟨h1, h2⟩ (forall₂_and t1 t2)

/-- C15 (counterexample): the two deferred values of `twoLargeValuesBuilder` refer to distinct
operands, but where no shared memory can be created `copyLargeValuesToSharedMemory` returns
`OUT_OF_MEMORY` and both operands keep the pool index `0xFFFFFFFF`; and on
`resetLargeValueBuilder`, reached by giving an operand a large value and then no value,
`copyLargeValuesToSharedMemory` does not return at all. -/
theorem C15_counterexample :
    twoLargeValuesBuilder.mLargeOperandValues ≠ [] ∧
    (twoLargeValuesBuilder.mLargeOperandValues.map (fun l => l.operandIndex)).Nodup ∧
    copyLargeValuesToSharedMemory noMemoryEnv twoLargeValuesBuilder =
      .ret (ANEURALNETWORKS_OUT_OF_MEMORY,
        { twoLargeValuesBuilder with
          mOperands :=
            [largeTensorOperand LifeTime.CONSTANT_REFERENCE
               { poolIndex := 0xFFFFFFFF, offset := 0, length := 132 },
             largeTensorOperand LifeTime.CONSTANT_REFERENCE
               { poolIndex := 0xFFFFFFFF, offset := 132, length := 132 }] }) ∧
    runCalls sampleEnv sampleTypeManager emptyHeap 0 resetLargeValueCalls {} =
      some resetLargeValueBuilder ∧
    resetLargeValueBuilder.mLargeOperandValues ≠ [] ∧
    (resetLargeValueBuilder.mLargeOperandValues.map (fun l => l.operandIndex)).Nodup ∧
    copyLargeValuesToSharedMemory sampleEnv resetLargeValueBuilder = .abort := by
  decide

/-- C15 (amended): for every non-empty deferred list whose entries refer to distinct operands
that still have lifetime `CONSTANT_REFERENCE`, when the size of the layout is below `2 ^ 32`
and the shared memory of that size is created, `copyLargeValuesToSharedMemory` returns
`NO_ERROR`; the regions of the layout (offsets obtained by advancing the running pool size by
`alignBytesNeeded(poolSize, length)` before each value, in recording order) are pairwise
disjoint, in order, and inside the pool, whose size is the size of the layout; every
deferred operand keeps its length and receives its offset of the layout and the tracker index
of the pool, and the pool bytes of its region equal the recorded buffer. -/
theorem C15_large_values_layout (env : Env) (b : ModelBuilder) (addr : Nat)
    (hne : b.mLargeOperandValues ≠ [])
    (hnd : (b.mLargeOperandValues.map (fun l => l.operandIndex)).Nodup)
    (hlife : ∀ l ∈ b.mLargeOperandValues, ∃ o, b.mOperands.get? l.operandIndex = some o ∧
      o.lifetime = LifeTime.CONSTANT_REFERENCE)
    (hbound : layoutSize env.alignBytesNeeded
      (b.mLargeOperandValues.map (recordedLength b.mOperands)) 0 < 2 ^ 32)
    (hcreate : env.memoryAshmemCreate (layoutSize env.alignBytesNeeded
      (b.mLargeOperandValues.map (recordedLength b.mOperands)) 0) =
        (ANEURALNETWORKS_NO_ERROR, some addr)) :
    ∃ b1 bytes, copyLargeValuesToSharedMemory env b = .ret (ANEURALNETWORKS_NO_ERROR, b1) ∧
      b1.mLargeValueMemory = some { addr := addr, bytes := bytes } ∧
      bytes.length = layoutSize env.alignBytesNeeded
        (b.mLargeOperandValues.map (recordedLength b.mOperands)) 0 ∧
      (layoutRegions env.alignBytesNeeded
        (b.mLargeOperandValues.map (recordedLength b.mOperands)) 0).Pairwise
          (fun r s => r.1 + r.2 ≤ s.1) ∧
      (∀ r ∈ layoutRegions env.alignBytesNeeded
          (b.mLargeOperandValues.map (recordedLength b.mOperands)) 0,
        r.1 + r.2 ≤ bytes.length) ∧
      List.Forall₂ (fun l r => ∃ o, b.mOperands.get? l.operandIndex = some o ∧
          r.2 = o.location.length ∧
          b1.mOperands.get? l.operandIndex = some
            { o with location :=
              { o.location with poolIndex := (b.mMemories.add addr).1, offset := r.1 } } ∧
          (bytes.drop r.1).take r.2 = readN l.buffer.bytes r.2)
        b.mLargeOperandValues
        (layoutRegions env.alignBytesNeeded
          (b.mLargeOperandValues.map (recordedLength b.mOperands)) 0) := by
  obtain ⟨ops1, hrun1, hall1, _⟩ :=
    assignLargeValueOffsets_spec env b.mLargeOperandValues 0 b.mOperands hnd hlife hbound
  have hchain := layout_chain env.alignBytesNeeded
    (b.mLargeOperandValues.map (recordedLength b.mOperands)) 0
  obtain ⟨pool2, ops2, hrun2, hl2, _, hall2, _⟩ :=
    copyLargeValues_spec (b.mMemories.add addr).1 b.mLargeOperandValues _ 0
      (List.replicate (layoutSize env.alignBytesNeeded
        (b.mLargeOperandValues.map (recordedLength b.mOperands)) 0) 0) ops1 hnd
      (List.Forall₂.imp (by
        intro l r ⟨o, _, _, hr, hget⟩
        exact ⟨_, hget, rfl, hr.symm⟩) hall1)
      (by rw [List.length_replicate]; exact hchain)
  rw [List.length_replicate] at hl2
  obtain ⟨hpair, hin⟩ := regionChain_spec _ _ _ hchain
  refine ⟨{ b with
      mMemories := (b.mMemories.add addr).2
      mOperands := ops2
      mLargeValueMemory := some { addr := addr, bytes := pool2 } }, pool2, ?_, rfl, hl2, hpair,
    fun r hr => by rw [hl2]; exact (hin r hr).2, ?_⟩
  · unfold ModelBuilder.copyLargeValuesToSharedMemory
    rw [if_neg (by
      intro h
      exact hne (List.isEmpty_iff.mp h))]
    simp only [hrun1, Exec.bind, hcreate, Option.map_some', ne_eq, not_true_eq_false, if_false,
      hrun2]
  · refine List.Forall₂.imp ?_ (forall₂_and hall1 hall2)
    intro l r ⟨⟨o, ho, _, hr, hget1⟩, ⟨o1, ho1, hget2⟩, hbytes⟩
    rw [hget1] at ho1
    injection ho1 with ho1
    rw [← ho1] at hget2
    exact ⟨o, ho, hr, hget2, hbytes⟩

/-- C15 (witness): the two deferred values of 132 bytes of `twoLargeValuesBuilder`. -/
theorem C15_large_values_layout_witness :
    (twoLargeValuesBuilder.mLargeOperandValues ≠ [] ∧
      (twoLargeValuesBuilder.mLargeOperandValues.map (fun l => l.operandIndex)).Nodup ∧
      (∀ l ∈ twoLargeValuesBuilder.mLargeOperandValues,
        ∃ o, twoLargeValuesBuilder.mOperands.get? l.operandIndex = some o ∧
          o.lifetime = LifeTime.CONSTANT_REFERENCE) ∧
      layoutSize sampleEnv.alignBytesNeeded
        (twoLargeValuesBuilder.mLargeOperandValues.map
          (recordedLength twoLargeValuesBuilder.mOperands)) 0 = 264 ∧
      layoutRegions sampleEnv.alignBytesNeeded
        (twoLargeValuesBuilder.mLargeOperandValues.map
          (recordedLength twoLargeValuesBuilder.mOperands)) 0 = [(0, 132), (132, 132)] ∧
      sampleEnv.memoryAshmemCreate 264 = (ANEURALNETWORKS_NO_ERROR, some 1)) ∧
    ∃ b1 bytes, copyLargeValuesToSharedMemory sampleEnv twoLargeValuesBuilder =
        .ret (ANEURALNETWORKS_NO_ERROR, b1) ∧
      b1.mLargeValueMemory = some { addr := 1, bytes := bytes } ∧
      bytes.length = layoutSize sampleEnv.alignBytesNeeded
        (twoLargeValuesBuilder.mLargeOperandValues.map
          (recordedLength twoLargeValuesBuilder.mOperands)) 0 ∧
      (layoutRegions sampleEnv.alignBytesNeeded
        (twoLargeValuesBuilder.mLargeOperandValues.map
          (recordedLength twoLargeValuesBuilder.mOperands)) 0).Pairwise
          (fun r s => r.1 + r.2 ≤ s.1) ∧
      (∀ r ∈ layoutRegions sampleEnv.alignBytesNeeded
          (twoLargeValuesBuilder.mLargeOperandValues.map
            (recordedLength twoLargeValuesBuilder.mOperands)) 0,
        r.1 + r.2 ≤ bytes.length) ∧
      List.Forall₂ (fun l r => ∃ o, twoLargeValuesBuilder.mOperands.get? l.operandIndex =
            some o ∧
          r.2 = o.location.length ∧
          b1.mOperands.get? l.operandIndex = some
            { o with location :=
              { o.location with
                poolIndex := (twoLargeValuesBuilder.mMemories.add 1).1, offset := r.1 } } ∧
          (bytes.drop r.1).take r.2 = readN l.buffer.bytes r.2)
        twoLargeValuesBuilder.mLargeOperandValues
        (layoutRegions sampleEnv.alignBytesNeeded
          (twoLargeValuesBuilder.mLargeOperandValues.map
            (recordedLength twoLargeValuesBuilder.mOperands)) 0) :=
  have hlife : ∀ l ∈ twoLargeValuesBuilder.mLargeOperandValues,
      ∃ o, twoLargeValuesBuilder.mOperands.get? l.operandIndex = some o ∧
        o.lifetime = LifeTime.CONSTANT_REFERENCE := by
    intro l hl
    rcases List.mem_cons.mp hl with h | h
    · subst h; exact ⟨_, rfl, rfl⟩
    · rcases List.mem_cons.mp h with h | h
      · subst h; exact ⟨_, rfl, rfl⟩
      · exact absurd h (List.not_mem_nil l)
  ⟨⟨by decide, by decide, hlife, by decide, by decide, by decide⟩,
    C15_large_values_layout sampleEnv twoLargeValuesBuilder 1 (by decide) (by decide) hlife
      (by decide) (by decide)⟩

/-! ## The trimming of trailing default arguments -/

theorem matchesSpec_of_lifetime (env : Env) (spec : TailSpec) (operand : Operand)
    (arena : List Nat)
    (h : operand.lifetime ≠ LifeTime.CONSTANT_COPY ∧ operand.lifetime ≠ LifeTime.POINTER) :
    matchesSpec env spec operand arena = .ret false := by
  unfold ModelBuilder.matchesSpec
  rw [if_pos h]

theorem readValue_returns (env : Env) (operand : Operand) (arena : List Nat) (n : Nat)
    (h : operand.lifetime = LifeTime.CONSTANT_COPY → operand.location.offset + n ≤ arena.length) :
    ∃ v, readValue env operand arena n = .ret v := by
  unfold ModelBuilder.readValue
  split
  · rename_i hcc
    rw [if_pos (h hcc)]
    exact ⟨_, rfl⟩
  · exact ⟨_, rfl⟩

theorem matchesSpec_returns (env : Env) (spec : TailSpec) (operand : Operand)
    (arena : List Nat)
    (h : operand.lifetime = LifeTime.CONSTANT_COPY →
      (operand.type = OperandType.BOOL → operand.location.offset + 1 ≤ arena.length) ∧
      (operand.type = OperandType.INT32 → operand.location.offset + 4 ≤ arena.length)) :
    ∃ m, matchesSpec env spec operand arena = .ret m := by
  unfold ModelBuilder.matchesSpec
  split
  · exact ⟨_, rfl⟩
  · cases spec <;> dsimp only <;> split
    · rename_i ht
      obtain ⟨v, hv⟩ := readValue_returns env operand arena 1 (fun hcc => (h hcc).1 ht)
      rw [hv]; exact ⟨_, rfl⟩
    · exact ⟨_, rfl⟩
    · rename_i ht
      obtain ⟨v, hv⟩ := readValue_returns env operand arena 4 (fun hcc => (h hcc).2 ht)
      rw [hv]; exact ⟨_, rfl⟩
    · exact ⟨_, rfl⟩
    · rename_i ht
      obtain ⟨v, hv⟩ := readValue_returns env operand arena 4 (fun hcc => (h hcc).2 ht)
      rw [hv]; exact ⟨_, rfl⟩
    · exact ⟨_, rfl⟩

/-- One step of the loop of `countMatchingTrailingArguments`, when it returns. -/
theorem countMatchingLoop_step (env : Env) (start : Nat) (tail : List TailSpec)
    (op : Operation) (ops : List Operand) (arena : List Nat) (k count n : Nat)
    (h : countMatchingLoop env start tail op ops arena (k + 1) count = .ret n) :
    ∃ idx operand spec m, op.inputs.get? (start + k) = some idx ∧
      ops.get? idx = some operand ∧ tail.get? k = some spec ∧
      matchesSpec env spec operand arena = .ret m ∧
      ((m = false ∧ n = count) ∨
        (m = true ∧ countMatchingLoop env start tail op ops arena k (count + 1) = .ret n)) := by
  rw [countMatchingLoop] at h
  split at h
  · cases h
  rename_i idx hidx
  split at h
  · cases h
  rename_i operand hop
  rw [Nat.add_sub_cancel_left] at h
  split at h
  · cases h
  rename_i spec hspec
  rw [Exec.bind_eq_ret] at h
  obtain ⟨m, hm, h⟩ := h
  refine ⟨idx, operand, spec, m, hidx, hop, hspec, hm, ?_⟩
  cases m with
  | false =>
    left
    injection h with h
    exact ⟨rfl, h.symm⟩
  | true => right; exact ⟨rfl, h⟩

theorem countMatchingLoop_le (env : Env) (start : Nat) (tail : List TailSpec)
    (op : Operation) (ops : List Operand) (arena : List Nat) :
    ∀ (k count n : Nat), countMatchingLoop env start tail op ops arena k count = .ret n →
      count ≤ n ∧ n ≤ count + k := by
  intro k
  induction k with
  | zero =>
    intro count n h
    rw [countMatchingLoop] at h
    injection h with h
    omega
  | succ k ih =>
    intro count n h
    obtain ⟨_, _, _, _, _, _, _, _, hcase⟩ := countMatchingLoop_step env start tail op ops arena _ _ _ h
    rcases hcase with ⟨_, hn⟩ | ⟨_, hrec⟩
    · omega
    · have := ih _ _ hrec
      omega

/-- An input that does not match its entry of the tail stops the count at the latest there. -/
theorem countMatchingLoop_stop_at (env : Env) (start : Nat) (tail : List TailSpec)
    (op : Operation) (ops : List Operand) (arena : List Nat) (j idx : Nat) (operand : Operand)
    (hidx : op.inputs.get? (start + j) = some idx) (hop : ops.get? idx = some operand)
    (hno : ∀ spec, matchesSpec env spec operand arena = .ret false) :
    ∀ (k count n : Nat), j < k →
      countMatchingLoop env start tail op ops arena k count = .ret n →
      n + j + 1 ≤ count + k := by
  intro k
  induction k with
  | zero => intro count n hj; omega
  | succ k ih =>
    intro count n hj h
    obtain ⟨idx1, operand1, spec, m, hidx1, hop1, _, hm, hcase⟩ :=
      countMatchingLoop_step env start tail op ops arena _ _ _ h
    rcases hcase with ⟨_, hn⟩ | ⟨hmt, hrec⟩
    · omega
    · by_cases hjk : j = k
      · subst hjk
        rw [hidx] at hidx1
        injection hidx1 with hidx1
        subst hidx1
        rw [hop] at hop1
        injection hop1 with hop1
        subst hop1
        rw [hno spec] at hm
        injection hm with hm
        rw [hmt] at hm
        cases hm
      · have := ih _ _ (by omega) hrec
        omega

/-- Where the count stopped before the start of the tail, the input there does not match. -/
theorem countMatchingLoop_stopped (env : Env) (start : Nat) (tail : List TailSpec)
    (op : Operation) (ops : List Operand) (arena : List Nat) :
    ∀ (k count n : Nat), countMatchingLoop env start tail op ops arena k count = .ret n →
      n < count + k →
      ∃ idx operand spec, op.inputs.get? (start + (count + k - n - 1)) = some idx ∧
        ops.get? idx = some operand ∧ tail.get? (count + k - n - 1) = some spec ∧
        matchesSpec env spec operand arena = .ret false := by
  intro k
  induction k with
  | zero => intro count n h hlt; have := countMatchingLoop_le env start tail op ops arena _ _ _ h; omega
  | succ k ih =>
    intro count n h hlt
    obtain ⟨idx, operand, spec, m, hidx, hop, hspec, hm, hcase⟩ :=
      countMatchingLoop_step env start tail op ops arena _ _ _ h
    rcases hcase with ⟨hmf, hn⟩ | ⟨_, hrec⟩
    · rw [hn]
      have e : count + (k + 1) - count - 1 = k := by omega
      rw [e]
      exact ⟨idx, operand, spec, hidx, hop, hspec, by rw [hm, hmf]⟩
    · have := ih _ _ hrec (by omega)
      have e : count + 1 + k - n - 1 = count + (k + 1) - n - 1 := by omega
      rw [e] at this
      exact this

theorem countMatchingLoop_returns (env : Env) (start : Nat) (tail : List TailSpec)
    (b : ModelBuilder) (op : Operation) (hread : InputsReadable b op) :
    ∀ (k count : Nat), start + k ≤ op.inputs.length → k ≤ tail.length →
      ∃ n, countMatchingLoop env start tail op b.mOperands b.mSmallOperandValues k count =
        .ret n := by
  intro k
  induction k with
  | zero => intro count _ _; exact ⟨count, by rw [countMatchingLoop]⟩
  | succ k ih =>
    intro count hlen htail
    have hi : start + k < op.inputs.length := by omega
    obtain ⟨operand, hop, hrd⟩ := hread _ (List.getElem_mem hi)
    obtain ⟨m, hm⟩ := matchesSpec_returns env (tail[k]) operand b.mSmallOperandValues hrd
    obtain ⟨n, hn⟩ := ih (count + 1) (by omega) (by omega)
    have h1 : op.inputs.get? (start + k) = some op.inputs[start + k] := by
      rw [List.get?_eq_getElem?, List.getElem?_eq_getElem hi]
    have h2 : tail.get? (start + k - start) = some tail[k] := by
      rw [Nat.add_sub_cancel_left, List.get?_eq_getElem?,
        List.getElem?_eq_getElem (show k < tail.length by omega)]
    rw [countMatchingLoop]
    simp only [h1, hop, h2, hm, Exec.bind]
    cases m with
    | false => exact ⟨count, rfl⟩
    | true => exact ⟨n, hn⟩

/-- The operation with its input list cut to its first `m` entries, as the trimming leaves
it. -/
theorem get?_resizeVector (l : List Nat) (m j : Nat) (hm : m ≤ l.length) (hj : j < m) :
    (resizeVector l m).get? j = l.get? j := by
  rw [take_of_resizeVector l m hm, List.get?_eq_getElem?, List.get?_eq_getElem?,
    List.getElem?_take_of_lt hj]

theorem inputCount_le (op : Operation) : op.inputs.length % 2 ^ 32 ≤ op.inputs.length :=
  Nat.mod_le _ _

theorem inputCount_resize (op : Operation) (n : Nat) :
    (resizeVector op.inputs (op.inputs.length % 2 ^ 32 - n)).length % 2 ^ 32 =
      op.inputs.length % 2 ^ 32 - n := by
  rw [length_resizeVector]
  have : op.inputs.length % 2 ^ 32 < 2 ^ 32 := Nat.mod_lt _ (by decide)
  exact Nat.mod_eq_of_lt (by omega)

theorem countMatching_le (env : Env) (start : Nat) (tail : List TailSpec) (op : Operation)
    (ops : List Operand) (arena : List Nat) (n : Nat)
    (h : countMatchingTrailingArguments env start tail op ops arena = .ret n) :
    n ≤ op.inputs.length % 2 ^ 32 - start ∧ 0 < op.inputs.length % 2 ^ 32 := by
  unfold ModelBuilder.countMatchingTrailingArguments at h
  dsimp only at h
  split at h
  · cases h
  · rename_i hz
    have := countMatchingLoop_le env start tail op ops arena _ _ _ h
    omega

theorem countMatching_stop_at (env : Env) (start : Nat) (tail : List TailSpec)
    (op : Operation) (ops : List Operand) (arena : List Nat) (n i idx : Nat)
    (operand : Operand)
    (h : countMatchingTrailingArguments env start tail op ops arena = .ret n)
    (hstart : start ≤ i) (hi : i < op.inputs.length % 2 ^ 32)
    (hidx : op.inputs.get? i = some idx) (hop : ops.get? idx = some operand)
    (hno : ∀ spec, matchesSpec env spec operand arena = .ret false) :
    n + i + 1 ≤ op.inputs.length % 2 ^ 32 := by
  unfold ModelBuilder.countMatchingTrailingArguments at h
  dsimp only at h
  split at h
  · cases h
  · have e : start + (i - start) = i := by omega
    have := countMatchingLoop_stop_at env start tail op ops arena (i - start) idx operand
      (by rw [e]; exact hidx) hop hno _ _ _ (by omega) h
    omega

/-- After the trimming the count of matching trailing arguments is 0. -/
theorem countMatching_trimmed (env : Env) (start : Nat) (tail : List TailSpec)
    (op : Operation) (ops : List Operand) (arena : List Nat) (n : Nat)
    (h : countMatchingTrailingArguments env start tail op ops arena = .ret n)
    (hlt : start < op.inputs.length % 2 ^ 32 - n) :
    countMatchingTrailingArguments env start tail
      { op with inputs := resizeVector op.inputs (op.inputs.length % 2 ^ 32 - n) } ops arena =
        .ret 0 := by
  have hle := inputCount_le op
  unfold ModelBuilder.countMatchingTrailingArguments at h ⊢
  dsimp only at h ⊢
  rw [inputCount_resize]
  split at h
  · cases h
  rw [if_neg (by omega)]
  obtain ⟨idx, operand, spec, hidx, hop, hspec, hm⟩ :=
    countMatchingLoop_stopped env start tail op ops arena _ _ _ h (by omega)
  have e1 : op.inputs.length % 2 ^ 32 - n - start =
      (op.inputs.length % 2 ^ 32 - n - start - 1) + 1 := by omega
  have e2 : 0 + (op.inputs.length % 2 ^ 32 - start) - n - 1 =
      op.inputs.length % 2 ^ 32 - n - start - 1 := by omega
  rw [e2] at hidx hspec
  rw [e1, countMatchingLoop]
  have h1 : (resizeVector op.inputs (op.inputs.length % 2 ^ 32 - n)).get?
      (start + (op.inputs.length % 2 ^ 32 - n - start - 1)) = some idx := by
    rw [get?_resizeVector _ _ _ (by omega) (by omega)]
    exact hidx
  have h2 : tail.get? (start + (op.inputs.length % 2 ^ 32 - n - start - 1) - start) =
      some spec := by
    rw [Nat.add_sub_cancel_left]; exact hspec
  simp only [h1, hop, h2, hm, Exec.bind, Bool.not_false, if_true]

theorem countMatching_returns (env : Env) (start : Nat) (tail : List TailSpec)
    (b : ModelBuilder) (op : Operation) (hread : InputsReadable b op)
    (hlen : op.inputs.length < 2 ^ 32) (hpos : 0 < op.inputs.length)
    (htail : op.inputs.length - start ≤ tail.length) :
    ∃ n, countMatchingTrailingArguments env start tail op b.mOperands b.mSmallOperandValues =
      .ret n := by
  unfold ModelBuilder.countMatchingTrailingArguments
  dsimp only
  rw [Nat.mod_eq_of_lt hlen, if_neg (by omega)]
  by_cases hs : start ≤ op.inputs.length
  · exact countMatchingLoop_returns env start tail b op hread _ 0 (by omega) htail
  · have e : op.inputs.length - start = 0 := by omega
    rw [e]
    exact ⟨0, by rw [countMatchingLoop]⟩

theorem inputOperandType_resize (b : ModelBuilder) (op : Operation) (m k : Nat)
    (hm : m ≤ op.inputs.length) (hk : k < m) :
    inputOperandType b { op with inputs := resizeVector op.inputs m } k =
      inputOperandType b op k := by
  unfold ModelBuilder.inputOperandType
  dsimp only
  rw [get?_resizeVector _ _ _ hm hk]

theorem inputOperandType_returns (b : ModelBuilder) (op : Operation) (k : Nat)
    (hread : InputsReadable b op) (hk : k < op.inputs.length) :
    ∃ t, inputOperandType b op k = .ret t := by
  obtain ⟨operand, hop, _⟩ := hread _ (List.getElem_mem hk)
  unfold ModelBuilder.inputOperandType
  have h1 : op.inputs.get? k = some op.inputs[k] := by
    rw [List.get?_eq_getElem?, List.getElem?_eq_getElem hk]
  simp only [h1, hop]
  exact ⟨_, rfl⟩

/-- What the pooling case returns, and that it returns 0 after the trimming. -/
theorem poolTrailing_spec (env : Env) (b : ModelBuilder) (op : Operation) (n : Nat)
    (h : poolTrailing env b op (op.inputs.length % 2 ^ 32) = .ret n) :
    (n = 0 ∨ ∃ start tail, 1 ≤ start ∧
      countMatchingTrailingArguments env start tail op b.mOperands b.mSmallOperandValues =
        .ret n) ∧
    (0 < n → poolTrailing env b
      { op with inputs := resizeVector op.inputs (op.inputs.length % 2 ^ 32 - n) }
      (op.inputs.length % 2 ^ 32 - n) = .ret 0) := by
  unfold ModelBuilder.poolTrailing at h
  dsimp only at h
  split at h
  · rename_i hic
    rw [Exec.bind_eq_ret] at h
    obtain ⟨t, _, h⟩ := h
    split at h
    · have hle := countMatching_le env _ _ _ _ _ _ h
      refine ⟨Or.inr ⟨_, _, by decide, h⟩, fun hn => ?_⟩
      unfold ModelBuilder.poolTrailing
      dsimp only
      rw [if_neg (by omega), if_neg (by omega)]
    · injection h with h
      exact ⟨Or.inl h.symm, fun hn => by omega⟩
  · split at h
    · rename_i hic
      rw [Exec.bind_eq_ret] at h
      obtain ⟨t, _, h⟩ := h
      split at h
      · have hle := countMatching_le env _ _ _ _ _ _ h
        refine ⟨Or.inr ⟨_, _, by decide, h⟩, fun hn => ?_⟩
        unfold ModelBuilder.poolTrailing
        dsimp only
        rw [if_neg (by omega), if_neg (by omega)]
      · injection h with h
        exact ⟨Or.inl h.symm, fun hn => by omega⟩
    · injection h with h
      exact ⟨Or.inl h.symm, fun hn => by omega⟩

/-- What the convolution cases return, and that they return 0 after the trimming. -/
theorem convTrailing_spec (env : Env) (b : ModelBuilder) (op : Operation) (k n : Nat)
    (hk : 1 ≤ k) (h : convTrailing env b op (op.inputs.length % 2 ^ 32) k = .ret n) :
    (n = 0 ∨ ∃ start tail, 1 ≤ start ∧
      countMatchingTrailingArguments env start tail op b.mOperands b.mSmallOperandValues =
        .ret n) ∧
    (0 < n → convTrailing env b
      { op with inputs := resizeVector op.inputs (op.inputs.length % 2 ^ 32 - n) }
      (op.inputs.length % 2 ^ 32 - n) k = .ret 0) := by
  have hle0 := inputCount_le op
  unfold ModelBuilder.convTrailing at h
  dsimp only at h
  split at h
  · rename_i hic
    rw [Exec.bind_eq_ret] at h
    obtain ⟨t, ht, h⟩ := h
    split at h
    · rename_i htype
      rw [Exec.bind_eq_ret] at h
      obtain ⟨count, hcount, h⟩ := h
      injection h with h
      have hle := countMatching_le env _ _ _ _ _ _ hcount
      split at h
      · exact ⟨Or.inl h.symm, fun hn => by omega⟩
      · subst h
        refine ⟨Or.inr ⟨_, _, by omega, hcount⟩, fun hn => ?_⟩
        unfold ModelBuilder.convTrailing
        dsimp only
        by_cases hc : k + 3 < op.inputs.length % 2 ^ 32 - count
        · rw [if_pos ⟨hc, by omega⟩, inputOperandType_resize b op _ k (by omega) (by omega), ht]
          simp only [Exec.bind]
          rw [if_pos htype, countMatching_trimmed env _ _ _ _ _ _ hcount hc]
          simp only [Exec.bind, Nat.sub_zero, ite_self]
        · rw [if_neg (fun hh => hc hh.1), if_pos ⟨by omega, by omega⟩,
            inputOperandType_resize b op _ k (by omega) (by omega), ht]
          simp only [Exec.bind]
          rw [if_neg (by rw [htype]; decide)]
    · injection h with h
      exact ⟨Or.inl h.symm, fun hn => by omega⟩
  · rename_i hnot
    split at h
    · rename_i hic
      rw [Exec.bind_eq_ret] at h
      obtain ⟨t, ht, h⟩ := h
      split at h
      · rename_i htype
        rw [Exec.bind_eq_ret] at h
        obtain ⟨count, hcount, h⟩ := h
        injection h with h
        have hle := countMatching_le env _ _ _ _ _ _ hcount
        split at h
        · exact ⟨Or.inl h.symm, fun hn => by omega⟩
        · subst h
          refine ⟨Or.inr ⟨_, _, by omega, hcount⟩, fun hn => ?_⟩
          unfold ModelBuilder.convTrailing
          dsimp only
          rw [if_neg (by omega)]
          by_cases hc : k < op.inputs.length % 2 ^ 32 - count
          · rw [if_pos ⟨hc, by omega⟩, inputOperandType_resize b op _ k (by omega) hc, ht]
            simp only [Exec.bind]
            rw [if_pos htype, countMatching_trimmed env _ _ _ _ _ _ hcount hc]
            simp only [Exec.bind, Nat.sub_zero, ite_self]
          · rw [if_neg (fun hh => hc hh.1)]
      · injection h with h
        exact ⟨Or.inl h.symm, fun hn => by omega⟩
    · injection h with h
      exact ⟨Or.inl h.symm, fun hn => by omega⟩

/-- What a guarded count returns, and that it returns 0 after the trimming. -/
theorem guardedCount_spec (env : Env) (b : ModelBuilder) (op : Operation) (P : Nat → Prop)
    [DecidablePred P] (start : Nat) (tail : List TailSpec) (n : Nat) (hs : 1 ≤ start)
    (hP : ∀ m, P m → start < m)
    (h : (if P (op.inputs.length % 2 ^ 32) then
        countMatchingTrailingArguments env start tail op b.mOperands b.mSmallOperandValues
      else .ret 0) = .ret n) :
    (n = 0 ∨ ∃ start tail, 1 ≤ start ∧
      countMatchingTrailingArguments env start tail op b.mOperands b.mSmallOperandValues =
        .ret n) ∧
    (0 < n → (if P (op.inputs.length % 2 ^ 32 - n) then
        countMatchingTrailingArguments env start tail
          { op with inputs := resizeVector op.inputs (op.inputs.length % 2 ^ 32 - n) }
          b.mOperands b.mSmallOperandValues
      else .ret 0) = .ret 0) := by
  split at h
  · refine ⟨Or.inr ⟨_, _, hs, h⟩, fun _ => ?_⟩
    split
    · rename_i hp
      exact countMatching_trimmed env _ _ _ _ _ _ h (hP _ hp)
    · rfl
  · injection h with h
    exact ⟨Or.inl h.symm, fun hn => by omega⟩

/-- What `getNumTrailingArgumentsToRemove` returns: 0, or a count of matching trailing
arguments from a start index of at least 1; and after the trimming it returns 0. -/
theorem getNumTrailingArgumentsToRemove_spec (env : Env) (b : ModelBuilder) (op : Operation)
    (n : Nat) (h : getNumTrailingArgumentsToRemove env b op = .ret n) :
    (n = 0 ∨ ∃ start tail, 1 ≤ start ∧
      countMatchingTrailingArguments env start tail op b.mOperands b.mSmallOperandValues =
        .ret n) ∧
    (0 < n → getNumTrailingArgumentsToRemove env b
      { op with inputs := resizeVector op.inputs (op.inputs.length % 2 ^ 32 - n) } =
        .ret 0) := by
  unfold ModelBuilder.getNumTrailingArgumentsToRemove at h
  dsimp only at h
  by_cases hn0 : op.type = OperationType.AVERAGE_POOL_2D
  · rw [if_pos hn0] at h
    have hs := poolTrailing_spec env b op n h
    refine ⟨hs.1, fun hn => ?_⟩
    unfold ModelBuilder.getNumTrailingArgumentsToRemove
    dsimp only
    rw [inputCount_resize, if_pos hn0]
    exact hs.2 hn
  rw [if_neg hn0] at h
  by_cases hn1 : op.type = OperationType.CONV_2D
  · rw [if_pos hn1] at h
    have hs := convTrailing_spec env b op 7 n (by decide) h
    refine ⟨hs.1, fun hn => ?_⟩
    unfold ModelBuilder.getNumTrailingArgumentsToRemove
    dsimp only
    rw [inputCount_resize, if_neg hn0, if_pos hn1]
    exact hs.2 hn
  rw [if_neg hn1] at h
  by_cases hn2 : op.type = OperationType.DEPTHWISE_CONV_2D
  · rw [if_pos hn2] at h
    have hs := convTrailing_spec env b op 8 n (by decide) h
    refine ⟨hs.1, fun hn => ?_⟩
    unfold ModelBuilder.getNumTrailingArgumentsToRemove
    dsimp only
    rw [inputCount_resize, if_neg hn0, if_neg hn1, if_pos hn2]
    exact hs.2 hn
  rw [if_neg hn2] at h
  by_cases hn3 : op.type = OperationType.DEPTH_TO_SPACE
  · rw [if_pos hn3] at h
    have hs := guardedCount_spec env b op (fun m => m = 3) 2 [.BOOL_FALSE] n (by decide)
      (by intro m hm; omega) h
    refine ⟨hs.1, fun hn => ?_⟩
    unfold ModelBuilder.getNumTrailingArgumentsToRemove
    dsimp only
    rw [inputCount_resize, if_neg hn0, if_neg hn1, if_neg hn2, if_pos hn3]
    exact hs.2 hn
  rw [if_neg hn3] at h
  by_cases hn4 : op.type = OperationType.L2_NORMALIZATION
  · rw [if_pos hn4] at h
    have hs := guardedCount_spec env b op (fun m => m = 2) 1 [.INT32_NEGATIVE_ONE] n (by decide)
      (by intro m hm; omega) h
    refine ⟨hs.1, fun hn => ?_⟩
    unfold ModelBuilder.getNumTrailingArgumentsToRemove
    dsimp only
    rw [inputCount_resize, if_neg hn0, if_neg hn1, if_neg hn2, if_neg hn3, if_pos hn4]
    exact hs.2 hn
  rw [if_neg hn4] at h
  by_cases hn5 : op.type = OperationType.L2_POOL_2D
  · rw [if_pos hn5] at h
    have hs := poolTrailing_spec env b op n h
    refine ⟨hs.1, fun hn => ?_⟩
    unfold ModelBuilder.getNumTrailingArgumentsToRemove
    dsimp only
    rw [inputCount_resize, if_neg hn0, if_neg hn1, if_neg hn2, if_neg hn3, if_neg hn4, if_pos
      hn5]
    exact hs.2 hn
  rw [if_neg hn5] at h
  by_cases hn6 : op.type = OperationType.LOCAL_RESPONSE_NORMALIZATION
  · rw [if_pos hn6] at h
    have hs := guardedCount_spec env b op (fun m => m = 6) 5 [.INT32_NEGATIVE_ONE] n (by decide)
      (by intro m hm; omega) h
    refine ⟨hs.1, fun hn => ?_⟩
    unfold ModelBuilder.getNumTrailingArgumentsToRemove
    dsimp only
    rw [inputCount_resize, if_neg hn0, if_neg hn1, if_neg hn2, if_neg hn3, if_neg hn4, if_neg
      hn5, if_pos hn6]
    exact hs.2 hn
  rw [if_neg hn6] at h
  by_cases hn7 : op.type = OperationType.MAX_POOL_2D
  · rw [if_pos hn7] at h
    have hs := poolTrailing_spec env b op n h
    refine ⟨hs.1, fun hn => ?_⟩
    unfold ModelBuilder.getNumTrailingArgumentsToRemove
    dsimp only
    rw [inputCount_resize, if_neg hn0, if_neg hn1, if_neg hn2, if_neg hn3, if_neg hn4, if_neg
      hn5, if_neg hn6, if_pos hn7]
    exact hs.2 hn
  rw [if_neg hn7] at h
  by_cases hn8 : op.type = OperationType.RESIZE_BILINEAR
  · rw [if_pos hn8] at h
    have hs := guardedCount_spec env b op (fun m => 3 < m ∧ m ≤ 6) 3 [.BOOL_FALSE, .BOOL_FALSE, .BOOL_FALSE] n (by decide)
      (by intro m hm; omega) h
    refine ⟨hs.1, fun hn => ?_⟩
    unfold ModelBuilder.getNumTrailingArgumentsToRemove
    dsimp only
    rw [inputCount_resize, if_neg hn0, if_neg hn1, if_neg hn2, if_neg hn3, if_neg hn4, if_neg
      hn5, if_neg hn6, if_neg hn7, if_pos hn8]
    exact hs.2 hn
  rw [if_neg hn8] at h
  by_cases hn9 : op.type = OperationType.SOFTMAX
  · rw [if_pos hn9] at h
    have hs := guardedCount_spec env b op (fun m => m = 3) 2 [.INT32_NEGATIVE_ONE] n (by decide)
      (by intro m hm; omega) h
    refine ⟨hs.1, fun hn => ?_⟩
    unfold ModelBuilder.getNumTrailingArgumentsToRemove
    dsimp only
    rw [inputCount_resize, if_neg hn0, if_neg hn1, if_neg hn2, if_neg hn3, if_neg hn4, if_neg
      hn5, if_neg hn6, if_neg hn7, if_neg hn8, if_pos hn9]
    exact hs.2 hn
  rw [if_neg hn9] at h
  by_cases hn10 : op.type = OperationType.SPACE_TO_DEPTH
  · rw [if_pos hn10] at h
    have hs := guardedCount_spec env b op (fun m => m = 3) 2 [.BOOL_FALSE] n (by decide)
      (by intro m hm; omega) h
    refine ⟨hs.1, fun hn => ?_⟩
    unfold ModelBuilder.getNumTrailingArgumentsToRemove
    dsimp only
    rw [inputCount_resize, if_neg hn0, if_neg hn1, if_neg hn2, if_neg hn3, if_neg hn4, if_neg
      hn5, if_neg hn6, if_neg hn7, if_neg hn8, if_neg hn9, if_pos hn10]
    exact hs.2 hn
  rw [if_neg hn10] at h
  by_cases hn11 : op.type = OperationType.BATCH_TO_SPACE_ND
  · rw [if_pos hn11] at h
    have hs := guardedCount_spec env b op (fun m => m = 3) 2 [.BOOL_FALSE] n (by decide)
      (by intro m hm; omega) h
    refine ⟨hs.1, fun hn => ?_⟩
    unfold ModelBuilder.getNumTrailingArgumentsToRemove
    dsimp only
    rw [inputCount_resize, if_neg hn0, if_neg hn1, if_neg hn2, if_neg hn3, if_neg hn4, if_neg
      hn5, if_neg hn6, if_neg hn7, if_neg hn8, if_neg hn9, if_neg hn10, if_pos hn11]
    exact hs.2 hn
  rw [if_neg hn11] at h
  by_cases hn12 : op.type = OperationType.SPACE_TO_BATCH_ND
  · rw [if_pos hn12] at h
    have hs := guardedCount_spec env b op (fun m => m = 4) 3 [.BOOL_FALSE] n (by decide)
      (by intro m hm; omega) h
    refine ⟨hs.1, fun hn => ?_⟩
    unfold ModelBuilder.getNumTrailingArgumentsToRemove
    dsimp only
    rw [inputCount_resize, if_neg hn0, if_neg hn1, if_neg hn2, if_neg hn3, if_neg hn4, if_neg
      hn5, if_neg hn6, if_neg hn7, if_neg hn8, if_neg hn9, if_neg hn10, if_neg hn11, if_pos
      hn12]
    exact hs.2 hn
  rw [if_neg hn12] at h
  by_cases hn13 : op.type = OperationType.RESIZE_NEAREST_NEIGHBOR
  · rw [if_pos hn13] at h
    have hs := guardedCount_spec env b op (fun m => 4 < m ∧ m ≤ 6) 4 [.BOOL_FALSE, .BOOL_FALSE] n (by decide)
      (by intro m hm; omega) h
    refine ⟨hs.1, fun hn => ?_⟩
    unfold ModelBuilder.getNumTrailingArgumentsToRemove
    dsimp only
    rw [inputCount_resize, if_neg hn0, if_neg hn1, if_neg hn2, if_neg hn3, if_neg hn4, if_neg
      hn5, if_neg hn6, if_neg hn7, if_neg hn8, if_neg hn9, if_neg hn10, if_neg hn11, if_neg
      hn12, if_pos hn13]
    exact hs.2 hn
  rw [if_neg hn13] at h
  injection h with h
  exact ⟨Or.inl h.symm, fun hn => by omega⟩

/-! ## Claims about the trimming -/

theorem removeTrailingArguments_cases (env : Env) (b : ModelBuilder) (op op1 : Operation)
    (h : removeTrailingArguments env b op = .ret op1) :
    ∃ n, getNumTrailingArgumentsToRemove env b op = .ret n ∧
      ((n = 0 ∧ op1 = op) ∨
        (0 < n ∧ n < op.inputs.length % 2 ^ 32 ∧
          op1 = { op with
            inputs := resizeVector op.inputs (op.inputs.length % 2 ^ 32 - n) })) := by
  unfold ModelBuilder.removeTrailingArguments at h
  rw [Exec.bind_eq_ret] at h
  obtain ⟨n, hn, h⟩ := h
  refine ⟨n, hn, ?_⟩
  split at h
  · rename_i hz
    injection h with h
    exact Or.inl ⟨hz, h.symm⟩
  · rename_i hz
    dsimp only at h
    split at h
    · rename_i hlt
      injection h with h
      exact Or.inr ⟨Nat.pos_of_ne_zero hz, hlt, h.symm⟩
    · cases h

theorem removeTrailingArguments_of_count (env : Env) (b : ModelBuilder) (op : Operation)
    (n : Nat) (h : getNumTrailingArgumentsToRemove env b op = .ret n)
    (hlt : n < op.inputs.length) (hlen : op.inputs.length < 2 ^ 32) :
    removeTrailingArguments env b op =
      .ret (if n = 0 then op else { op with inputs := op.inputs.take (op.inputs.length - n) }) := by
  unfold ModelBuilder.removeTrailingArguments
  rw [h]
  simp only [Exec.bind]
  split
  · rfl
  · rw [Nat.mod_eq_of_lt hlen, if_pos hlt, take_of_resizeVector _ _ (by omega)]

/-- One operation: trimming it again changes nothing. -/
theorem removeTrailingArguments_idempotent (env : Env) (b : ModelBuilder) (op op1 : Operation)
    (h : removeTrailingArguments env b op = .ret op1) :
    getNumTrailingArgumentsToRemove env b op1 = .ret 0 ∧
    removeTrailingArguments env b op1 = .ret op1 := by
  obtain ⟨n, hn, hcase⟩ := removeTrailingArguments_cases env b op op1 h
  have h0 : getNumTrailingArgumentsToRemove env b op1 = .ret 0 := by
    rcases hcase with ⟨hz, hop⟩ | ⟨hpos, _, hop⟩
    · rw [hop, hn, hz]
    · rw [hop]
      exact (getNumTrailingArgumentsToRemove_spec env b op n hn).2 hpos
  refine ⟨h0, ?_⟩
  unfold ModelBuilder.removeTrailingArguments
  rw [h0]
  rfl

theorem removeTrailingLoop_idempotent (env : Env) (b : ModelBuilder) :
    ∀ (ops ops1 : List Operation), removeTrailingLoop env b ops = .ret ops1 →
      removeTrailingLoop env b ops1 = .ret ops1 ∧
      ∀ op ∈ ops1, getNumTrailingArgumentsToRemove env b op = .ret 0 := by
  intro ops
  induction ops with
  | nil =>
    intro ops1 h
    rw [removeTrailingLoop] at h
    injection h with h
    subst h
    exact ⟨rfl, fun op hop => absurd hop (List.not_mem_nil op)⟩
  | cons x rest ih =>
    intro ops1 h
    rw [removeTrailingLoop, Exec.bind_eq_ret] at h
    obtain ⟨x1, hx, h⟩ := h
    rw [Exec.bind_eq_ret] at h
    obtain ⟨rest1, hrest, h⟩ := h
    injection h with h
    subst h
    obtain ⟨h0, h1⟩ := removeTrailingArguments_idempotent env b x x1 hx
    obtain ⟨h2, h3⟩ := ih rest1 hrest
    refine ⟨?_, ?_⟩
    · rw [removeTrailingLoop, h1, h2]
      rfl
    · intro op hop
      rcases List.mem_cons.mp hop with hop | hop
      · rw [hop]; exact h0
      · exact h3 op hop

/-- The trimming reads the operand table and the arena of the builder only. -/
theorem getNumTrailingArgumentsToRemove_congr (env : Env) (b b1 : ModelBuilder)
    (h1 : b1.mOperands = b.mOperands) (h2 : b1.mSmallOperandValues = b.mSmallOperandValues)
    (op : Operation) :
    getNumTrailingArgumentsToRemove env b1 op = getNumTrailingArgumentsToRemove env b op := by
  unfold ModelBuilder.getNumTrailingArgumentsToRemove ModelBuilder.poolTrailing
    ModelBuilder.convTrailing ModelBuilder.inputOperandType
  rw [h1, h2]

theorem removeTrailingLoop_congr (env : Env) (b b1 : ModelBuilder)
    (h1 : b1.mOperands = b.mOperands) (h2 : b1.mSmallOperandValues = b.mSmallOperandValues) :
    ∀ ops, removeTrailingLoop env b1 ops = removeTrailingLoop env b ops := by
  intro ops
  induction ops with
  | nil => rfl
  | cons x rest ih =>
    rw [removeTrailingLoop, removeTrailingLoop, ih]
    unfold ModelBuilder.removeTrailingArguments
    rw [getNumTrailingArgumentsToRemove_congr env b b1 h1 h2]

theorem removeTrailingLoop_at (env : Env) (b : ModelBuilder) :
    ∀ (ops ops1 : List Operation) (i : Nat) (op : Operation),
      removeTrailingLoop env b ops = .ret ops1 → ops.get? i = some op →
      ∃ op1, removeTrailingArguments env b op = .ret op1 ∧ ops1.get? i = some op1 := by
  intro ops
  induction ops with
  | nil => intro ops1 i op _ hi; simp at hi
  | cons x rest ih =>
    intro ops1 i op h hi
    rw [removeTrailingLoop, Exec.bind_eq_ret] at h
    obtain ⟨x1, hx, h⟩ := h
    rw [Exec.bind_eq_ret] at h
    obtain ⟨rest1, hrest, h⟩ := h
    injection h with h
    subst h
    cases i with
    | zero =>
      simp only [List.get?_cons_zero, Option.some.injEq] at hi
      subst hi
      exact ⟨x1, hx, rfl⟩
    | succ i =>
      simp only [List.get?_cons_succ] at hi ⊢
      exact ih rest1 i op hrest hi

/-- The pooling case with 8 inputs whose input 7 is a `BOOL` held in the inline arena. -/
theorem poolTrailing_implicit (env : Env) (b : ModelBuilder) (op : Operation) (idx : Nat)
    (operand : Operand) (v : Nat)
    (hlen : op.inputs.length = 8)
    (h7 : op.inputs.get? 7 = some idx) (hop : b.mOperands.get? idx = some operand)
    (hbool : operand.type = OperandType.BOOL)
    (hcc : operand.lifetime = LifeTime.CONSTANT_COPY)
    (hval : b.mSmallOperandValues.get? operand.location.offset = some v) :
    poolTrailing env b op (op.inputs.length % 2 ^ 32) = .ret (if v = 0 then 1 else 0) := by
  rw [List.get?_eq_getElem?] at hval
  obtain ⟨hlt, hget⟩ := List.getElem?_eq_some_iff.mp hval
  have hread : (b.mSmallOperandValues.drop operand.location.offset).take 1 = [v] := by
    rw [List.drop_eq_getElem_cons hlt, hget]
    rfl
  have e1 : (8 : Nat) % 2 ^ 32 = 8 := by decide
  have e2 : (8 : Nat) - 7 = 0 + 1 := by decide
  unfold ModelBuilder.poolTrailing ModelBuilder.inputOperandType
    ModelBuilder.countMatchingTrailingArguments
  simp only [hlen, e1, h7, hop, hbool, Exec.bind, if_true]
  rw [if_neg (by decide), e2, countMatchingLoop]
  have h3 : ([TailSpec.BOOL_FALSE] : List TailSpec).get? (7 + 0 - 7) = some .BOOL_FALSE := rfl
  have hm : matchesSpec env .BOOL_FALSE operand b.mSmallOperandValues =
      .ret (decide (v = 0)) := by
    unfold ModelBuilder.matchesSpec ModelBuilder.readValue
    rw [if_neg (by rw [hcc]; exact fun h => h.1 rfl)]
    simp only [hbool, hcc, if_true]
    rw [if_pos (by omega), hread]
    simp only [Exec.bind]
    congr 1
    by_cases hv : v = 0
    · subst hv; rfl
    · simp [hv]
  simp only [h7, hop, h3, hm, Exec.bind]
  by_cases hv : v = 0
  · simp only [hv, decide_True, Bool.not_true, Bool.false_eq_true, if_false, if_true]
    rw [countMatchingLoop]
    rfl
  · simp [hv]

/-- C16: for an AVERAGE_POOL_2D, L2_POOL_2D or MAX_POOL_2D operation with 8 inputs whose
input 7 is a `BOOL` operand of lifetime `CONSTANT_COPY` holding the byte `v`, the trimming
of the operation leaves exactly the first 7 inputs, in their order, when the value is false
(`v = 0`), and leaves all 8 inputs when it is true; and so does
`removeTrailingArgumentsWithDefaultValues` at every position where the builder holds such an
operation. -/
theorem C16_pool_layout_flag_is_trimmed (env : Env) (b : ModelBuilder) (op : Operation)
    (idx : Nat) (operand : Operand) (v : Nat)
    (htype : op.type = OperationType.AVERAGE_POOL_2D ∨ op.type = OperationType.L2_POOL_2D ∨
      op.type = OperationType.MAX_POOL_2D)
    (hlen : op.inputs.length = 8)
    (h7 : op.inputs.get? 7 = some idx) (hop : b.mOperands.get? idx = some operand)
    (hbool : operand.type = OperandType.BOOL)
    (hcc : operand.lifetime = LifeTime.CONSTANT_COPY)
    (hval : b.mSmallOperandValues.get? operand.location.offset = some v) :
    removeTrailingArguments env b op =
      .ret (if v = 0 then { op with inputs := op.inputs.take 7 } else op) ∧
    ∀ (i : Nat) (b1 : ModelBuilder), b.mOperations.get? i = some op →
      removeTrailingArgumentsWithDefaultValues env b = .ret b1 →
      b1.mOperations.get? i =
        some (if v = 0 then { op with inputs := op.inputs.take 7 } else op) := by
  have hpool := poolTrailing_implicit env b op idx operand v hlen h7 hop hbool hcc hval
  have hnum : getNumTrailingArgumentsToRemove env b op = .ret (if v = 0 then 1 else 0) := by
    unfold ModelBuilder.getNumTrailingArgumentsToRemove
    dsimp only
    rcases htype with ht | ht | ht
    · rw [if_pos ht]; exact hpool
    · rw [if_neg (by rw [ht]; decide), if_neg (by rw [ht]; decide),
        if_neg (by rw [ht]; decide), if_neg (by rw [ht]; decide),
        if_neg (by rw [ht]; decide), if_pos ht]
      exact hpool
    · rw [if_neg (by rw [ht]; decide), if_neg (by rw [ht]; decide),
        if_neg (by rw [ht]; decide), if_neg (by rw [ht]; decide),
        if_neg (by rw [ht]; decide), if_neg (by rw [ht]; decide),
        if_neg (by rw [ht]; decide), if_pos ht]
      exact hpool
  have hone : removeTrailingArguments env b op =
      .ret (if v = 0 then { op with inputs := op.inputs.take 7 } else op) := by
    rw [removeTrailingArguments_of_count env b op _ hnum (by rw [hlen]; split <;> decide)
      (by rw [hlen]; decide)]
    by_cases hv : v = 0
    · simp only [hv, if_true, hlen]
      rfl
    · simp only [hv, if_false, if_true]
  refine ⟨hone, ?_⟩
  intro i b1 hi hrun
  obtain ⟨ops, hloop, hb1⟩ := removeTrailingArgumentsWithDefaultValues_spec env b b1 hrun
  obtain ⟨op1, h1, h2⟩ := removeTrailingLoop_at env b _ ops i op hloop hi
  rw [hone] at h1
  injection h1 with h1
  rw [hb1, h1]
  exact h2

/-- C16 (witness): the fourth scenario; the layout flag is false and 7 inputs are left. -/
theorem C16_pool_layout_flag_is_trimmed_witness :
    (poolOperation.inputs.length = 8 ∧
      poolOperation.inputs.get? 7 = some 7 ∧
      (poolBuilder 0).mOperands.get? 7 = some
        (boolOperand LifeTime.CONSTANT_COPY { poolIndex := 0, offset := 24, length := 1 }) ∧
      (poolBuilder 0).mSmallOperandValues.get? 24 = some 0) ∧
    removeTrailingArgumentsWithDefaultValues sampleEnv (poolBuilder 0) =
      .ret { poolBuilder 0 with
        mOperations := [{ poolOperation with inputs := [0, 1, 2, 3, 4, 5, 6] }] } ∧
    (removeTrailingArguments sampleEnv (poolBuilder 0) poolOperation =
      .ret (if 0 = 0 then { poolOperation with inputs := poolOperation.inputs.take 7 }
        else poolOperation) ∧
    ∀ (i : Nat) (b1 : ModelBuilder), (poolBuilder 0).mOperations.get? i = some poolOperation →
      removeTrailingArgumentsWithDefaultValues sampleEnv (poolBuilder 0) = .ret b1 →
      b1.mOperations.get? i =
        some (if 0 = 0 then { poolOperation with inputs := poolOperation.inputs.take 7 }
          else poolOperation)) :=
  ⟨⟨rfl, rfl, rfl, rfl⟩, by decide,
    C16_pool_layout_flag_is_trimmed sampleEnv (poolBuilder 0) poolOperation 7
      (boolOperand LifeTime.CONSTANT_COPY { poolIndex := 0, offset := 24, length := 1 }) 0
      (Or.inl rfl) rfl rfl rfl rfl rfl rfl⟩

/-- The convolution cases on an operation with all optional inputs: the count is 0, 2 or 3. -/
theorem convTrailing_pair (env : Env) (b : ModelBuilder) (op : Operation) (k : Nat)
    (hk : k ≤ 8)
    (hcase : (op.inputs.length = k + 6 ∧
        inputOperandType b op k = .ret OperandType.INT32) ∨
      (op.inputs.length = k + 3 ∧ inputOperandType b op k = .ret OperandType.BOOL))
    (hread : InputsReadable b op) :
    ∃ n, convTrailing env b op (op.inputs.length % 2 ^ 32) k = .ret n ∧
      (n = 0 ∨ n = 2 ∨ n = 3) := by
  have hlen : op.inputs.length < 2 ^ 32 := by
    have : (14 : Nat) < 2 ^ 32 := by decide
    rcases hcase with ⟨h, _⟩ | ⟨h, _⟩ <;> omega
  have hmod := Nat.mod_eq_of_lt hlen
  unfold ModelBuilder.convTrailing
  dsimp only
  rw [hmod]
  rcases hcase with ⟨hl, ht⟩ | ⟨hl, ht⟩
  · obtain ⟨count, hcount⟩ := countMatching_returns env (k + 3)
      [.BOOL_FALSE, .INT32_ONE, .INT32_ONE] b op hread hlen (by omega)
      (by rw [hl]; simp only [List.length_cons, List.length_nil]; omega)
    have hle := (countMatching_le env _ _ _ _ _ _ hcount).1
    rw [hmod] at hle
    rw [if_pos ⟨by omega, by omega⟩, ht]
    simp only [Exec.bind, if_true, hcount]
    refine ⟨_, rfl, ?_⟩
    split <;> omega
  · obtain ⟨count, hcount⟩ := countMatching_returns env k
      [.BOOL_FALSE, .INT32_ONE, .INT32_ONE] b op hread hlen (by omega)
      (by rw [hl]; simp only [List.length_cons, List.length_nil]; omega)
    have hle := (countMatching_le env _ _ _ _ _ _ hcount).1
    rw [hmod] at hle
    rw [if_neg (by omega), if_pos ⟨by omega, by omega⟩, ht]
    simp only [Exec.bind, if_true, hcount]
    refine ⟨_, rfl, ?_⟩
    split <;> omega

/-- C17: for CONV_2D (`k = 7`) and DEPTHWISE_CONV_2D (`k = 8`) with all optional inputs
present, that is `k + 6` inputs with input `k` of type `INT32` (explicit padding: 13 or 14
inputs) or `k + 3` inputs with input `k` of type `BOOL` (implicit padding: 10 or 11 inputs),
and readable inputs, `getNumTrailingArgumentsToRemove` returns 0, 2 or 3 and never 1, and
the trimming keeps the inputs but the last 0, 2 or 3: the last two inputs are both removed
or both kept. -/
theorem C17_conv_pair_is_trimmed_together (env : Env) (b : ModelBuilder) (op : Operation)
    (k : Nat)
    (hk : (op.type = OperationType.CONV_2D ∧ k = 7) ∨
      (op.type = OperationType.DEPTHWISE_CONV_2D ∧ k = 8))
    (hcase : (op.inputs.length = k + 6 ∧
        inputOperandType b op k = .ret OperandType.INT32) ∨
      (op.inputs.length = k + 3 ∧ inputOperandType b op k = .ret OperandType.BOOL))
    (hread : InputsReadable b op) :
    ∃ n, getNumTrailingArgumentsToRemove env b op = .ret n ∧ (n = 0 ∨ n = 2 ∨ n = 3) ∧
      removeTrailingArguments env b op =
        .ret (if n = 0 then op
          else { op with inputs := op.inputs.take (op.inputs.length - n) }) := by
  have hk8 : k ≤ 8 := by rcases hk with ⟨_, h⟩ | ⟨_, h⟩ <;> omega
  have hk7 : 7 ≤ k := by rcases hk with ⟨_, h⟩ | ⟨_, h⟩ <;> omega
  obtain ⟨n, hn, hval⟩ := convTrailing_pair env b op k hk8 hcase hread
  have hnum : getNumTrailingArgumentsToRemove env b op = .ret n := by
    unfold ModelBuilder.getNumTrailingArgumentsToRemove
    dsimp only
    rcases hk with ⟨ht, hk⟩ | ⟨ht, hk⟩
    · rw [if_neg (by rw [ht]; decide), if_pos ht, ← hk]
      exact hn
    · rw [if_neg (by rw [ht]; decide), if_neg (by rw [ht]; decide), if_pos ht, ← hk]
      exact hn
  refine ⟨n, hnum, hval, ?_⟩
  have h32 : (14 : Nat) < 2 ^ 32 := by decide
  exact removeTrailingArguments_of_count env b op n hnum
    (by rcases hcase with ⟨h, _⟩ | ⟨h, _⟩ <;> omega)
    (by rcases hcase with ⟨h, _⟩ | ⟨h, _⟩ <;> omega)

/-- C17 (witness): CONV_2D with explicit padding and 13 inputs; input 12 holds the default 1
and input 11 holds 2, so neither is removed. -/
theorem C17_conv_pair_is_trimmed_together_witness :
    ((convOperation.type = OperationType.CONV_2D ∧ 7 = 7) ∧
      (convOperation.inputs.length = 7 + 6 ∧
        inputOperandType (convBuilder 2) convOperation 7 = .ret OperandType.INT32) ∧
      InputsReadable (convBuilder 2) convOperation ∧
      getNumTrailingArgumentsToRemove sampleEnv (convBuilder 2) convOperation = .ret 0 ∧
      getNumTrailingArgumentsToRemove sampleEnv (convBuilder 1) convOperation = .ret 3) ∧
    ∃ n, getNumTrailingArgumentsToRemove sampleEnv (convBuilder 2) convOperation = .ret n ∧
      (n = 0 ∨ n = 2 ∨ n = 3) ∧
      removeTrailingArguments sampleEnv (convBuilder 2) convOperation =
        .ret (if n = 0 then convOperation
          else { convOperation with
            inputs := convOperation.inputs.take (convOperation.inputs.length - n) }) :=
  have hread : InputsReadable (convBuilder 2) convOperation := by
    unfold InputsReadable
    decide
  ⟨⟨⟨rfl, rfl⟩, ⟨rfl, rfl⟩, hread, by decide, by decide⟩,
    C17_conv_pair_is_trimmed_together sampleEnv (convBuilder 2) convOperation 7
      (Or.inl ⟨rfl, rfl⟩) (Or.inl ⟨rfl, rfl⟩) hread⟩

/-- C18: trailing-default trimming is idempotent: whenever
`removeTrailingArgumentsWithDefaultValues` returns, applying it again to the result returns
the same builder, and `getNumTrailingArgumentsToRemove` returns 0 for every operation of the
result. -/
theorem C18_trimming_is_idempotent (env : Env) (b b1 : ModelBuilder)
    (h : removeTrailingArgumentsWithDefaultValues env b = .ret b1) :
    removeTrailingArgumentsWithDefaultValues env b1 = .ret b1 ∧
    ∀ op ∈ b1.mOperations, getNumTrailingArgumentsToRemove env b1 op = .ret 0 := by
  obtain ⟨ops, hloop, hb1⟩ := removeTrailingArgumentsWithDefaultValues_spec env b b1 h
  obtain ⟨h1, h2⟩ := removeTrailingLoop_idempotent env b _ ops hloop
  have hcongr := removeTrailingLoop_congr env b b1 (by rw [hb1]) (by rw [hb1])
  refine ⟨?_, ?_⟩
  · unfold ModelBuilder.removeTrailingArgumentsWithDefaultValues
    rw [hcongr]
    have e : b1.mOperations = ops := by rw [hb1]
    rw [e, h1]
    simp only [Exec.bind]
    rw [hb1]
  · intro op hop
    have e : b1.mOperations = ops := by rw [hb1]
    rw [e] at hop
    rw [getNumTrailingArgumentsToRemove_congr env b b1 (by rw [hb1]) (by rw [hb1])]
    exact h2 op hop

/-- C18 (witness): the fourth scenario; the second pass changes nothing. -/
theorem C18_trimming_is_idempotent_witness :
    removeTrailingArgumentsWithDefaultValues sampleEnv (poolBuilder 0) =
      .ret poolSevenBuilder ∧
    (removeTrailingArgumentsWithDefaultValues sampleEnv poolSevenBuilder =
      .ret poolSevenBuilder ∧
    ∀ op ∈ poolSevenBuilder.mOperations,
      getNumTrailingArgumentsToRemove sampleEnv poolSevenBuilder op = .ret 0) :=
  ⟨by decide,
    C18_trimming_is_idempotent sampleEnv (poolBuilder 0) poolSevenBuilder (by decide)⟩

/-- C19: an input whose operand has a lifetime other than `CONSTANT_COPY` and `POINTER`
matches no entry of a tail specification, whatever its value, and the trimming of an
operation (with fewer than `2 ^ 32` inputs) removes neither that input nor any input before
it; so does `removeTrailingArgumentsWithDefaultValues` at every position where the builder
holds the operation. -/
theorem C19_external_constant_blocks_trimming (env : Env) (b : ModelBuilder)
    (op op1 : Operation) (i idx : Nat) (operand : Operand)
    (hlen : op.inputs.length < 2 ^ 32)
    (hi : op.inputs.get? i = some idx) (hop : b.mOperands.get? idx = some operand)
    (hl : operand.lifetime ≠ LifeTime.CONSTANT_COPY ∧ operand.lifetime ≠ LifeTime.POINTER)
    (h : removeTrailingArguments env b op = .ret op1) :
    (∀ spec, matchesSpec env spec operand b.mSmallOperandValues = .ret false) ∧
    op1.inputs.take (i + 1) = op.inputs.take (i + 1) ∧
    ∀ (j : Nat) (b1 : ModelBuilder), b.mOperations.get? j = some op →
      removeTrailingArgumentsWithDefaultValues env b = .ret b1 →
      ∃ op2, b1.mOperations.get? j = some op2 ∧
        op2.inputs.take (i + 1) = op.inputs.take (i + 1) := by
  have hno : ∀ spec, matchesSpec env spec operand b.mSmallOperandValues = .ret false :=
    fun spec => matchesSpec_of_lifetime env spec operand _ hl
  have hmod := Nat.mod_eq_of_lt hlen
  have hilt : i < op.inputs.length := by
    rw [List.get?_eq_getElem?] at hi
    exact (List.getElem?_eq_some_iff.mp hi).1
  have hkeep : op1.inputs.take (i + 1) = op.inputs.take (i + 1) := by
    obtain ⟨n, hn, hcase⟩ := removeTrailingArguments_cases env b op op1 h
    rcases hcase with ⟨_, hop1⟩ | ⟨hpos, hlt, hop1⟩
    · rw [hop1]
    · have hbound : n + i + 1 ≤ op.inputs.length % 2 ^ 32 := by
        rcases (getNumTrailingArgumentsToRemove_spec env b op n hn).1 with hz | ⟨start, tail, hs, hc⟩
        · omega
        · by_cases hsi : start ≤ i
          · exact countMatching_stop_at env start tail op _ _ n i idx operand hc hsi
              (by rw [hmod]; exact hilt) hi hop hno
          · have := (countMatching_le env _ _ _ _ _ _ hc).1
            omega
      rw [hop1]
      show (resizeVector op.inputs _).take (i + 1) = _
      rw [take_of_resizeVector _ _ (by omega), List.take_take, Nat.min_eq_left (by omega)]
  refine ⟨hno, hkeep, ?_⟩
  intro j b1 hj hrun
  obtain ⟨ops, hloop, hb1⟩ := removeTrailingArgumentsWithDefaultValues_spec env b b1 hrun
  obtain ⟨op2, h1, h2⟩ := removeTrailingLoop_at env b _ ops j op hloop hj
  rw [h] at h1
  injection h1 with h1
  refine ⟨op2, by rw [hb1]; exact h2, ?_⟩
  rw [← h1]
  exact hkeep

/-- C19 (witness): the fourth scenario with the layout flag, false, held in external
memory; all 8 inputs are kept. -/
theorem C19_external_constant_blocks_trimming_witness :
    (poolOperation.inputs.length < 2 ^ 32 ∧
      poolOperation.inputs.get? 7 = some 7 ∧
      poolReferenceBuilder.mOperands.get? 7 = some
        (boolOperand LifeTime.CONSTANT_REFERENCE { poolIndex := 0, offset := 0, length := 1 }) ∧
      removeTrailingArguments sampleEnv poolReferenceBuilder poolOperation =
        .ret poolOperation) ∧
    ((∀ spec, matchesSpec sampleEnv spec
        (boolOperand LifeTime.CONSTANT_REFERENCE { poolIndex := 0, offset := 0, length := 1 })
        poolReferenceBuilder.mSmallOperandValues = .ret false) ∧
    poolOperation.inputs.take (7 + 1) = poolOperation.inputs.take (7 + 1) ∧
    ∀ (j : Nat) (b1 : ModelBuilder), poolReferenceBuilder.mOperations.get? j =
        some poolOperation →
      removeTrailingArgumentsWithDefaultValues sampleEnv poolReferenceBuilder = .ret b1 →
      ∃ op2, b1.mOperations.get? j = some op2 ∧
        op2.inputs.take (7 + 1) = poolOperation.inputs.take (7 + 1)) :=
  ⟨⟨by decide, rfl, rfl, by decide⟩,
    C19_external_constant_blocks_trimming sampleEnv poolReferenceBuilder poolOperation
      poolOperation 7 7
      (boolOperand LifeTime.CONSTANT_REFERENCE { poolIndex := 0, offset := 0, length := 1 })
      (by decide) rfl rfl (by decide) (by decide)⟩

/-! ## The arch hash -/

/-- C20 (counterexample): `poolBuilder 0` (AVERAGE_POOL_2D with 8 inputs, the 8th a
`CONSTANT_COPY` false) and `poolSevenBuilder` (the same builder with the operation given 7
inputs) are left by `finish` in the same state up to the hash, so the models made from the
two finished builders are equal; but where the hash depends on the number of inputs of the
operations, the stored hashes differ. -/
theorem C20_counterexample :
    (poolBuilder 0).finish hashingEnv sampleTypeManager emptyHeap 3 =
      .ret (ANEURALNETWORKS_NO_ERROR, poolFinished [8]) ∧
    poolSevenBuilder.finish hashingEnv sampleTypeManager emptyHeap 3 =
      .ret (ANEURALNETWORKS_NO_ERROR, poolFinished [7]) ∧
    ModelBuilder.makeModel hashingEnv sampleTypeManager emptyHeap 3 (poolFinished [8]) =
      ModelBuilder.makeModel hashingEnv sampleTypeManager emptyHeap 3 (poolFinished [7]) ∧
    (∃ m, ModelBuilder.makeModel hashingEnv sampleTypeManager emptyHeap 3 (poolFinished [8]) =
      .ret m) ∧
    (poolFinished [8]).mModelArchHash ≠ (poolFinished [7]).mModelArchHash := by
  refine ⟨by decide, by decide, by decide, ⟨_, rfl⟩, by decide⟩

/-- C20 (amended): the arch hash stored by a successful `finish` is `calcModelArchHash` of
`modelForValidation`, the model made after the consolidation and the sort and before the
trimming and the simplification; so two builders with equal `modelForValidation` obtain
equal hashes. -/
theorem C20_hash_of_model_for_validation (env : Env) (tm : TypeManager) (heap : Heap)
    (fuel : Nat) (b b1 c c1 : ModelBuilder)
    (h : b.finish env tm heap fuel = .ret (ANEURALNETWORKS_NO_ERROR, b1))
    (hc : c.finish env tm heap fuel = .ret (ANEURALNETWORKS_NO_ERROR, c1)) :
    (∃ m, modelForValidation env tm heap fuel b = .ret m ∧
      env.calcModelArchHash m = some b1.mModelArchHash) ∧
    (modelForValidation env tm heap fuel b = modelForValidation env tm heap fuel c →
      b1.mModelArchHash = c1.mModelArchHash) := by
  have key : ∀ (x x1 : ModelBuilder),
      x.finish env tm heap fuel = .ret (ANEURALNETWORKS_NO_ERROR, x1) →
      ∃ m, modelForValidation env tm heap fuel x = .ret m ∧
        env.calcModelArchHash m = some x1.mModelArchHash := by
    intro x x1 hx
    rcases finish_cases env tm heap fuel x _ x1 hx with
      ⟨_, hcode, _⟩ | ⟨_, _, hcode, _⟩ | ⟨_, _, _, _, _, _, hcode, _⟩ |
      ⟨_, _, _, _, _, _, _, _, _, hcode, _⟩ |
      ⟨_, _, c, s, m, v, t, hash, h1, h2, hm, _, _, _, hhash, _, h3⟩
    · exact absurd hcode (by decide)
    · exact absurd rfl hcode
    · exact absurd hcode (by decide)
    · exact absurd hcode (by decide)
    · refine ⟨m, ?_, ?_⟩
      · unfold modelForValidation
        rw [h1]
        simp only [Exec.bind, h2, hm]
      · rw [hhash, h3]
  obtain ⟨m, hm, hhash⟩ := key b b1 h
  obtain ⟨m1, hm1, hhash1⟩ := key c c1 hc
  refine ⟨⟨m, hm, hhash⟩, ?_⟩
  intro heq
  rw [hm, hm1] at heq
  injection heq with heq
  rw [heq, hhash1] at hhash
  injection hhash with hhash
  exact hhash.symm

/-- C20 (witness): the second scenario with the operations added as B, A and as A, B: the
sort gives both the order A, B, the models for validation are equal, and so are the
hashes. -/
theorem C20_hash_of_model_for_validation_witness :
    (scenarioTwoBuilder.finish hashingEnv sampleTypeManager emptyHeap 3 =
        .ret (ANEURALNETWORKS_NO_ERROR, { scenarioTwoFinished with mModelArchHash := [2, 1] }) ∧
      scenarioTwoOrderedBuilder.finish hashingEnv sampleTypeManager emptyHeap 3 =
        .ret (ANEURALNETWORKS_NO_ERROR,
          { scenarioTwoFinished with
            mSortedOperationIndexMap := [0, 1], mModelArchHash := [2, 1] }) ∧
      modelForValidation hashingEnv sampleTypeManager emptyHeap 3 scenarioTwoBuilder =
        modelForValidation hashingEnv sampleTypeManager emptyHeap 3
          scenarioTwoOrderedBuilder) ∧
    ((∃ m, modelForValidation hashingEnv sampleTypeManager emptyHeap 3 scenarioTwoBuilder =
        .ret m ∧
      hashingEnv.calcModelArchHash m =
        some ({ scenarioTwoFinished with
          mModelArchHash := [2, 1] } : ModelBuilder).mModelArchHash) ∧
    (modelForValidation hashingEnv sampleTypeManager emptyHeap 3 scenarioTwoBuilder =
        modelForValidation hashingEnv sampleTypeManager emptyHeap 3
          scenarioTwoOrderedBuilder →
      ({ scenarioTwoFinished with mModelArchHash := [2, 1] } : ModelBuilder).mModelArchHash =
        ({ scenarioTwoFinished with
          mSortedOperationIndexMap := [0, 1],
          mModelArchHash := [2, 1] } : ModelBuilder).mModelArchHash)) :=
  ⟨⟨by decide, by decide, by decide⟩,
    C20_hash_of_model_for_validation hashingEnv sampleTypeManager emptyHeap 3
      scenarioTwoBuilder { scenarioTwoFinished with mModelArchHash := [2, 1] }
      scenarioTwoOrderedBuilder
      { scenarioTwoFinished with mSortedOperationIndexMap := [0, 1], mModelArchHash := [2, 1] }
      (by decide) (by decide)⟩

/-! ## CompilationBuilder: finish and setPreference -/

theorem fellBack_fallbackToCpu (cenv : CompilationEnv) (c : CompilationBuilder) :
    (CompilationBuilder.fallbackToCpu cenv c).2.fellBack = true := by
  simp [CompilationBuilder.fallbackToCpu, CompilationBuilder.fellBack]

theorem fellBack_started (c : CompilationBuilder) (h : c.fellBack = false) :
    (CompilationBuilder.started c).fellBack = false := by
  unfold CompilationBuilder.started
  dsimp only
  split
  · simpa [CompilationBuilder.fellBack] using h
  · exact h

theorem mPartitioning_started (c : CompilationBuilder) :
    (CompilationBuilder.started c).mPartitioning = c.mPartitioning := by
  unfold CompilationBuilder.started
  dsimp only
  split <;> rfl

theorem mModel_started (c : CompilationBuilder) :
    (CompilationBuilder.started c).mModel = c.mModel := by
  unfold CompilationBuilder.started
  dsimp only
  split <;> rfl

theorem telemetry_started (c : CompilationBuilder) :
    (CompilationBuilder.started c).mFallbackToCpuFromError = some false := by
  unfold CompilationBuilder.started
  dsimp only
  split <;> rfl

/-- What `finish` does on an unfinished compilation with partitioning enabled, by the status
`n` of `partitionTheWork`. -/
theorem finish_partitioned (cenv : CompilationEnv) (c : CompilationBuilder)
    (hfin : c.mFinished = false) (hpart : c.mPartitioning ≠ 0) :
    let n := cenv.partitionTheWork (CompilationBuilder.started c)
    let c4 : CompilationBuilder :=
      { CompilationBuilder.started c with
        mPlan := (CompilationBuilder.started c).mPlan ++ [PlanCall.partitionTheWork] }
    CompilationBuilder.finish cenv c =
      if n = ANEURALNETWORKS_NO_ERROR ∨ n = ANEURALNETWORKS_UNEXPECTED_NULL ∨
          n = ANEURALNETWORKS_BAD_DATA ∨
          cenv.partitioningAllowsFallback c.mPartitioning = false ∨
          c.mModel.hasOEMOperation = true ∨ c.mModel.hasExtensionOperation = true
      then (n, c4) else CompilationBuilder.fallbackToCpu cenv c4 := by
  intro n c4
  have hp : (CompilationBuilder.started c).mPartitioning ≠ 0 := by
    rw [mPartitioning_started]; exact hpart
  unfold CompilationBuilder.finish
  rw [if_neg (by simp [hfin])]
  simp only [if_pos hp]
  have e1 : c4.mPartitioning = c.mPartitioning := mPartitioning_started c
  have e2 : c4.mModel = c.mModel := mModel_started c
  show (if n = ANEURALNETWORKS_NO_ERROR then (n, c4)
    else if n = ANEURALNETWORKS_UNEXPECTED_NULL ∨ n = ANEURALNETWORKS_BAD_DATA then (n, c4)
    else if (!cenv.partitioningAllowsFallback c4.mPartitioning) = true then (n, c4)
    else if c4.mModel.hasOEMOperation = true then (n, c4)
    else if c4.mModel.hasExtensionOperation = true then (n, c4)
    else CompilationBuilder.fallbackToCpu cenv c4) = _
  rw [e1, e2]
  by_cases h1 : n = ANEURALNETWORKS_NO_ERROR
  · simp [h1]
  by_cases h2 : n = ANEURALNETWORKS_UNEXPECTED_NULL
  · simp [h2]
  by_cases h3 : n = ANEURALNETWORKS_BAD_DATA
  · simp [h3]
  by_cases h4 : cenv.partitioningAllowsFallback c.mPartitioning = false
  · simp [h1, h2, h3, h4]
  by_cases h5 : c.mModel.hasOEMOperation = true
  · simp [h1, h2, h3, h4, h5]
  by_cases h6 : c.mModel.hasExtensionOperation = true
  · simp [h1, h2, h3, h4, h5, h6]
  simp [h1, h2, h3, h4, h5, h6]

/-! ## The extension flag of a builder -/

theorem copyLargeValuesToSharedMemory_flag (env : Env) (b : ModelBuilder) (n : Int)
    (b1 : ModelBuilder) (h : copyLargeValuesToSharedMemory env b = .ret (n, b1)) :
    b1.mHasExtensionOperation = b.mHasExtensionOperation := by
  unfold copyLargeValuesToSharedMemory at h
  split at h
  · injection h with h; injection h with _ h; subst h; rfl
  · rw [Exec.bind_eq_ret] at h
    obtain ⟨r1, h1, h⟩ := h
    dsimp only at h
    split at h
    · injection h with h; injection h with _ h; subst h; rfl
    · split at h
      · cases h
      · rw [Exec.bind_eq_ret] at h
        obtain ⟨r2, h2, h⟩ := h
        injection h with h; injection h with _ h; subst h
        rfl

theorem sortIntoRunOrder_flag (fuel : Nat) (b : ModelBuilder) (ok : Bool) (b1 : ModelBuilder)
    (h : sortIntoRunOrder fuel b = .ret (ok, b1)) :
    b1.mHasExtensionOperation = b.mHasExtensionOperation := by
  rcases sortIntoRunOrder_frame fuel b ok b1 h with h1 | ⟨_, _, _, _, h1⟩ <;> rw [h1]

theorem finish_flag (env : Env) (tm : TypeManager) (heap : Heap) (fuel : Nat)
    (b : ModelBuilder) (code : Int) (b1 : ModelBuilder)
    (h : b.finish env tm heap fuel = .ret (code, b1)) :
    b1.mHasExtensionOperation = b.mHasExtensionOperation := by
  rcases finish_cases env tm heap fuel b code b1 h with
    ⟨_, _, h1⟩ | ⟨_, _, _, h1⟩ | ⟨_, _, c, s, h1, h2, _, h3⟩ |
    ⟨_, _, c, s, m, h1, h2, _, _, _, h3⟩ | ⟨_, _, c, s, m, v, t, hash, h1, h2, _, _, _, h4, _, _, h3⟩
  · rw [h1]
  · exact copyLargeValuesToSharedMemory_flag env b _ _ h1
  · rw [h3]
    show s.mHasExtensionOperation = _
    rw [sortIntoRunOrder_flag fuel c _ s h2, copyLargeValuesToSharedMemory_flag env b _ _ h1]
  · rw [h3]
    show s.mHasExtensionOperation = _
    rw [sortIntoRunOrder_flag fuel c _ s h2, copyLargeValuesToSharedMemory_flag env b _ _ h1]
  · obtain ⟨ops, ht⟩ := removeTrailingArgumentsWithDefaultValues_frame env s t h4
    rw [h3, ht]
    show s.mHasExtensionOperation = _
    rw [sortIntoRunOrder_flag fuel c _ s h2, copyLargeValuesToSharedMemory_flag env b _ _ h1]

theorem addOperand_flag (env : Env) (tm : TypeManager) (b : ModelBuilder) (type : ANeuralNetworksOperandType)
    (hb : b.mHasExtensionOperation = true) :
    Ensures (fun b1 => b1.mHasExtensionOperation = true)
      (b.addOperand env tm type) := by
  unfold ModelBuilder.addOperand
  repeat' first
    | (apply ensures_ret; exact hb)
    | apply ensures_abort
    | (apply ensures_bind; intro _)
    | (dsimp only)
    | split

theorem setOperandValue_flag (env : Env) (tm : TypeManager) (b : ModelBuilder) (index : Nat) (buffer : Option Buffer) (length : Nat)
    (hb : b.mHasExtensionOperation = true) :
    Ensures (fun b1 => b1.mHasExtensionOperation = true)
      (b.setOperandValue env tm index buffer length) := by
  unfold ModelBuilder.setOperandValue
  repeat' first
    | (apply ensures_ret; exact hb)
    | apply ensures_abort
    | (apply ensures_bind; intro _)
    | (dsimp only)
    | split

theorem setOperandValueFromMemory_flag (env : Env) (tm : TypeManager) (b : ModelBuilder) (index memory offset length : Nat)
    (hb : b.mHasExtensionOperation = true) :
    Ensures (fun b1 => b1.mHasExtensionOperation = true)
      (b.setOperandValueFromMemory env tm index memory offset length) := by
  unfold ModelBuilder.setOperandValueFromMemory
  repeat' first
    | (apply ensures_ret; exact hb)
    | apply ensures_abort
    | (apply ensures_bind; intro _)
    | (dsimp only)
    | split

theorem setOperandValueFromModel_flag (env : Env) (tm : TypeManager) (heap : Heap) (fuel : Nat) (b : ModelBuilder) (index value : Nat)
    (hb : b.mHasExtensionOperation = true) :
    Ensures (fun b1 => b1.mHasExtensionOperation = true)
      (b.setOperandValueFromModel env tm heap fuel index value) := by
  unfold ModelBuilder.setOperandValueFromModel
  repeat' first
    | (apply ensures_ret; exact hb)
    | apply ensures_abort
    | (apply ensures_bind; intro _)
    | (dsimp only)
    | split

theorem setOperandSymmPerChannelQuantParams_flag (env : Env) (b : ModelBuilder) (index : Nat) (channelQuant : ANeuralNetworksSymmPerChannelQuantParams)
    (hb : b.mHasExtensionOperation = true) :
    Ensures (fun b1 => b1.mHasExtensionOperation = true)
      (b.setOperandSymmPerChannelQuantParams env index channelQuant) := by
  unfold ModelBuilder.setOperandSymmPerChannelQuantParams
  repeat' first
    | (apply ensures_ret; exact hb)
    | apply ensures_abort
    | (dsimp only)
    | split

theorem setOperandExtensionData_flag (env : Env) (b : ModelBuilder) (index : Nat) (data : Option (List Nat)) (length : Nat)
    (hb : b.mHasExtensionOperation = true) :
    Ensures (fun b1 => b1.mHasExtensionOperation = true)
      (b.setOperandExtensionData env index data length) := by
  unfold ModelBuilder.setOperandExtensionData
  repeat' first
    | (apply ensures_ret; exact hb)
    | apply ensures_abort
    | (dsimp only)
    | split

theorem identifyInputsAndOutputs_flag (env : Env) (b : ModelBuilder) (inputCount : Nat) (inputs : Option (List Nat)) (outputCount : Nat) (outputs : Option (List Nat))
    (hb : b.mHasExtensionOperation = true) :
    Ensures (fun b1 => b1.mHasExtensionOperation = true)
      (b.identifyInputsAndOutputs env inputCount inputs outputCount outputs) := by
  unfold ModelBuilder.identifyInputsAndOutputs
  repeat' first
    | (apply ensures_ret; exact hb)
    | apply ensures_abort
    | (dsimp only)
    | split

theorem relaxComputationFloat32toFloat16_flag (b : ModelBuilder) (allow : Bool)
    (hb : b.mHasExtensionOperation = true) :
    Ensures (fun b1 => b1.mHasExtensionOperation = true)
      (b.relaxComputationFloat32toFloat16 allow) := by
  unfold ModelBuilder.relaxComputationFloat32toFloat16
  repeat' first
    | (apply ensures_ret; exact hb)
    | apply ensures_abort
    | (dsimp only)
    | split

theorem addOperation_flag (env : Env) (tm : TypeManager) (b : ModelBuilder)
    (type inputCount : Nat) (inputs : Option (List Nat)) (outputCount : Nat)
    (outputs : Option (List Nat)) (hb : b.mHasExtensionOperation = true) :
    Ensures (fun b1 => b1.mHasExtensionOperation = true)
      (b.addOperation env tm type inputCount inputs outputCount outputs) := by
  unfold ModelBuilder.addOperation
  repeat' first
    | (apply ensures_ret; first
        | exact hb
        | (show (b.mHasExtensionOperation || _) = true; rw [hb]; rfl))
    | (dsimp only)
    | split

/-- No call clears `mHasExtensionOperation`. -/
theorem run_flag (env : Env) (tm : TypeManager) (heap : Heap) (fuel : Nat) (call : Call)
    (b : ModelBuilder) (hb : b.mHasExtensionOperation = true) :
    Ensures (fun b1 => b1.mHasExtensionOperation = true) (call.run env tm heap fuel b) := by
  cases call with
  | finish =>
    intro code b1 h
    show b1.mHasExtensionOperation = true
    rw [finish_flag env tm heap fuel b code b1 h]; exact hb
  | addOperation type inputCount inputs outputCount outputs =>
    exact addOperation_flag env tm b type inputCount inputs outputCount outputs hb
  | addOperand type => exact addOperand_flag env tm b type hb
  | setOperandValue index buffer length => exact setOperandValue_flag env tm b index buffer length hb
  | setOperandValueFromMemory index memory offset length => exact setOperandValueFromMemory_flag env tm b index memory offset length hb
  | setOperandValueFromModel index value => exact setOperandValueFromModel_flag env tm heap fuel b index value hb
  | setOperandSymmPerChannelQuantParams index channelQuant => exact setOperandSymmPerChannelQuantParams_flag env b index channelQuant hb
  | setOperandExtensionData index data length => exact setOperandExtensionData_flag env b index data length hb
  | identifyInputsAndOutputs inputCount inputs outputCount outputs => exact identifyInputsAndOutputs_flag env b inputCount inputs outputCount outputs hb
  | relaxComputationFloat32toFloat16 allow => exact relaxComputationFloat32toFloat16_flag b allow hb

theorem reachableFrom_flag (env : Env) (b b2 : ModelBuilder)
    (hb : b.mHasExtensionOperation = true) (hr : ReachableFrom env b b2) :
    b2.mHasExtensionOperation = true := by
  induction hr with
  | refl => exact hb
  | step tm heap fuel call code _ hrun ih => exact run_flag env tm heap fuel call _ ih _ _ hrun

/-- A successful `addOperation` of an extension operation sets `mHasExtensionOperation`. -/
theorem addOperation_sets_flag (env : Env) (tm : TypeManager) (b : ModelBuilder)
    (type inputCount : Nat) (inputs : Option (List Nat)) (outputCount : Nat)
    (outputs : Option (List Nat)) (b1 : ModelBuilder)
    (h : b.addOperation env tm type inputCount inputs outputCount outputs =
      .ret (ANEURALNETWORKS_NO_ERROR, b1))
    (hext : env.isExtensionOperationType type = true) : b1.mHasExtensionOperation = true := by
  have hne : ∀ (c : Int) (x y : ModelBuilder), c ≠ ANEURALNETWORKS_NO_ERROR →
      (Exec.ret (c, x) = Exec.ret (ANEURALNETWORKS_NO_ERROR, y)) → False := by
    intro c x y hc e
    injection e with e; injection e with e _
    exact hc e
  unfold ModelBuilder.addOperation at h
  repeat' first
    | exact absurd h (fun e => hne _ _ _ (by decide) e)
    | (dsimp only at h)
    | split at h
  injection h with h; injection h with _ h
  subst h
  show (b.mHasExtensionOperation || env.isExtensionOperationType type) = true
  rw [hext, Bool.or_true]

/-! ## Claims about CompilationBuilder -/

/-- C21: on an unfinished compilation with partitioning enabled whose `partitionTheWork`
returns an error `n`, `finish` falls back to the single CPU step exactly when `n` is neither
`UNEXPECTED_NULL` nor `BAD_DATA`, the policy allows fallback and the model has neither an OEM
nor an extension operation; otherwise it returns `n`, the plan holds no CPU step and the
telemetry records no fallback. A model to which an extension operation was added, whatever
was called on it afterwards, never falls back. -/
theorem C21_fallback_gating (cenv : CompilationEnv) (c : CompilationBuilder)
    (hfin : c.mFinished = false) (hpart : c.mPartitioning ≠ 0) (hplan : c.fellBack = false)
    (hn : cenv.partitionTheWork (CompilationBuilder.started c) ≠ ANEURALNETWORKS_NO_ERROR) :
    ((CompilationBuilder.finish cenv c).2.fellBack = true ↔
      (cenv.partitionTheWork (CompilationBuilder.started c) ≠ ANEURALNETWORKS_UNEXPECTED_NULL ∧
        cenv.partitionTheWork (CompilationBuilder.started c) ≠ ANEURALNETWORKS_BAD_DATA ∧
        cenv.partitioningAllowsFallback c.mPartitioning = true ∧
        c.mModel.hasOEMOperation = false ∧ c.mModel.hasExtensionOperation = false)) ∧
    ((CompilationBuilder.finish cenv c).2.fellBack = false →
      (CompilationBuilder.finish cenv c).1 =
          cenv.partitionTheWork (CompilationBuilder.started c) ∧
        (CompilationBuilder.finish cenv c).2.mFallbackToCpuFromError = some false) ∧
    (∀ (env : Env) (tm : TypeManager) (b b1 : ModelBuilder) (type inputCount : Nat)
        (inputs : Option (List Nat)) (outputCount : Nat) (outputs : Option (List Nat)),
      b.addOperation env tm type inputCount inputs outputCount outputs =
          .ret (ANEURALNETWORKS_NO_ERROR, b1) →
      env.isExtensionOperationType type = true → ReachableFrom env b1 c.mModel →
      (CompilationBuilder.finish cenv c).2.fellBack = false ∧
        (CompilationBuilder.finish cenv c).1 =
          cenv.partitionTheWork (CompilationBuilder.started c)) := by
  have hfinish := finish_partitioned cenv c hfin hpart
  dsimp only at hfinish
  have hc4 : ∀ c4 : CompilationBuilder,
      c4 = { CompilationBuilder.started c with
        mPlan := (CompilationBuilder.started c).mPlan ++ [PlanCall.partitionTheWork] } →
      c4.fellBack = false ∧ c4.mFallbackToCpuFromError = some false := by
    intro c4 e
    subst e
    constructor
    · have := fellBack_started c hplan
      simpa [CompilationBuilder.fellBack] using this
    · exact telemetry_started c
  obtain ⟨k1, k2⟩ := hc4 _ rfl
  by_cases hcond : cenv.partitionTheWork (CompilationBuilder.started c) =
        ANEURALNETWORKS_NO_ERROR ∨
      cenv.partitionTheWork (CompilationBuilder.started c) = ANEURALNETWORKS_UNEXPECTED_NULL ∨
      cenv.partitionTheWork (CompilationBuilder.started c) = ANEURALNETWORKS_BAD_DATA ∨
      cenv.partitioningAllowsFallback c.mPartitioning = false ∨
      c.mModel.hasOEMOperation = true ∨ c.mModel.hasExtensionOperation = true
  · rw [if_pos hcond] at hfinish
    rw [hfinish]
    refine ⟨⟨fun h => ?_, fun h => ?_⟩, fun _ => ⟨rfl, k2⟩, fun _ _ _ _ _ _ _ _ _ _ _ _ => ⟨k1, rfl⟩⟩
    · rw [k1] at h; cases h
    · obtain ⟨h2, h3, h4, h5, h6⟩ := h
      rcases hcond with h | h | h | h | h | h
      · exact absurd h hn
      · exact absurd h h2
      · exact absurd h h3
      · rw [h4] at h; cases h
      · rw [h5] at h; cases h
      · rw [h6] at h; cases h
  · rw [if_neg hcond] at hfinish
    rw [hfinish]
    have hfb := fellBack_fallbackToCpu cenv
      { CompilationBuilder.started c with
        mPlan := (CompilationBuilder.started c).mPlan ++ [PlanCall.partitionTheWork] }
    refine ⟨⟨fun _ => ?_, fun _ => hfb⟩, fun h => ?_, ?_⟩
    · refine ⟨fun h => hcond (Or.inr (Or.inl h)), fun h => hcond (Or.inr (Or.inr (Or.inl h))),
        ?_, ?_, ?_⟩
      · cases h : cenv.partitioningAllowsFallback c.mPartitioning
        · exact absurd (Or.inr (Or.inr (Or.inr (Or.inl h)))) hcond
        · rfl
      · cases h : c.mModel.hasOEMOperation
        · rfl
        · exact absurd (Or.inr (Or.inr (Or.inr (Or.inr (Or.inl h))))) hcond
      · cases h : c.mModel.hasExtensionOperation
        · rfl
        · exact absurd (Or.inr (Or.inr (Or.inr (Or.inr (Or.inr h))))) hcond
    · rw [hfb] at h; cases h
    · intro env tm b b1 type inputCount inputs outputCount outputs hadd hext hr
      have hflag := reachableFrom_flag env b1 c.mModel
        (addOperation_sets_flag env tm b type inputCount inputs outputCount outputs b1 hadd hext)
        hr
      exact absurd (Or.inr (Or.inr (Or.inr (Or.inr (Or.inr hflag))))) hcond

/-- C21 at a concrete input: the compilation of the empty model whose partitioning fails with
`MISSED_DEADLINE_TRANSIENT` under the policy with fallback. -/
theorem C21_fallback_gating_witness :
    (missedDeadlineCompilation.mFinished = false ∧ missedDeadlineCompilation.mPartitioning ≠ 0 ∧
      missedDeadlineCompilation.fellBack = false ∧
      sampleCompilationEnv.partitionTheWork
        (CompilationBuilder.started missedDeadlineCompilation) ≠ ANEURALNETWORKS_NO_ERROR) ∧
    ((CompilationBuilder.finish sampleCompilationEnv missedDeadlineCompilation).2.fellBack = true ↔
      (sampleCompilationEnv.partitionTheWork
          (CompilationBuilder.started missedDeadlineCompilation) ≠
            ANEURALNETWORKS_UNEXPECTED_NULL ∧
        sampleCompilationEnv.partitionTheWork
          (CompilationBuilder.started missedDeadlineCompilation) ≠ ANEURALNETWORKS_BAD_DATA ∧
        sampleCompilationEnv.partitioningAllowsFallback
          missedDeadlineCompilation.mPartitioning = true ∧
        missedDeadlineCompilation.mModel.hasOEMOperation = false ∧
        missedDeadlineCompilation.mModel.hasExtensionOperation = false)) :=
  ⟨⟨by decide, by decide, by decide, by decide⟩,
    (C21_fallback_gating sampleCompilationEnv missedDeadlineCompilation (by decide) (by decide)
      (by decide) (by decide)).1⟩

/-- C22 (counterexample): under the policy with fallback, on the empty model,
`partitionTheWork` returns `MISSED_DEADLINE_TRANSIENT`, yet `finish` builds the single CPU
step, records the fallback and returns the status of finishing that plan, `NO_ERROR`. -/
theorem C22_counterexample :
    sampleCompilationEnv.partitionTheWork
        (CompilationBuilder.started missedDeadlineCompilation) =
      ANEURALNETWORKS_MISSED_DEADLINE_TRANSIENT ∧
    (CompilationBuilder.finish sampleCompilationEnv missedDeadlineCompilation).1 =
      ANEURALNETWORKS_NO_ERROR ∧
    (CompilationBuilder.finish sampleCompilationEnv missedDeadlineCompilation).2.fellBack = true ∧
    (CompilationBuilder.finish sampleCompilationEnv
      missedDeadlineCompilation).2.mFallbackToCpuFromError = some true := by
  decide

/-- C22 (amended): when `partitionTheWork` returns `MISSED_DEADLINE_TRANSIENT` or
`MISSED_DEADLINE_PERSISTENT` and the partitioning policy does not allow fallback, or the
model has an OEM or an extension operation, `finish` returns that code and does not fall
back to the CPU plan. The policy without fallback is the one the constructor gives to a
compilation on which `setTimeoutDuration` succeeds. -/
theorem C22_missed_deadline_without_fallback (cenv : CompilationEnv) (c : CompilationBuilder)
    (hfin : c.mFinished = false) (hpart : c.mPartitioning ≠ 0) (hplan : c.fellBack = false)
    (hn : cenv.partitionTheWork (CompilationBuilder.started c) =
        ANEURALNETWORKS_MISSED_DEADLINE_TRANSIENT ∨
      cenv.partitionTheWork (CompilationBuilder.started c) =
        ANEURALNETWORKS_MISSED_DEADLINE_PERSISTENT)
    (hpol : cenv.partitioningAllowsFallback c.mPartitioning = false ∨
      c.mModel.hasOEMOperation = true ∨ c.mModel.hasExtensionOperation = true) :
    ((CompilationBuilder.finish cenv c).1 =
        cenv.partitionTheWork (CompilationBuilder.started c) ∧
      ((CompilationBuilder.finish cenv c).1 = ANEURALNETWORKS_MISSED_DEADLINE_TRANSIENT ∨
        (CompilationBuilder.finish cenv c).1 = ANEURALNETWORKS_MISSED_DEADLINE_PERSISTENT) ∧
      (CompilationBuilder.finish cenv c).2.fellBack = false ∧
      (CompilationBuilder.finish cenv c).2.mFallbackToCpuFromError = some false) ∧
    ∀ (model : ModelBuilder) (devices : List Nat) (explicitDeviceList : Bool) (duration : Nat)
      (c1 : CompilationBuilder),
      CompilationBuilder.setTimeoutDuration
          (CompilationBuilder.create cenv model devices explicitDeviceList) duration =
        (ANEURALNETWORKS_NO_ERROR, c1) →
      c1.mPartitioning = cenv.kPartitioningWithoutFallback := by
  constructor
  · have hfinish := finish_partitioned cenv c hfin hpart
    dsimp only at hfinish
    rw [if_pos (Or.inr (Or.inr (Or.inr hpol)))] at hfinish
    rw [hfinish]
    refine ⟨rfl, hn, ?_, telemetry_started c⟩
    have := fellBack_started c hplan
    simpa [CompilationBuilder.fellBack] using this
  · intro model devices explicitDeviceList duration c1 h
    cases explicitDeviceList with
    | false =>
      have : CompilationBuilder.setTimeoutDuration
          (CompilationBuilder.create cenv model devices false) duration =
          (ANEURALNETWORKS_BAD_DATA, CompilationBuilder.create cenv model devices false) := by
        simp [CompilationBuilder.setTimeoutDuration, CompilationBuilder.create]
      rw [this] at h
      injection h with h _
      exact absurd h (by decide)
    | true =>
      unfold CompilationBuilder.setTimeoutDuration at h
      rw [if_neg (by simp [CompilationBuilder.create])] at h
      split at h
      · injection h with h _
        exact absurd h (by decide)
      · split at h <;>
        · injection h with _ h
          subst h
          simp [CompilationBuilder.create]

/-- C22 at a concrete input: a compilation for one explicitly listed device, whose policy is
the one without fallback, with partitioning failing with `MISSED_DEADLINE_PERSISTENT`. -/
theorem C22_missed_deadline_without_fallback_witness :
    (oneDeviceCompilation.mFinished = false ∧ oneDeviceCompilation.mPartitioning ≠ 0 ∧
      oneDeviceCompilation.fellBack = false ∧
      missedPersistentEnv.partitionTheWork (CompilationBuilder.started oneDeviceCompilation) =
        ANEURALNETWORKS_MISSED_DEADLINE_PERSISTENT ∧
      missedPersistentEnv.partitioningAllowsFallback oneDeviceCompilation.mPartitioning =
        false) ∧
    (CompilationBuilder.finish missedPersistentEnv oneDeviceCompilation).1 =
        missedPersistentEnv.partitionTheWork (CompilationBuilder.started oneDeviceCompilation) ∧
    ((CompilationBuilder.finish missedPersistentEnv oneDeviceCompilation).1 =
        ANEURALNETWORKS_MISSED_DEADLINE_TRANSIENT ∨
      (CompilationBuilder.finish missedPersistentEnv oneDeviceCompilation).1 =
        ANEURALNETWORKS_MISSED_DEADLINE_PERSISTENT) ∧
    (CompilationBuilder.finish missedPersistentEnv oneDeviceCompilation).2.fellBack = false ∧
    (CompilationBuilder.finish missedPersistentEnv
      oneDeviceCompilation).2.mFallbackToCpuFromError = some false :=
  ⟨⟨by decide, by decide, by decide, rfl, by decide⟩,
    (C22_missed_deadline_without_fallback missedPersistentEnv oneDeviceCompilation
      (by decide) (by decide) (by decide) (Or.inr rfl) (Or.inl (by decide))).1⟩

/-- What `setPreference` does with a preference that is not negative. -/
theorem setPreference_nonnegative (cenv : CompilationEnv) (c : CompilationBuilder) (p : Int)
    (hk : cenv.kNumberOfPreferences = 3) (hfin : c.mFinished = false) (hp : 0 ≤ p) :
    (CompilationBuilder.setPreference cenv c p =
        (ANEURALNETWORKS_NO_ERROR, { c with mPreference := p }) ↔ p = 0 ∨ p = 1 ∨ p = 2) ∧
    (¬ (p = 0 ∨ p = 1 ∨ p = 2) →
      CompilationBuilder.setPreference cenv c p = (ANEURALNETWORKS_BAD_DATA, c)) := by
  unfold CompilationBuilder.setPreference
  rw [if_neg (by simp [hfin]), hk]
  by_cases h3 : p ≥ 3
  · rw [if_pos h3]
    refine ⟨⟨fun h => ?_, fun h => ?_⟩, fun _ => rfl⟩
    · injection h with h _
      exact absurd h (by decide)
    · omega
  · rw [if_neg h3]
    exact ⟨⟨fun _ => by omega, fun _ => rfl⟩, fun h => absurd (by omega) h⟩

/-- C23: `setPreference` checks the preference against the count of preferences only, so on
an unfinished compilation every negative preference is stored and `NO_ERROR` is returned,
where the sibling `setPriority` compares its argument with each legal value. -/
theorem C23_setPreference_accepts_negative (cenv : CompilationEnv) (c : CompilationBuilder)
    (p : Int) (hk : cenv.kNumberOfPreferences = 3) (hfin : c.mFinished = false) (hp : p < 0) :
    CompilationBuilder.setPreference cenv c p =
        (ANEURALNETWORKS_NO_ERROR, { c with mPreference := p }) ∧
      (CompilationBuilder.setPreference cenv c p).2.mPreference = p := by
  unfold CompilationBuilder.setPreference
  rw [if_neg (by simp [hfin]), hk, if_neg (by omega)]
  exact ⟨rfl, rfl⟩

/-- C23 at the failing input: preference -1 on a fresh compilation. -/
theorem C23_setPreference_accepts_negative_witness :
    (sampleCompilationEnv.kNumberOfPreferences = 3 ∧ oneDeviceCompilation.mFinished = false ∧
      (-1 : Int) < 0) ∧
    CompilationBuilder.setPreference sampleCompilationEnv oneDeviceCompilation (-1) =
        (ANEURALNETWORKS_NO_ERROR, { oneDeviceCompilation with mPreference := -1 }) ∧
      (CompilationBuilder.setPreference sampleCompilationEnv oneDeviceCompilation
        (-1)).2.mPreference = -1 :=
  ⟨⟨rfl, rfl, by decide⟩,
    C23_setPreference_accepts_negative sampleCompilationEnv oneDeviceCompilation (-1) rfl rfl
      (by decide)⟩

/-! ## TypeManager: the prefix tables -/

theorem kMaxPrefix_lt (env : Env) (hbits : env.kExtensionPrefixBits ≤ 16) :
    TypeManager.kMaxPrefix env = 2 ^ env.kExtensionPrefixBits - 1 ∧
      TypeManager.kMaxPrefix env < 2 ^ 16 := by
  have h1 : 2 ^ env.kExtensionPrefixBits ≤ 2 ^ 16 := Nat.pow_le_pow_right (by decide) hbits
  have h2 : 0 < 2 ^ env.kExtensionPrefixBits := Nat.two_pow_pos _
  unfold TypeManager.kMaxPrefix
  have h3 : (2 : Nat) ^ 16 = 65536 := by norm_num
  have h4 : (2 : Nat) ^ 32 = 4294967296 := by norm_num
  rw [h3] at h1 ⊢
  rw [h4]
  omega

theorem lookup_append_of_some {β : Type} (l l2 : List (String × β)) (k : String) (v : β)
    (h : l.lookup k = some v) : (l ++ l2).lookup k = some v := by
  rw [List.lookup_append, h]; rfl

theorem lookup_append_of_none {β : Type} (l l2 : List (String × β)) (k : String)
    (h : l.lookup k = none) : (l ++ l2).lookup k = l2.lookup k := by
  rw [List.lookup_append, h]; rfl

theorem lookup_singleton_ne {β : Type} (k k2 : String) (v : β) (h : k ≠ k2) :
    [(k2, v)].lookup k = none := by
  have : (k == k2) = false := by simpa using h
  simp [List.lookup, this]

theorem lookup_singleton_self {β : Type} (k : String) (v : β) :
    [(k, v)].lookup k = some v := by
  simp [List.lookup]

theorem lookup_append_singleton_ne {β : Type} (l : List (String × β)) (k k2 : String) (v : β)
    (h : k ≠ k2) : (l ++ [(k2, v)]).lookup k = l.lookup k := by
  rw [List.lookup_append, lookup_singleton_ne k k2 v h]
  cases l.lookup k <;> rfl

theorem lookup_filter_ne {β : Type} (l : List (String × β)) (k k2 : String) (h : k ≠ k2) :
    (l.filter (fun e => e.1 != k2)).lookup k = l.lookup k := by
  induction l with
  | nil => rfl
  | cons x rest ih =>
    obtain ⟨a, v⟩ := x
    by_cases ha : a = k2
    · subst ha
      have h1 : (k == a) = false := by simpa using h
      have h2 : ((a, v) :: rest).filter (fun e => e.1 != a) =
          rest.filter (fun e => e.1 != a) := by
        simp [List.filter]
      rw [h2, ih, List.lookup_cons, h1]
    · have h2 : ((a, v) :: rest).filter (fun e => e.1 != k2) =
          (a, v) :: rest.filter (fun e => e.1 != k2) := by
        have hb : (a != k2) = true := by simpa using ha
        simp [List.filter, hb]
      rw [h2, List.lookup_cons, List.lookup_cons, ih]

theorem lookup_filter_self {β : Type} (l : List (String × β)) (k : String) :
    (l.filter (fun e => e.1 != k)).lookup k = none := by
  rw [List.lookup_eq_none_iff]
  intro p hp
  have := (List.mem_filter.mp hp).2
  simpa [bne_iff_ne, ne_comm] using this

theorem lookup_get {β : Type} (l : List (String × β)) (k : String) (v : β)
    (h : l.lookup k = some v) : ∃ i, l.get? i = some (k, v) := by
  rw [List.lookup_eq_some_iff] at h
  obtain ⟨l1, l2, e, _⟩ := h
  refine ⟨l1.length, ?_⟩
  rw [e, List.get?_eq_getElem?, List.getElem?_append_right (Nat.le_refl _)]
  simp

/-- The prefix tables of the initial state. -/
theorem prefixInv_initial (env : Env) (allowed : Bool) :
    TypeManager.PrefixInv env (TypeManager.initial allowed) :=
  ⟨rfl, fun k e h => by simp [TypeManager.initial] at h, Nat.zero_le _⟩

/-- `registerExtension` leaves the prefix tables and the permission alone. -/
theorem registerExtension_tables (tm : TypeManager) (extension : Extension)
    (deviceName : String) :
    (tm.registerExtension extension deviceName).2.mExtensionNameToPrefix =
        tm.mExtensionNameToPrefix ∧
      (tm.registerExtension extension deviceName).2.mPrefixToExtension =
        tm.mPrefixToExtension ∧
      (tm.registerExtension extension deviceName).2.mExtensionsAllowed =
        tm.mExtensionsAllowed := by
  unfold TypeManager.registerExtension
  split
  · exact ⟨rfl, rfl, rfl⟩
  · dsimp only
    split
    · exact ⟨rfl, rfl, rfl⟩
    · split <;> exact ⟨rfl, rfl, rfl⟩

/-- The three outcomes of `getExtensionPrefix`. -/
theorem getExtensionPrefix_cases (env : Env) (hbits : env.kExtensionPrefixBits ≤ 16)
    (tm : TypeManager) (hinv : TypeManager.PrefixInv env tm) (name : String) :
    (∃ p, tm.mExtensionNameToPrefix.lookup name = some p ∧
      TypeManager.getExtensionPrefix env tm name = (some p, tm)) ∨
    (tm.mExtensionNameToPrefix.lookup name = none ∧
      ¬ (tm.mExtensionNameToPrefix.length + 1 ≤ TypeManager.kMaxPrefix env) ∧
      TypeManager.getExtensionPrefix env tm name = (none, tm)) ∨
    (tm.mExtensionNameToPrefix.lookup name = none ∧
      tm.mExtensionNameToPrefix.length + 1 ≤ TypeManager.kMaxPrefix env ∧
      TypeManager.getExtensionPrefix env tm name =
        (some (tm.mExtensionNameToPrefix.length + 1),
          { tm with
            mExtensionNameToPrefix :=
              tm.mExtensionNameToPrefix ++ [(name, tm.mExtensionNameToPrefix.length + 1)]
            mExtensionNameToExtension :=
              match tm.mExtensionNameToExtension.lookup name with
              | none =>
                tm.mExtensionNameToExtension ++
                  [(name, ({ name := "", operandTypes := [] } : Extension))]
              | some _ => tm.mExtensionNameToExtension
            mPrefixToExtension := tm.mPrefixToExtension ++ [some name] })) := by
  have hlen : tm.mPrefixToExtension.length = tm.mExtensionNameToPrefix.length + 1 := by
    rw [hinv.1]; simp
  unfold TypeManager.getExtensionPrefix
  cases hl : tm.mExtensionNameToPrefix.lookup name with
  | some p => exact Or.inl ⟨p, rfl, rfl⟩
  | none =>
    right
    dsimp only
    rw [hlen]
    by_cases hroom : tm.mExtensionNameToPrefix.length + 1 ≤ TypeManager.kMaxPrefix env
    · right
      have h16 := (kMaxPrefix_lt env hbits).2
      have hmod : (tm.mExtensionNameToPrefix.length + 1) % 2 ^ 16 =
          tm.mExtensionNameToPrefix.length + 1 := Nat.mod_eq_of_lt (by omega)
      rw [if_neg (by simpa using hroom), hmod]
      exact ⟨rfl, hroom, rfl⟩
    · left
      rw [if_pos hroom]
      exact ⟨rfl, hroom, rfl⟩

theorem getExtensionPrefix_inv (env : Env) (hbits : env.kExtensionPrefixBits ≤ 16)
    (tm : TypeManager) (hinv : TypeManager.PrefixInv env tm) (name : String) :
    TypeManager.PrefixInv env (TypeManager.getExtensionPrefix env tm name).2 := by
  rcases getExtensionPrefix_cases env hbits tm hinv name with
    ⟨p, _, h⟩ | ⟨_, _, h⟩ | ⟨_, hroom, h⟩
  · rw [h]; exact hinv
  · rw [h]; exact hinv
  · rw [h]
    refine ⟨?_, ?_, ?_⟩
    · show tm.mPrefixToExtension ++ [some name] = _
      rw [hinv.1]; simp
    · intro k e he
      rw [List.get?_eq_getElem?] at he
      change (tm.mExtensionNameToPrefix ++ [(name, tm.mExtensionNameToPrefix.length + 1)])[k]? =
        some e at he
      by_cases hk : k < tm.mExtensionNameToPrefix.length
      · rw [List.getElem?_append_left hk] at he
        exact hinv.2.1 k e (by rw [List.get?_eq_getElem?]; exact he)
      · rw [List.getElem?_append_right (by omega)] at he
        have hk0 : k - tm.mExtensionNameToPrefix.length = 0 := by
          by_contra hne
          have : 1 ≤ k - tm.mExtensionNameToPrefix.length := by omega
          rw [List.getElem?_eq_none (by simpa using this)] at he
          cases he
        rw [hk0] at he
        simp only [List.getElem?_cons_zero, Option.some.injEq] at he
        subst he
        show tm.mExtensionNameToPrefix.length + 1 = k + 1
        omega
    · show (tm.mExtensionNameToPrefix ++ [_]).length ≤ _
      simpa using hroom

theorem call_inv (env : Env) (hbits : env.kExtensionPrefixBits ≤ 16) (call : TypeManager.Call)
    (tm : TypeManager) (hinv : TypeManager.PrefixInv env tm) :
    TypeManager.PrefixInv env (call.run env tm) := by
  cases call with
  | registerExtension extension deviceName =>
    obtain ⟨e1, e2, _⟩ := registerExtension_tables tm extension deviceName
    unfold TypeManager.Call.run TypeManager.PrefixInv
    rw [e1, e2]
    exact hinv
  | getExtensionPrefix name => exact getExtensionPrefix_inv env hbits tm hinv name

theorem runCalls_inv (env : Env) (hbits : env.kExtensionPrefixBits ≤ 16)
    (calls : List TypeManager.Call) :
    ∀ tm, TypeManager.PrefixInv env tm →
      TypeManager.PrefixInv env (TypeManager.runCalls env calls tm) := by
  induction calls with
  | nil => intro tm h; exact h
  | cons c rest ih => intro tm h; exact ih _ (call_inv env hbits c tm h)

theorem tmReachable_inv (env : Env) (hbits : env.kExtensionPrefixBits ≤ 16) (tm : TypeManager)
    (h : TypeManager.Reachable env tm) : TypeManager.PrefixInv env tm := by
  obtain ⟨allowed, calls, e⟩ := h
  rw [e]
  exact runCalls_inv env hbits calls _ (prefixInv_initial env allowed)

/-- A name that has a prefix keeps it over every call. -/
theorem call_lookup (env : Env) (call : TypeManager.Call) (tm : TypeManager) (name : String)
    (p : Nat) (h : tm.mExtensionNameToPrefix.lookup name = some p) :
    (call.run env tm).mExtensionNameToPrefix.lookup name = some p := by
  cases call with
  | registerExtension extension deviceName =>
    show (tm.registerExtension extension deviceName).2.mExtensionNameToPrefix.lookup name =
      some p
    rw [(registerExtension_tables tm extension deviceName).1]; exact h
  | getExtensionPrefix name2 =>
    show (TypeManager.getExtensionPrefix env tm name2).2.mExtensionNameToPrefix.lookup name =
      some p
    unfold TypeManager.getExtensionPrefix
    split
    · exact h
    · dsimp only
      split
      · exact h
      · exact lookup_append_of_some _ _ _ _ h

theorem runCalls_lookup (env : Env) (calls : List TypeManager.Call) (name : String) (p : Nat) :
    ∀ tm : TypeManager, tm.mExtensionNameToPrefix.lookup name = some p →
      (TypeManager.runCalls env calls tm).mExtensionNameToPrefix.lookup name = some p := by
  induction calls with
  | nil => intro tm h; exact h
  | cons c rest ih => intro tm h; exact ih _ (call_lookup env c tm name p h)

/-- The table entry of a name is at the position of its prefix. -/
theorem getExtensionInfo_of_lookup (env : Env) (tm : TypeManager)
    (hinv : TypeManager.PrefixInv env tm) (name : String) (p : Nat)
    (h : tm.mExtensionNameToPrefix.lookup name = some p) :
    tm.getExtensionInfo p = some (some name) ∧ 1 ≤ p ∧ p ≤ TypeManager.kMaxPrefix env := by
  obtain ⟨i, hi⟩ := lookup_get _ _ _ h
  have hp : p = i + 1 := hinv.2.1 i _ hi
  rw [List.get?_eq_getElem?] at hi
  have hlt : i < tm.mExtensionNameToPrefix.length := by
    by_contra hne
    rw [List.getElem?_eq_none (by omega)] at hi
    cases hi
  have hmax := hinv.2.2
  subst hp
  refine ⟨?_, by omega, by omega⟩
  unfold TypeManager.getExtensionInfo
  rw [if_neg (by omega), hinv.1, if_neg (by simp; omega)]
  simp [List.getD_eq_getElem?_getD, hi]

/-- Two names with the same prefix are the same name. -/
theorem lookup_injective (env : Env) (tm : TypeManager) (hinv : TypeManager.PrefixInv env tm)
    (a b : String) (p : Nat) (ha : tm.mExtensionNameToPrefix.lookup a = some p)
    (hb : tm.mExtensionNameToPrefix.lookup b = some p) : a = b := by
  have h1 := (getExtensionInfo_of_lookup env tm hinv a p ha).1
  have h2 := (getExtensionInfo_of_lookup env tm hinv b p hb).1
  rw [h1] at h2
  injection h2 with h2
  injection h2

/-- A successful `getExtensionPrefix` leaves the name in the table with that prefix. -/
theorem getExtensionPrefix_lookup (env : Env) (hbits : env.kExtensionPrefixBits ≤ 16)
    (tm : TypeManager) (hinv : TypeManager.PrefixInv env tm) (name : String) (p : Nat)
    (tm1 : TypeManager) (h : TypeManager.getExtensionPrefix env tm name = (some p, tm1)) :
    tm1.mExtensionNameToPrefix.lookup name = some p := by
  rcases getExtensionPrefix_cases env hbits tm hinv name with
    ⟨q, hq, e⟩ | ⟨_, _, e⟩ | ⟨hnone, _, e⟩
  · rw [e] at h
    injection h with h1 h2
    injection h1 with h1
    subst h1; subst h2
    exact hq
  · rw [e] at h
    injection h with h1 _
    cases h1
  · rw [e] at h
    injection h with h1 h2
    injection h1 with h1
    subst h2
    show (tm.mExtensionNameToPrefix ++ [(name, tm.mExtensionNameToPrefix.length + 1)]).lookup name
      = some p
    rw [lookup_append_of_none _ _ _ hnone, h1]
    exact lookup_singleton_self _ _

/-- A name that has a prefix is answered from the table, and nothing changes. -/
theorem getExtensionPrefix_of_lookup (env : Env) (tm : TypeManager) (name : String) (p : Nat)
    (h : tm.mExtensionNameToPrefix.lookup name = some p) :
    TypeManager.getExtensionPrefix env tm name = (some p, tm) := by
  unfold TypeManager.getExtensionPrefix
  rw [h]

/-- Calls of `getExtensionPrefix` keep a registry entry under every name that has a
prefix. -/
theorem prefixCalls_resolve (env : Env) (calls : List TypeManager.Call) :
    ∀ tm : TypeManager, (∀ c ∈ calls, c.isPrefixCall = true) →
      (∀ name p, tm.mExtensionNameToPrefix.lookup name = some p →
        (tm.mExtensionNameToExtension.lookup name).isSome = true) →
      ∀ name p, (TypeManager.runCalls env calls tm).mExtensionNameToPrefix.lookup name = some p →
        ((TypeManager.runCalls env calls tm).mExtensionNameToExtension.lookup name).isSome =
          true := by
  induction calls with
  | nil => intro tm _ h; exact h
  | cons c rest ih =>
    intro tm hall h
    refine ih _ (fun c2 hc2 => hall c2 (List.mem_cons_of_mem _ hc2)) ?_
    have hc := hall c (List.mem_cons_self _ _)
    cases c with
    | registerExtension extension deviceName => cases hc
    | getExtensionPrefix name2 =>
      show ∀ name p,
        (TypeManager.getExtensionPrefix env tm name2).2.mExtensionNameToPrefix.lookup name =
          some p →
        ((TypeManager.getExtensionPrefix env tm name2).2.mExtensionNameToExtension.lookup
          name).isSome = true
      unfold TypeManager.getExtensionPrefix
      split
      · exact h
      · rename_i hnone
        dsimp only
        split
        · exact h
        · intro name p hl
          change (tm.mExtensionNameToPrefix ++ [_]).lookup name = some p at hl
          show (List.lookup name (match tm.mExtensionNameToExtension.lookup name2 with
            | none => tm.mExtensionNameToExtension ++
                [(name2, ({ name := "", operandTypes := [] } : Extension))]
            | some _ => tm.mExtensionNameToExtension)).isSome = true
          by_cases hn : name = name2
          · subst hn
            cases hr : tm.mExtensionNameToExtension.lookup name with
            | none =>
              dsimp only
              rw [lookup_append_of_none _ _ _ hr, lookup_singleton_self]
              rfl
            | some e =>
              dsimp only
              rw [hr]; rfl
          · rw [lookup_append_singleton_ne _ _ _ _ hn] at hl
            have hs := h name p hl
            cases hr : tm.mExtensionNameToExtension.lookup name2 with
            | none =>
              dsimp only
              rw [lookup_append_singleton_ne _ _ _ _ hn]
              exact hs
            | some e => exact hs

/-- Registration alone assigns no prefix. -/
theorem registrations_assign_nothing (env : Env) (calls : List TypeManager.Call) :
    ∀ tm : TypeManager, (∀ c ∈ calls, c.isPrefixCall = false) →
      (TypeManager.runCalls env calls tm).mExtensionNameToPrefix = tm.mExtensionNameToPrefix := by
  induction calls with
  | nil => intro tm _; rfl
  | cons c rest ih =>
    intro tm hall
    have hc := hall c (List.mem_cons_self _ _)
    cases c with
    | getExtensionPrefix name2 => cases hc
    | registerExtension extension deviceName =>
      show (TypeManager.runCalls env rest
        (tm.registerExtension extension deviceName).2).mExtensionNameToPrefix = _
      rw [ih _ (fun c2 hc2 => hall c2 (List.mem_cons_of_mem _ hc2)),
        (registerExtension_tables tm extension deviceName).1]

theorem runCalls_append (env : Env) (l1 l2 : List TypeManager.Call) (tm : TypeManager) :
    TypeManager.runCalls env (l1 ++ l2) tm =
      TypeManager.runCalls env l2 (TypeManager.runCalls env l1 tm) := by
  unfold TypeManager.runCalls
  rw [List.foldl_append]

/-- C26: in every reachable state of the type manager (prefix field of at most 16 bits), a
name that `getExtensionPrefix` has answered with `p` is answered with `p` after every later
sequence of calls, which then changes nothing; no other name is ever answered with `p`; a
name answered for the first time gets the number of names answered before plus one and is
appended to the table, in which the entry at position `k` holds prefix `k + 1`;
`getExtensionInfo p` returns the pointer to the registry entry under that name ever after;
and when registration came first and only `getExtensionPrefix` calls follow, that entry
exists. -/
theorem C26_prefix_assignment (env : Env) (hbits : env.kExtensionPrefixBits ≤ 16)
    (tm : TypeManager) (hr : TypeManager.Reachable env tm) (name : String) (p : Nat)
    (tm1 : TypeManager) (h : TypeManager.getExtensionPrefix env tm name = (some p, tm1)) :
    (∀ calls, TypeManager.getExtensionPrefix env (TypeManager.runCalls env calls tm1) name =
      (some p, TypeManager.runCalls env calls tm1)) ∧
    (∀ calls other q tm3, other ≠ name →
      TypeManager.getExtensionPrefix env (TypeManager.runCalls env calls tm1) other =
        (some q, tm3) → q ≠ p) ∧
    (tm.mExtensionNameToPrefix.lookup name = none →
      p = tm.mExtensionNameToPrefix.length + 1 ∧
        tm1.mExtensionNameToPrefix = tm.mExtensionNameToPrefix ++ [(name, p)]) ∧
    (∀ k e, tm1.mExtensionNameToPrefix.get? k = some e → e.2 = k + 1) ∧
    (∀ calls, (TypeManager.runCalls env calls tm1).getExtensionInfo p = some (some name)) ∧
    (∀ allowed regs pcalls calls,
      tm = TypeManager.runCalls env (regs ++ pcalls) (TypeManager.initial allowed) →
      (∀ c ∈ regs, c.isPrefixCall = false) → (∀ c ∈ pcalls, c.isPrefixCall = true) →
      (∀ c ∈ calls, c.isPrefixCall = true) →
      ((TypeManager.runCalls env calls tm1).deref (some name)).isSome = true) := by
  have hinv := tmReachable_inv env hbits tm hr
  have htm1 : tm1 = (TypeManager.Call.getExtensionPrefix name).run env tm := by
    show tm1 = (TypeManager.getExtensionPrefix env tm name).2
    rw [h]
  have hinv1 : TypeManager.PrefixInv env tm1 := by
    rw [htm1]; exact call_inv env hbits _ tm hinv
  have hl1 := getExtensionPrefix_lookup env hbits tm hinv name p tm1 h
  refine ⟨fun calls => ?_, fun calls other q tm3 hne hq => ?_, fun hnone => ?_, hinv1.2.1,
    fun calls => ?_, fun allowed regs pcalls calls e hregs hpcalls hcalls => ?_⟩
  · exact getExtensionPrefix_of_lookup env _ name p (runCalls_lookup env calls name p tm1 hl1)
  · have hs := runCalls_inv env hbits calls tm1 hinv1
    have hl2 := runCalls_lookup env calls name p tm1 hl1
    have htm3 : tm3 = (TypeManager.Call.getExtensionPrefix other).run env
        (TypeManager.runCalls env calls tm1) := by
      show tm3 = (TypeManager.getExtensionPrefix env _ other).2
      rw [hq]
    have hinv3 : TypeManager.PrefixInv env tm3 := by
      rw [htm3]; exact call_inv env hbits _ _ hs
    have hl3 : tm3.mExtensionNameToPrefix.lookup name = some p := by
      rw [htm3]; exact call_lookup env _ _ name p hl2
    have hlq := getExtensionPrefix_lookup env hbits _ hs other q tm3 hq
    intro hqp
    rw [hqp] at hlq
    exact hne (lookup_injective env tm3 hinv3 other name p hlq hl3)
  · rcases getExtensionPrefix_cases env hbits tm hinv name with
      ⟨q, hq, _⟩ | ⟨_, _, e⟩ | ⟨_, _, e⟩
    · rw [hnone] at hq; cases hq
    · rw [e] at h
      injection h with h1 _
      cases h1
    · rw [e] at h
      injection h with h1 h2
      injection h1 with h1
      subst h2
      exact ⟨h1.symm, by rw [h1]⟩
  · exact (getExtensionInfo_of_lookup env _ (runCalls_inv env hbits calls tm1 hinv1) name p
      (runCalls_lookup env calls name p tm1 hl1)).1
  · have hstart : TypeManager.runCalls env calls tm1 =
        TypeManager.runCalls env
          (pcalls ++ TypeManager.Call.getExtensionPrefix name :: calls)
          (TypeManager.runCalls env regs (TypeManager.initial allowed)) := by
      rw [runCalls_append, ← runCalls_append env regs pcalls, ← e]
      show _ = TypeManager.runCalls env calls
        ((TypeManager.Call.getExtensionPrefix name).run env tm)
      rw [← htm1]
    have hres := prefixCalls_resolve env
      (pcalls ++ TypeManager.Call.getExtensionPrefix name :: calls)
      (TypeManager.runCalls env regs (TypeManager.initial allowed))
      (by
        intro c hc
        rcases List.mem_append.mp hc with hc | hc
        · exact hpcalls c hc
        · rcases List.mem_cons.mp hc with hc | hc
          · rw [hc]; rfl
          · exact hcalls c hc)
      (by
        intro n q hq
        rw [registrations_assign_nothing env regs _ hregs] at hq
        cases hq)
      name p (by rw [← hstart]; exact runCalls_lookup env calls name p tm1 hl1)
    rw [← hstart] at hres
    exact hres

/-- C26 at a concrete input: the first name asked of a fresh type manager. -/
theorem C26_prefix_assignment_witness :
    (sampleEnv.kExtensionPrefixBits ≤ 16 ∧
      TypeManager.Reachable sampleEnv (TypeManager.initial true) ∧
      TypeManager.getExtensionPrefix sampleEnv (TypeManager.initial true) "com.example.a" =
        (some 1, (TypeManager.getExtensionPrefix sampleEnv (TypeManager.initial true)
          "com.example.a").2)) ∧
    ∀ calls, TypeManager.getExtensionPrefix sampleEnv
        (TypeManager.runCalls sampleEnv calls
          (TypeManager.getExtensionPrefix sampleEnv (TypeManager.initial true)
            "com.example.a").2) "com.example.a" =
      (some 1, TypeManager.runCalls sampleEnv calls
        (TypeManager.getExtensionPrefix sampleEnv (TypeManager.initial true)
          "com.example.a").2) :=
  ⟨⟨by decide, ⟨true, [], rfl⟩, by decide⟩,
    (C26_prefix_assignment sampleEnv (by decide) (TypeManager.initial true) ⟨true, [], rfl⟩
      "com.example.a" 1 _ (by decide)).1⟩

theorem toInt32_of_lt (n : Nat) (h : n < 2 ^ 31) : toInt32 n = (n : Int) := by
  unfold toInt32
  have h1 : n % 2 ^ 32 = n := Nat.mod_eq_of_lt (by omega)
  rw [h1, if_pos h]

/-- The type id made of a prefix and a code within the extension, and its two halves. -/
theorem compose_split (typeBits prefixBits pfx c : Nat) (hT : 16 ≤ typeBits)
    (hTP : typeBits + prefixBits ≤ 31) (hp : pfx ≤ 2 ^ prefixBits - 1) (hc : c < 2 ^ 16) :
    (pfx <<< typeBits) ||| c = pfx * 2 ^ typeBits + c ∧
      pfx * 2 ^ typeBits + c < 2 ^ 31 ∧
      ((pfx * 2 ^ typeBits + c) % 2 ^ 32 / 2 ^ typeBits) % 2 ^ 16 = pfx ∧
      ((pfx * 2 ^ typeBits + c) % 2 ^ 32 % 2 ^ typeBits) % 2 ^ 16 = c := by
  have hT1 : (2 : Nat) ^ 16 ≤ 2 ^ typeBits := Nat.pow_le_pow_right (by decide) hT
  have hcT : c < 2 ^ typeBits := Nat.lt_of_lt_of_le hc hT1
  have hpos : 0 < 2 ^ prefixBits := Nat.two_pow_pos _
  have hposT : 0 < 2 ^ typeBits := Nat.two_pow_pos _
  have hP15 : (2 : Nat) ^ prefixBits ≤ 2 ^ 15 := Nat.pow_le_pow_right (by decide) (by omega)
  have hsum : (2 : Nat) ^ prefixBits * 2 ^ typeBits ≤ 2 ^ 31 := by
    rw [← Nat.pow_add]
    exact Nat.pow_le_pow_right (by decide) (by omega)
  have hlt : pfx * 2 ^ typeBits + c < 2 ^ 31 := by
    have h1 : (pfx + 1) * 2 ^ typeBits ≤ 2 ^ prefixBits * 2 ^ typeBits :=
      Nat.mul_le_mul_right _ (by omega)
    have h2 : (pfx + 1) * 2 ^ typeBits = pfx * 2 ^ typeBits + 2 ^ typeBits := by ring
    omega
  have hmod : (pfx * 2 ^ typeBits + c) % 2 ^ 32 = pfx * 2 ^ typeBits + c :=
    Nat.mod_eq_of_lt (by omega)
  have hdiv : (pfx * 2 ^ typeBits + c) / 2 ^ typeBits = pfx := by
    rw [Nat.mul_comm, Nat.mul_add_div hposT, Nat.div_eq_of_lt hcT, Nat.add_zero]
  have hrem : (pfx * 2 ^ typeBits + c) % 2 ^ typeBits = c := by
    rw [Nat.mul_comm, Nat.mul_add_mod, Nat.mod_eq_of_lt hcT]
  refine ⟨?_, hlt, ?_, ?_⟩
  · rw [Nat.shiftLeft_eq, Nat.mul_comm, ← Nat.mul_add_lt_is_or hcT]
  · rw [hmod, hdiv]
    exact Nat.mod_eq_of_lt (by omega)
  · rw [hmod, hrem]
    exact Nat.mod_eq_of_lt hc

/-- C25: in every reachable state of the type manager, with at least 16 type bits and type
and prefix bits that fit the 31 value bits of an `int32_t`, a successful
`getExtensionType(name, c)` for a 16-bit code `c` stores `(prefix << kExtensionTypeBits) | c`
where `prefix` is the prefix of the name and is at most `kMaxPrefix =
2^kExtensionPrefixBits - 1`; the id is not negative, and the shift and the mask of
`getExtensionOperandTypeInfo` and `addExtensions` give back `prefix` and `c`. -/
theorem C25_type_id_round_trip (env : Env) (hT : 16 ≤ env.kExtensionTypeBits)
    (hTP : env.kExtensionTypeBits + env.kExtensionPrefixBits ≤ 31) (tm : TypeManager)
    (hr : TypeManager.Reachable env tm) (name : String) (c : Nat) (hc : c < 2 ^ 16) (id : Int)
    (tm1 : TypeManager) (h : TypeManager.getExtensionType env tm name c = (some id, tm1)) :
    ∃ pfx, TypeManager.getExtensionPrefix env tm name = (some pfx, tm1) ∧
      pfx ≤ TypeManager.kMaxPrefix env ∧
      TypeManager.kMaxPrefix env = 2 ^ env.kExtensionPrefixBits - 1 ∧
      id = (((pfx <<< env.kExtensionTypeBits) ||| c : Nat) : Int) ∧
      0 ≤ id ∧
      prefixOfType env id.toNat = pfx ∧
      (id.toNat % 2 ^ 32 / 2 ^ env.kExtensionTypeBits) % 2 ^ 16 = pfx ∧
      (id.toNat % 2 ^ 32 % 2 ^ env.kExtensionTypeBits) % 2 ^ 16 = c := by
  have hbits : env.kExtensionPrefixBits ≤ 16 := by omega
  have hinv := tmReachable_inv env hbits tm hr
  unfold TypeManager.getExtensionType at h
  cases hp : TypeManager.getExtensionPrefix env tm name with
  | mk r tm2 =>
    rw [hp] at h
    cases r with
    | none =>
      dsimp only at h
      injection h with h1 _
      cases h1
    | some pfx =>
      dsimp only at h
      injection h with h1 h2
      injection h1 with h1
      subst h2
      have hl := getExtensionPrefix_lookup env hbits tm hinv name pfx tm2 hp
      have htm2 : tm2 = (TypeManager.Call.getExtensionPrefix name).run env tm := by
        show tm2 = (TypeManager.getExtensionPrefix env tm name).2
        rw [hp]
      have hinv2 : TypeManager.PrefixInv env tm2 := by
        rw [htm2]; exact call_inv env hbits _ tm hinv
      have hle := (getExtensionInfo_of_lookup env tm2 hinv2 name pfx hl).2.2
      have hk := (kMaxPrefix_lt env hbits).1
      have hcm : c % 2 ^ 16 = c := Nat.mod_eq_of_lt hc
      rw [hcm] at h1
      obtain ⟨e1, e2, e3, e4⟩ := compose_split env.kExtensionTypeBits env.kExtensionPrefixBits
        pfx c hT hTP (by rw [← hk]; exact hle) hc
      have hid : id = ((pfx * 2 ^ env.kExtensionTypeBits + c : Nat) : Int) := by
        rw [← h1, e1, toInt32_of_lt _ e2]
      have hnat : id.toNat = pfx * 2 ^ env.kExtensionTypeBits + c := by
        rw [hid]; exact Int.toNat_natCast _
      refine ⟨pfx, rfl, hle, hk, ?_, ?_, ?_, ?_, ?_⟩
      · rw [e1]; exact hid
      · rw [hid]; exact Int.natCast_nonneg _
      · unfold prefixOfType
        rw [hnat]; exact e3
      · rw [hnat]; exact e3
      · rw [hnat]; exact e4

/-- C25 at a concrete input: code 5 of the first extension named to a fresh type manager,
with 16 type bits and 15 prefix bits; the id is 65541. -/
theorem C25_type_id_round_trip_witness :
    (16 ≤ sampleEnv.kExtensionTypeBits ∧
      sampleEnv.kExtensionTypeBits + sampleEnv.kExtensionPrefixBits ≤ 31 ∧
      TypeManager.Reachable sampleEnv (TypeManager.initial true) ∧ 5 < 2 ^ 16 ∧
      TypeManager.getExtensionType sampleEnv (TypeManager.initial true) "com.example.a" 5 =
        (some 65541, (TypeManager.getExtensionPrefix sampleEnv (TypeManager.initial true)
          "com.example.a").2)) ∧
    ∃ pfx, TypeManager.getExtensionPrefix sampleEnv (TypeManager.initial true)
        "com.example.a" =
        (some pfx, (TypeManager.getExtensionPrefix sampleEnv (TypeManager.initial true)
          "com.example.a").2) ∧
      pfx ≤ TypeManager.kMaxPrefix sampleEnv ∧
      TypeManager.kMaxPrefix sampleEnv = 2 ^ sampleEnv.kExtensionPrefixBits - 1 ∧
      (65541 : Int) = (((pfx <<< sampleEnv.kExtensionTypeBits) ||| 5 : Nat) : Int) ∧
      0 ≤ (65541 : Int) ∧
      prefixOfType sampleEnv (65541 : Int).toNat = pfx ∧
      ((65541 : Int).toNat % 2 ^ 32 / 2 ^ sampleEnv.kExtensionTypeBits) % 2 ^ 16 = pfx ∧
      ((65541 : Int).toNat % 2 ^ 32 % 2 ^ sampleEnv.kExtensionTypeBits) % 2 ^ 16 = 5 :=
  ⟨⟨by decide, by decide, ⟨true, [], rfl⟩, by decide, by decide⟩,
    C25_type_id_round_trip sampleEnv (by decide) (by decide) (TypeManager.initial true)
      ⟨true, [], rfl⟩ "com.example.a" 5 (by decide) 65541 _ (by decide)⟩

/-! ## TypeManager: disabled extensions -/

theorem registerExtension_of_disabled (tm : TypeManager) (extension : Extension)
    (deviceName : String) (h : tm.mDisabledExtensions.contains extension.name = true) :
    tm.registerExtension extension deviceName = (false, tm) := by
  unfold TypeManager.registerExtension
  rw [if_pos h]

theorem registerExtension_disabled_mono (tm : TypeManager) (extension : Extension)
    (deviceName : String) (name : String)
    (h : tm.mDisabledExtensions.contains name = true) :
    (tm.registerExtension extension deviceName).2.mDisabledExtensions.contains name = true := by
  unfold TypeManager.registerExtension
  split
  · exact h
  · dsimp only
    split
    · exact h
    · split
      · first
          | exact h
          | (simp only [List.contains_eq_any_beq, List.any_append, Bool.or_eq_true] at h ⊢
             exact Or.inl h)
      · exact h

theorem registerExtension_other (tm : TypeManager) (extension : Extension)
    (deviceName : String) (name : String) (hne : name ≠ extension.name) :
    (tm.registerExtension extension deviceName).2.mExtensionNameToExtension.lookup name =
      tm.mExtensionNameToExtension.lookup name := by
  unfold TypeManager.registerExtension
  split
  · rfl
  · dsimp only
    split
    · exact lookup_append_singleton_ne _ _ _ _ hne
    · split
      · exact lookup_filter_ne _ _ _ hne
      · rfl

/-- The conflicting call: `registerExtension` returns false on a name that was not disabled
before. -/
theorem registerExtension_conflict (tm : TypeManager) (extension : Extension)
    (deviceName : String) (tm1 : TypeManager)
    (hnot : tm.mDisabledExtensions.contains extension.name = false)
    (hcall : tm.registerExtension extension deviceName = (false, tm1)) :
    tm1.mDisabledExtensions.contains extension.name = true ∧
      tm1.mExtensionNameToExtension.lookup extension.name = none ∧
      (∃ existing, tm.mExtensionNameToExtension.lookup extension.name = some existing ∧
        (existing.name ≠ extension.name ∨
          existing.operandTypes ≠ TypeManager.sortOperandTypes extension.operandTypes)) := by
  unfold TypeManager.registerExtension at hcall
  rw [if_neg (by rw [hnot]; exact Bool.false_ne_true)] at hcall
  dsimp only at hcall
  split at hcall
  · injection hcall with h1 _
    cases h1
  · rename_i existing hex
    split at hcall
    · rename_i hneq
      injection hcall with _ h2
      subst h2
      refine ⟨?_, lookup_filter_self _ _, existing, hex, ?_⟩
      · dsimp only
        rw [if_neg (by rw [hnot]; exact Bool.false_ne_true)]
        simp
      · unfold TypeManager.equal at hneq
        dsimp only at hneq
        by_cases hn : extension.name = existing.name
        · right
          by_cases ho : TypeManager.sortOperandTypes extension.operandTypes =
              existing.operandTypes
          · simp [hn, ho] at hneq
          · exact fun e => ho e.symm
        · left
          exact fun e => hn e.symm
    · injection hcall with h1 _
      cases h1

theorem getExtensionPrefix_frame (env : Env) (tm : TypeManager) (name : String) :
    (TypeManager.getExtensionPrefix env tm name).2.mDisabledExtensions =
        tm.mDisabledExtensions ∧
      (TypeManager.getExtensionPrefix env tm name).2.mExtensionsAllowed =
        tm.mExtensionsAllowed := by
  unfold TypeManager.getExtensionPrefix
  split
  · exact ⟨rfl, rfl⟩
  · dsimp only
    split <;> exact ⟨rfl, rfl⟩

theorem call_disabledInv (env : Env) (name : String) (call : TypeManager.Call)
    (tm : TypeManager) (h : tm.DisabledInv name) : (call.run env tm).DisabledInv name := by
  obtain ⟨h1, h2, h3⟩ := h
  cases call with
  | registerExtension extension deviceName =>
    show ((tm.registerExtension extension deviceName).2).DisabledInv name
    by_cases hn : extension.name = name
    · rw [registerExtension_of_disabled tm extension deviceName (by rw [hn]; exact h1)]
      exact ⟨h1, h2, h3⟩
    · have hne : name ≠ extension.name := fun e => hn e.symm
      refine ⟨registerExtension_disabled_mono tm extension deviceName name h1, ?_, ?_⟩
      · rw [registerExtension_other tm extension deviceName name hne]; exact h2
      · rw [registerExtension_other tm extension deviceName name hne,
          (registerExtension_tables tm extension deviceName).1]
        exact h3
  | getExtensionPrefix name2 =>
    show ((TypeManager.getExtensionPrefix env tm name2).2).DisabledInv name
    refine ⟨by rw [(getExtensionPrefix_frame env tm name2).1]; exact h1, ?_⟩
    unfold TypeManager.getExtensionPrefix
    split
    · exact ⟨h2, h3⟩
    · rename_i hnone
      dsimp only
      split
      · exact ⟨h2, h3⟩
      · by_cases hn : name = name2
        · subst hn
          cases hr : tm.mExtensionNameToExtension.lookup name with
          | none =>
            dsimp only
            have e : (tm.mExtensionNameToExtension ++
                [(name, ({ name := "", operandTypes := [] } : Extension))]).lookup name =
                some ({ name := "", operandTypes := [] } : Extension) := by
              rw [lookup_append_of_none _ _ _ hr, lookup_singleton_self]
            exact ⟨Or.inr e, fun _ _ => by rw [e]; simp⟩
          | some x =>
            dsimp only
            rw [hr] at h2 ⊢
            exact ⟨h2, fun _ _ => by simp⟩
        · have e1 : (tm.mExtensionNameToPrefix ++
              [(name2, tm.mPrefixToExtension.length % 2 ^ 16)]).lookup name =
              tm.mExtensionNameToPrefix.lookup name := lookup_append_singleton_ne _ _ _ _ hn
          cases hr : tm.mExtensionNameToExtension.lookup name2 with
          | none =>
            dsimp only
            have e2 : (tm.mExtensionNameToExtension ++
                [(name2, ({ name := "", operandTypes := [] } : Extension))]).lookup name =
                tm.mExtensionNameToExtension.lookup name :=
              lookup_append_singleton_ne _ _ _ _ hn
            rw [e1, e2]
            exact ⟨h2, h3⟩
          | some x =>
            dsimp only
            rw [e1]
            exact ⟨h2, h3⟩

theorem runCalls_disabledInv (env : Env) (name : String) (calls : List TypeManager.Call) :
    ∀ tm : TypeManager, tm.DisabledInv name →
      (TypeManager.runCalls env calls tm).DisabledInv name := by
  induction calls with
  | nil => intro tm h; exact h
  | cons c rest ih => intro tm h; exact ih _ (call_disabledInv env name c tm h)

theorem call_disabled (env : Env) (name : String) (call : TypeManager.Call)
    (tm : TypeManager) (h : tm.mDisabledExtensions.contains name = true) :
    (call.run env tm).mDisabledExtensions.contains name = true := by
  cases call with
  | registerExtension extension deviceName =>
    exact registerExtension_disabled_mono tm extension deviceName name h
  | getExtensionPrefix name2 =>
    show (TypeManager.getExtensionPrefix env tm name2).2.mDisabledExtensions.contains name = true
    rw [(getExtensionPrefix_frame env tm name2).1]; exact h

theorem runCalls_disabled (env : Env) (name : String) (calls : List TypeManager.Call) :
    ∀ tm : TypeManager, tm.mDisabledExtensions.contains name = true →
      (TypeManager.runCalls env calls tm).mDisabledExtensions.contains name = true := by
  induction calls with
  | nil => intro tm h; exact h
  | cons c rest ih => intro tm h; exact ih _ (call_disabled env name c tm h)

/-- An operand of a type whose prefix belongs to a name with the default registry entry is
refused by `addOperand`. -/
theorem addOperand_of_default_entry (env : Env) (tm : TypeManager) (b : ModelBuilder)
    (type : ANeuralNetworksOperandType) (name : String)
    (hinfo : tm.getExtensionInfo (prefixOfType env type.type) = some (some name))
    (hentry : tm.mExtensionNameToExtension.lookup name =
      some ({ name := "", operandTypes := [] } : Extension))
    (hext : env.isExtensionOperandType type.type = true) (hb : b.badState = false) :
    b.addOperand env tm type = .ret (ANEURALNETWORKS_BAD_DATA, b) := by
  have hget : tm.getExtensionOperandTypeInfo env type.type = .ret none := by
    unfold TypeManager.getExtensionOperandTypeInfo
    have e : (type.type % 2 ^ 32 / 2 ^ env.kExtensionTypeBits) % 2 ^ 16 =
        prefixOfType env type.type := rfl
    dsimp only
    rw [e, hinfo]
    dsimp only
    have hd : tm.deref (some name) =
        some ({ name := "", operandTypes := [] } : Extension) := hentry
    rw [hd]
    rfl
  unfold ModelBuilder.addOperand
  rw [hb]
  dsimp only
  rw [hext, hget]
  by_cases ha : tm.areExtensionsAllowed = true
  · simp [ha, Exec.bind]
  · simp [ha]

/-- C24 (counterexample): after two devices have registered different definitions of
`com.example.a` the name is disabled and a third registration returns false, yet
`ModelBuilder::getExtensionType` for that name returns `NO_ERROR` with the type id 65536,
`getExtensionInfo` accepts its prefix 1, and `addOperation` of the operation type 65536
returns `NO_ERROR`. -/
theorem C24_counterexample :
    disabledTypeManager.mDisabledExtensions = ["com.example.a"] ∧
    (disabledTypeManager.registerExtension extensionA "device1").1 = false ∧
    (ModelBuilder.getExtensionType sampleEnv disabledTypeManager "com.example.a" 0).1 =
      ANEURALNETWORKS_NO_ERROR ∧
    (ModelBuilder.getExtensionType sampleEnv disabledTypeManager "com.example.a" 0).2.1 =
      some 65536 ∧
    (ModelBuilder.getExtensionType sampleEnv disabledTypeManager
      "com.example.a" 0).2.2.getExtensionInfo 1 = some (some "com.example.a") ∧
    ModelBuilder.addOperation sampleEnv
        (ModelBuilder.getExtensionType sampleEnv disabledTypeManager "com.example.a" 0).2.2
        {} 65536 0 none 0 none =
      .ret (ANEURALNETWORKS_NO_ERROR,
        { mOperations := [{ type := 65536, inputs := [], outputs := [] }]
          mHasExtensionOperation := true }) := by
  decide

/-- C24 (amended): once `registerExtension` has returned false for a name that was not
disabled before (the registry held a different definition under that name), in every later
state of a reachable type manager: `registerExtension` with that name returns false and
changes nothing; `ModelBuilder::getExtensionType` for the name still returns `NO_ERROR` when
the name has a prefix or the prefix table has room; `getExtensionInfo` accepts the prefix of
the name, which is the only check `addOperation` makes on an extension operation type; and
when the name had no prefix at the time of the conflict, `addOperand` of a type with the
prefix of the name returns `BAD_DATA` on a builder that can be modified. -/
theorem C24_disabled_extension (env : Env) (hbits : env.kExtensionPrefixBits ≤ 16)
    (tm : TypeManager) (hr : TypeManager.Reachable env tm) (extension : Extension)
    (deviceName : String) (tm1 : TypeManager)
    (hnot : tm.mDisabledExtensions.contains extension.name = false)
    (hcall : tm.registerExtension extension deviceName = (false, tm1)) :
    (∃ existing, tm.mExtensionNameToExtension.lookup extension.name = some existing ∧
      (existing.name ≠ extension.name ∨
        existing.operandTypes ≠ TypeManager.sortOperandTypes extension.operandTypes)) ∧
    (∀ calls extension2 deviceName2, extension2.name = extension.name →
      (TypeManager.runCalls env calls tm1).registerExtension extension2 deviceName2 =
        (false, TypeManager.runCalls env calls tm1)) ∧
    (∀ calls c,
      ((TypeManager.runCalls env calls tm1).mExtensionNameToPrefix.lookup extension.name ≠ none ∨
        (TypeManager.runCalls env calls tm1).mPrefixToExtension.length ≤
          TypeManager.kMaxPrefix env) →
      (ModelBuilder.getExtensionType env (TypeManager.runCalls env calls tm1)
        extension.name c).1 = ANEURALNETWORKS_NO_ERROR) ∧
    (∀ calls p,
      (TypeManager.runCalls env calls tm1).mExtensionNameToPrefix.lookup extension.name =
        some p →
      (TypeManager.runCalls env calls tm1).getExtensionInfo p = some (some extension.name)) ∧
    (tm.mExtensionNameToPrefix.lookup extension.name = none →
      ∀ calls (b : ModelBuilder) (type : ANeuralNetworksOperandType),
        (TypeManager.runCalls env calls tm1).mExtensionNameToPrefix.lookup extension.name =
          some (prefixOfType env type.type) →
        env.isExtensionOperandType type.type = true → b.badState = false →
        b.addOperand env (TypeManager.runCalls env calls tm1) type =
          .ret (ANEURALNETWORKS_BAD_DATA, b)) := by
  obtain ⟨hdis, hgone, hex⟩ := registerExtension_conflict tm extension deviceName tm1 hnot hcall
  have hinv := tmReachable_inv env hbits tm hr
  have htm1 : tm1 = (TypeManager.Call.registerExtension extension deviceName).run env tm := by
    show tm1 = (tm.registerExtension extension deviceName).2
    rw [hcall]
  have hinv1 : TypeManager.PrefixInv env tm1 := by
    rw [htm1]; exact call_inv env hbits _ tm hinv
  refine ⟨hex, fun calls extension2 deviceName2 hname => ?_, fun calls c hroom => ?_,
    fun calls p hp => ?_, fun hnone calls b type hp hext hb => ?_⟩
  · exact registerExtension_of_disabled _ _ _
      (by rw [hname]; exact runCalls_disabled env _ calls tm1 hdis)
  · have hs := runCalls_inv env hbits calls tm1 hinv1
    unfold ModelBuilder.getExtensionType TypeManager.getExtensionType
    rcases getExtensionPrefix_cases env hbits _ hs extension.name with
      ⟨q, _, e⟩ | ⟨hl, hfull, _⟩ | ⟨_, _, e⟩
    · rw [e]
    · exfalso
      rcases hroom with h | h
      · exact h hl
      · rw [hs.1] at h
        simp only [List.length_cons, List.length_map] at h
        exact hfull h
    · rw [e]
  · exact (getExtensionInfo_of_lookup env _ (runCalls_inv env hbits calls tm1 hinv1) _ p hp).1
  · have  hk1 : tm1.DisabledInv extension.name := by
      refine ⟨hdis, Or.inl hgone, fun p hp1 => ?_⟩
      rw [htm1] at hp1
      change (tm.registerExtension extension deviceName).2.mExtensionNameToPrefix.lookup
        extension.name = some p at hp1
      rw [(registerExtension_tables tm extension deviceName).1, hnone] at hp1
      cases hp1
    obtain ⟨_, k2, k3⟩ := runCalls_disabledInv env extension.name calls tm1 hk1
    have hentry : (TypeManager.runCalls env calls tm1).mExtensionNameToExtension.lookup
        extension.name = some ({ name := "", operandTypes := [] } : Extension) := by
      rcases k2 with k2 | k2
      · exact absurd k2 (k3 _ hp)
      · exact k2
    exact addOperand_of_default_entry env _ b type extension.name
      (getExtensionInfo_of_lookup env _ (runCalls_inv env hbits calls tm1 hinv1) _ _ hp).1
      hentry hext hb

/-- C24 at a concrete input: the second registration of `com.example.a`, with 8 bytes per
element where the first device said 4. -/
theorem C24_disabled_extension_witness :
    (sampleEnv.kExtensionPrefixBits ≤ 16 ∧
      TypeManager.Reachable sampleEnv
        (TypeManager.runCalls sampleEnv
          [TypeManager.Call.registerExtension extensionA "device1"]
          (TypeManager.initial true)) ∧
      (TypeManager.runCalls sampleEnv [TypeManager.Call.registerExtension extensionA "device1"]
        (TypeManager.initial true)).mDisabledExtensions.contains extensionA2.name = false ∧
      (TypeManager.runCalls sampleEnv [TypeManager.Call.registerExtension extensionA "device1"]
        (TypeManager.initial true)).registerExtension extensionA2 "device2" =
        (false, disabledTypeManager)) ∧
    ∀ calls extension2 deviceName2, extension2.name = extensionA2.name →
      (TypeManager.runCalls sampleEnv calls disabledTypeManager).registerExtension extension2
          deviceName2 =
        (false, TypeManager.runCalls sampleEnv calls disabledTypeManager) :=
  ⟨⟨by decide, ⟨true, [TypeManager.Call.registerExtension extensionA "device1"], rfl⟩,
      by decide, by decide⟩,
    (C24_disabled_extension sampleEnv (by decide)
      (TypeManager.runCalls sampleEnv [TypeManager.Call.registerExtension extensionA "device1"]
        (TypeManager.initial true))
      ⟨true, [TypeManager.Call.registerExtension extensionA "device1"], rfl⟩ extensionA2
      "device2" disabledTypeManager (by decide) (by decide)).2.1⟩

/-! ## MemoryTracker -/

theorem lookupNat_get {β : Type} (l : List (Nat × β)) (k : Nat) (v : β)
    (h : l.lookup k = some v) : ∃ i, l.get? i = some (k, v) := by
  rw [List.lookup_eq_some_iff] at h
  obtain ⟨l1, l2, e, _⟩ := h
  refine ⟨l1.length, ?_⟩
  rw [e, List.get?_eq_getElem?, List.getElem?_append_right (Nat.le_refl _)]
  simp

theorem lookupNat_isSome_iff {β : Type} (l : List (Nat × β)) (k : Nat) :
    l.lookup k ≠ none ↔ k ∈ l.map Prod.fst := by
  constructor
  · intro h
    cases hl : l.lookup k with
    | none => exact absurd hl h
    | some v =>
      obtain ⟨i, hi⟩ := lookupNat_get l k v hl
      exact List.mem_map.mpr ⟨(k, v), List.mem_iff_get?.mpr ⟨i, hi⟩, rfl⟩
  · intro h hn
    rw [List.lookup_eq_none_iff] at hn
    obtain ⟨p, hp, e⟩ := List.mem_map.mp h
    have := hn p hp
    rw [e] at this
    simp at this

/-- One `add` keeps the shape of the two containers: `mKnown` maps the memory at position
`i` of `mMemories` to `i`, and no memory is listed twice. -/
theorem add_inv (t : MemoryTracker) (m : Nat)
    (h : t.mKnown.map Prod.fst = t.mMemories ∧ (∀ i e, t.mKnown.get? i = some e → e.2 = i) ∧
      t.mMemories.Nodup) :
    (t.add m).2.mKnown.map Prod.fst = (t.add m).2.mMemories ∧
      (∀ i e, (t.add m).2.mKnown.get? i = some e → e.2 = i) ∧
      (t.add m).2.mMemories.Nodup := by
  unfold MemoryTracker.add
  split
  · exact h
  · rename_i hnone
    dsimp only
    split
    · exact h
    · refine ⟨by simp [h.1], ?_, ?_⟩
      · intro i e he
        rw [List.get?_eq_getElem?] at he
        by_cases hi : i < t.mKnown.length
        · rw [List.getElem?_append_left hi] at he
          exact h.2.1 i e (by rw [List.get?_eq_getElem?]; exact he)
        · rw [List.getElem?_append_right (by omega)] at he
          have hi0 : i - t.mKnown.length = 0 := by
            by_contra hne
            have : 1 ≤ i - t.mKnown.length := by omega
            rw [List.getElem?_eq_none (by simpa using this)] at he
            cases he
          rw [hi0] at he
          simp only [List.getElem?_cons_zero, Option.some.injEq] at he
          subst he
          show t.mKnown.length = i
          omega
      · have hnot : m ∉ t.mMemories := by
          rw [← h.1]
          intro hm
          exact (lookupNat_isSome_iff _ _).mpr hm hnone
        exact List.Nodup.append h.2.2 (List.nodup_singleton m)
          (by
            intro x hx hx2
            rw [List.mem_singleton] at hx2
            subst hx2
            exact hnot hx)

/-- What the two containers of every reachable tracker satisfy. -/
theorem memoryTracker_inv (t : MemoryTracker) (hr : t.Reachable) :
    t.mKnown.map Prod.fst = t.mMemories ∧ (∀ i e, t.mKnown.get? i = some e → e.2 = i) ∧
      t.mMemories.Nodup := by
  obtain ⟨ms, e⟩ := hr
  subst e
  suffices h : ∀ (ms : List Nat) (t : MemoryTracker),
      (t.mKnown.map Prod.fst = t.mMemories ∧ (∀ i e, t.mKnown.get? i = some e → e.2 = i) ∧
        t.mMemories.Nodup) →
      ((t.addAll ms).mKnown.map Prod.fst = (t.addAll ms).mMemories ∧
        (∀ i e, (t.addAll ms).mKnown.get? i = some e → e.2 = i) ∧
        (t.addAll ms).mMemories.Nodup) from
    h ms _ ⟨rfl, fun i e h => by simp at h, List.nodup_nil⟩
  intro ms
  induction ms with
  | nil => intro t h; exact h
  | cons m rest ih => intro t h; exact ih _ (add_inv t m h)

theorem addAll_reachable (t : MemoryTracker) (hr : t.Reachable) (ms : List Nat) :
    (t.addAll ms).Reachable := by
  obtain ⟨ms0, e⟩ := hr
  refine ⟨ms0 ++ ms, ?_⟩
  rw [e]
  unfold MemoryTracker.addAll
  rw [List.foldl_append]

/-- Adding a known memory returns its index and changes nothing. -/
theorem add_known (t : MemoryTracker) (m i : Nat) (h : t.mKnown.lookup m = some i) :
    t.add m = (i, t) := by
  unfold MemoryTracker.add
  rw [h]

/-- Adding a new memory to a tracker with room appends it. -/
theorem add_new (t : MemoryTracker) (m : Nat) (h : t.mKnown.lookup m = none)
    (hroom : t.mKnown.length ≤ 0xFFFFFFFF) :
    t.add m = (t.mKnown.length,
      { mMemories := t.mMemories ++ [m], mKnown := t.mKnown ++ [(m, t.mKnown.length)] }) := by
  unfold MemoryTracker.add
  rw [h]
  dsimp only
  rw [if_neg (by omega)]

/-- A known memory stays known, with its index, over every later `add`. -/
theorem addAll_lookup (ms : List Nat) (m i : Nat) :
    ∀ t : MemoryTracker, t.mKnown.lookup m = some i → (t.addAll ms).mKnown.lookup m = some i := by
  induction ms with
  | nil => intro t h; exact h
  | cons x rest ih =>
    intro t h
    refine ih _ ?_
    show (t.add x).2.mKnown.lookup m = some i
    unfold MemoryTracker.add
    split
    · exact h
    · dsimp only
      split
      · exact h
      · show (t.mKnown ++ [_]).lookup m = some i
        rw [List.lookup_append, h]; rfl

/-- The entry of `mMemories` at the index of a known memory is that memory. -/
theorem entry_of_lookup (t : MemoryTracker) (hr : t.Reachable) (m i : Nat)
    (h : t.mKnown.lookup m = some i) : t.mMemories.get? i = some m := by
  obtain ⟨h1, h2, _⟩ := memoryTracker_inv t hr
  obtain ⟨j, hj⟩ := lookupNat_get _ _ _ h
  have hij : i = j := h2 j _ hj
  subst hij
  rw [← h1, List.get?_eq_getElem?, List.getElem?_map]
  rw [List.get?_eq_getElem?] at hj
  rw [hj]; rfl

/-- After `add(m)` on a tracker that knows `m` or has room, `m` is known with the returned
index. -/
theorem add_lookup (t : MemoryTracker) (m : Nat)
    (hroom : t.mKnown.lookup m ≠ none ∨ t.mKnown.length ≤ 0xFFFFFFFF) :
    (t.add m).2.mKnown.lookup m = some (t.add m).1 := by
  cases hl : t.mKnown.lookup m with
  | some i => rw [add_known t m i hl]; exact hl
  | none =>
    have hr : t.mKnown.length ≤ 0xFFFFFFFF := by
      rcases hroom with h | h
      · exact absurd hl h
      · exact h
    rw [add_new t m hl hr]
    show (t.mKnown ++ [(m, t.mKnown.length)]).lookup m = some t.mKnown.length
    rw [List.lookup_append, hl]
    simp [List.lookup]

/-- The tracker of `n` memories is what adding `0, ..., n - 1` to an empty tracker gives,
up to `2^32` memories. -/
theorem addAll_range (n : Nat) (hn : n ≤ 2 ^ 32) :
    MemoryTracker.addAll { mMemories := [], mKnown := [] } (List.range n) = rangeTracker n := by
  induction n with
  | zero => rfl
  | succ k ih =>
    have hk : k ≤ 2 ^ 32 := by omega
    unfold MemoryTracker.addAll at ih ⊢
    rw [List.range_succ, List.foldl_append, ih hk]
    show ((rangeTracker k).add k).2 = rangeTracker (k + 1)
    have hl : (rangeTracker k).mKnown.lookup k = none := by
      rw [List.lookup_eq_none_iff]
      intro p hp
      obtain ⟨i, hi, e⟩ := List.mem_map.mp hp
      rw [← e]
      have : i < k := List.mem_range.mp hi
      simp only [bne_iff_ne, ne_eq]
      omega
    have hlen : (rangeTracker k).mKnown.length = k := by
      show ((List.range k).map (fun i => (i, i))).length = k
      rw [List.length_map, List.length_range]
    have h32 : (2 : Nat) ^ 32 = 4294967296 := by norm_num
    rw [add_new _ k hl (by rw [hlen]; omega), hlen]
    show ({ mMemories := List.range k ++ [k],
            mKnown := (List.range k).map (fun i => (i, i)) ++ [(k, k)] } : MemoryTracker) =
      { mMemories := List.range (k + 1), mKnown := (List.range (k + 1)).map (fun i => (i, i)) }
    rw [List.range_succ, List.map_append]
    rfl

theorem rangeTracker_lookup (n : Nat) : (rangeTracker n).mKnown.lookup n = none := by
  rw [List.lookup_eq_none_iff]
  intro p hp
  obtain ⟨i, hi, e⟩ := List.mem_map.mp hp
  rw [← e]
  have : i < n := List.mem_range.mp hi
  simp only [bne_iff_ne, ne_eq]
  omega

theorem rangeTracker_length (n : Nat) : (rangeTracker n).mKnown.length = n := by
  show ((List.range n).map (fun i => (i, i))).length = n
  rw [List.length_map, List.length_range]

/-- Adding a new memory to a tracker that holds `2^32` memories. -/
theorem add_full (t : MemoryTracker) (m : Nat) (h : t.mKnown.lookup m = none)
    (hfull : t.mKnown.length = 2 ^ 32) : t.add m = (4, t) := by
  unfold MemoryTracker.add
  rw [h]
  dsimp only
  rw [hfull, if_pos (by norm_num)]
  rfl

theorem rangeTracker_entry (n i : Nat) (h : i < n) :
    (rangeTracker n).mMemories.get? i = some i := by
  show (List.range n).get? i = some i
  rw [List.get?_eq_getElem?, List.getElem?_range h]

/-- C27 (counterexample): the tracker to which the `2^32` memories `0, ..., 2^32 - 1` have
been added; adding one more, new memory returns 4 (`BAD_DATA`) as its index, records
nothing, and the entry at index 4 is the memory 4. -/
theorem C27_counterexample :
    MemoryTracker.addAll { mMemories := [], mKnown := [] } (List.range (2 ^ 32)) =
        rangeTracker (2 ^ 32) ∧
      (rangeTracker (2 ^ 32)).mKnown.lookup (2 ^ 32) = none ∧
      (rangeTracker (2 ^ 32)).add (2 ^ 32) = (4, rangeTracker (2 ^ 32)) ∧
      (rangeTracker (2 ^ 32)).mMemories.get? 4 = some 4 :=
  ⟨addAll_range (2 ^ 32) (Nat.le_refl _), rangeTracker_lookup (2 ^ 32),
    add_full _ _ (rangeTracker_lookup (2 ^ 32)) (rangeTracker_length (2 ^ 32)),
    rangeTracker_entry (2 ^ 32) 4 (by norm_num)⟩

/-- C27 (amended): on a tracker reached by `add` calls that knows `m` or holds at most
`2^32 - 1` memories, `add(m)` gives a new memory the number of distinct memories added
before (the length of `mMemories`, which lists each of them once) and appends it; for a
known memory it returns the recorded index and changes nothing; afterwards the entry at
the returned index is `m`, and every later `add(m)`, after any further `add` calls, returns
the same index, changes nothing, and finds `m` at that index. -/
theorem C27_memory_indices (t : MemoryTracker) (hr : t.Reachable) (m : Nat)
    (hroom : t.mKnown.lookup m ≠ none ∨ t.mKnown.length ≤ 0xFFFFFFFF) :
    (t.mKnown.lookup m = none →
      (t.add m).1 = t.mMemories.length ∧ (t.add m).2.mMemories = t.mMemories ++ [m] ∧
        m ∉ t.mMemories) ∧
    t.mMemories.Nodup ∧
    (∀ i, t.mKnown.lookup m = some i → t.add m = (i, t)) ∧
    (t.add m).2.mMemories.get? (t.add m).1 = some m ∧
    (∀ ms, ((t.add m).2.addAll ms).add m = ((t.add m).1, (t.add m).2.addAll ms) ∧
      ((t.add m).2.addAll ms).mMemories.get? (t.add m).1 = some m) := by
  obtain ⟨h1, _, h3⟩ := memoryTracker_inv t hr
  have hl := add_lookup t m hroom
  have hr1 : (t.add m).2.Reachable := addAll_reachable t hr [m]
  refine ⟨fun hnone => ?_, h3, fun i hi => add_known t m i hi,
    entry_of_lookup _ hr1 m _ hl, fun ms => ?_⟩
  · have hroom2 : t.mKnown.length ≤ 0xFFFFFFFF := by
      rcases hroom with h | h
      · exact absurd hnone h
      · exact h
    rw [add_new t m hnone hroom2]
    refine ⟨?_, rfl, ?_⟩
    · show t.mKnown.length = t.mMemories.length
      rw [← h1, List.length_map]
    · rw [← h1]
      intro hm
      exact (lookupNat_isSome_iff _ _).mpr hm hnone
  · have hl2 := addAll_lookup ms m _ _ hl
    exact ⟨add_known _ m _ hl2, entry_of_lookup _ (addAll_reachable _ hr1 ms) m _ hl2⟩

/-- C27 at a concrete input: memory 7 added to the tracker that holds the memories 0, 1
and 2; it receives index 3. -/
theorem C27_memory_indices_witness :
    ((rangeTracker 3).Reachable ∧
      ((rangeTracker 3).mKnown.lookup 7 ≠ none ∨ (rangeTracker 3).mKnown.length ≤ 0xFFFFFFFF) ∧
      (rangeTracker 3).mKnown.lookup 7 = none) ∧
    ((rangeTracker 3).add 7).1 = (rangeTracker 3).mMemories.length ∧
      ((rangeTracker 3).add 7).2.mMemories = (rangeTracker 3).mMemories ++ [7] ∧
      7 ∉ (rangeTracker 3).mMemories :=
  ⟨⟨⟨List.range 3, (addAll_range 3 (by norm_num)).symm⟩, Or.inr (by decide), by decide⟩,
    (C27_memory_indices (rangeTracker 3) ⟨List.range 3, (addAll_range 3 (by norm_num)).symm⟩ 7
      (Or.inr (by decide))).1 (by decide)⟩

/-! ## The operand table grows by addOperand only -/

theorem setArgumentsLoop_length (lifetime : LifeTime) (vals : List Nat) :
    ∀ (i : Nat) (vec : List Nat) (operands : List Operand),
      (setArgumentsLoop lifetime i vals vec operands).2.2.length = operands.length := by
  induction vals with
  | nil => intro i vec operands; rfl
  | cons v rest ih =>
    intro i vec operands
    unfold ModelBuilder.setArgumentsLoop
    split
    · rfl
    · dsimp only
      split
      · rfl
      · split
        · rfl
        · rw [ih, List.length_set]

theorem setOperandValue_operandsLength (env : Env) (tm : TypeManager) (b : ModelBuilder)
    (index : Nat) (buffer : Option Buffer) (length : Nat) (n : Nat)
    (hb : b.mOperands.length = n) :
    Ensures (fun b1 => b1.mOperands.length = n)
      (b.setOperandValue env tm index buffer length) := by
  unfold ModelBuilder.setOperandValue
  repeat' first
    | (apply ensures_ret; first
        | exact hb
        | (show (List.set _ _ _).length = n; rw [List.length_set]; exact hb))
    | apply ensures_abort
    | (apply ensures_bind; intro _)
    | (dsimp only)
    | split

theorem setOperandValueFromMemory_operandsLength (env : Env) (tm : TypeManager)
    (b : ModelBuilder) (index memory offset length : Nat) (n : Nat)
    (hb : b.mOperands.length = n) :
    Ensures (fun b1 => b1.mOperands.length = n)
      (b.setOperandValueFromMemory env tm index memory offset length) := by
  unfold ModelBuilder.setOperandValueFromMemory
  repeat' first
    | (apply ensures_ret; first
        | exact hb
        | (show (List.set _ _ _).length = n; rw [List.length_set]; exact hb))
    | apply ensures_abort
    | (apply ensures_bind; intro _)
    | (dsimp only)
    | split

theorem setOperandValueFromModel_operandsLength (env : Env) (tm : TypeManager) (heap : Heap)
    (fuel : Nat) (b : ModelBuilder) (index value : Nat) (n : Nat)
    (hb : b.mOperands.length = n) :
    Ensures (fun b1 => b1.mOperands.length = n)
      (b.setOperandValueFromModel env tm heap fuel index value) := by
  unfold ModelBuilder.setOperandValueFromModel
  repeat' first
    | (apply ensures_ret; first
        | exact hb
        | (show (List.set _ _ _).length = n; rw [List.length_set]; exact hb))
    | apply ensures_abort
    | (apply ensures_bind; intro _)
    | (dsimp only)
    | split

theorem setOperandSymmPerChannelQuantParams_operandsLength (env : Env) (b : ModelBuilder)
    (index : Nat) (channelQuant : ANeuralNetworksSymmPerChannelQuantParams) (n : Nat)
    (hb : b.mOperands.length = n) :
    Ensures (fun b1 => b1.mOperands.length = n)
      (b.setOperandSymmPerChannelQuantParams env index channelQuant) := by
  unfold ModelBuilder.setOperandSymmPerChannelQuantParams
  repeat' first
    | (apply ensures_ret; first
        | exact hb
        | (show (List.set _ _ _).length = n; rw [List.length_set]; exact hb))
    | apply ensures_abort
    | (dsimp only)
    | split

theorem setOperandExtensionData_operandsLength (env : Env) (b : ModelBuilder)
    (index : Nat) (data : Option (List Nat)) (length : Nat) (n : Nat)
    (hb : b.mOperands.length = n) :
    Ensures (fun b1 => b1.mOperands.length = n)
      (b.setOperandExtensionData env index data length) := by
  unfold ModelBuilder.setOperandExtensionData
  repeat' first
    | (apply ensures_ret; first
        | exact hb
        | (show (List.set _ _ _).length = n; rw [List.length_set]; exact hb))
    | apply ensures_abort
    | (dsimp only)
    | split

theorem addOperation_operandsLength (env : Env) (tm : TypeManager) (b : ModelBuilder)
    (type inputCount : Nat) (inputs : Option (List Nat)) (outputCount : Nat)
    (outputs : Option (List Nat)) (n : Nat) (hb : b.mOperands.length = n) :
    Ensures (fun b1 => b1.mOperands.length = n)
      (b.addOperation env tm type inputCount inputs outputCount outputs) := by
  unfold ModelBuilder.addOperation
  repeat' first
    | (apply ensures_ret; exact hb)
    | (dsimp only)
    | split

theorem identifyInputsAndOutputs_operandsLength (env : Env) (b : ModelBuilder)
    (inputCount : Nat) (inputs : Option (List Nat)) (outputCount : Nat)
    (outputs : Option (List Nat)) (n : Nat) (hb : b.mOperands.length = n) :
    Ensures (fun b1 => b1.mOperands.length = n)
      (b.identifyInputsAndOutputs env inputCount inputs outputCount outputs) := by
  unfold ModelBuilder.identifyInputsAndOutputs
  repeat' first
    | (apply ensures_ret; first
        | exact hb
        | (show (setArguments _ _ _ _ _).2.2.length = n
           unfold ModelBuilder.setArguments
           rw [setArgumentsLoop_length]
           first
             | exact hb
             | (show (setArguments _ _ _ _ _).2.2.length = n
                unfold ModelBuilder.setArguments
                rw [setArgumentsLoop_length]
                exact hb)))
    | (dsimp only)
    | split

theorem relax_operandsLength (b : ModelBuilder) (allow : Bool) (n : Nat)
    (hb : b.mOperands.length = n) :
    Ensures (fun b1 => b1.mOperands.length = n)
      (b.relaxComputationFloat32toFloat16 allow) := by
  unfold ModelBuilder.relaxComputationFloat32toFloat16
  split
  · exact ensures_ret _ _ _ hb
  · exact ensures_ret _ _ _ hb

theorem copyLargeValuesToSharedMemory_operandsLength (env : Env) (b : ModelBuilder) (n : Int)
    (b1 : ModelBuilder) (h : copyLargeValuesToSharedMemory env b = .ret (n, b1)) :
    b1.mOperands.length = b.mOperands.length := by
  have e := (copyLargeValuesToSharedMemory_frame env b n b1 h).1
  have := congrArg List.length e
  simpa using this

theorem sortIntoRunOrder_operands (fuel : Nat) (b : ModelBuilder) (ok : Bool)
    (b1 : ModelBuilder) (h : sortIntoRunOrder fuel b = .ret (ok, b1)) :
    b1.mOperands = b.mOperands := by
  rcases sortIntoRunOrder_frame fuel b ok b1 h with h1 | ⟨_, _, _, _, h1⟩ <;> rw [h1]

theorem finish_operandsLength (env : Env) (tm : TypeManager) (heap : Heap) (fuel : Nat)
    (b : ModelBuilder) (code : Int) (b1 : ModelBuilder)
    (h : b.finish env tm heap fuel = .ret (code, b1)) :
    b1.mOperands.length = b.mOperands.length := by
  rcases finish_cases env tm heap fuel b code b1 h with
    ⟨_, _, h1⟩ | ⟨_, _, _, h1⟩ | ⟨_, _, c, s, h1, h2, _, h3⟩ |
    ⟨_, _, c, s, m, h1, h2, _, _, _, h3⟩ | ⟨_, _, c, s, m, v, t, hash, h1, h2, _, _, _, h4, _, _, h3⟩
  · rw [h1]
  · exact copyLargeValuesToSharedMemory_operandsLength env b _ _ h1
  · rw [h3]
    show s.mOperands.length = _
    rw [sortIntoRunOrder_operands fuel c _ s h2,
      copyLargeValuesToSharedMemory_operandsLength env b _ _ h1]
  · rw [h3]
    show s.mOperands.length = _
    rw [sortIntoRunOrder_operands fuel c _ s h2,
      copyLargeValuesToSharedMemory_operandsLength env b _ _ h1]
  · obtain ⟨ops, ht⟩ := removeTrailingArgumentsWithDefaultValues_frame env s t h4
    rw [h3, ht]
    show s.mOperands.length = _
    rw [sortIntoRunOrder_operands fuel c _ s h2,
      copyLargeValuesToSharedMemory_operandsLength env b _ _ h1]

/-- A call other than `addOperand` keeps the number of operands. -/
theorem run_operandsLength (env : Env) (tm : TypeManager) (heap : Heap) (fuel : Nat)
    (call : Call) (b : ModelBuilder) (hcall : call.isAddOperand = false) (code : Int)
    (b1 : ModelBuilder) (h : call.run env tm heap fuel b = .ret (code, b1)) :
    b1.mOperands.length = b.mOperands.length := by
  cases call with
  | addOperand type => cases hcall
  | setOperandValue index buffer length =>
    exact setOperandValue_operandsLength env tm b index buffer length _ rfl code b1 h
  | setOperandValueFromMemory index memory offset length =>
    exact setOperandValueFromMemory_operandsLength env tm b index memory offset length _ rfl
      code b1 h
  | setOperandValueFromModel index value =>
    exact setOperandValueFromModel_operandsLength env tm heap fuel b index value _ rfl code b1 h
  | setOperandSymmPerChannelQuantParams index channelQuant =>
    exact setOperandSymmPerChannelQuantParams_operandsLength env b index channelQuant _ rfl
      code b1 h
  | setOperandExtensionData index data length =>
    exact setOperandExtensionData_operandsLength env b index data length _ rfl code b1 h
  | addOperation type inputCount inputs outputCount outputs =>
    exact addOperation_operandsLength env tm b type inputCount inputs outputCount outputs _ rfl
      code b1 h
  | identifyInputsAndOutputs inputCount inputs outputCount outputs =>
    exact identifyInputsAndOutputs_operandsLength env b inputCount inputs outputCount outputs
      _ rfl code b1 h
  | relaxComputationFloat32toFloat16 allow => exact relax_operandsLength b allow _ rfl code b1 h
  | finish => exact finish_operandsLength env tm heap fuel b code b1 h

/-- What a call of `addOperand` that returns `NO_ERROR` stores. -/
theorem addOperand_success (env : Env) (tm : TypeManager) (b : ModelBuilder)
    (type : ANeuralNetworksOperandType) (b1 : ModelBuilder)
    (h : b.addOperand env tm type = .ret (ANEURALNETWORKS_NO_ERROR, b1)) :
    b1.mOperands = b.mOperands ++
      [{ type := type.type
         dimensions := makeVector type.dimensions type.dimensionCount
         scale := type.scale
         zeroPoint := type.zeroPoint
         lifetime := LifeTime.TEMPORARY_VARIABLE
         location := { poolIndex := 0, offset := 0, length := 0 }
         extraParams := ExtraParams.none }] := by
  have hne : ∀ (c : Int) (x y : ModelBuilder), c ≠ ANEURALNETWORKS_NO_ERROR →
      (Exec.ret (c, x) = Exec.ret (ANEURALNETWORKS_NO_ERROR, y)) → False := by
    intro c x y hc e
    injection e with e; injection e with e _
    exact hc e
  unfold ModelBuilder.addOperand at h
  split at h
  · exact absurd h (fun e => hne _ _ _ (by decide) e)
  · dsimp only at h
    split at h
    · exact absurd h (fun e => hne _ _ _ (by decide) e)
    · rw [Exec.bind_eq_ret] at h
      obtain ⟨info, _, h⟩ := h
      repeat' first
        | exact absurd h (fun e => hne _ _ _ (by decide) e)
        | (dsimp only at h)
        | split at h
      injection h with h; injection h with _ h
      subst h
      rfl

/-- The number of operands is the number of successful `addOperand` calls. -/
theorem reachableWithOperands_length (env : Env) (k : Nat) (b : ModelBuilder)
    (hr : ReachableWithOperands env k b) : b.mOperands.length = k := by
  induction hr with
  | init => rfl
  | added tm type _ hrun ih =>
    rw [addOperand_success env tm _ type _ hrun, List.length_append, ih]
    rfl
  | failed tm type code _ hrun hcode ih =>
    rw [addOperand_failsClean env tm _ type code _ hrun hcode]; exact ih
  | other tm heap fuel call code _ hcall hrun ih =>
    rw [run_operandsLength env tm heap fuel call _ hcall code _ hrun]; exact ih

/-- C30: on a builder reached from a new one by calls of which `k` were successful
`addOperand` calls, the operand table has `k` entries; an `addOperand` that returns
`NO_ERROR`, the k-th successful one counting from 0, appends its operand, which is then
at index `k` with lifetime `TEMPORARY_VARIABLE` and the location (0, 0, 0), and leaves the
operands `0 .. k-1` as they were; one that returns an error leaves the whole builder as it
was, so the next successful call again gets index `k`. -/
theorem C30_addOperand_indices (env : Env) (k : Nat) (b : ModelBuilder)
    (hr : ReachableWithOperands env k b) (tm : TypeManager) (type : ANeuralNetworksOperandType)
    (code : Int) (b1 : ModelBuilder) (h : b.addOperand env tm type = .ret (code, b1)) :
    b.mOperands.length = k ∧
    (code = ANEURALNETWORKS_NO_ERROR →
      ∃ operand, b1.mOperands = b.mOperands ++ [operand] ∧
        b1.mOperands.get? k = some operand ∧
        operand.type = type.type ∧
        operand.dimensions = makeVector type.dimensions type.dimensionCount ∧
        operand.lifetime = LifeTime.TEMPORARY_VARIABLE ∧
        operand.location = { poolIndex := 0, offset := 0, length := 0 } ∧
        (∀ i, i < k → b1.mOperands.get? i = b.mOperands.get? i) ∧
        b1.mOperands.length = k + 1 ∧ ReachableWithOperands env (k + 1) b1) ∧
    (code ≠ ANEURALNETWORKS_NO_ERROR →
      b1 = b ∧ b1.mOperands.length = k ∧ ReachableWithOperands env k b1) := by
  have hlen := reachableWithOperands_length env k b hr
  refine ⟨hlen, fun hc => ?_, fun hc => ?_⟩
  · subst hc
    have hs := addOperand_success env tm b type b1 h
    refine ⟨_, hs, ?_, rfl, rfl, rfl, rfl, ?_, ?_, ReachableWithOperands.added tm type hr h⟩
    · rw [hs, List.get?_eq_getElem?, List.getElem?_append_right (by omega), hlen]
      simp
    · intro i hi
      rw [hs, List.get?_eq_getElem?, List.get?_eq_getElem?,
        List.getElem?_append_left (by omega)]
    · rw [hs, List.length_append, hlen]; rfl
  · have e := addOperand_failsClean env tm b type code b1 h hc
    refine ⟨e, by rw [e]; exact hlen, by rw [e]; exact hr⟩

/-- C30 at a concrete input: the first `addOperand` on a new builder. -/
theorem C30_addOperand_indices_witness :
    (ReachableWithOperands sampleEnv 0 {} ∧
      ModelBuilder.addOperand sampleEnv sampleTypeManager {} int32Type =
        .ret (ANEURALNETWORKS_NO_ERROR, oneOperandBuilder)) ∧
    ∃ operand, oneOperandBuilder.mOperands = ({} : ModelBuilder).mOperands ++ [operand] ∧
      oneOperandBuilder.mOperands.get? 0 = some operand ∧
      operand.type = int32Type.type ∧
      operand.dimensions = makeVector int32Type.dimensions int32Type.dimensionCount ∧
      operand.lifetime = LifeTime.TEMPORARY_VARIABLE ∧
      operand.location = { poolIndex := 0, offset := 0, length := 0 } ∧
      (∀ i, i < 0 → oneOperandBuilder.mOperands.get? i = ({} : ModelBuilder).mOperands.get? i) ∧
      oneOperandBuilder.mOperands.length = 0 + 1 ∧
      ReachableWithOperands sampleEnv (0 + 1) oneOperandBuilder :=
  ⟨⟨ReachableWithOperands.init, by decide⟩,
    (C30_addOperand_indices sampleEnv 0 {} ReachableWithOperands.init sampleTypeManager
      int32Type ANEURALNETWORKS_NO_ERROR oneOperandBuilder (by decide)).2.1 rfl⟩

/-! ## The ready set of the sort is a stack -/

theorem consumers_replicate (k v x : Nat) :
    consumers (List.replicate k (v, x)) v = List.replicate k x := by
  unfold consumers
  induction k with
  | zero => rfl
  | succ n ih =>
    rw [List.replicate_succ, List.filter_cons_of_pos (by simp), List.map_cons, ih,
      List.replicate_succ]

theorem flatMap_replicate (M : List (Nat × Nat)) (n k v x : Nat)
    (h : consumers M v = List.replicate k x) :
    (List.replicate n v).flatMap (consumers M) = List.replicate (n * k) x := by
  induction n with
  | zero => rw [Nat.zero_mul]; rfl
  | succ n ih =>
    rw [List.replicate_succ, List.flatMap_cons, ih, h, Nat.succ_mul, Nat.add_comm (n * k) k,
      List.replicate_add]

theorem getD_set_self (cnt : List Nat) (x a : Nat) (hx : x < cnt.length) :
    (cnt.set x a).getD x 0 = a := by
  rw [List.getD_eq_getElem?_getD, List.getElem?_set_self hx]
  rfl

/-- Decrementing the counter of `x` from `c + 1` down to 0: `x` is pushed once, at the
end. -/
theorem countdown (x : Nat) : ∀ (c : Nat) (cnt stack : List Nat), x < cnt.length →
    cnt.getD x 0 = c + 1 →
    (List.replicate (c + 1) x).foldl markConsumer (cnt, stack) = (cnt.set x 0, x :: stack) := by
  intro c
  induction c with
  | zero =>
    intro cnt stack _ h
    show markConsumer (cnt, stack) x = _
    unfold ModelBuilder.markConsumer
    dsimp only
    rw [h]
    rfl
  | succ n ih =>
    intro cnt stack hx h
    rw [List.replicate_succ, List.foldl_cons]
    have hstep : markConsumer (cnt, stack) x = (cnt.set x (n + 1), stack) := by
      unfold ModelBuilder.markConsumer
      dsimp only
      rw [h]
      have hd : dec32 (n + 1 + 1) = n + 1 := by
        unfold ModelBuilder.dec32
        rw [if_neg (by omega)]
        rfl
      rw [hd, if_neg (by omega)]
    rw [hstep, ih (cnt.set x (n + 1)) stack (by rw [List.length_set]; exact hx)
      (getD_set_self cnt x (n + 1) hx), List.set_set]

/-- Decrementing the counter of `x` from 0 through `2^32` steps: it wraps to `2^32 - 1` and
comes back to 0, where `x` is pushed. -/
theorem countdown_wraps (x c : Nat) (hc : c + 1 = 0xFFFFFFFF) (cnt stack : List Nat)
    (hx : x < cnt.length) (h : cnt.getD x 0 = 0) :
    (List.replicate (c + 1 + 1) x).foldl markConsumer (cnt, stack) =
      (cnt.set x 0, x :: stack) := by
  rw [List.replicate_succ, List.foldl_cons]
  have hstep : markConsumer (cnt, stack) x = (cnt.set x (c + 1), stack) := by
    unfold ModelBuilder.markConsumer
    dsimp only
    rw [h]
    have hd : dec32 0 = c + 1 := by
      unfold ModelBuilder.dec32
      rw [if_pos rfl, hc]
    rw [hd, if_neg (by omega)]
  rw [hstep, countdown x c (cnt.set x (c + 1)) stack (by rw [List.length_set]; exact hx)
    (getD_set_self cnt x (c + 1) hx), List.set_set]

theorem countUnknownInputs_replicate (operands : List Operand) (j v : Nat) (o : Operand)
    (ho : operands.get? v = some o) (hu : isUnknownLifetime o.lifetime = true) :
    ∀ (n c : Nat) (m : List (Nat × Nat)),
      countUnknownInputs operands j (List.replicate n v) (c, m) =
        .ret (c + n, m ++ List.replicate n (v, j)) := by
  intro n
  induction n with
  | zero =>
    intro c m
    rw [List.replicate_zero, List.replicate_zero, List.append_nil]
    rfl
  | succ n ih =>
    intro c m
    rw [List.replicate_succ]
    unfold ModelBuilder.countUnknownInputs
    rw [ho]
    dsimp only
    rw [if_pos hu, ih, List.replicate_succ, List.append_assoc, List.singleton_append,
      Nat.add_assoc, Nat.add_comm 1 n]

/-- The sort of a producer `P` that lists operand `v` `m + 1` times as output and a consumer
`X` that lists it `k + 1` times as input, with `(k + 1) * m = 2^32`: the consumer is run
twice. -/
theorem sort_counter_wraps (operands : List Operand) (operations : List Operation)
    (P X : Operation) (v k m c : Nat) (o : Operand)
    (h0 : operations.get? 0 = some P) (h1 : operations.get? 1 = some X)
    (hPi : P.inputs = []) (hPo : P.outputs = List.replicate (m + 1) v)
    (hXi : X.inputs = List.replicate (k + 1) v) (hXo : X.outputs = [])
    (ho : operands.get? v = some o) (hu : isUnknownLifetime o.lifetime = true)
    (hkm : (k + 1) * m = c + 1 + 1) (hc : c + 1 = 0xFFFFFFFF) (fuel : Nat) :
    sortInit operands operations [0, 1]
        { operandToOperations := [], unknownInputCount := [0, 0], opsReadyToRun := [] } =
      .ret { operandToOperations := List.replicate (k + 1) (v, 1)
             unknownInputCount := [0, k + 1]
             opsReadyToRun := [0] } ∧
    sortLoop operations (List.replicate (k + 1) (v, 1)) (fuel + 4) [0] [0, k + 1] [] [] =
      .ret ([P, X, X], [0, 1, 1]) := by
  constructor
  · unfold ModelBuilder.sortInit
    rw [h0]
    dsimp only
    rw [hPi, show countUnknownInputs operands 0 [] (0, []) = .ret (0, []) from rfl]
    dsimp only [Exec.bind]
    rw [if_pos rfl]
    unfold ModelBuilder.sortInit
    rw [h1]
    dsimp only
    rw [hXi, countUnknownInputs_replicate operands 1 v o ho hu]
    dsimp only [Exec.bind]
    rw [if_neg (by omega)]
    unfold ModelBuilder.sortInit
    rw [Nat.zero_add, List.nil_append]
    rfl
  · have hev : (List.replicate (m + 1) v).flatMap (consumers (List.replicate (k + 1) (v, 1))) =
        List.replicate (k + 1) 1 ++ List.replicate (c + 1 + 1) 1 := by
      rw [flatMap_replicate _ (m + 1) (k + 1) v 1 (consumers_replicate (k + 1) v 1),
        ← List.replicate_add]
      congr 1
      rw [Nat.succ_mul, Nat.mul_comm m (k + 1), hkm, Nat.add_comm]
    have hmark : markOutputs (List.replicate (k + 1) (v, 1)) (List.replicate (m + 1) v)
        ([0, k + 1], []) = ([0, 0], [1, 1]) := by
      rw [markOutputs_eq_foldl, hev, List.foldl_append,
        countdown 1 k [0, k + 1] [] (by show 1 < 2; decide) rfl,
        countdown_wraps 1 c hc ([0, k + 1].set 1 0) [1]
          (by rw [List.length_set]; show 1 < 2; decide) rfl]
      rfl
    have hnil : ∀ s : List Nat × List Nat,
        markOutputs (List.replicate (k + 1) (v, 1)) [] s = s := fun _ => rfl
    unfold ModelBuilder.sortLoop
    dsimp only
    rw [h0]
    dsimp only
    rw [hPo, hmark]
    dsimp only
    unfold ModelBuilder.sortLoop
    dsimp only
    rw [h1]
    dsimp only
    rw [hXo, hnil]
    dsimp only
    unfold ModelBuilder.sortLoop
    dsimp only
    rw [h1]
    dsimp only
    rw [hXo, hnil]
    dsimp only
    unfold ModelBuilder.sortLoop
    rfl

/-- The two loops of the sort on `wrapBuilder`. -/
theorem wrapBuilder_loops (fuel : Nat) :
    sortInit wrapBuilder.mOperands wrapBuilder.mOperations [0, 1]
        { operandToOperations := [], unknownInputCount := [0, 0], opsReadyToRun := [] } =
      .ret { operandToOperations := List.replicate (65535 + 1) (0, 1)
             unknownInputCount := [0, 65535 + 1]
             opsReadyToRun := [0] } ∧
    sortLoop wrapBuilder.mOperations (List.replicate (65535 + 1) (0, 1)) (fuel + 4) [0]
      [0, 65535 + 1] [] [] =
      .ret ([wrapProducer, wrapConsumer, wrapConsumer], [0, 1, 1]) :=
  sort_counter_wraps wrapBuilder.mOperands wrapBuilder.mOperations
    wrapProducer wrapConsumer 0 65535 65536 4294967294
    (tensorOperand LifeTime.TEMPORARY_VARIABLE) rfl rfl rfl rfl rfl rfl rfl rfl
    (by norm_num) (by norm_num) fuel

theorem wrapBuilder_init :
    sortInit wrapBuilder.mOperands wrapBuilder.mOperations
      (List.range wrapBuilder.operationCount)
      { operandToOperations := []
        unknownInputCount := List.replicate wrapBuilder.operationCount 0
        opsReadyToRun := [] } =
      .ret { operandToOperations := List.replicate (65535 + 1) (0, 1)
             unknownInputCount := [0, 65535 + 1]
             opsReadyToRun := [0] } := by
  have e1 : wrapBuilder.operationCount = 2 := rfl
  rw [e1]
  exact (wrapBuilder_loops 0).1

/-- When the while loop returns more operations than the builder holds, `CHECK_LT` fails. -/
theorem sortIntoRunOrder_aborts (fuel : Nat) (b : ModelBuilder) (s : SortState)
    (r : List Operation × List Nat) (hmap : b.mSortedOperationIndexMap = [])
    (hs : sortInit b.mOperands b.mOperations (List.range b.operationCount)
        { operandToOperations := []
          unknownInputCount := List.replicate b.operationCount 0
          opsReadyToRun := [] } = .ret s)
    (hr : sortLoop b.mOperations s.operandToOperations fuel s.opsReadyToRun s.unknownInputCount
        [] [] = .ret r)
    (hgt : b.mOperations.length < r.1.length) :
    sortIntoRunOrder fuel b = .abort := by
  unfold ModelBuilder.sortIntoRunOrder
  rw [hmap, if_neg (by decide), hs]
  dsimp only [Exec.bind]
  rw [hr]
  dsimp only
  rw [if_pos (by omega), if_neg (by omega)]

theorem wrapBuilder_sort (fuel : Nat) : sortIntoRunOrder (fuel + 4) wrapBuilder = .abort :=
  sortIntoRunOrder_aborts (fuel + 4) wrapBuilder _ _ rfl wrapBuilder_init (wrapBuilder_loops fuel).2
    (by show 2 < 3; decide)

/-- When `sortIntoRunOrder` does not return, `finish` does not return. -/
theorem finish_aborts_of_sort (env : Env) (tm : TypeManager) (heap : Heap) (fuel : Nat)
    (b c : ModelBuilder) (hc : b.mCompletedModel = false) (hi : b.mInvalidModel = false)
    (hcopy : copyLargeValuesToSharedMemory env b = .ret (ANEURALNETWORKS_NO_ERROR, c))
    (hsort : sortIntoRunOrder fuel c = .abort) : b.finish env tm heap fuel = .abort := by
  unfold ModelBuilder.finish
  rw [hc, hi, if_neg (by decide), if_neg (by decide), hcopy]
  dsimp only [Exec.bind]
  rw [if_neg (by decide), hsort]

/-- C29: on the builder whose producer lists operand 0 as output 65537 times and whose
consumer lists it as input 65536 times, the 32-bit counter of the consumer reaches 0 twice
while the outputs of the producer are marked, so the while loop of `sortIntoRunOrder` places
the consumer in the run order twice: the run order has 3 entries for 2 operations, the index
map `[0, 1, 1]` is no permutation, and `CHECK_LT(runOrder.size(), mOperations.size())`
fails, in `sortIntoRunOrder` and so in `finish`. -/
theorem C29_sort_counter_wraps (fuel : Nat) :
    (∃ s, sortInit wrapBuilder.mOperands wrapBuilder.mOperations
          (List.range wrapBuilder.operationCount)
          { operandToOperations := []
            unknownInputCount := List.replicate wrapBuilder.operationCount 0
            opsReadyToRun := [] } = .ret s ∧
        sortLoop wrapBuilder.mOperations s.operandToOperations (fuel + 4) s.opsReadyToRun
          s.unknownInputCount [] [] =
          .ret ([wrapProducer, wrapConsumer, wrapConsumer], [0, 1, 1])) ∧
      sortIntoRunOrder (fuel + 4) wrapBuilder = .abort ∧
      wrapBuilder.finish sampleEnv sampleTypeManager emptyHeap (fuel + 4) = .abort :=
  ⟨⟨_, wrapBuilder_init, (wrapBuilder_loops fuel).2⟩, wrapBuilder_sort fuel,
    finish_aborts_of_sort sampleEnv sampleTypeManager emptyHeap (fuel + 4) wrapBuilder
      wrapBuilder rfl rfl rfl (wrapBuilder_sort fuel)⟩

/-- What `sortIntoRunOrder` stores when no unknown input is written twice (so that no
counter wraps): it returns; on success the index map lists each of `0 .. n-1` once and the
operation stored at position `i` is the one added at position `map[i]`; on failure the run
order is shorter than the operation list and the builder is unchanged. -/
theorem sortIntoRunOrder_run_order (fuel : Nat) (b : ModelBuilder)
    (hmap : b.mSortedOperationIndexMap = []) (hlen : b.mOperations.length < 2 ^ 32)
    (hvalid : InputsValid b.mOperands b.mOperations)
    (hsingle : NoUnknownInputWrittenTwice b.mOperands b.mOperations)
    (hfuel : b.mOperations.length < fuel) :
    ∃ s r, sortInit b.mOperands b.mOperations (List.range b.mOperations.length)
        { operandToOperations := []
          unknownInputCount := List.replicate b.mOperations.length 0
          opsReadyToRun := [] } = .ret s ∧
      sortLoop b.mOperations s.operandToOperations fuel s.opsReadyToRun s.unknownInputCount
        [] [] = .ret r ∧
      r.2.Nodup ∧ (∀ j ∈ r.2, j < b.mOperations.length) ∧ r.1.length = r.2.length ∧
      (∀ i j, r.2.get? i = some j → r.1.get? i = b.mOperations.get? j) ∧
      r.1.length ≤ b.mOperations.length ∧
      sortIntoRunOrder fuel b =
        if r.1.length = b.mOperations.length then
          .ret (true, { b with mSortedOperationIndexMap := r.2, mOperations := r.1 })
        else .ret (false, b) := by
  obtain ⟨s, r, cntF, hs, hr, hinv⟩ :=
    sort_runs fuel b.mOperands b.mOperations hvalid hsingle hfuel
  have hb : ∀ j ∈ r.2, j < b.mOperations.length :=
    fun j hj => hinv.bound j (List.mem_append_left _ hj)
  have hnd : r.2.Nodup := by
    have := hinv.nodup
    rw [List.append_nil] at this
    exact this
  have hl : r.1.length = r.2.length := by
    rw [hinv.run, length_filterMap_get b.mOperations r.2 hb]
  have hle : r.1.length ≤ b.mOperations.length := by
    rw [hl]; exact length_le_of_nodup_bound r.2 _ hnd hb
  refine ⟨s, r, hs, hr, hnd, hb, hl, ?_, hle,
    sortIntoRunOrder_of_loop fuel b s r hmap hlen hs hr hle⟩
  intro i j hij
  rw [hinv.run]
  exact get_filterMap_get_forward b.mOperations r.2 hb i j hij

/-! ## CompilationBuilder: attributes and the cache directory -/

theorem stringBack_push (s : String) (ch : Char) : stringBack (s.push ch) = some ch := by
  unfold stringBack
  rw [String.data_push]
  exact List.getLast?_concat _

theorem push_eq_append (s : String) : s.push '/' = s ++ "/" := by
  apply String.ext
  rw [String.data_push, String.data_append]

theorem cachePath_back (d : String) (hd : d ≠ "") :
    stringBack (CompilationBuilder.cachePath d) = some '/' := by
  unfold CompilationBuilder.cachePath
  by_cases h : stringBack d = some '/'
  · rw [if_neg (fun hh => hh.2 h)]
    exact h
  · rw [if_pos ⟨hd, h⟩]
    exact stringBack_push d '/'

theorem cachePath_of_back (d : String) (h : stringBack d = some '/') :
    CompilationBuilder.cachePath d = d := by
  unfold CompilationBuilder.cachePath
  rw [if_neg (fun hh => hh.2 h)]

theorem cachePath_of_not_back (d : String) (hd : d ≠ "") (h : stringBack d ≠ some '/') :
    CompilationBuilder.cachePath d = d ++ "/" := by
  unfold CompilationBuilder.cachePath
  rw [if_pos ⟨hd, h⟩]
  exact push_eq_append d

theorem cachePath_idempotent (d : String) :
    CompilationBuilder.cachePath (CompilationBuilder.cachePath d) =
      CompilationBuilder.cachePath d := by
  by_cases hd : d = ""
  · subst hd
    rfl
  · exact cachePath_of_back _ (cachePath_back d hd)

theorem setCaching_unfinished (c : CompilationBuilder) (hc : c.mFinished = false) (d : String)
    (token : List Nat) :
    CompilationBuilder.setCaching c d token =
      (ANEURALNETWORKS_NO_ERROR,
        { c with
          mCacheInfo := CacheInfo.cacheDir (CompilationBuilder.cachePath d)
          mToken := token
          mIsCacheInfoProvided := true }) := by
  unfold CompilationBuilder.setCaching
  rw [hc]
  rfl

/-- C32, the input that the claim does not cover: the empty cache directory is stored as it
is, without a separator. -/
theorem C32_counterexample :
    oneDeviceCompilation.mFinished = false ∧
    (CompilationBuilder.setCaching oneDeviceCompilation "" []).1 = ANEURALNETWORKS_NO_ERROR ∧
    (CompilationBuilder.setCaching oneDeviceCompilation "" []).2.mCacheInfo =
      CacheInfo.cacheDir "" ∧
    stringBack "" = none := by
  refine ⟨rfl, rfl, rfl, rfl⟩

/-- C32 (amended): for every non-empty cache directory `d` passed to `setCaching` on an
unfinished compilation the call succeeds and stores a path that ends with the separator: `d`
itself when `d` ends with it, and `d` followed by the separator otherwise. Passing the stored
path again stores the same path; that much also holds for the empty directory. -/
theorem C32_cache_directory_normalized (c : CompilationBuilder) (hc : c.mFinished = false)
    (d : String) (hd : d ≠ "") (token : List Nat) :
    (CompilationBuilder.setCaching c d token).1 = ANEURALNETWORKS_NO_ERROR ∧
    (CompilationBuilder.setCaching c d token).2.mCacheInfo =
      CacheInfo.cacheDir (CompilationBuilder.cachePath d) ∧
    stringBack (CompilationBuilder.cachePath d) = some '/' ∧
    (stringBack d = some '/' → CompilationBuilder.cachePath d = d) ∧
    (stringBack d ≠ some '/' → CompilationBuilder.cachePath d = d ++ "/") ∧
    (∀ (d2 : String) (c2 : CompilationBuilder), c2.mFinished = false →
      (CompilationBuilder.setCaching c2 (CompilationBuilder.cachePath d2) token).2.mCacheInfo =
        CacheInfo.cacheDir (CompilationBuilder.cachePath d2)) := by
  refine ⟨?_, ?_, cachePath_back d hd, cachePath_of_back d, cachePath_of_not_back d hd, ?_⟩
  · rw [setCaching_unfinished c hc]
  · rw [setCaching_unfinished c hc]
  · intro d2 c2 hc2
    rw [setCaching_unfinished c2 hc2]
    show CacheInfo.cacheDir _ = _
    rw [cachePath_idempotent]

theorem C32_cache_directory_normalized_witness :
    (CompilationBuilder.setCaching oneDeviceCompilation "/data/cache" []).2.mCacheInfo =
        CacheInfo.cacheDir "/data/cache/" ∧
    (CompilationBuilder.setCaching oneDeviceCompilation "/data/cache/" []).2.mCacheInfo =
        CacheInfo.cacheDir "/data/cache/" := by
  have h1 := C32_cache_directory_normalized oneDeviceCompilation rfl "/data/cache" (by decide) []
  have h2 := C32_cache_directory_normalized oneDeviceCompilation rfl "/data/cache/" (by decide) []
  refine ⟨?_, ?_⟩
  · rw [h1.2.1, h1.2.2.2.2.1 (by decide)]
    rfl
  · rw [h2.2.1, h2.2.2.2.1 (by decide)]

/-! ### Attributes -/

theorem finish_mFinished (cenv : CompilationEnv) (c : CompilationBuilder) :
    (CompilationBuilder.finish cenv c).2.mFinished = true := by
  unfold CompilationBuilder.finish
  by_cases hf : c.mFinished = true
  · rw [if_pos hf]
    exact hf
  · rw [if_neg hf]
    have hs : (CompilationBuilder.started c).mFinished = true := by
      unfold CompilationBuilder.started
      dsimp only
      split <;> rfl
    dsimp only
    unfold CompilationBuilder.fallbackToCpu
    repeat' first | exact hs | split

theorem call_of_finished (cenv : CompilationEnv) (env : Env) (call : CompilationBuilder.Call)
    (c : CompilationBuilder) (hc : c.mFinished = true) :
    call.run cenv env c = (ANEURALNETWORKS_BAD_STATE, c) := by
  cases call <;>
    simp [CompilationBuilder.Call.run, CompilationBuilder.setPreference,
      CompilationBuilder.setCaching, CompilationBuilder.setCachingFromFds,
      CompilationBuilder.setPriority, CompilationBuilder.setTimeoutDuration,
      CompilationBuilder.addExtensionAttribute, CompilationBuilder.forTest_setPartitioning,
      CompilationBuilder.forTest_failPartitioning, CompilationBuilder.finish, hc]

theorem call_mFinished (cenv : CompilationEnv) (env : Env) (call : CompilationBuilder.Call)
    (c : CompilationBuilder) (hc : c.mFinished = true) :
    (call.run cenv env c).2.mFinished = true := by
  rw [call_of_finished cenv env call c hc]
  exact hc

theorem runCalls_mFinished (cenv : CompilationEnv) (env : Env)
    (calls : List CompilationBuilder.Call) :
    ∀ (c : CompilationBuilder), c.mFinished = true →
      (CompilationBuilder.runCalls cenv env calls c).mFinished = true := by
  induction calls with
  | nil => intro c hc; exact hc
  | cons call rest ih =>
    intro c hc
    exact ih _ (call_mFinished cenv env call c hc)

theorem compilation_runCalls_append (cenv : CompilationEnv) (env : Env)
    (l1 l2 : List CompilationBuilder.Call) (c : CompilationBuilder) :
    CompilationBuilder.runCalls cenv env (l1 ++ l2) c =
      CompilationBuilder.runCalls cenv env l2 (CompilationBuilder.runCalls cenv env l1 c) := by
  unfold CompilationBuilder.runCalls
  rw [List.foldl_append]

theorem addExtensionAttribute_metadata (env : Env) (tm : TypeManager) (c : CompilationBuilder)
    (extensionName : String) (code : Nat) (data : List Nat) :
    (CompilationBuilder.addExtensionAttribute env tm c extensionName code data).2.1.mMetadata =
        c.mMetadata ∨
    ∃ token, token ∉ c.mMetadata.map (fun entry => entry.1) ∧
      (CompilationBuilder.addExtensionAttribute env tm c extensionName code data).2.1.mMetadata =
        c.mMetadata ++ [(token, data)] := by
  unfold CompilationBuilder.addExtensionAttribute
  split
  · exact Or.inl rfl
  · split
    · exact Or.inl rfl
    · split
      · exact Or.inl rfl
      · rename_i token tm1 _
        split
        · exact Or.inl rfl
        · rename_i hany
          refine Or.inr ⟨token, ?_, rfl⟩
          intro hmem
          apply hany
          rw [List.mem_map] at hmem
          obtain ⟨entry, he, heq⟩ := hmem
          rw [List.any_eq_true]
          exact ⟨entry, he, decide_eq_true heq.symm⟩

theorem call_metadata (cenv : CompilationEnv) (env : Env) (call : CompilationBuilder.Call)
    (c : CompilationBuilder) :
    (call.run cenv env c).2.mMetadata = c.mMetadata ∨
    ∃ token data, token ∉ c.mMetadata.map (fun entry => entry.1) ∧
      (call.run cenv env c).2.mMetadata = c.mMetadata ++ [(token, data)] := by
  cases call with
  | addExtensionAttribute tm extensionName code data =>
    rcases addExtensionAttribute_metadata env tm c extensionName code data with h | ⟨t, ht, h⟩
    · exact Or.inl h
    · exact Or.inr ⟨t, data, ht, h⟩
  | setPreference p =>
    left
    show (CompilationBuilder.setPreference cenv c p).2.mMetadata = _
    unfold CompilationBuilder.setPreference
    repeat' first | rfl | split
  | setCaching d token =>
    left
    show (CompilationBuilder.setCaching c d token).2.mMetadata = _
    unfold CompilationBuilder.setCaching
    repeat' first | rfl | split
  | setCachingFromFds m d token =>
    left
    show (CompilationBuilder.setCachingFromFds c m d token).2.mMetadata = _
    unfold CompilationBuilder.setCachingFromFds
    repeat' first | rfl | split
  | setPriority p =>
    left
    show (CompilationBuilder.setPriority c p).2.mMetadata = _
    unfold CompilationBuilder.setPriority
    repeat' first | rfl | split
  | setTimeoutDuration d =>
    left
    show (CompilationBuilder.setTimeoutDuration c d).2.mMetadata = _
    unfold CompilationBuilder.setTimeoutDuration
    repeat' first | rfl | split
  | forTest_setPartitioning p =>
    left
    show (CompilationBuilder.forTest_setPartitioning c p).2.mMetadata = _
    unfold CompilationBuilder.forTest_setPartitioning
    repeat' first | rfl | split
  | forTest_failPartitioning p =>
    left
    show (CompilationBuilder.forTest_failPartitioning c p).2.mMetadata = _
    unfold CompilationBuilder.forTest_failPartitioning
    repeat' first | rfl | split
  | finish =>
    left
    show (CompilationBuilder.finish cenv c).2.mMetadata = _
    have hs : (CompilationBuilder.started c).mMetadata = c.mMetadata := by
      unfold CompilationBuilder.started
      dsimp only
      split <;> rfl
    unfold CompilationBuilder.finish CompilationBuilder.fallbackToCpu
    repeat' first | rfl | exact hs | split | (dsimp only)

theorem call_tokensDistinct (cenv : CompilationEnv) (env : Env) (call : CompilationBuilder.Call)
    (c : CompilationBuilder) (h : c.TokensDistinct) :
    (call.run cenv env c).2.TokensDistinct := by
  unfold CompilationBuilder.TokensDistinct at h ⊢
  rcases call_metadata cenv env call c with h1 | ⟨t, d, ht, h1⟩
  · rw [h1]
    exact h
  · rw [h1, List.map_append]
    apply List.Nodup.append h (List.nodup_singleton _)
    intro a ha hb
    rw [List.mem_singleton] at hb
    subst hb
    exact ht ha

theorem runCalls_tokensDistinct (cenv : CompilationEnv) (env : Env)
    (calls : List CompilationBuilder.Call) :
    ∀ (c : CompilationBuilder), c.TokensDistinct →
      (CompilationBuilder.runCalls cenv env calls c).TokensDistinct := by
  induction calls with
  | nil => intro c hc; exact hc
  | cons call rest ih =>
    intro c hc
    exact ih _ (call_tokensDistinct cenv env call c hc)

theorem compilation_tokensDistinct (cenv : CompilationEnv) (env : Env) (c : CompilationBuilder)
    (h : CompilationBuilder.Reachable cenv env c) : c.TokensDistinct := by
  obtain ⟨model, devices, e, calls, rfl⟩ := h
  apply runCalls_tokensDistinct
  exact List.nodup_nil

/-- C31: on every compilation that a sequence of calls produces, the tokens of the metadata
are pairwise distinct; `addExtensionAttribute` returns `BAD_STATE` and changes nothing when
the compilation is finished, which it is after every sequence of calls that contains
`finish`; on an unfinished compilation it returns `BAD_DATA` and changes nothing when the
compilation has no explicit device list or not exactly one device, and, with one explicit
device, when the token of the attribute is already in the metadata; with a new token it
returns `NO_ERROR` and appends the attribute. -/
theorem C31_addExtensionAttribute (cenv : CompilationEnv) (env : Env) (c : CompilationBuilder)
    (h : CompilationBuilder.Reachable cenv env c) (tm : TypeManager) (extensionName : String)
    (code : Nat) (data : List Nat) :
    c.TokensDistinct ∧
    (∀ calls1 calls2,
      (CompilationBuilder.addExtensionAttribute env tm
        (CompilationBuilder.runCalls cenv env
          (calls1 ++ CompilationBuilder.Call.finish :: calls2) c)
        extensionName code data).1 = ANEURALNETWORKS_BAD_STATE) ∧
    (c.mFinished = true →
      CompilationBuilder.addExtensionAttribute env tm c extensionName code data =
        (ANEURALNETWORKS_BAD_STATE, c, tm)) ∧
    (c.mFinished = false → (c.mExplicitDeviceList = false ∨ c.mDevices.length ≠ 1) →
      CompilationBuilder.addExtensionAttribute env tm c extensionName code data =
        (ANEURALNETWORKS_BAD_DATA, c, tm)) ∧
    (c.mFinished = false → c.mExplicitDeviceList = true → c.mDevices.length = 1 →
      ∀ token tm1, TypeManager.getExtensionType env tm extensionName code = (some token, tm1) →
      (token ∈ c.mMetadata.map (fun entry => entry.1) →
        CompilationBuilder.addExtensionAttribute env tm c extensionName code data =
          (ANEURALNETWORKS_BAD_DATA, c, tm1)) ∧
      (token ∉ c.mMetadata.map (fun entry => entry.1) →
        CompilationBuilder.addExtensionAttribute env tm c extensionName code data =
          (ANEURALNETWORKS_NO_ERROR,
            { c with mMetadata := c.mMetadata ++ [(token, data)] }, tm1))) := by
  refine ⟨compilation_tokensDistinct cenv env c h, ?_, ?_, ?_, ?_⟩
  · intro calls1 calls2
    have hf : (CompilationBuilder.runCalls cenv env
        (calls1 ++ CompilationBuilder.Call.finish :: calls2) c).mFinished = true := by
      rw [compilation_runCalls_append]
      exact runCalls_mFinished cenv env calls2 _ (finish_mFinished cenv _)
    unfold CompilationBuilder.addExtensionAttribute
    rw [if_pos hf]
  · intro hf
    unfold CompilationBuilder.addExtensionAttribute
    rw [if_pos hf]
  · intro hf hd
    unfold CompilationBuilder.addExtensionAttribute
    rw [hf]
    rcases hd with hd | hd
    · rw [hd]
      rfl
    · simp [hd]
  · intro hf he hd token tm1 ht
    have hany : c.mMetadata.any (fun entry => decide (token = entry.1)) = true ↔
        token ∈ c.mMetadata.map (fun entry => entry.1) := by
      rw [List.any_eq_true, List.mem_map]
      constructor
      · rintro ⟨entry, hm, heq⟩
        exact ⟨entry, hm, (of_decide_eq_true heq).symm⟩
      · rintro ⟨entry, hm, heq⟩
        exact ⟨entry, hm, decide_eq_true heq.symm⟩
    unfold CompilationBuilder.addExtensionAttribute
    rw [hf, he, hd, ht]
    constructor
    · intro hmem
      simp only [hany.2 hmem]
      simp
    · intro hmem
      have hn : c.mMetadata.any (fun entry => decide (token = entry.1)) = false := by
        rw [← Bool.not_eq_true, hany]
        exact hmem
      simp only [hn]
      simp

theorem C31_addExtensionAttribute_witness :
    (CompilationBuilder.runCalls sampleCompilationEnv sampleEnv attributeCalls
      oneDeviceCompilation).TokensDistinct ∧
    (CompilationBuilder.addExtensionAttribute sampleEnv (TypeManager.initial true)
      (CompilationBuilder.runCalls sampleCompilationEnv sampleEnv attributeCalls
        oneDeviceCompilation) "com.example.a" 2 []).1 = ANEURALNETWORKS_BAD_STATE :=
  ⟨(C31_addExtensionAttribute sampleCompilationEnv sampleEnv _
      ⟨{}, [7], true, attributeCalls, rfl⟩ (TypeManager.initial true) "com.example.a" 2 []).1,
    ((C31_addExtensionAttribute sampleCompilationEnv sampleEnv _
      ⟨{}, [7], true, attributeCalls, rfl⟩ (TypeManager.initial true) "com.example.a" 2 []).2.2.1
      (by decide)).symm ▸ rfl⟩

/-! ## Memory::validateSize -/

theorem validateSize_iff (size offset length : Nat) (h : offset + length < 2 ^ 32) :
    Memory.validateSize size offset length = true ↔ offset + length ≤ size := by
  unfold Memory.validateSize
  rw [Nat.mod_eq_of_lt h]
  by_cases hs : offset + length > size
  · rw [if_pos hs]
    constructor
    · intro hh
      exact absurd hh Bool.false_ne_true
    · intro hh
      omega
  · rw [if_neg hs]
    constructor
    · intro _
      omega
    · intro _
      rfl

/-- C35: `validateSize` adds its two 32-bit arguments in 32 bits. When the sum passes `2^32`
and what is left of it is at most the size of the memory, the function returns true for a
region that does not fit in the memory. -/
theorem C35_validateSize_wraps (size offset length : Nat) (ho : offset < 2 ^ 32)
    (hl : length < 2 ^ 32) (hw : 2 ^ 32 ≤ offset + length)
    (hs : offset + length - 2 ^ 32 ≤ size) (hfit : size < offset + length) :
    Memory.validateSize size offset length = true ∧ ¬ (offset + length ≤ size) := by
  unfold Memory.validateSize
  have hm : (offset + length) % 2 ^ 32 = offset + length - 2 ^ 32 := by
    rw [Nat.mod_eq_sub_mod hw]
    apply Nat.mod_eq_of_lt
    omega
  rw [hm, if_neg (by omega)]
  exact ⟨rfl, by omega⟩

theorem C35_validateSize_wraps_witness :
    Memory.validateSize 16 4294967295 1 = true ∧ ¬ (4294967295 + 1 ≤ 16) :=
  C35_validateSize_wraps 16 4294967295 1 (by decide) (by decide) (by decide) (by decide)
    (by decide)

/-! ## The lifetime check of the consolidation -/

theorem assignLargeValueOffsets_aborts (env : Env) :
    ∀ (values : List LargeValue) (poolSize : Nat) (operands : List Operand),
      (∃ l ∈ values, ∀ o, operands.get? l.operandIndex = some o →
        o.lifetime ≠ LifeTime.CONSTANT_REFERENCE) →
      assignLargeValueOffsets env values poolSize operands = .abort := by
  intro values
  induction values with
  | nil =>
    intro poolSize operands h
    obtain ⟨l, hl, _⟩ := h
    exact absurd hl (List.not_mem_nil l)
  | cons l0 rest ih =>
    intro poolSize operands h
    obtain ⟨l, hl, hlife⟩ := h
    unfold assignLargeValueOffsets
    split
    · rfl
    · rename_i operand hop
      by_cases hcr : operand.lifetime ≠ LifeTime.CONSTANT_REFERENCE
      · rw [if_pos hcr]
      · rw [if_neg hcr]
        have hcr2 : operand.lifetime = LifeTime.CONSTANT_REFERENCE := not_not.mp hcr
        have hne : l ≠ l0 := by
          intro heq
          subst heq
          exact hlife operand hop hcr2
        have hmem : l ∈ rest := by
          rcases List.mem_cons.mp hl with h1 | h1
          · exact absurd h1 hne
          · exact h1
        apply ih
        refine ⟨l, hmem, ?_⟩
        intro o ho
        by_cases hidx : l0.operandIndex = l.operandIndex
        · exfalso
          rw [hidx] at hop
          exact hlife operand hop hcr2
        · rw [get?_set_ne _ _ _ _ hidx] at ho
          exact hlife o ho

/-- C34: when an entry of the deferred list refers to an operand whose lifetime is no longer
`CONSTANT_REFERENCE`, the check at the start of the first loop of
`copyLargeValuesToSharedMemory` fails and `finish` does not return. The builder of the
witness is reached by `addOperand`, `setOperandValue(0, buffer, 132)` and
`setOperandValue(0, nullptr, 0)`: the last call sets the lifetime `NO_VALUE` and leaves the
entry in the list. -/
theorem C34_lifetime_check_fails (env : Env) (tm : TypeManager) (heap : Heap) (fuel : Nat)
    (b : ModelBuilder) (hc : b.mCompletedModel = false) (hi : b.mInvalidModel = false)
    (l : LargeValue) (hl : l ∈ b.mLargeOperandValues) (o : Operand)
    (ho : b.mOperands.get? l.operandIndex = some o)
    (hlife : o.lifetime ≠ LifeTime.CONSTANT_REFERENCE) :
    copyLargeValuesToSharedMemory env b = .abort ∧ b.finish env tm heap fuel = .abort := by
  have hcopy : copyLargeValuesToSharedMemory env b = .abort := by
    unfold copyLargeValuesToSharedMemory
    have hne : b.mLargeOperandValues.isEmpty = false := by
      cases hb : b.mLargeOperandValues with
      | nil => rw [hb] at hl; exact absurd hl (List.not_mem_nil l)
      | cons x xs => rfl
    rw [hne, if_neg Bool.false_ne_true,
      assignLargeValueOffsets_aborts env _ 0 _ ⟨l, hl, fun o2 ho2 => by
        rw [ho] at ho2
        exact (Option.some.inj ho2) ▸ hlife⟩]
    rfl
  refine ⟨hcopy, ?_⟩
  unfold ModelBuilder.finish
  rw [hc, hi, if_neg Bool.false_ne_true, if_neg Bool.false_ne_true, hcopy]
  rfl

theorem C34_lifetime_check_fails_witness :
    Reachable sampleEnv resetLargeValueBuilder ∧
    copyLargeValuesToSharedMemory sampleEnv resetLargeValueBuilder = .abort ∧
    resetLargeValueBuilder.finish sampleEnv sampleTypeManager emptyHeap 0 = .abort :=
  ⟨reachable_runCalls sampleEnv sampleTypeManager emptyHeap 0 resetLargeValueCalls {} _
      Reachable.init (by decide),
    C34_lifetime_check_fails sampleEnv sampleTypeManager emptyHeap 0 resetLargeValueBuilder
      rfl rfl { operandIndex := 0, buffer := { addr := 1, bytes := List.replicate 132 7 } }
      (by decide) _ rfl (by decide)⟩

/-! ## Looking up an operand type of an extension -/

theorem getD_type_of_lt (l : List OperandTypeInformation) (i : Nat) (h : i < l.length) :
    l.getD i ⟨0, false, 0⟩ = l.get ⟨i, h⟩ := by
  rw [List.getD_eq_getElem?_getD, List.getElem?_eq_getElem h]
  rfl

/-- The loop of `std::lower_bound` on a list ordered by code: it stops at the first position
whose code is not below the code sought. -/
theorem lowerBoundLoop_spec (l : List OperandTypeInformation) (k : Nat)
    (hmono : ∀ i j, i ≤ j → j < l.length →
      (l.getD i ⟨0, false, 0⟩).type ≤ (l.getD j ⟨0, false, 0⟩).type) :
    ∀ (fuel first count : Nat), count ≤ fuel → first + count ≤ l.length →
      (∀ i, i < first → (l.getD i ⟨0, false, 0⟩).type < k) →
      (∀ i, first + count ≤ i → i < l.length → k ≤ (l.getD i ⟨0, false, 0⟩).type) →
      TypeManager.lowerBoundLoop l k fuel first count ≤ l.length ∧
      (∀ i, i < TypeManager.lowerBoundLoop l k fuel first count →
        (l.getD i ⟨0, false, 0⟩).type < k) ∧
      (∀ i, TypeManager.lowerBoundLoop l k fuel first count ≤ i → i < l.length →
        k ≤ (l.getD i ⟨0, false, 0⟩).type) := by
  intro fuel
  induction fuel with
  | zero =>
    intro first count hc hlen hlow hhigh
    have h0 : count = 0 := Nat.le_zero.mp hc
    subst h0
    unfold TypeManager.lowerBoundLoop
    exact ⟨hlen, hlow, fun i hi hl => hhigh i (by omega) hl⟩
  | succ fuel ih =>
    intro first count hc hlen hlow hhigh
    unfold TypeManager.lowerBoundLoop
    by_cases hpos : count > 0
    · rw [if_pos hpos]
      dsimp only
      have hstep : count / 2 < count := Nat.div_lt_self hpos (by decide)
      by_cases hlt : (l.getD (first + count / 2) ⟨0, false, 0⟩).type < k
      · rw [if_pos hlt]
        apply ih
        · omega
        · omega
        · intro i hi
          exact Nat.lt_of_le_of_lt (hmono i (first + count / 2) (by omega) (by omega)) hlt
        · intro i hi hl
          exact hhigh i (by omega) hl
      · rw [if_neg hlt]
        apply ih
        · omega
        · omega
        · exact hlow
        · intro i hi hl
          exact Nat.le_trans (Nat.le_of_not_lt hlt) (hmono (first + count / 2) i hi hl)
    · rw [if_neg hpos]
      exact ⟨by omega, hlow, fun i hi hl => hhigh i (by omega) hl⟩

theorem sorted_mono (l : List OperandTypeInformation)
    (hs : l.Sorted (fun a b => a.type % 2 ^ 16 ≤ b.type % 2 ^ 16))
    (hcodes : ∀ info ∈ l, info.type < 2 ^ 16) :
    ∀ i j, i ≤ j → j < l.length →
      (l.getD i ⟨0, false, 0⟩).type ≤ (l.getD j ⟨0, false, 0⟩).type := by
  intro i j hij hj
  have hi : i < l.length := Nat.lt_of_le_of_lt hij hj
  rw [getD_type_of_lt l i hi, getD_type_of_lt l j hj]
  rcases Nat.eq_or_lt_of_le hij with heq | hlt
  · subst heq
    exact Nat.le_refl _
  · have h := List.pairwise_iff_get.mp hs ⟨i, hi⟩ ⟨j, hj⟩ hlt
    rw [Nat.mod_eq_of_lt (hcodes _ (List.get_mem l i hi)),
      Nat.mod_eq_of_lt (hcodes _ (List.get_mem l j hj))] at h
    exact h

/-- What `std::lower_bound` finds in a list ordered by code. -/
theorem lowerBound_spec (l : List OperandTypeInformation) (k : Nat)
    (hs : l.Sorted (fun a b => a.type % 2 ^ 16 ≤ b.type % 2 ^ 16))
    (hcodes : ∀ info ∈ l, info.type < 2 ^ 16) :
    ((∃ info, l.get? (TypeManager.lowerBound l k) = some info ∧ info.type = k) ↔
      ∃ info ∈ l, info.type = k) := by
  have hmono := sorted_mono l hs hcodes
  obtain ⟨hr, hlow, hhigh⟩ := lowerBoundLoop_spec l k hmono l.length 0 l.length (Nat.le_refl _)
    (by omega) (fun i hi => absurd hi (Nat.not_lt_zero i)) (fun i hi hl => by omega)
  constructor
  · rintro ⟨info, hget, ht⟩
    exact ⟨info, List.get?_mem hget, ht⟩
  · rintro ⟨info, hmem, ht⟩
    obtain ⟨⟨j, hj⟩, hjeq⟩ := List.mem_iff_get.mp hmem
    have hfj : (l.getD j ⟨0, false, 0⟩).type = k := by
      rw [getD_type_of_lt l j hj, hjeq, ht]
    have hrj : TypeManager.lowerBound l k ≤ j := by
      by_contra hne
      have := hlow j (Nat.lt_of_not_le hne)
      omega
    have hrlt : TypeManager.lowerBound l k < l.length := Nat.lt_of_le_of_lt hrj hj
    refine ⟨l.get ⟨_, hrlt⟩, List.get?_eq_get hrlt, ?_⟩
    have h1 : k ≤ (l.getD (TypeManager.lowerBound l k) ⟨0, false, 0⟩).type :=
      hhigh _ (Nat.le_refl _) hrlt
    have h2 := hmono _ j hrj hj
    rw [getD_type_of_lt l _ hrlt] at h1 h2
    show (l.get ⟨TypeManager.lowerBound l k, hrlt⟩).type = k
    omega

theorem sortOperandTypes_sorted (l : List OperandTypeInformation) :
    (TypeManager.sortOperandTypes l).Sorted (fun a b => a.type % 2 ^ 16 ≤ b.type % 2 ^ 16) := by
  haveI : IsTotal OperandTypeInformation (fun a b => a.type % 2 ^ 16 ≤ b.type % 2 ^ 16) :=
    ⟨fun a b => Nat.le_total _ _⟩
  haveI : IsTrans OperandTypeInformation (fun a b => a.type % 2 ^ 16 ≤ b.type % 2 ^ 16) :=
    ⟨fun a b c h1 h2 => Nat.le_trans h1 h2⟩
  exact List.sorted_insertionSort _ l

theorem sortOperandTypes_perm (l : List OperandTypeInformation) :
    (TypeManager.sortOperandTypes l).Perm l :=
  List.perm_insertionSort _ l

theorem registrySorted_initial (allowed : Bool) :
    (TypeManager.initial allowed).RegistrySorted := by
  intro e he
  exact absurd he (List.not_mem_nil e)

theorem registrySorted_append (tm : TypeManager) (h : tm.RegistrySorted) (e : String × Extension)
    (he : e.2.operandTypes.Sorted (fun a b => a.type % 2 ^ 16 ≤ b.type % 2 ^ 16)) :
    ∀ x ∈ tm.mExtensionNameToExtension ++ [e],
      x.2.operandTypes.Sorted (fun a b => a.type % 2 ^ 16 ≤ b.type % 2 ^ 16) := by
  intro x hx
  rcases List.mem_append.mp hx with h1 | h1
  · exact h x h1
  · rw [List.mem_singleton] at h1
    subst h1
    exact he

theorem registerExtension_sorted (tm : TypeManager) (h : tm.RegistrySorted)
    (extension : Extension) (deviceName : String) :
    (tm.registerExtension extension deviceName).2.RegistrySorted := by
  unfold TypeManager.registerExtension
  split
  · exact h
  · dsimp only
    split
    · exact registrySorted_append tm h _ (sortOperandTypes_sorted _)
    · split
      · intro x hx
        exact h x (List.mem_of_mem_filter hx)
      · exact h

theorem getExtensionPrefix_sorted (env : Env) (tm : TypeManager) (h : tm.RegistrySorted)
    (name : String) : (TypeManager.getExtensionPrefix env tm name).2.RegistrySorted := by
  unfold TypeManager.getExtensionPrefix
  split
  · exact h
  · split
    · exact h
    · dsimp only
      intro x hx
      split at hx
      · exact registrySorted_append tm h _ List.sorted_nil x hx
      · exact h x hx

theorem tmReachable_sorted (env : Env) (tm : TypeManager) (h : TypeManager.Reachable env tm) :
    tm.RegistrySorted := by
  obtain ⟨allowed, calls, e⟩ := h
  rw [e]
  have hgen : ∀ (calls : List TypeManager.Call) (tm0 : TypeManager), tm0.RegistrySorted →
      (TypeManager.runCalls env calls tm0).RegistrySorted := by
    intro calls
    induction calls with
    | nil => intro tm0 h0; exact h0
    | cons c rest ih =>
      intro tm0 h0
      apply ih
      cases c with
      | registerExtension extension deviceName =>
        exact registerExtension_sorted tm0 h0 extension deviceName
      | getExtensionPrefix name => exact getExtensionPrefix_sorted env tm0 h0 name
  exact hgen calls _ (registrySorted_initial allowed)

theorem lookup_mem {β : Type} (l : List (String × β)) (k : String) (v : β)
    (h : l.lookup k = some v) : (k, v) ∈ l := by
  obtain ⟨i, hi⟩ := lookup_get l k v h
  exact List.get?_mem hi

/-- What a successful `registerExtension` leaves under the name of the extension: the
operand types that the device listed, in the order of their codes. -/
theorem registerExtension_stored (tm : TypeManager) (extension : Extension)
    (deviceName : String) (tm1 : TypeManager)
    (h : tm.registerExtension extension deviceName = (true, tm1)) :
    tm1.mExtensionNameToExtension.lookup extension.name =
      some { extension with operandTypes := TypeManager.sortOperandTypes extension.operandTypes } := by
  unfold TypeManager.registerExtension at h
  split at h
  · cases h
  · dsimp only at h
    split at h
    · rename_i hnone
      cases h
      show List.lookup extension.name (tm.mExtensionNameToExtension ++ _) = _
      rw [lookup_append_of_none _ _ _ hnone]
      exact lookup_singleton_self _ _
    · rename_i existing hsome
      split at h
      · cases h
      · rename_i heq
        cases h
        rw [hsome]
        have he : TypeManager.equal
            { extension with
              operandTypes := TypeManager.sortOperandTypes extension.operandTypes } existing =
            true := by
          cases hb : TypeManager.equal
            { extension with
              operandTypes := TypeManager.sortOperandTypes extension.operandTypes } existing with
          | true => rfl
          | false => rw [hb] at heq; exact absurd rfl heq
        unfold TypeManager.equal at he
        dsimp only at he
        split at he
        · cases he
        · rename_i hname
          split at he
          · cases he
          · rename_i hops
            have hn : extension.name = existing.name := not_not.mp hname
            have ho : TypeManager.sortOperandTypes extension.operandTypes = existing.operandTypes :=
              not_not.mp hops
            cases existing
            simp only at hn ho
            subst hn ho
            rfl

/-- C33: in every state of the type manager that registrations and prefix requests produce,
when the prefix of `type` belongs to a name whose registry entry holds 16-bit codes,
`getExtensionOperandTypeInfo(type)` returns; it succeeds exactly when the entry holds an
operand type whose code is the low `kExtensionTypeBits` bits of `type`, and then it gives an
operand type of the entry with that code. The entry that a successful `registerExtension`
leaves is the list of the device, rearranged into the order of the codes. -/
theorem C33_operand_type_lookup (env : Env) (hbits : env.kExtensionTypeBits ≤ 16)
    (tm : TypeManager) (hreach : TypeManager.Reachable env tm) (type : OperandType)
    (name : String) (ext : Extension)
    (hinfo : tm.getExtensionInfo (prefixOfType env type) = some (some name))
    (hentry : tm.mExtensionNameToExtension.lookup name = some ext)
    (hcodes : ∀ info ∈ ext.operandTypes, info.type < 2 ^ 16) :
    (∃ r, tm.getExtensionOperandTypeInfo env type = .ret r ∧
      (r.isSome = true ↔
        ∃ info ∈ ext.operandTypes, info.type = type % 2 ^ 32 % 2 ^ env.kExtensionTypeBits) ∧
      (∀ info, r = some info →
        info ∈ ext.operandTypes ∧ info.type = type % 2 ^ 32 % 2 ^ env.kExtensionTypeBits)) ∧
    (∀ (tm0 tm1 : TypeManager) (listed : Extension) (deviceName : String),
      tm0.registerExtension listed deviceName = (true, tm1) →
      ∃ stored, tm1.mExtensionNameToExtension.lookup listed.name = some stored ∧
        stored.name = listed.name ∧ stored.operandTypes.Perm listed.operandTypes ∧
        stored.operandTypes.Sorted (fun a b => a.type % 2 ^ 16 ≤ b.type % 2 ^ 16)) := by
  constructor
  · have hsorted := tmReachable_sorted env tm hreach (name, ext) (lookup_mem _ _ _ hentry)
    have hk : type % 2 ^ 32 % 2 ^ env.kExtensionTypeBits % 2 ^ 16 =
        type % 2 ^ 32 % 2 ^ env.kExtensionTypeBits := by
      apply Nat.mod_eq_of_lt
      exact Nat.lt_of_lt_of_le (Nat.mod_lt _ (Nat.two_pow_pos _))
        (Nat.pow_le_pow_right (by decide) hbits)
    have hspec := lowerBound_spec ext.operandTypes
      (type % 2 ^ 32 % 2 ^ env.kExtensionTypeBits) hsorted hcodes
    unfold TypeManager.getExtensionOperandTypeInfo
    dsimp only
    unfold prefixOfType at hinfo
    rw [hinfo]
    dsimp only
    have hd : tm.deref (some name) = some ext := hentry
    rw [hd]
    dsimp only
    rw [hk]
    cases hget : ext.operandTypes.get?
        (TypeManager.lowerBound ext.operandTypes
          (type % 2 ^ 32 % 2 ^ env.kExtensionTypeBits)) with
    | none =>
      refine ⟨none, rfl, ?_, ?_⟩
      · constructor
        · intro h
          cases h
        · intro h
          obtain ⟨info, hg, _⟩ := hspec.2 h
          rw [hget] at hg
          cases hg
      · intro info h
        cases h
    | some found =>
      dsimp only
      by_cases heq : found.type = type % 2 ^ 32 % 2 ^ env.kExtensionTypeBits
      · rw [if_pos heq]
        refine ⟨some found, rfl, ?_, ?_⟩
        · constructor
          · intro _
            exact ⟨found, List.get?_mem hget, heq⟩
          · intro _
            rfl
        · intro info h
          cases h
          exact ⟨List.get?_mem hget, heq⟩
      · rw [if_neg heq]
        refine ⟨none, rfl, ?_, ?_⟩
        · constructor
          · intro h
            cases h
          · intro h
            obtain ⟨info, hg, ht⟩ := hspec.2 h
            rw [hget] at hg
            cases hg
            exact absurd ht heq
        · intro info h
          cases h
  · intro tm0 tm1 listed deviceName hreg
    exact ⟨_, registerExtension_stored tm0 listed deviceName tm1 hreg, rfl,
      sortOperandTypes_perm _, sortOperandTypes_sorted _⟩

theorem C33_operand_type_lookup_witness :
    ∃ r, TypeManager.getExtensionOperandTypeInfo sampleEnv extensionBTypeManager 65538 = .ret r ∧
      (r.isSome = true ↔
        ∃ info ∈ TypeManager.sortOperandTypes extensionB.operandTypes, info.type = 2) ∧
      (∀ info, r = some info →
        info ∈ TypeManager.sortOperandTypes extensionB.operandTypes ∧ info.type = 2) :=
  (C33_operand_type_lookup sampleEnv (by decide) extensionBTypeManager ⟨true, _, rfl⟩ 65538
    "com.example.b"
    { name := "com.example.b",
      operandTypes := TypeManager.sortOperandTypes extensionB.operandTypes }
    (by decide) (by decide) (by decide)).1

/-! ## The count of trailing arguments is in range -/

theorem getCount_returns (env : Env) (b : ModelBuilder) (op : Operation)
    (hread : InputsReadable b op) (hlen : op.inputs.length < 2 ^ 32) (start : Nat)
    (tail : List TailSpec) (hs : 1 ≤ start) (hlt : start < op.inputs.length)
    (htail : op.inputs.length - start ≤ tail.length) :
    ∃ n, countMatchingTrailingArguments env start tail op b.mOperands b.mSmallOperandValues =
      .ret n ∧ TrailingCount env b op n := by
  obtain ⟨n, hn⟩ := countMatching_returns env start tail b op hread hlen (by omega) htail
  exact ⟨n, hn, Or.inr ⟨start, tail, hs, hlt, htail, hn⟩⟩

theorem guardedCount_returns (env : Env) (b : ModelBuilder) (op : Operation)
    (hread : InputsReadable b op) (hlen : op.inputs.length < 2 ^ 32) (P : Nat → Prop)
    [DecidablePred P] (start : Nat) (tail : List TailSpec) (hs : 1 ≤ start)
    (hP : ∀ m, P m → start < m ∧ m - start ≤ tail.length) :
    ∃ n, (if P (op.inputs.length % 2 ^ 32) then
        countMatchingTrailingArguments env start tail op b.mOperands b.mSmallOperandValues
      else .ret 0) = .ret n ∧ TrailingCount env b op n := by
  rw [Nat.mod_eq_of_lt hlen]
  split
  · rename_i hp
    exact getCount_returns env b op hread hlen start tail hs (hP _ hp).1 (hP _ hp).2
  · exact ⟨0, rfl, Or.inl rfl⟩

theorem poolTrailing_returns (env : Env) (b : ModelBuilder) (op : Operation)
    (hread : InputsReadable b op) (hlen : op.inputs.length < 2 ^ 32) :
    ∃ n, poolTrailing env b op (op.inputs.length % 2 ^ 32) = .ret n ∧
      TrailingCount env b op n := by
  rw [Nat.mod_eq_of_lt hlen]
  unfold ModelBuilder.poolTrailing
  dsimp only
  split
  · rename_i hic
    obtain ⟨t, ht⟩ := inputOperandType_returns b op 7 hread (by omega)
    rw [ht]
    dsimp only [Exec.bind]
    split
    · exact getCount_returns env b op hread hlen 10 _ (by decide) (by omega)
        (by rw [hic]; decide)
    · exact ⟨0, rfl, Or.inl rfl⟩
  · split
    · rename_i hic
      obtain ⟨t, ht⟩ := inputOperandType_returns b op 7 hread (by omega)
      rw [ht]
      dsimp only [Exec.bind]
      split
      · exact getCount_returns env b op hread hlen 7 _ (by decide) (by omega)
          (by rw [hic]; decide)
      · exact ⟨0, rfl, Or.inl rfl⟩
    · exact ⟨0, rfl, Or.inl rfl⟩

theorem convTrailing_returns (env : Env) (b : ModelBuilder) (op : Operation) (k : Nat)
    (hk : 1 ≤ k) (hread : InputsReadable b op) (hlen : op.inputs.length < 2 ^ 32) :
    ∃ n, convTrailing env b op (op.inputs.length % 2 ^ 32) k = .ret n ∧
      TrailingCount env b op n := by
  rw [Nat.mod_eq_of_lt hlen]
  unfold ModelBuilder.convTrailing
  dsimp only
  split
  · rename_i hic
    obtain ⟨t, ht⟩ := inputOperandType_returns b op k hread (by omega)
    rw [ht]
    dsimp only [Exec.bind]
    split
    · obtain ⟨n, hn, hq⟩ := getCount_returns env b op hread hlen (k + 3)
        [.BOOL_FALSE, .INT32_ONE, .INT32_ONE] (by omega) (by omega)
        (by show op.inputs.length - (k + 3) ≤ 3; omega)
      rw [hn]
      dsimp only
      split
      · exact ⟨0, rfl, Or.inl rfl⟩
      · exact ⟨n, rfl, hq⟩
    · exact ⟨0, rfl, Or.inl rfl⟩
  · split
    · rename_i hic
      obtain ⟨t, ht⟩ := inputOperandType_returns b op k hread (by omega)
      rw [ht]
      dsimp only [Exec.bind]
      split
      · obtain ⟨n, hn, hq⟩ := getCount_returns env b op hread hlen k
          [.BOOL_FALSE, .INT32_ONE, .INT32_ONE] hk (by omega)
          (by show op.inputs.length - k ≤ 3; omega)
        rw [hn]
        dsimp only
        split
        · exact ⟨0, rfl, Or.inl rfl⟩
        · exact ⟨n, rfl, hq⟩
      · exact ⟨0, rfl, Or.inl rfl⟩
    · exact ⟨0, rfl, Or.inl rfl⟩

/-- Where the inputs of the operation can be read, `getNumTrailingArgumentsToRemove`
returns. -/
theorem getNumTrailingArgumentsToRemove_returns (env : Env) (b : ModelBuilder)
    (op : Operation) (hread : InputsReadable b op) (hlen : op.inputs.length < 2 ^ 32) :
    ∃ n, getNumTrailingArgumentsToRemove env b op = .ret n ∧ TrailingCount env b op n := by
  unfold ModelBuilder.getNumTrailingArgumentsToRemove
  dsimp only
  by_cases hn0 : op.type = OperationType.AVERAGE_POOL_2D
  · rw [if_pos hn0]
    exact poolTrailing_returns env b op hread hlen
  rw [if_neg hn0]
  by_cases hn1 : op.type = OperationType.CONV_2D
  · rw [if_pos hn1]
    exact convTrailing_returns env b op 7 (by decide) hread hlen
  rw [if_neg hn1]
  by_cases hn2 : op.type = OperationType.DEPTHWISE_CONV_2D
  · rw [if_pos hn2]
    exact convTrailing_returns env b op 8 (by decide) hread hlen
  rw [if_neg hn2]
  by_cases hn3 : op.type = OperationType.DEPTH_TO_SPACE
  · rw [if_pos hn3]
    exact guardedCount_returns env b op hread hlen (fun m => m = 3) 2 [.BOOL_FALSE] (by decide)
      (fun m hm => by subst hm; exact ⟨by decide, by decide⟩)
  rw [if_neg hn3]
  by_cases hn4 : op.type = OperationType.L2_NORMALIZATION
  · rw [if_pos hn4]
    exact guardedCount_returns env b op hread hlen (fun m => m = 2) 1 [.INT32_NEGATIVE_ONE]
      (by decide) (fun m hm => by subst hm; exact ⟨by decide, by decide⟩)
  rw [if_neg hn4]
  by_cases hn5 : op.type = OperationType.L2_POOL_2D
  · rw [if_pos hn5]
    exact poolTrailing_returns env b op hread hlen
  rw [if_neg hn5]
  by_cases hn6 : op.type = OperationType.LOCAL_RESPONSE_NORMALIZATION
  · rw [if_pos hn6]
    exact guardedCount_returns env b op hread hlen (fun m => m = 6) 5 [.INT32_NEGATIVE_ONE]
      (by decide) (fun m hm => by subst hm; exact ⟨by decide, by decide⟩)
  rw [if_neg hn6]
  by_cases hn7 : op.type = OperationType.MAX_POOL_2D
  · rw [if_pos hn7]
    exact poolTrailing_returns env b op hread hlen
  rw [if_neg hn7]
  by_cases hn8 : op.type = OperationType.RESIZE_BILINEAR
  · rw [if_pos hn8]
    exact guardedCount_returns env b op hread hlen (fun m => 3 < m ∧ m ≤ 6) 3
      [.BOOL_FALSE, .BOOL_FALSE, .BOOL_FALSE] (by decide)
      (fun m hm => ⟨hm.1, by show m - 3 ≤ 3; omega⟩)
  rw [if_neg hn8]
  by_cases hn9 : op.type = OperationType.SOFTMAX
  · rw [if_pos hn9]
    exact guardedCount_returns env b op hread hlen (fun m => m = 3) 2 [.INT32_NEGATIVE_ONE]
      (by decide) (fun m hm => by subst hm; exact ⟨by decide, by decide⟩)
  rw [if_neg hn9]
  by_cases hn10 : op.type = OperationType.SPACE_TO_DEPTH
  · rw [if_pos hn10]
    exact guardedCount_returns env b op hread hlen (fun m => m = 3) 2 [.BOOL_FALSE] (by decide)
      (fun m hm => by subst hm; exact ⟨by decide, by decide⟩)
  rw [if_neg hn10]
  by_cases hn11 : op.type = OperationType.BATCH_TO_SPACE_ND
  · rw [if_pos hn11]
    exact guardedCount_returns env b op hread hlen (fun m => m = 3) 2 [.BOOL_FALSE] (by decide)
      (fun m hm => by subst hm; exact ⟨by decide, by decide⟩)
  rw [if_neg hn11]
  by_cases hn12 : op.type = OperationType.SPACE_TO_BATCH_ND
  · rw [if_pos hn12]
    exact guardedCount_returns env b op hread hlen (fun m => m = 4) 3 [.BOOL_FALSE] (by decide)
      (fun m hm => by subst hm; exact ⟨by decide, by decide⟩)
  rw [if_neg hn12]
  by_cases hn13 : op.type = OperationType.RESIZE_NEAREST_NEIGHBOR
  · rw [if_pos hn13]
    exact guardedCount_returns env b op hread hlen (fun m => 4 < m ∧ m ≤ 6) 4
      [.BOOL_FALSE, .BOOL_FALSE] (by decide)
      (fun m hm => ⟨hm.1, by show m - 4 ≤ 2; omega⟩)
  rw [if_neg hn13]
  exact ⟨0, rfl, Or.inl rfl⟩

theorem trailingCount_lt (env : Env) (b : ModelBuilder) (op : Operation) (n : Nat)
    (hlen : op.inputs.length < 2 ^ 32) (h : TrailingCount env b op n) (hn : 0 < n) :
    ∃ start, 1 ≤ start ∧ start < op.inputs.length ∧ n ≤ op.inputs.length - start := by
  rcases h with h0 | ⟨start, tail, hs, hlt, _, hc⟩
  · omega
  · have hle := (countMatching_le env _ _ _ _ _ _ hc).1
    rw [Nat.mod_eq_of_lt hlen] at hle
    exact ⟨start, hs, hlt, hle⟩

theorem spaceToBatch_untouched (env : Env) (b : ModelBuilder) (op : Operation)
    (ht : op.type = OperationType.SPACE_TO_BATCH_ND) (hl : op.inputs.length = 3) :
    getNumTrailingArgumentsToRemove env b op = .ret 0 ∧
    removeTrailingArguments env b op = .ret op := by
  have h0 : getNumTrailingArgumentsToRemove env b op = .ret 0 := by
    unfold ModelBuilder.getNumTrailingArgumentsToRemove
    dsimp only
    rw [ht, hl]
    rfl
  refine ⟨h0, ?_⟩
  unfold ModelBuilder.removeTrailingArguments
  rw [h0]
  rfl

theorem removeTrailingArguments_returns (env : Env) (b : ModelBuilder) (op : Operation)
    (hread : InputsReadable b op) (hlen : op.inputs.length < 2 ^ 32) :
    ∃ n, getNumTrailingArgumentsToRemove env b op = .ret n ∧ TrailingCount env b op n ∧
      (n = 0 ∨ n < op.inputs.length) ∧
      removeTrailingArguments env b op =
        .ret { op with inputs := op.inputs.take (op.inputs.length - n) } := by
  obtain ⟨n, hn, hq⟩ := getNumTrailingArgumentsToRemove_returns env b op hread hlen
  refine ⟨n, hn, hq, ?_, ?_⟩
  · rcases Nat.eq_zero_or_pos n with h0 | hpos
    · exact Or.inl h0
    · obtain ⟨start, hs, hlt, hle⟩ := trailingCount_lt env b op n hlen hq hpos
      exact Or.inr (by omega)
  · rcases Nat.eq_zero_or_pos n with h0 | hpos
    · subst h0
      unfold ModelBuilder.removeTrailingArguments
      rw [hn]
      show Exec.ret op = _
      rw [Nat.sub_zero, List.take_length]
    · obtain ⟨start, hs, hlt, hle⟩ := trailingCount_lt env b op n hlen hq hpos
      rw [removeTrailingArguments_of_count env b op n hn (by omega) hlen,
        if_neg (by omega)]

theorem removeTrailingLoop_returns (env : Env) (b : ModelBuilder) :
    ∀ (ops : List Operation),
      (∀ o ∈ ops, InputsReadable b o ∧ o.inputs.length < 2 ^ 32) →
      ∃ ops1, removeTrailingLoop env b ops = .ret ops1 := by
  intro ops
  induction ops with
  | nil => intro _; exact ⟨[], rfl⟩
  | cons o rest ih =>
    intro h
    obtain ⟨n, _, _, _, hr⟩ := removeTrailingArguments_returns env b o
      (h o (List.mem_cons_self _ _)).1 (h o (List.mem_cons_self _ _)).2
    obtain ⟨rest1, hrest⟩ := ih (fun o2 ho2 => h o2 (List.mem_cons_of_mem _ ho2))
    unfold ModelBuilder.removeTrailingLoop
    rw [hr, hrest]
    exact ⟨_, rfl⟩

/-- C37, the input that the claim does not cover: for an operation without inputs
`getNumTrailingArgumentsToRemove` returns 0, which is not smaller than the number of its
inputs; the trimming leaves the operation as it is. -/
theorem C37_counterexample :
    getNumTrailingArgumentsToRemove sampleEnv {} noInputOperation = .ret 0 ∧
    noInputOperation.inputs.length = 0 ∧
    removeTrailingArguments sampleEnv {} noInputOperation = .ret noInputOperation := by
  decide

/-- C37 (amended): for every operation with fewer than `2 ^ 32` inputs whose inputs can be
read (they are indices of the operand table and the `CONSTANT_COPY` values of type `BOOL` and
`INT32` lie in the inline arena), `getNumTrailingArgumentsToRemove` returns a count that is 0
or strictly smaller than the number of inputs; a positive count is the count of matching
trailing arguments from a start index `start` with `1 ≤ start`, it is at most the number
`inputCount - start` of optional inputs present, and the tail specification has an entry for
each of them. The trimming returns the operation with the same type and outputs and with the
first `inputCount - count` inputs; an operation `SPACE_TO_BATCH_ND` with 3 inputs is returned
as it is; and the loop over the operations of a builder returns. -/
theorem C37_trailing_count_in_range (env : Env) (b : ModelBuilder) (op : Operation)
    (hread : InputsReadable b op) (hlen : op.inputs.length < 2 ^ 32) :
    ∃ n op1, getNumTrailingArgumentsToRemove env b op = .ret n ∧
      removeTrailingArguments env b op = .ret op1 ∧
      (n = 0 ∨ n < op.inputs.length) ∧
      (0 < n → ∃ start tail, 1 ≤ start ∧ start < op.inputs.length ∧
        op.inputs.length - start ≤ tail.length ∧ n ≤ op.inputs.length - start ∧
        countMatchingTrailingArguments env start tail op b.mOperands b.mSmallOperandValues =
          .ret n) ∧
      op1.type = op.type ∧ op1.outputs = op.outputs ∧
      op1.inputs = op.inputs.take (op.inputs.length - n) ∧
      (n = 0 → op1 = op) ∧
      (op.type = OperationType.SPACE_TO_BATCH_ND → op.inputs.length = 3 → n = 0) ∧
      (∀ ops : List Operation, (∀ o ∈ ops, InputsReadable b o ∧ o.inputs.length < 2 ^ 32) →
        ∃ ops1, removeTrailingLoop env b ops = .ret ops1) := by
  obtain ⟨n, hn, hq, hlt, hr⟩ := removeTrailingArguments_returns env b op hread hlen
  refine ⟨n, _, hn, hr, hlt, ?_, rfl, rfl, rfl, ?_, ?_, removeTrailingLoop_returns env b⟩
  · intro hpos
    rcases hq with h0 | ⟨start, tail, hs, hst, htail, hc⟩
    · omega
    · have hle := (countMatching_le env _ _ _ _ _ _ hc).1
      rw [Nat.mod_eq_of_lt hlen] at hle
      exact ⟨start, tail, hs, hst, htail, hle, hc⟩
  · intro h0
    subst h0
    show ({ op with inputs := op.inputs.take (op.inputs.length - 0) } : Operation) = op
    rw [Nat.sub_zero, List.take_length]
  · intro ht hl
    have h0 := (spaceToBatch_untouched env b op ht hl).1
    rw [hn] at h0
    injection h0

theorem C37_trailing_count_in_range_witness :
    ∃ n op1, getNumTrailingArgumentsToRemove sampleEnv (poolBuilder 0) poolOperation = .ret n ∧
      removeTrailingArguments sampleEnv (poolBuilder 0) poolOperation = .ret op1 ∧
      (n = 0 ∨ n < poolOperation.inputs.length) ∧
      op1.inputs = poolOperation.inputs.take (poolOperation.inputs.length - n) := by
  obtain ⟨n, op1, h1, h2, h3, _, _, _, h4, _⟩ :=
    C37_trailing_count_in_range sampleEnv (poolBuilder 0) poolOperation (by
      intro v hv
      have hv2 : v < 9 := by
        revert hv
        simp only [poolOperation, List.mem_cons, List.mem_singleton, List.not_mem_nil, or_false]
        omega
      interval_cases v <;> exact ⟨_, rfl, by decide⟩) (by decide)
  exact ⟨n, op1, h1, h2, h3, h4⟩

/-! ## The values held in the inline arena -/

theorem constantCopiesKept_refl (ops : List Operand) : ConstantCopiesKept ops ops :=
  fun _ o1 h hl => ⟨o1, h, hl, rfl, rfl, rfl⟩

theorem constantCopiesKept_trans {ops ops1 ops2 : List Operand}
    (h1 : ConstantCopiesKept ops ops1) (h2 : ConstantCopiesKept ops1 ops2) :
    ConstantCopiesKept ops ops2 := by
  intro i o2 hget hl
  obtain ⟨o1, hg1, hl1, e1, e2, e3⟩ := h2 i o2 hget hl
  obtain ⟨o, hg, hl0, f1, f2, f3⟩ := h1 i o1 hg1 hl1
  exact ⟨o, hg, hl0, f1.trans e1, f2.trans e2, f3.trans e3⟩

theorem get?_set_cases {α : Type} (l : List α) (i j : Nat) (x y : α)
    (h : (l.set i x).get? j = some y) : (i = j ∧ y = x) ∨ (i ≠ j ∧ l.get? j = some y) := by
  by_cases hij : i = j
  · subst hij
    left
    refine ⟨rfl, ?_⟩
    rw [List.get?_eq_getElem?] at h
    have hlt : i < (l.set i x).length := (List.getElem?_eq_some_iff.mp h).1
    rw [List.length_set] at hlt
    rw [List.getElem?_set_self hlt] at h
    exact (Option.some.inj h).symm
  · right
    rw [get?_set_ne _ _ _ _ hij] at h
    exact ⟨hij, h⟩

/-- Storing an operand whose lifetime is not `CONSTANT_COPY`. -/
theorem constantCopiesKept_set_other (ops : List Operand) (index : Nat) (o : Operand)
    (h : o.lifetime ≠ LifeTime.CONSTANT_COPY) : ConstantCopiesKept ops (ops.set index o) := by
  intro i o1 hget hl
  rcases get?_set_cases ops index i o o1 hget with ⟨_, e⟩ | ⟨_, hg⟩
  · rw [e] at hl
    exact absurd hl h
  · exact ⟨o1, hg, hl, rfl, rfl, rfl⟩

/-- Storing an operand that differs from the one at its index in other fields only. -/
theorem constantCopiesKept_set_same (ops : List Operand) (index : Nat) (old o : Operand)
    (hold : ops.get? index = some old) (h1 : o.lifetime = old.lifetime)
    (h2 : o.location = old.location) (h3 : o.type = old.type)
    (h4 : o.dimensions = old.dimensions) : ConstantCopiesKept ops (ops.set index o) := by
  intro i o1 hget hl
  rcases get?_set_cases ops index i o o1 hget with ⟨e0, e⟩ | ⟨_, hg⟩
  · subst e0
    subst e
    exact ⟨old, hold, h1 ▸ hl, h2.symm, h3.symm, h4.symm⟩
  · exact ⟨o1, hg, hl, rfl, rfl, rfl⟩

theorem constantCopiesKept_append (ops : List Operand) (o : Operand)
    (h : o.lifetime ≠ LifeTime.CONSTANT_COPY) : ConstantCopiesKept ops (ops ++ [o]) := by
  intro i o1 hget hl
  rw [List.get?_eq_getElem?] at hget
  by_cases hi : i < ops.length
  · rw [List.getElem?_append_left hi] at hget
    exact ⟨o1, by rw [List.get?_eq_getElem?]; exact hget, hl, rfl, rfl, rfl⟩
  · rw [List.getElem?_append_right (by omega)] at hget
    have hmem : o1 ∈ [o] := List.get?_mem (by rw [List.get?_eq_getElem?]; exact hget)
    rw [List.mem_singleton] at hmem
    rw [hmem] at hl
    exact absurd hl h

theorem constantCopyInv_of_kept (env : Env) (b b1 : ModelBuilder) (h : ConstantCopyInv env b)
    (harena : b.mSmallOperandValues.length ≤ b1.mSmallOperandValues.length)
    (hk : ConstantCopiesKept b.mOperands b1.mOperands) : ConstantCopyInv env b1 := by
  intro i o1 hget hl
  obtain ⟨o, hg, hl0, e1, e2, e3⟩ := hk i o1 hget hl
  obtain ⟨p1, p2, p3, p4⟩ := h i o hg hl0
  rw [e1] at p1 p2 p3
  refine ⟨p1, p2, by omega, ?_⟩
  intro hoem
  rw [e2, e3, e1] at p4
  exact p4 hoem

theorem setArgumentsLoop_kept (lifetime : LifeTime)
    (hl : lifetime ≠ LifeTime.CONSTANT_COPY) (vals : List Nat) :
    ∀ (i : Nat) (vec : List Nat) (operands : List Operand),
      ConstantCopiesKept operands (setArgumentsLoop lifetime i vals vec operands).2.2 := by
  induction vals with
  | nil => intro i vec operands; exact constantCopiesKept_refl _
  | cons v rest ih =>
    intro i vec operands
    unfold ModelBuilder.setArgumentsLoop
    split
    · exact constantCopiesKept_refl _
    · dsimp only
      split
      · exact constantCopiesKept_refl _
      · split
        · exact constantCopiesKept_refl _
        · exact constantCopiesKept_trans (constantCopiesKept_set_other _ _ _ hl) (ih _ _ _)

theorem setArguments_kept (lifetime : LifeTime) (hl : lifetime ≠ LifeTime.CONSTANT_COPY)
    (vec : List Nat) (operands : List Operand) (n : Nat) (list : Option (List Nat)) :
    ConstantCopiesKept operands (setArguments vec operands n list lifetime).2.2 := by
  unfold ModelBuilder.setArguments
  exact setArgumentsLoop_kept lifetime hl _ _ _ _

theorem assignLargeValueOffsets_kept (env : Env) (values : List LargeValue) :
    ∀ (poolSize : Nat) (ops : List Operand) (r : Nat × List Operand),
      assignLargeValueOffsets env values poolSize ops = .ret r →
      ConstantCopiesKept ops r.2 := by
  induction values with
  | nil =>
    intro p ops r h
    unfold assignLargeValueOffsets at h
    injection h with h
    subst h
    exact constantCopiesKept_refl _
  | cons x rest ih =>
    intro p ops r h
    unfold assignLargeValueOffsets at h
    split at h
    · cases h
    · rename_i operand hop
      split at h
      · cases h
      · rename_i hcr
        have hcr2 : operand.lifetime = LifeTime.CONSTANT_REFERENCE := not_not.mp hcr
        refine constantCopiesKept_trans (constantCopiesKept_set_other _ _ _ ?_) (ih _ _ _ h)
        show operand.lifetime ≠ LifeTime.CONSTANT_COPY
        rw [hcr2]
        intro hh
        cases hh

theorem copyLargeValues_kept (poolIndex : Nat) (values : List LargeValue) :
    ∀ (pool : List Nat) (ops : List Operand) (r : List Nat × List Operand),
      (∀ l ∈ values, ∀ o, ops.get? l.operandIndex = some o →
        o.lifetime ≠ LifeTime.CONSTANT_COPY) →
      copyLargeValues poolIndex values pool ops = .ret r →
      ConstantCopiesKept ops r.2 := by
  induction values with
  | nil =>
    intro p ops r _ h
    unfold copyLargeValues at h
    injection h with h
    subst h
    exact constantCopiesKept_refl _
  | cons x rest ih =>
    intro p ops r hv h
    unfold copyLargeValues at h
    split at h
    · cases h
    · rename_i operand hop
      dsimp only at h
      split at h
      · have hne := hv x (List.mem_cons_self _ _) operand hop
        refine constantCopiesKept_trans (constantCopiesKept_set_other _ _ _ ?_) (ih _ _ _ ?_ h)
        · exact hne
        · intro l hl o ho
          rcases get?_set_cases _ _ _ _ _ ho with ⟨_, e⟩ | ⟨_, hg⟩
          · rw [e]
            exact hne
          · exact hv l (List.mem_cons_of_mem _ hl) o hg
      · cases h

theorem lifetime_of_map_eq {ops ops1 : List Operand}
    (h : ops1.map (fun x => x.lifetime) = ops.map (fun x => x.lifetime)) (i : Nat)
    (o1 : Operand) (h1 : ops1.get? i = some o1) :
    ∃ o, ops.get? i = some o ∧ o.lifetime = o1.lifetime := by
  have h2 : (ops1.map (fun x => x.lifetime)).get? i = some o1.lifetime := by
    rw [List.get?_eq_getElem?, List.getElem?_map, ← List.get?_eq_getElem?, h1]
    rfl
  rw [h, List.get?_eq_getElem?, List.getElem?_map, ← List.get?_eq_getElem?] at h2
  cases hg : ops.get? i with
  | none => rw [hg] at h2; cases h2
  | some o =>
    rw [hg] at h2
    exact ⟨o, rfl, Option.some.inj h2⟩

theorem copyLargeValuesToSharedMemory_kept (env : Env) (b : ModelBuilder) (n : Int)
    (b1 : ModelBuilder) (h : copyLargeValuesToSharedMemory env b = .ret (n, b1)) :
    ConstantCopiesKept b.mOperands b1.mOperands := by
  unfold copyLargeValuesToSharedMemory at h
  split at h
  · injection h with h
    injection h with _ h
    subst h
    exact constantCopiesKept_refl _
  · rw [Exec.bind_eq_ret] at h
    obtain ⟨r1, h1, h⟩ := h
    have k1 := assignLargeValueOffsets_kept env _ _ _ _ h1
    have hlife := assignLargeValueOffsets_lifetimes env _ _ _ _ h1
    dsimp only at h
    split at h
    · injection h with h
      injection h with _ h
      subst h
      exact k1
    · split at h
      · cases h
      · rw [Exec.bind_eq_ret] at h
        obtain ⟨r2, h2, h⟩ := h
        injection h with h
        injection h with _ h
        subst h
        refine constantCopiesKept_trans k1 (copyLargeValues_kept _ _ _ _ _ ?_ h2)
        intro l hl o ho hcc
        obtain ⟨o0, hg0, hl0⟩ := lifetime_of_map_eq hlife _ o ho
        have habort : assignLargeValueOffsets env b.mLargeOperandValues 0 b.mOperands =
            .abort := by
          apply assignLargeValueOffsets_aborts
          refine ⟨l, hl, ?_⟩
          intro o' ho' hcr
          rw [hg0] at ho'
          have e := Option.some.inj ho'
          rw [← e, hl0, hcc] at hcr
          cases hcr
        rw [habort] at h1
        cases h1

theorem addOperand_kept (env : Env) (tm : TypeManager) (b : ModelBuilder)
    (type : ANeuralNetworksOperandType) :
    Ensures (fun b1 => b1.mSmallOperandValues = b.mSmallOperandValues ∧
        ConstantCopiesKept b.mOperands b1.mOperands) (b.addOperand env tm type) := by
  unfold ModelBuilder.addOperand
  repeat' first
    | (apply ensures_ret; first
        | exact ⟨rfl, constantCopiesKept_refl _⟩
        | exact ⟨rfl, constantCopiesKept_append _ _ (fun hh => LifeTime.noConfusion hh)⟩)
    | apply ensures_abort
    | (apply ensures_bind; intro _)
    | (dsimp only)
    | split

theorem setOperandValueFromMemory_kept (env : Env) (tm : TypeManager) (b : ModelBuilder)
    (index memory offset length : Nat) :
    Ensures (fun b1 => b1.mSmallOperandValues = b.mSmallOperandValues ∧
        ConstantCopiesKept b.mOperands b1.mOperands)
      (b.setOperandValueFromMemory env tm index memory offset length) := by
  unfold ModelBuilder.setOperandValueFromMemory
  repeat' first
    | (apply ensures_ret; first
        | exact ⟨rfl, constantCopiesKept_refl _⟩
        | exact ⟨rfl, constantCopiesKept_set_other _ _ _ (fun hh => LifeTime.noConfusion hh)⟩)
    | apply ensures_abort
    | (apply ensures_bind; intro _)
    | (dsimp only)
    | split

theorem setOperandValueFromModel_kept (env : Env) (tm : TypeManager) (heap : Heap)
    (fuel : Nat) (b : ModelBuilder) (index value : Nat) :
    Ensures (fun b1 => b1.mSmallOperandValues = b.mSmallOperandValues ∧
        ConstantCopiesKept b.mOperands b1.mOperands)
      (b.setOperandValueFromModel env tm heap fuel index value) := by
  unfold ModelBuilder.setOperandValueFromModel
  repeat' first
    | (apply ensures_ret; first
        | exact ⟨rfl, constantCopiesKept_refl _⟩
        | exact ⟨rfl, constantCopiesKept_set_other _ _ _ (fun hh => LifeTime.noConfusion hh)⟩)
    | apply ensures_abort
    | (apply ensures_bind; intro _)
    | (dsimp only)
    | split

theorem setOperandSymmPerChannelQuantParams_kept (env : Env) (b : ModelBuilder) (index : Nat)
    (channelQuant : ANeuralNetworksSymmPerChannelQuantParams) :
    Ensures (fun b1 => b1.mSmallOperandValues = b.mSmallOperandValues ∧
        ConstantCopiesKept b.mOperands b1.mOperands)
      (b.setOperandSymmPerChannelQuantParams env index channelQuant) := by
  unfold ModelBuilder.setOperandSymmPerChannelQuantParams
  repeat' first
    | (apply ensures_ret; first
        | exact ⟨rfl, constantCopiesKept_refl _⟩
        | (refine ⟨rfl, ?_⟩
           apply constantCopiesKept_set_same _ _ _ _ (by assumption) <;> rfl))
    | apply ensures_abort
    | (dsimp only)
    | split

theorem setOperandExtensionData_kept (env : Env) (b : ModelBuilder) (index : Nat)
    (data : Option (List Nat)) (length : Nat) :
    Ensures (fun b1 => b1.mSmallOperandValues = b.mSmallOperandValues ∧
        ConstantCopiesKept b.mOperands b1.mOperands)
      (b.setOperandExtensionData env index data length) := by
  unfold ModelBuilder.setOperandExtensionData
  repeat' first
    | (apply ensures_ret; first
        | exact ⟨rfl, constantCopiesKept_refl _⟩
        | (refine ⟨rfl, ?_⟩
           apply constantCopiesKept_set_same _ _ _ _ (by assumption) <;> rfl))
    | apply ensures_abort
    | (dsimp only)
    | split

theorem addOperation_kept (env : Env) (tm : TypeManager) (b : ModelBuilder)
    (type inputCount : Nat) (inputs : Option (List Nat)) (outputCount : Nat)
    (outputs : Option (List Nat)) :
    Ensures (fun b1 => b1.mSmallOperandValues = b.mSmallOperandValues ∧
        ConstantCopiesKept b.mOperands b1.mOperands)
      (b.addOperation env tm type inputCount inputs outputCount outputs) := by
  unfold ModelBuilder.addOperation
  repeat' first
    | (apply ensures_ret; exact ⟨rfl, constantCopiesKept_refl _⟩)
    | (dsimp only)
    | split

theorem identifyInputsAndOutputs_kept (env : Env) (b : ModelBuilder) (inputCount : Nat)
    (inputs : Option (List Nat)) (outputCount : Nat) (outputs : Option (List Nat)) :
    Ensures (fun b1 => b1.mSmallOperandValues = b.mSmallOperandValues ∧
        ConstantCopiesKept b.mOperands b1.mOperands)
      (b.identifyInputsAndOutputs env inputCount inputs outputCount outputs) := by
  have hin : LifeTime.SUBGRAPH_INPUT ≠ LifeTime.CONSTANT_COPY := fun hh => LifeTime.noConfusion hh
  have hout : LifeTime.SUBGRAPH_OUTPUT ≠ LifeTime.CONSTANT_COPY :=
    fun hh => LifeTime.noConfusion hh
  unfold ModelBuilder.identifyInputsAndOutputs
  repeat' first
    | (apply ensures_ret; first
        | exact ⟨rfl, constantCopiesKept_refl _⟩
        | exact ⟨rfl, setArguments_kept _ hin _ _ _ _⟩
        | exact ⟨rfl, constantCopiesKept_trans (setArguments_kept _ hin _ _ _ _)
            (setArguments_kept _ hout _ _ _ _)⟩)
    | (dsimp only)
    | split

theorem relax_kept (b : ModelBuilder) (allow : Bool) :
    Ensures (fun b1 => b1.mSmallOperandValues = b.mSmallOperandValues ∧
        ConstantCopiesKept b.mOperands b1.mOperands)
      (b.relaxComputationFloat32toFloat16 allow) := by
  unfold ModelBuilder.relaxComputationFloat32toFloat16
  split
  · exact ensures_ret _ _ _ ⟨rfl, constantCopiesKept_refl _⟩
  · exact ensures_ret _ _ _ ⟨rfl, constantCopiesKept_refl _⟩

theorem sortIntoRunOrder_arena (fuel : Nat) (b : ModelBuilder) (ok : Bool)
    (b1 : ModelBuilder) (h : sortIntoRunOrder fuel b = .ret (ok, b1)) :
    b1.mSmallOperandValues = b.mSmallOperandValues := by
  rcases sortIntoRunOrder_frame fuel b ok b1 h with h1 | ⟨_, _, _, _, h1⟩ <;> rw [h1]

theorem finish_kept (env : Env) (tm : TypeManager) (heap : Heap) (fuel : Nat)
    (b : ModelBuilder) :
    Ensures (fun b1 => b1.mSmallOperandValues = b.mSmallOperandValues ∧
        ConstantCopiesKept b.mOperands b1.mOperands) (b.finish env tm heap fuel) := by
  intro code b1 h
  rcases finish_cases env tm heap fuel b code b1 h with
    ⟨_, _, h1⟩ | ⟨_, _, _, h1⟩ | ⟨_, _, c, s, h1, h2, _, h3⟩ |
    ⟨_, _, c, s, m, h1, h2, _, _, _, h3⟩ | ⟨_, _, c, s, m, v, t, hash, h1, h2, _, _, _, h4, _, _, h3⟩
  · rw [h1]
    exact ⟨rfl, constantCopiesKept_refl _⟩
  · exact ⟨(copyLargeValuesToSharedMemory_frame env b _ _ h1).2.2.2.2.2.2.2.2,
      copyLargeValuesToSharedMemory_kept env b _ _ h1⟩
  · rw [h3]
    refine ⟨?_, ?_⟩
    · show s.mSmallOperandValues = _
      rw [sortIntoRunOrder_arena fuel c _ s h2,
        (copyLargeValuesToSharedMemory_frame env b _ _ h1).2.2.2.2.2.2.2.2]
    · show ConstantCopiesKept b.mOperands s.mOperands
      rw [sortIntoRunOrder_operands fuel c _ s h2]
      exact copyLargeValuesToSharedMemory_kept env b _ _ h1
  · rw [h3]
    refine ⟨?_, ?_⟩
    · show s.mSmallOperandValues = _
      rw [sortIntoRunOrder_arena fuel c _ s h2,
        (copyLargeValuesToSharedMemory_frame env b _ _ h1).2.2.2.2.2.2.2.2]
    · show ConstantCopiesKept b.mOperands s.mOperands
      rw [sortIntoRunOrder_operands fuel c _ s h2]
      exact copyLargeValuesToSharedMemory_kept env b _ _ h1
  · obtain ⟨ops, ht⟩ := removeTrailingArgumentsWithDefaultValues_frame env s t h4
    rw [h3, ht]
    refine ⟨?_, ?_⟩
    · show s.mSmallOperandValues = _
      rw [sortIntoRunOrder_arena fuel c _ s h2,
        (copyLargeValuesToSharedMemory_frame env b _ _ h1).2.2.2.2.2.2.2.2]
    · show ConstantCopiesKept b.mOperands s.mOperands
      rw [sortIntoRunOrder_operands fuel c _ s h2]
      exact copyLargeValuesToSharedMemory_kept env b _ _ h1

theorem length_writeBytes (v : List Nat) (offset : Nat) (data : List Nat)
    (h : offset + data.length ≤ v.length) : (writeBytes v offset data).length = v.length := by
  unfold ModelBuilder.writeBytes
  simp only [List.length_append, List.length_take, List.length_drop]
  omega

theorem length_resizeVector_eq (l : List Nat) (n : Nat) : (resizeVector l n).length = n := by
  unfold ModelBuilder.resizeVector
  simp only [List.length_append, List.length_take, List.length_replicate]
  omega

/-- `setOperandValue` keeps the invariant of the `CONSTANT_COPY` operands when the arena
stays below `2 ^ 32` bytes. -/
theorem setOperandValue_copyInv (env : Env) (tm : TypeManager) (b : ModelBuilder)
    (index : Nat) (buffer : Option Buffer) (length : Nat) (hinv : ConstantCopyInv env b)
    (hroom : (Call.setOperandValue index buffer length).keepsArenaBelow env b) :
    Ensures (ConstantCopyInv env) (b.setOperandValue env tm index buffer length) := by
  have hsame : ∀ (c code : Int) (b1 : ModelBuilder),
      Exec.ret (c, b) = Exec.ret (code, b1) → ConstantCopyInv env b1 := by
    intro c code b1 he
    injection he with he
    injection he with _ he
    rw [← he]
    exact hinv
  intro code b1 h
  unfold ModelBuilder.setOperandValue at h
  split at h
  · exact hsame _ _ _ h
  split at h
  · exact hsame _ _ _ h
  split at h
  · cases h
  rename_i operand hop
  split at h
  · exact hsame _ _ _ h
  rename_i hsized
  split at h
  · injection h with h
    injection h with _ h
    rw [← h]
    exact constantCopyInv_of_kept env b _ hinv (Nat.le_refl _)
      (constantCopiesKept_set_other _ _ _ (fun hh => LifeTime.noConfusion hh))
  rename_i buf
  rw [Exec.bind_eq_ret] at h
  obtain ⟨isTensor, _, h⟩ := h
  split at h
  · exact hsame _ _ _ h
  split at h
  · exact hsame _ _ _ h
  dsimp only at h
  rw [Exec.bind_eq_ret] at h
  obtain ⟨wrongLength, hw, h⟩ := h
  split at h
  · exact hsame _ _ _ h
  rename_i hwrong
  split at h
  · rename_i hsmall
    have hr : b.mSmallOperandValues.length +
        env.alignBytesNeeded b.mSmallOperandValues.length length + length < 2 ^ 32 :=
      hroom hsmall
    have e1 : b.mSmallOperandValues.length % 2 ^ 32 = b.mSmallOperandValues.length :=
      Nat.mod_eq_of_lt (by omega)
    have e2 : env.alignBytesNeeded b.mSmallOperandValues.length length % 2 ^ 32 =
        env.alignBytesNeeded b.mSmallOperandValues.length length :=
      Nat.mod_eq_of_lt (by omega)
    rw [e1, e2, Nat.mod_eq_of_lt hr, Nat.mod_eq_of_lt (by omega)] at h
    split at h
    swap
    · cases h
    rename_i hfit
    injection h with h
    injection h with _ h
    have hlen1 : 1 ≤ length := by
      cases hz : length with
      | zero =>
        exfalso
        apply hsized
        rw [hz]
        rfl
      | succ k => omega
    have harena : b1.mSmallOperandValues.length =
        b.mSmallOperandValues.length +
          env.alignBytesNeeded b.mSmallOperandValues.length length + length := by
      rw [← h]
      show (writeBytes _ _ _).length = _
      rw [length_writeBytes _ _ _ (by rw [length_readN]; exact hfit), length_resizeVector_eq]
    intro i o1 hget hl
    rw [← h] at hget
    rcases get?_set_cases _ _ _ _ _ hget with ⟨_, e⟩ | ⟨_, hg⟩
    · rw [e]
      refine ⟨rfl, hlen1, ?_, ?_⟩
      · rw [harena]
      · intro hoem
        have hoem2 : operand.type ≠ OperandType.OEM := hoem
        rw [if_pos hoem2, Exec.bind_eq_ret] at hw
        obtain ⟨needed, hneeded, hdec⟩ := hw
        injection hdec with hdec
        have hwf : wrongLength = false := by
          cases wrongLength with
          | false => rfl
          | true => exact absurd rfl hwrong
        rw [hwf] at hdec
        have hnl : needed = length := by
          by_contra hne
          rw [decide_eq_true hne] at hdec
          cases hdec
        exact ⟨tm, by rw [← hnl]; exact hneeded⟩
    · obtain ⟨p1, p2, p3, p4⟩ := hinv i o1 hg hl
      exact ⟨p1, p2, by omega, p4⟩
  · injection h with h
    injection h with _ h
    rw [← h]
    exact constantCopyInv_of_kept env b _ hinv (Nat.le_refl _)
      (constantCopiesKept_set_other _ _ _ (fun hh => LifeTime.noConfusion hh))

/-- Every call keeps the invariant of the `CONSTANT_COPY` operands when the arena stays below
`2 ^ 32` bytes. -/
theorem run_copyInv (env : Env) (tm : TypeManager) (heap : Heap) (fuel : Nat) (call : Call)
    (b : ModelBuilder) (hinv : ConstantCopyInv env b) (hroom : call.keepsArenaBelow env b) :
    Ensures (ConstantCopyInv env) (call.run env tm heap fuel b) := by
  have hk : ∀ (r : Exec (Int × ModelBuilder)),
      Ensures (fun b1 => b1.mSmallOperandValues = b.mSmallOperandValues ∧
        ConstantCopiesKept b.mOperands b1.mOperands) r → Ensures (ConstantCopyInv env) r := by
    intro r hr code b1 h
    obtain ⟨h1, h2⟩ := hr code b1 h
    exact constantCopyInv_of_kept env b b1 hinv (by rw [h1]) h2
  cases call with
  | addOperand type => exact hk _ (addOperand_kept env tm b type)
  | setOperandValue index buffer length =>
    exact setOperandValue_copyInv env tm b index buffer length hinv hroom
  | setOperandValueFromMemory index memory offset length =>
    exact hk _ (setOperandValueFromMemory_kept env tm b index memory offset length)
  | setOperandValueFromModel index value =>
    exact hk _ (setOperandValueFromModel_kept env tm heap fuel b index value)
  | setOperandSymmPerChannelQuantParams index channelQuant =>
    exact hk _ (setOperandSymmPerChannelQuantParams_kept env b index channelQuant)
  | setOperandExtensionData index data length =>
    exact hk _ (setOperandExtensionData_kept env b index data length)
  | addOperation type inputCount inputs outputCount outputs =>
    exact hk _ (addOperation_kept env tm b type inputCount inputs outputCount outputs)
  | identifyInputsAndOutputs inputCount inputs outputCount outputs =>
    exact hk _ (identifyInputsAndOutputs_kept env b inputCount inputs outputCount outputs)
  | relaxComputationFloat32toFloat16 allow => exact hk _ (relax_kept b allow)
  | finish => exact hk _ (finish_kept env tm heap fuel b)

theorem reachableBelow_copyInv (env : Env) (b : ModelBuilder) (h : ReachableBelow env b) :
    ConstantCopyInv env b := by
  induction h with
  | init =>
    intro i o hget
    exact absurd hget (by simp)
  | step tm heap fuel call code _ hroom hrun ih =>
    exact run_copyInv env tm heap fuel call _ ih hroom code _ hrun

/-! ### An arena that passes `2 ^ 32` bytes -/

/-- What `setOperandValue` returns for a value that is copied to the inline arena, when the
operand is not a tensor. -/
theorem setOperandValue_small_eq (env : Env) (tm : TypeManager) (b : ModelBuilder)
    (index : Nat) (buf : Buffer) (length : Nat) (operand : Operand)
    (hbad : b.badState = false) (hidx : ¬ index ≥ b.operandCount)
    (hop : b.mOperands.get? index = some operand)
    (hsized : nullOrSizedFails (some buf) length = false)
    (hT : tm.isTensorType env operand.type = .ret false)
    (hmax : ¬ length > 0xFFFFFFFF) (hoem : operand.type ≠ OperandType.OEM)
    (hsize : tm.getSizeOfData env operand.type operand.dimensions = .ret length)
    (hsmall : length ≤ env.maxSizeOfImmediatelyCopiedValues) (newSize offset : Nat)
    (hnew : (b.mSmallOperandValues.length % 2 ^ 32 +
      env.alignBytesNeeded (b.mSmallOperandValues.length % 2 ^ 32) length % 2 ^ 32 + length) %
        2 ^ 32 = newSize)
    (hoff : (b.mSmallOperandValues.length % 2 ^ 32 +
      env.alignBytesNeeded (b.mSmallOperandValues.length % 2 ^ 32) length % 2 ^ 32) % 2 ^ 32 =
        offset)
    (hfit : offset + length ≤ newSize) :
    b.setOperandValue env tm index (some buf) length =
      .ret (ANEURALNETWORKS_NO_ERROR,
        { b with
          mSmallOperandValues :=
            writeBytes (resizeVector b.mSmallOperandValues newSize) offset
              (readN buf.bytes length)
          mOperands := b.mOperands.set index
            { operand with
              lifetime := LifeTime.CONSTANT_COPY
              location := { poolIndex := 0, offset := offset, length := length } } }) := by
  unfold ModelBuilder.setOperandValue
  rw [hbad, if_neg Bool.false_ne_true, if_neg hidx]
  simp only [hop]
  rw [hsized, if_neg Bool.false_ne_true]
  simp only [hT, Exec.bind, Bool.false_and, Bool.false_eq_true, if_false, if_neg hmax,
    if_pos hoem, hsize, ne_eq, not_true_eq_false, decide_False, if_pos hsmall, hnew, hoff]
  rw [length_resizeVector_eq, if_pos hfit]

theorem writeBytes_end (a : List Nat) (data : List Nat) :
    writeBytes (resizeVector a (a.length + data.length)) a.length data = a ++ data := by
  have hres : resizeVector a (a.length + data.length) = a ++ List.replicate data.length 0 := by
    unfold ModelBuilder.resizeVector
    rw [List.take_of_length_le (by omega), Nat.add_sub_cancel_left]
  unfold ModelBuilder.writeBytes
  rw [hres, List.take_append_of_le_length (Nat.le_refl _), List.take_length,
    List.drop_of_length_le (by rw [List.length_append, List.length_replicate]),
    List.append_nil]

theorem sample_align_one (n : Nat) : sampleEnv.alignBytesNeeded n 1 = 0 := by
  show naturalAlignBytesNeeded n 1 = 0
  unfold naturalAlignBytesNeeded
  simp [Nat.mod_one]

/-- One more `setOperandValue(0, buffer, 1)` on `copiedBoolBuilder n`. -/
theorem copiedBoolBuilder_step (n : Nat) (hn : n + 2 < 2 ^ 32) :
    ModelBuilder.setOperandValue sampleEnv sampleTypeManager (copiedBoolBuilder n) 0
      (some { addr := 1, bytes := [0] }) 1 =
    .ret (ANEURALNETWORKS_NO_ERROR, copiedBoolBuilder (n + 1)) := by
  have hlen : (copiedBoolBuilder n).mSmallOperandValues.length = n + 1 :=
    List.length_replicate _ _
  have h8 : (n + 1) % 2 ^ 32 = n + 1 := Nat.mod_eq_of_lt (by omega)
  rw [setOperandValue_small_eq sampleEnv sampleTypeManager (copiedBoolBuilder n) 0
    { addr := 1, bytes := [0] } 1
    (boolOperand LifeTime.CONSTANT_COPY { poolIndex := 0, offset := n, length := 1 })
    rfl (by show ¬ (0 ≥ 2 % 2 ^ 32); decide) rfl rfl
    (show TypeManager.isTensorType sampleEnv sampleTypeManager OperandType.BOOL = .ret false by
      decide)
    (by decide) (show OperandType.BOOL ≠ OperandType.OEM by decide)
    (show TypeManager.getSizeOfData sampleEnv sampleTypeManager OperandType.BOOL [] = .ret 1 by
      decide)
    (by decide) (n + 1 + 1) (n + 1)
    (by rw [hlen, h8, sample_align_one, Nat.zero_mod, Nat.add_zero]
        exact Nat.mod_eq_of_lt (by omega))
    (by rw [hlen, h8, sample_align_one, Nat.zero_mod, Nat.add_zero]
        exact h8)
    (Nat.le_refl _)]
  have hw : writeBytes (resizeVector (copiedBoolBuilder n).mSmallOperandValues (n + 1 + 1))
      (n + 1) (readN [0] 1) = List.replicate (n + 1 + 1) 0 := by
    have h := writeBytes_end (copiedBoolBuilder n).mSmallOperandValues (readN [0] 1)
    rw [hlen] at h
    rw [show (readN [0] 1).length = 1 from rfl] at h
    rw [h]
    show List.replicate (n + 1) 0 ++ [0] = _
    rw [← List.replicate_succ']
  rw [hw]
  rfl

theorem copiedBoolBuilder_reachable (n : Nat) (hn : n + 1 < 2 ^ 32) :
    Reachable sampleEnv (copiedBoolBuilder n) := by
  induction n with
  | zero =>
    exact reachable_runCalls sampleEnv sampleTypeManager emptyHeap 0
      [.addOperand boolType, .addOperand int32Type,
        .setOperandValue 0 (some { addr := 1, bytes := [0] }) 1] {} _ Reachable.init
      (by decide)
  | succ k ih =>
    exact Reachable.step sampleTypeManager emptyHeap 0
      (.setOperandValue 0 (some { addr := 1, bytes := [0] }) 1) ANEURALNETWORKS_NO_ERROR
      (ih (by omega)) (copiedBoolBuilder_step k (by omega))

theorem sample_align_four (n : Nat) (h : n % 4 = 3) : sampleEnv.alignBytesNeeded n 4 = 1 := by
  show naturalAlignBytesNeeded n 4 = 1
  unfold naturalAlignBytesNeeded
  simp [h]

/-- The call `setOperandValue(1, buffer, 4)` on an arena of `2 ^ 32 - 1` bytes. -/
theorem copiedBoolBuilder_wraps (n : Nat) (hn : n + 1 = 4294967295) :
    ModelBuilder.setOperandValue sampleEnv sampleTypeManager (copiedBoolBuilder n) 1
      (some { addr := 2, bytes := [1, 0, 0, 0] }) 4 =
    .ret (ANEURALNETWORKS_NO_ERROR,
      { mOperands :=
          [boolOperand LifeTime.CONSTANT_COPY { poolIndex := 0, offset := n, length := 1 },
           int32Operand LifeTime.CONSTANT_COPY { poolIndex := 0, offset := 0, length := 4 }]
        mSmallOperandValues := [1, 0, 0, 0] }) := by
  have hlen : (copiedBoolBuilder n).mSmallOperandValues.length = n + 1 :=
    List.length_replicate _ _
  have h8 : (n + 1) % 2 ^ 32 = n + 1 := Nat.mod_eq_of_lt (by omega)
  have h9 : sampleEnv.alignBytesNeeded (n + 1) 4 = 1 := sample_align_four _ (by omega)
  rw [setOperandValue_small_eq sampleEnv sampleTypeManager (copiedBoolBuilder n) 1
    { addr := 2, bytes := [1, 0, 0, 0] } 4
    (int32Operand LifeTime.TEMPORARY_VARIABLE { poolIndex := 0, offset := 0, length := 0 })
    rfl (by show ¬ (1 ≥ 2 % 2 ^ 32); decide) rfl rfl (by decide) (by decide) (by decide)
    (by decide) (by decide) 4 0
    (by rw [hlen, h8, h9, hn]; rfl)
    (by rw [hlen, h8, h9, hn]; rfl)
    (Nat.le_refl _)]
  have hres : resizeVector (copiedBoolBuilder n).mSmallOperandValues 4 =
      [0, 0, 0, 0] := by
    show resizeVector (List.replicate (n + 1) 0) 4 = _
    unfold ModelBuilder.resizeVector
    rw [List.length_replicate, List.take_replicate, Nat.min_eq_left (by omega),
      Nat.sub_eq_zero_of_le (by omega)]
    rfl
  rw [hres]
  rfl

/-- C36 (counterexample): the builder `wrappedArenaBuilder` is reached by `addOperand(BOOL)`,
`addOperand(INT32)`, `2 ^ 32 - 1` calls `setOperandValue(0, buffer, 1)` and one call
`setOperandValue(1, buffer, 4)`. The last call finds an arena of `2 ^ 32 - 1` bytes, pads it
by one byte, and the 32-bit size wraps: the arena is resized to 4 bytes. Operand 0 still has
lifetime `CONSTANT_COPY` with offset `2 ^ 32 - 2` and length 1, outside the arena, and the
read of `matchesSpec` at that offset is outside the arena. -/
theorem C36_counterexample :
    Reachable sampleEnv wrappedArenaBuilder ∧
    wrappedArenaBuilder.mOperands.get? 0 = some
      (boolOperand LifeTime.CONSTANT_COPY { poolIndex := 0, offset := 4294967294, length := 1 }) ∧
    wrappedArenaBuilder.mSmallOperandValues.length = 4 ∧
    ¬ (4294967294 + 1 ≤ wrappedArenaBuilder.mSmallOperandValues.length) ∧
    matchesSpec sampleEnv TailSpec.BOOL_FALSE
      (boolOperand LifeTime.CONSTANT_COPY { poolIndex := 0, offset := 4294967294, length := 1 })
      wrappedArenaBuilder.mSmallOperandValues = .abort :=
  ⟨Reachable.step sampleTypeManager emptyHeap 0
      (.setOperandValue 1 (some { addr := 2, bytes := [1, 0, 0, 0] }) 4)
      ANEURALNETWORKS_NO_ERROR (copiedBoolBuilder_reachable 4294967294 (by decide))
      (copiedBoolBuilder_wraps 4294967294 rfl),
    rfl, rfl, by decide, by decide⟩

/-- C36 (amended): in every builder state reached by calls none of which takes the inline
arena to `2 ^ 32` bytes, every operand with lifetime `CONSTANT_COPY` has pool index 0, a
length of at least 1, a region inside the inline arena and, unless its type is `OEM`, the
length that `getSizeOfData` gave for it; so `updateOperandLocations` reads its value inside
the arena, and so does `matchesSpec` where `getSizeOfData` gives an `INT32` at least 4
bytes. -/
theorem C36_constant_copy_in_arena (env : Env) (b : ModelBuilder)
    (h : ReachableBelow env b) (i : Nat) (o : Operand) (ho : b.mOperands.get? i = some o)
    (hl : o.lifetime = LifeTime.CONSTANT_COPY) :
    o.location.poolIndex = 0 ∧ 1 ≤ o.location.length ∧
    o.location.offset + o.location.length ≤ b.mSmallOperandValues.length ∧
    (o.type ≠ OperandType.OEM →
      ∃ tm : TypeManager, tm.getSizeOfData env o.type o.dimensions = .ret o.location.length) ∧
    (∀ mm, ∃ r, updateConstantLocation env b mm o = .ret r) ∧
    ((∀ (tm : TypeManager) (dims : List Nat) (n : Nat),
        tm.getSizeOfData env OperandType.INT32 dims = .ret n → 4 ≤ n) →
      ∀ spec, ∃ m, matchesSpec env spec o b.mSmallOperandValues = .ret m) := by
  obtain ⟨p1, p2, p3, p4⟩ := reachableBelow_copyInv env b h i o ho hl
  refine ⟨p1, p2, p3, p4, ?_, ?_⟩
  · intro mm
    unfold ModelBuilder.updateConstantLocation
    rw [if_pos hl]
    dsimp only
    rw [if_pos p3]
    exact ⟨_, rfl⟩
  · intro hint spec
    apply matchesSpec_returns
    intro _
    refine ⟨fun _ => by omega, fun ht => ?_⟩
    obtain ⟨tm, hs⟩ := p4 (by rw [ht]; decide)
    rw [ht] at hs
    have := hint tm _ _ hs
    omega

theorem C36_constant_copy_in_arena_witness :
    (0 : Nat) = 0 ∧ 1 ≤ 4 ∧ 0 + 4 ≤ constantBuilder.mSmallOperandValues.length ∧
    ∀ mm, ∃ r, updateConstantLocation sampleEnv constantBuilder mm
      (int32Operand LifeTime.CONSTANT_COPY { poolIndex := 0, offset := 0, length := 4 }) =
        .ret r := by
  have h := C36_constant_copy_in_arena sampleEnv constantBuilder
    (ReachableBelow.step sampleTypeManager emptyHeap 0
      (.setOperandValue 0 (some { addr := 1, bytes := [1, 0, 0, 0] }) 4)
      ANEURALNETWORKS_NO_ERROR
      (ReachableBelow.step sampleTypeManager emptyHeap 0 (.addOperand int32Type)
        ANEURALNETWORKS_NO_ERROR ReachableBelow.init trivial
        (show ModelBuilder.addOperand sampleEnv sampleTypeManager {} int32Type =
          .ret (ANEURALNETWORKS_NO_ERROR, oneOperandBuilder) by decide))
      (show (4 : Nat) ≤ 128 → 0 + naturalAlignBytesNeeded 0 4 + 4 < 2 ^ 32 by decide)
      (show ModelBuilder.setOperandValue sampleEnv sampleTypeManager oneOperandBuilder 0
          (some { addr := 1, bytes := [1, 0, 0, 0] }) 4 =
        .ret (ANEURALNETWORKS_NO_ERROR, constantBuilder) by decide))
    0 (int32Operand LifeTime.CONSTANT_COPY { poolIndex := 0, offset := 0, length := 4 })
    rfl rfl
  exact ⟨h.1, h.2.1, h.2.2.1, h.2.2.2.2.1⟩

/-! ## References between builders -/

theorem copyLargeValuesToSharedMemory_references (env : Env) (b : ModelBuilder) (n : Int)
    (b1 : ModelBuilder) (h : copyLargeValuesToSharedMemory env b = .ret (n, b1)) :
    b1.mReferencedModels = b.mReferencedModels := by
  unfold copyLargeValuesToSharedMemory at h
  split at h
  · injection h with h; injection h with _ h; subst h; rfl
  · rw [Exec.bind_eq_ret] at h
    obtain ⟨r1, h1, h⟩ := h
    dsimp only at h
    split at h
    · injection h with h; injection h with _ h; subst h; rfl
    · split at h
      · cases h
      · rw [Exec.bind_eq_ret] at h
        obtain ⟨r2, h2, h⟩ := h
        injection h with h; injection h with _ h; subst h; rfl

theorem sortIntoRunOrder_references (fuel : Nat) (b : ModelBuilder) (ok : Bool)
    (b1 : ModelBuilder) (h : sortIntoRunOrder fuel b = .ret (ok, b1)) :
    b1.mReferencedModels = b.mReferencedModels := by
  rcases sortIntoRunOrder_frame fuel b ok b1 h with h1 | ⟨_, _, _, _, h1⟩ <;> rw [h1]

theorem finish_references (env : Env) (tm : TypeManager) (heap : Heap) (fuel : Nat)
    (b : ModelBuilder) (code : Int) (b1 : ModelBuilder)
    (h : b.finish env tm heap fuel = .ret (code, b1)) :
    b1.mReferencedModels = b.mReferencedModels := by
  rcases finish_cases env tm heap fuel b code b1 h with
    ⟨_, _, h1⟩ | ⟨_, _, _, h1⟩ | ⟨_, _, c, s, h1, h2, _, h3⟩ |
    ⟨_, _, c, s, m, h1, h2, _, _, _, h3⟩ | ⟨_, _, c, s, m, v, t, hash, h1, h2, _, _, _, h4, _, _, h3⟩
  · rw [h1]
  · exact copyLargeValuesToSharedMemory_references env b _ _ h1
  · rw [h3]
    show s.mReferencedModels = _
    rw [sortIntoRunOrder_references fuel c _ s h2,
      copyLargeValuesToSharedMemory_references env b _ _ h1]
  · rw [h3]
    show s.mReferencedModels = _
    rw [sortIntoRunOrder_references fuel c _ s h2,
      copyLargeValuesToSharedMemory_references env b _ _ h1]
  · obtain ⟨ops, ht⟩ := removeTrailingArgumentsWithDefaultValues_frame env s t h4
    rw [h3, ht]
    show s.mReferencedModels = _
    rw [sortIntoRunOrder_references fuel c _ s h2,
      copyLargeValuesToSharedMemory_references env b _ _ h1]

/-- What `setOperandValueFromModel` does to the list of referenced models: nothing, or it
appends a pointer to a finished, valid builder, and then the referencing builder is not
finished. -/
theorem setOperandValueFromModel_references (env : Env) (tm : TypeManager) (heap : Heap)
    (fuel : Nat) (b : ModelBuilder) (index value : Nat) (code : Int) (b1 : ModelBuilder)
    (h : b.setOperandValueFromModel env tm heap fuel index value = .ret (code, b1)) :
    b1.mReferencedModels = b.mReferencedModels ∨
    ∃ v, heap value = some v ∧ v.mCompletedModel = true ∧ v.mInvalidModel = false ∧
      b.mCompletedModel = false ∧ b1.mReferencedModels = b.mReferencedModels ++ [value] := by
  unfold ModelBuilder.setOperandValueFromModel at h
  split at h
  · injection h with h; injection h with _ h; subst h; exact Or.inl rfl
  rename_i hbad
  split at h
  · cases h
  rename_i v hv
  split at h
  · injection h with h; injection h with _ h; subst h; exact Or.inl rfl
  rename_i hcompleted
  split at h
  · injection h with h; injection h with _ h; subst h; exact Or.inl rfl
  rename_i hinvalid
  split at h
  · injection h with h; injection h with _ h; subst h; exact Or.inl rfl
  split at h
  · cases h
  rw [Exec.bind_eq_ret] at h
  obtain ⟨m, _, h⟩ := h
  injection h with h; injection h with _ h; subst h
  right
  refine ⟨v, hv, ?_, ?_, ?_, rfl⟩
  · cases hc : v.mCompletedModel with
    | true => rfl
    | false => rw [hc] at hcompleted; exact absurd rfl hcompleted
  · cases hc : v.mInvalidModel with
    | false => rfl
    | true => exact absurd hc hinvalid
  · cases hc : b.mCompletedModel with
    | false => rfl
    | true => exact absurd (badState_of_flag (Or.inl hc)) hbad

theorem addOperand_references (env : Env) (tm : TypeManager) (b : ModelBuilder)
    (type : ANeuralNetworksOperandType) :
    Ensures (fun b1 => b1.mReferencedModels = b.mReferencedModels)
      (b.addOperand env tm type) := by
  unfold ModelBuilder.addOperand
  repeat' first
    | (apply ensures_ret; rfl)
    | apply ensures_abort
    | (apply ensures_bind; intro _)
    | (dsimp only)
    | split

theorem setOperandValue_references (env : Env) (tm : TypeManager) (b : ModelBuilder)
    (index : Nat) (buffer : Option Buffer) (length : Nat) :
    Ensures (fun b1 => b1.mReferencedModels = b.mReferencedModels)
      (b.setOperandValue env tm index buffer length) := by
  unfold ModelBuilder.setOperandValue
  repeat' first
    | (apply ensures_ret; rfl)
    | apply ensures_abort
    | (apply ensures_bind; intro _)
    | (dsimp only)
    | split

theorem setOperandValueFromMemory_references (env : Env) (tm : TypeManager)
    (b : ModelBuilder) (index memory offset length : Nat) :
    Ensures (fun b1 => b1.mReferencedModels = b.mReferencedModels)
      (b.setOperandValueFromMemory env tm index memory offset length) := by
  unfold ModelBuilder.setOperandValueFromMemory
  repeat' first
    | (apply ensures_ret; rfl)
    | apply ensures_abort
    | (apply ensures_bind; intro _)
    | (dsimp only)
    | split

theorem setOperandSymmPerChannelQuantParams_references (env : Env) (b : ModelBuilder)
    (index : Nat) (channelQuant : ANeuralNetworksSymmPerChannelQuantParams) :
    Ensures (fun b1 => b1.mReferencedModels = b.mReferencedModels)
      (b.setOperandSymmPerChannelQuantParams env index channelQuant) := by
  unfold ModelBuilder.setOperandSymmPerChannelQuantParams
  repeat' first
    | (apply ensures_ret; rfl)
    | apply ensures_abort
    | (dsimp only)
    | split

theorem setOperandExtensionData_references (env : Env) (b : ModelBuilder) (index : Nat)
    (data : Option (List Nat)) (length : Nat) :
    Ensures (fun b1 => b1.mReferencedModels = b.mReferencedModels)
      (b.setOperandExtensionData env index data length) := by
  unfold ModelBuilder.setOperandExtensionData
  repeat' first
    | (apply ensures_ret; rfl)
    | apply ensures_abort
    | (dsimp only)
    | split

theorem addOperation_references (env : Env) (tm : TypeManager) (b : ModelBuilder)
    (type inputCount : Nat) (inputs : Option (List Nat)) (outputCount : Nat)
    (outputs : Option (List Nat)) :
    Ensures (fun b1 => b1.mReferencedModels = b.mReferencedModels)
      (b.addOperation env tm type inputCount inputs outputCount outputs) := by
  unfold ModelBuilder.addOperation
  repeat' first
    | (apply ensures_ret; rfl)
    | (dsimp only)
    | split

theorem identifyInputsAndOutputs_references (env : Env) (b : ModelBuilder)
    (inputCount : Nat) (inputs : Option (List Nat)) (outputCount : Nat)
    (outputs : Option (List Nat)) :
    Ensures (fun b1 => b1.mReferencedModels = b.mReferencedModels)
      (b.identifyInputsAndOutputs env inputCount inputs outputCount outputs) := by
  unfold ModelBuilder.identifyInputsAndOutputs
  repeat' first
    | (apply ensures_ret; rfl)
    | (dsimp only)
    | split

theorem relax_references (b : ModelBuilder) (allow : Bool) :
    Ensures (fun b1 => b1.mReferencedModels = b.mReferencedModels)
      (b.relaxComputationFloat32toFloat16 allow) := by
  unfold ModelBuilder.relaxComputationFloat32toFloat16
  split
  · exact ensures_ret _ _ _ rfl
  · exact ensures_ret _ _ _ rfl

/-- What a call does to the list of referenced models. -/
theorem run_references (env : Env) (tm : TypeManager) (heap : Heap) (fuel : Nat)
    (call : Call) (b : ModelBuilder) (code : Int) (b1 : ModelBuilder)
    (h : call.run env tm heap fuel b = .ret (code, b1)) :
    b1.mReferencedModels = b.mReferencedModels ∨
    ∃ value v, heap value = some v ∧ v.mCompletedModel = true ∧ v.mInvalidModel = false ∧
      b.mCompletedModel = false ∧ b1.mReferencedModels = b.mReferencedModels ++ [value] := by
  cases call with
  | addOperand type => exact Or.inl (addOperand_references env tm b type code b1 h)
  | setOperandValue index buffer length =>
    exact Or.inl (setOperandValue_references env tm b index buffer length code b1 h)
  | setOperandValueFromMemory index memory offset length =>
    exact Or.inl
      (setOperandValueFromMemory_references env tm b index memory offset length code b1 h)
  | setOperandValueFromModel index value =>
    rcases setOperandValueFromModel_references env tm heap fuel b index value code b1 h with
      h1 | ⟨v, h1⟩
    · exact Or.inl h1
    · exact Or.inr ⟨value, v, h1⟩
  | setOperandSymmPerChannelQuantParams index channelQuant =>
    exact Or.inl
      (setOperandSymmPerChannelQuantParams_references env b index channelQuant code b1 h)
  | setOperandExtensionData index data length =>
    exact Or.inl (setOperandExtensionData_references env b index data length code b1 h)
  | addOperation type inputCount inputs outputCount outputs =>
    exact Or.inl
      (addOperation_references env tm b type inputCount inputs outputCount outputs code b1 h)
  | identifyInputsAndOutputs inputCount inputs outputCount outputs =>
    exact Or.inl
      (identifyInputsAndOutputs_references env b inputCount inputs outputCount outputs code b1
        h)
  | relaxComputationFloat32toFloat16 allow => exact Or.inl (relax_references b allow code b1 h)
  | finish => exact Or.inl (finish_references env tm heap fuel b code b1 h)

/-- A finished valid builder is left as it is by every call. -/
theorem run_of_finished (env : Env) (tm : TypeManager) (heap : Heap) (fuel : Nat)
    (call : Call) (b : ModelBuilder) (hc : b.mCompletedModel = true) (code : Int)
    (b1 : ModelBuilder) (h : call.run env tm heap fuel b = .ret (code, b1)) : b1 = b := by
  rw [run_of_badState env tm heap fuel call b (Or.inl hc)] at h
  injection h with h
  injection h with _ h
  exact h.symm

/-! ### The invariant of the worlds -/

theorem ranked_init (rank : Nat → Nat) : World.Ranked { builders := [] } rank := by
  constructor
  · rintro a r ⟨b, hb, _⟩
    simp at hb
  · rintro a r ⟨b, hb, _⟩
    simp at hb

theorem get?_append_new {α : Type} (l : List α) (x y : α) (a : Nat)
    (h : (l ++ [x]).get? a = some y) : l.get? a = some y ∨ (a = l.length ∧ y = x) := by
  rw [List.get?_eq_getElem?] at h
  by_cases ha : a < l.length
  · rw [List.getElem?_append_left ha] at h
    left
    rw [List.get?_eq_getElem?]
    exact h
  · rw [List.getElem?_append_right (by omega)] at h
    have hlt : a - l.length < 1 := by
      by_contra hne
      rw [List.getElem?_eq_none (by simp; omega)] at h
      cases h
    have h0 : a - l.length = 0 := by omega
    rw [h0] at h
    right
    refine ⟨by omega, ?_⟩
    simpa using h.symm

theorem get?_append_old {α : Type} (l : List α) (x y : α) (a : Nat)
    (h : l.get? a = some y) : (l ++ [x]).get? a = some y := by
  rw [List.get?_eq_getElem?] at h ⊢
  have hlt : a < l.length := (List.getElem?_eq_some_iff.mp h).1
  rw [List.getElem?_append_left hlt]
  exact h

theorem ranked_create (w : World) (rank : Nat → Nat) (h : w.Ranked rank) :
    World.Ranked { builders := w.builders ++ [{}] } rank := by
  have href : ∀ a r, World.References { builders := w.builders ++ [{}] } a r →
      w.References a r := by
    rintro a r ⟨b, hb, hr⟩
    rcases get?_append_new _ _ _ _ hb with h1 | ⟨_, h1⟩
    · exact ⟨b, h1, hr⟩
    · rw [h1] at hr
      exact absurd hr (List.not_mem_nil r)
  constructor
  · intro a r hr
    obtain ⟨br, h1, h2, h3⟩ := h.1 a r (href a r hr)
    exact ⟨br, get?_append_old _ _ _ _ h1, h2, h3⟩
  · intro a r hr
    exact h.2 a r (href a r hr)

theorem set_get?_self {α : Type} (l : List α) (a : Nat) (x : α) (h : l.get? a = some x) :
    l.set a x = l := by
  apply List.ext_get?
  intro n
  by_cases hn : a = n
  · subst hn
    rw [get?_set_self l a x x h, h]
  · rw [get?_set_ne _ _ _ _ hn]

/-- The references of the world after a call that leaves the list of referenced models of
the builder as it was. -/
theorem references_of_same (w : World) (a : Nat) (b b1 : ModelBuilder)
    (hb : w.builders.get? a = some b) (href : b1.mReferencedModels = b.mReferencedModels)
    (x r : Nat) (h : World.References { builders := w.builders.set a b1 } x r) :
    w.References x r := by
  obtain ⟨bx, hbx, hr⟩ := h
  rcases get?_set_cases _ _ _ _ _ hbx with ⟨e, e2⟩ | ⟨_, hg⟩
  · subst e
    rw [e2, href] at hr
    exact ⟨b, hb, hr⟩
  · exact ⟨bx, hg, hr⟩

/-- A call on a builder of a ranked world leaves a ranked world. -/
theorem ranked_call (env : Env) (w : World) (rank : Nat → Nat) (h : w.Ranked rank) (a : Nat)
    (b b1 : ModelBuilder) (tm : TypeManager) (fuel : Nat) (call : Call) (code : Int)
    (hb : w.builders.get? a = some b)
    (hrun : call.run env tm w.heap fuel b = .ret (code, b1)) :
    ∃ rank1, World.Ranked { builders := w.builders.set a b1 } rank1 := by
  by_cases hc : b.mCompletedModel = true
  · have e : b1 = b := run_of_finished env tm w.heap fuel call b hc code b1 hrun
    rw [e, set_get?_self _ _ _ hb]
    exact ⟨rank, h⟩
  have hcf : b.mCompletedModel = false := by
    cases hx : b.mCompletedModel with
    | false => rfl
    | true => exact absurd hx hc
  -- no builder refers to the unfinished builder at `a`
  have hnot : ∀ x, ¬ w.References x a := by
    intro x hx
    obtain ⟨br, h1, h2, _⟩ := h.1 x a hx
    rw [hb] at h1
    rw [← Option.some.inj h1, hcf] at h2
    cases h2
  have hkeep : ∀ r br, r ≠ a → w.builders.get? r = some br →
      (w.builders.set a b1).get? r = some br := by
    intro r br hne hg
    rw [get?_set_ne _ _ _ _ (Ne.symm hne)]
    exact hg
  rcases run_references env tm w.heap fuel call b code b1 hrun with href | ⟨value, v, hv, hvc, hvi, _, href⟩
  · refine ⟨rank, ?_, ?_⟩
    · intro x r hr
      have hr0 := references_of_same w a b b1 hb href x r hr
      obtain ⟨br, h1, h2, h3⟩ := h.1 x r hr0
      have hne : r ≠ a := by
        intro e
        rw [e] at hr0
        exact hnot x hr0
      exact ⟨br, hkeep r br hne h1, h2, h3⟩
    · intro x r hr
      exact h.2 x r (references_of_same w a b b1 hb href x r hr)
  · have hva : value ≠ a := by
      intro e
      rw [e] at hv
      have hv2 : w.builders.get? a = some v := hv
      rw [hb] at hv2
      rw [← Option.some.inj hv2, hcf] at hvc
      cases hvc
    have hcases : ∀ x r, World.References { builders := w.builders.set a b1 } x r →
        w.References x r ∨ (x = a ∧ r = value) := by
      rintro x r ⟨bx, hbx, hr⟩
      rcases get?_set_cases _ _ _ _ _ hbx with ⟨e, e2⟩ | ⟨_, hg⟩
      · subst e
        rw [e2, href] at hr
        rcases List.mem_append.mp hr with h1 | h1
        · exact Or.inl ⟨b, hb, h1⟩
        · right
          rw [List.mem_singleton] at h1
          exact ⟨rfl, h1⟩
      · exact Or.inl ⟨bx, hg, hr⟩
    refine ⟨fun x => if x = a then max (rank a) (rank value + 1) else rank x, ?_, ?_⟩
    · intro x r hr
      rcases hcases x r hr with hr0 | ⟨_, e⟩
      · obtain ⟨br, h1, h2, h3⟩ := h.1 x r hr0
        have hne : r ≠ a := by
          intro e
          rw [e] at hr0
          exact hnot x hr0
        exact ⟨br, hkeep r br hne h1, h2, h3⟩
      · rw [e]
        exact ⟨v, hkeep value v hva hv, hvc, hvi⟩
    · intro x r hr
      rcases hcases x r hr with hr0 | ⟨e1, e2⟩
      · have hne : r ≠ a := by
          intro e
          rw [e] at hr0
          exact hnot x hr0
        have hlt := h.2 x r hr0
        dsimp only
        rw [if_neg hne]
        by_cases hxa : x = a
        · rw [if_pos hxa]
          rw [hxa] at hlt
          exact Nat.lt_of_lt_of_le hlt (Nat.le_max_left _ _)
        · rw [if_neg hxa]
          exact hlt
      · dsimp only
        rw [e1, e2, if_neg hva, if_pos rfl]
        exact Nat.lt_of_lt_of_le (Nat.lt_succ_self _) (Nat.le_max_right _ _)

theorem reachable_ranked (env : Env) (w : World) (h : World.Reachable env w) :
    ∃ rank, w.Ranked rank := by
  induction h with
  | init => exact ⟨fun _ => 0, ranked_init _⟩
  | create _ ih =>
    obtain ⟨rank, hr⟩ := ih
    exact ⟨rank, ranked_create _ rank hr⟩
  | call a tm fuel call code _ hb hrun ih =>
    obtain ⟨rank, hr⟩ := ih
    exact ranked_call env _ rank hr a _ _ tm fuel call code hb hrun

theorem rank_of_transGen (w : World) (rank : Nat → Nat) (h : w.Ranked rank) (a c : Nat)
    (hac : Relation.TransGen w.References a c) : rank c < rank a := by
  induction hac with
  | single hr => exact h.2 _ _ hr
  | tail _ hr ih => exact Nat.lt_trans (h.2 _ _ hr) ih

/-! ### The recursion of `ModelMaker` over the referenced models -/

theorem bind_ne_timeout {α β : Type} (x : Exec α) (f : α → Exec β) (hx : x ≠ .timeout)
    (hf : ∀ a, f a ≠ .timeout) : x.bind f ≠ .timeout := by
  cases x with
  | ret a => exact hf a
  | abort => intro h; cases h
  | timeout => exact absurd rfl hx

theorem foldl_ne_timeout {σ α : Type} (f : σ → α → Exec σ) (l : List α) :
    (∀ s x, x ∈ l → f s x ≠ .timeout) → ∀ s, Exec.foldl f s l ≠ .timeout := by
  induction l with
  | nil =>
    intro _ s h
    unfold Exec.foldl at h
    cases h
  | cons x rest ih =>
    intro hf s
    unfold Exec.foldl
    exact bind_ne_timeout _ _ (hf s x (List.mem_cons_self _ _))
      (fun s1 => ih (fun s2 y hy => hf s2 y (List.mem_cons_of_mem _ hy)) s1)

theorem mapAccum_ne_timeout {σ α : Type} (f : σ → α → Exec (σ × α)) (l : List α) :
    (∀ s x, f s x ≠ .timeout) → ∀ s, mapAccum f s l ≠ .timeout := by
  induction l with
  | nil =>
    intro _ s h
    unfold ModelBuilder.mapAccum at h
    cases h
  | cons x rest ih =>
    intro hf s
    unfold ModelBuilder.mapAccum
    refine bind_ne_timeout _ _ (hf s x) (fun r1 => ?_)
    refine bind_ne_timeout _ _ (ih hf r1.1) (fun r2 => ?_)
    intro h
    cases h

theorem addExtensionWithPrefix_ne_timeout (tm : TypeManager) (mm : ModelMaker) (pfx : Nat) :
    addExtensionWithPrefix tm mm pfx ≠ .timeout := by
  unfold ModelBuilder.addExtensionWithPrefix
  repeat' first | (intro h; cases h) | split

theorem updateConstantLocation_ne_timeout (env : Env) (refModel : ModelBuilder)
    (mm : ModelMaker) (operand : Operand) :
    updateConstantLocation env refModel mm operand ≠ .timeout := by
  unfold ModelBuilder.updateConstantLocation
  repeat' first | (intro h; cases h) | split | (dsimp only)

theorem addExtensions_step (env : Env) (tm : TypeManager) (heap : Heap) (f : Nat)
    (b : ModelBuilder)
    (h : ∀ r ∈ b.mReferencedModels, ∀ br, heap r = some br →
      ∀ mm, addExtensions env tm heap f mm br ≠ .timeout) (mm : ModelMaker) :
    addExtensions env tm heap (f + 1) mm b ≠ .timeout := by
  unfold ModelBuilder.addExtensions
  refine bind_ne_timeout _ _ (foldl_ne_timeout _ _ (fun s x _ => ?_) mm) (fun mm1 => ?_)
  · split
    · exact addExtensionWithPrefix_ne_timeout _ _ _
    · intro h; cases h
  refine bind_ne_timeout _ _ (foldl_ne_timeout _ _ (fun s x _ => ?_) mm1) (fun mm2 => ?_)
  · split
    · exact addExtensionWithPrefix_ne_timeout _ _ _
    · intro h; cases h
  refine foldl_ne_timeout _ _ (fun s r hr => ?_) mm2
  split
  · intro h; cases h
  · rename_i br hbr
    exact h r hr br hbr s

theorem updateOperandLocations_step (env : Env) (heap : Heap) (f : Nat) (b : ModelBuilder)
    (h : ∀ r ∈ b.mReferencedModels, ∀ br, heap r = some br →
      ∀ mm sg, updateOperandLocations env heap f mm br sg ≠ .timeout) (mm : ModelMaker)
    (sg : Subgraph) : updateOperandLocations env heap (f + 1) mm b sg ≠ .timeout := by
  unfold ModelBuilder.updateOperandLocations
  refine bind_ne_timeout _ _
    (mapAccum_ne_timeout _ _ (fun s x => updateConstantLocation_ne_timeout env b s x) mm)
    (fun r1 => ?_)
  refine bind_ne_timeout _ _ (mapAccum_ne_timeout _ _ (fun s x => ?_) r1.1) (fun r2 => ?_)
  · split
    · dsimp only
      split
      · intro h; cases h
      · rename_i ptr hptr
        split
        · intro h; cases h
        · rename_i br hbr
          refine bind_ne_timeout _ _ (h ptr (List.get?_mem hptr) br hbr _ _) (fun u => ?_)
          intro h; cases h
    · intro h; cases h
  · intro h; cases h

/-- With more fuel than the rank of every referenced builder, the recursion of `ModelMaker`
does not run out of fuel. -/
theorem modelMaker_terminates (env : Env) (tm : TypeManager) (w : World)
    (rank : Nat → Nat) (hw : w.Ranked rank) :
    ∀ (n : Nat) (b : ModelBuilder), (∀ r ∈ b.mReferencedModels, rank r < n) →
      ∀ fuel, n < fuel →
        (∀ mm, addExtensions env tm w.heap fuel mm b ≠ .timeout) ∧
        (∀ mm sg, updateOperandLocations env w.heap fuel mm b sg ≠ .timeout) := by
  intro n
  induction n with
  | zero =>
    intro b hb fuel hf
    cases fuel with
    | zero => omega
    | succ f =>
      exact ⟨addExtensions_step env tm _ f b
          (fun r hr => absurd (hb r hr) (Nat.not_lt_zero _)),
        updateOperandLocations_step env _ f b
          (fun r hr => absurd (hb r hr) (Nat.not_lt_zero _))⟩
  | succ m ih =>
    intro b hb fuel hf
    cases fuel with
    | zero => omega
    | succ f =>
      have hrec : ∀ r ∈ b.mReferencedModels, ∀ br, w.heap r = some br →
          (∀ mm, addExtensions env tm w.heap f mm br ≠ .timeout) ∧
          (∀ mm sg, updateOperandLocations env w.heap f mm br sg ≠ .timeout) := by
        intro r hr br hbr
        apply ih br _ f (by omega)
        intro r2 hr2
        have := hw.2 r r2 ⟨br, hbr, hr2⟩
        have := hb r hr
        omega
      exact ⟨addExtensions_step env tm _ f b (fun r hr br hbr => (hrec r hr br hbr).1),
        updateOperandLocations_step env _ f b (fun r hr br hbr => (hrec r hr br hbr).2)⟩

theorem makeModel_terminates (env : Env) (tm : TypeManager) (w : World) (rank : Nat → Nat)
    (hw : w.Ranked rank) (a : Nat) (b : ModelBuilder) (hb : w.builders.get? a = some b)
    (fuel : Nat) (hf : rank a < fuel) : makeModel env tm w.heap fuel b ≠ .timeout := by
  obtain ⟨h1, h2⟩ := modelMaker_terminates env tm w rank hw (rank a) b
    (fun r hr => hw.2 a r ⟨b, hb, hr⟩) fuel hf
  unfold ModelBuilder.makeModel ModelBuilder.ModelMaker.run
  refine bind_ne_timeout _ _ (h1 _) (fun mm1 => ?_)
  refine bind_ne_timeout _ _ (h2 _ _) (fun r => ?_)
  intro h
  cases h

theorem twoBuilders_reachable :
    World.Reachable sampleEnv { builders := [({} : ModelBuilder), ({} : ModelBuilder)] } :=
  World.Reachable.create (World.Reachable.create World.Reachable.init)

theorem finishedFirst_reachable :
    World.Reachable sampleEnv
      { builders :=
          [({ mCompletedModel := true, mSimplifyModel := true } : ModelBuilder),
           ({} : ModelBuilder)] } :=
  World.Reachable.call 0 sampleTypeManager 2 .finish ANEURALNETWORKS_NO_ERROR
    twoBuilders_reachable rfl (by decide)

theorem operandAdded_reachable :
    World.Reachable sampleEnv
      { builders :=
          [({ mCompletedModel := true, mSimplifyModel := true } : ModelBuilder),
           oneOperandBuilder] } :=
  World.Reachable.call 1 sampleTypeManager 2 (.addOperand int32Type) ANEURALNETWORKS_NO_ERROR
    finishedFirst_reachable rfl (by decide)

theorem referenceWorld_reachable : World.Reachable sampleEnv referenceWorld :=
  World.Reachable.call 1 sampleTypeManager 2 (.setOperandValueFromModel 0 0)
    ANEURALNETWORKS_NO_ERROR operandAdded_reachable rfl (by decide)

/-- C38: in every world that creating builders and calling their member functions produce,
no builder refers to itself through a chain of `mReferencedModels`; every builder referred
to exists, is finished and is valid; for every builder of the world there is an amount of
fuel from which on `makeModel`, `addExtensions` and `updateOperandLocations` with
`addSubgraph` do not run out of fuel: the recursion over the referenced models ends; and a
call either leaves the list of referenced models as it was or appends a pointer to a
finished, valid builder, while the builder called is not finished. -/
theorem C38_references_acyclic (env : Env) (w : World) (h : World.Reachable env w) :
    (∀ a, ¬ Relation.TransGen w.References a a) ∧
    (∀ a r, w.References a r →
      ∃ br, w.builders.get? r = some br ∧ br.mCompletedModel = true ∧
        br.mInvalidModel = false) ∧
    (∀ a b, w.builders.get? a = some b → ∃ N, ∀ fuel, N ≤ fuel → ∀ tm,
      makeModel env tm w.heap fuel b ≠ .timeout ∧
      (∀ mm, addExtensions env tm w.heap fuel mm b ≠ .timeout) ∧
      (∀ mm sg, updateOperandLocations env w.heap fuel mm b sg ≠ .timeout)) ∧
    (∀ (tm : TypeManager) (heap : Heap) (fuel : Nat) (call : Call) (b : ModelBuilder)
      (code : Int) (b1 : ModelBuilder), call.run env tm heap fuel b = .ret (code, b1) →
      b1.mReferencedModels = b.mReferencedModels ∨
      ∃ value v, heap value = some v ∧ v.mCompletedModel = true ∧ v.mInvalidModel = false ∧
        b.mCompletedModel = false ∧
        b1.mReferencedModels = b.mReferencedModels ++ [value]) := by
  obtain ⟨rank, hr⟩ := reachable_ranked env w h
  refine ⟨?_, hr.1, ?_, fun tm heap fuel call b code b1 hrun =>
    run_references env tm heap fuel call b code b1 hrun⟩
  · intro a hcycle
    exact Nat.lt_irrefl _ (rank_of_transGen w rank hr a a hcycle)
  · intro a b hb
    refine ⟨rank a + 1, fun fuel hf tm => ?_⟩
    obtain ⟨h1, h2⟩ := modelMaker_terminates env tm w rank hr (rank a) b
      (fun r hr2 => hr.2 a r ⟨b, hb, hr2⟩) fuel (by omega)
    exact ⟨makeModel_terminates env tm w rank hr a b hb fuel (by omega), h1, h2⟩

theorem C38_references_acyclic_witness :
    (∀ a, ¬ Relation.TransGen referenceWorld.References a a) ∧
    (∀ a r, referenceWorld.References a r →
      ∃ br, referenceWorld.builders.get? r = some br ∧ br.mCompletedModel = true ∧
        br.mInvalidModel = false) ∧
    referenceWorld.References 1 0 :=
  ⟨(C38_references_acyclic sampleEnv referenceWorld referenceWorld_reachable).1,
    (C38_references_acyclic sampleEnv referenceWorld referenceWorld_reachable).2.1,
    ⟨_, rfl, List.mem_singleton_self 0⟩⟩

/-! ## TOPK_V2: the pairs written for a row -/

namespace topk_v2

theorem pairLt_irrefl (a : Int × Int) : ¬ pairLt a a := by
  unfold pairLt
  omega

theorem pairLt_trichotomy (a b : Int × Int) : pairLt a b ∨ a = b ∨ pairLt b a := by
  unfold pairLt
  by_cases h1 : a.1 < b.1
  · exact Or.inl (Or.inl h1)
  by_cases h2 : b.1 < a.1
  · exact Or.inr (Or.inr (Or.inl h2))
  have e1 : a.1 = b.1 := by omega
  by_cases h3 : a.2 < b.2
  · exact Or.inl (Or.inr ⟨e1, h3⟩)
  by_cases h4 : b.2 < a.2
  · exact Or.inr (Or.inr (Or.inr ⟨e1.symm, h4⟩))
  have e2 : a.2 = b.2 := by omega
  exact Or.inr (Or.inl (Prod.ext e1 e2))

theorem pairLe_total (a b : Int × Int) : pairLe a b ∨ pairLe b a := by
  unfold pairLe pairLt
  omega

theorem pairLe_trans (a b c : Int × Int) (h1 : pairLe a b) (h2 : pairLe b c) : pairLe a c := by
  unfold pairLe pairLt at *
  omega

theorem pairLt_of_le_of_ne (a b : Int × Int) (h : pairLe a b) (hne : a ≠ b) : pairLt a b := by
  rcases pairLt_trichotomy a b with h1 | h1 | h1
  · exact h1
  · exact absurd h1 hne
  · exact absurd h1 h

theorem sorted_insertionSort_pairLe (l : List (Int × Int)) :
    (l.insertionSort pairLe).Sorted pairLe := by
  haveI : IsTotal (Int × Int) pairLe := ⟨pairLe_total⟩
  haveI : IsTrans (Int × Int) pairLe := ⟨pairLe_trans⟩
  exact List.sorted_insertionSort _ l

theorem mem_makePairs (row : List Int) (p : Int × Int) :
    p ∈ makePairs row ↔ ∃ i, i < row.length ∧ p = (row.getD i 0, (i : Int)) := by
  unfold makePairs
  rw [List.mem_map]
  constructor
  · rintro ⟨i, hi, e⟩
    exact ⟨i, List.mem_range.mp hi, e.symm⟩
  · rintro ⟨i, hi, e⟩
    exact ⟨i, List.mem_range.mpr hi, e.symm⟩

theorem nodup_makePairs (row : List Int) : (makePairs row).Nodup := by
  unfold makePairs
  apply List.Nodup.map _ (List.nodup_range _)
  intro i j h
  have h2 : ((i : Int)) = (j : Int) := congrArg Prod.snd h
  exact Int.ofNat.inj h2

theorem length_makePairs (row : List Int) : (makePairs row).length = row.length := by
  unfold makePairs
  rw [List.length_map, List.length_range]

/-- The pairs written for a row are the last `k` elements that `std::nth_element` leaves,
sorted and reversed. -/
theorem evalRow_eq (nthElement : List (Int × Int) → Nat → List (Int × Int))
    (hnth : NthElementContract nthElement) (row : List Int) (k : Nat)
    (hk : k ≤ row.length) :
    evalRow nthElement row k =
      (((nthElement (makePairs row) (row.length - k)).drop (row.length - k)).insertionSort
        pairLe).reverse := by
  have hlen : (nthElement (makePairs row) (row.length - k)).length = row.length := by
    rw [(hnth _ _).1.length_eq, length_makePairs]
  unfold evalRow
  dsimp only
  rw [List.reverse_append]
  apply List.take_left'
  rw [List.length_reverse, List.length_insertionSort, List.length_drop, hlen]
  omega

/-- What `evalGeneric` writes for one row. -/
theorem evalRow_spec (nthElement : List (Int × Int) → Nat → List (Int × Int))
    (hnth : NthElementContract nthElement) (row : List Int) (k : Nat)
    (hk : k ≤ row.length) :
    (evalRow nthElement row k).length = k ∧
    (evalRow nthElement row k).Pairwise (fun a b => pairLt b a) ∧
    (∀ p ∈ evalRow nthElement row k,
      ∃ i, i < row.length ∧ p.2 = (i : Int) ∧ row.get? i = some p.1) ∧
    (∀ i, i < row.length → (∀ p ∈ evalRow nthElement row k, p.2 ≠ (i : Int)) →
      ∀ q ∈ evalRow nthElement row k, row.getD i 0 ≤ q.1 ∧ pairLt (row.getD i 0, (i : Int)) q) ∧
    (evalRow nthElement row k).Pairwise (fun a b => b.1 ≤ a.1) ∧
    ((evalRow nthElement row k).map (fun p => p.2)).Nodup := by
  have hlen : (nthElement (makePairs row) (row.length - k)).length = row.length := by
    rw [(hnth _ _).1.length_eq, length_makePairs]
  have hperm := (hnth (makePairs row) (row.length - k)).1
  have hpart := (hnth (makePairs row) (row.length - k)).2
  have hnodupN : (nthElement (makePairs row) (row.length - k)).Nodup :=
    hperm.nodup_iff.mpr (nodup_makePairs row)
  have hmemT : ∀ p, p ∈ evalRow nthElement row k ↔
      p ∈ (nthElement (makePairs row) (row.length - k)).drop (row.length - k) := by
    intro p
    rw [evalRow_eq nthElement hnth row k hk, List.mem_reverse]
    exact (List.perm_insertionSort _ _).mem_iff
  have hmemV : ∀ p, p ∈ evalRow nthElement row k → p ∈ makePairs row := by
    intro p hp
    exact hperm.mem_iff.mp (List.mem_of_mem_drop ((hmemT p).mp hp))
  have hnodupT : ((nthElement (makePairs row) (row.length - k)).drop (row.length - k)).Nodup :=
    (List.drop_sublist _ _).nodup hnodupN
  have hnodupOut : (evalRow nthElement row k).Nodup := by
    rw [evalRow_eq nthElement hnth row k hk, List.nodup_reverse]
    exact (List.perm_insertionSort _ _).nodup_iff.mpr hnodupT
  have hdec : (evalRow nthElement row k).Pairwise (fun a b => pairLt b a) := by
    rw [evalRow_eq nthElement hnth row k hk, List.pairwise_reverse]
    have hs := sorted_insertionSort_pairLe
      ((nthElement (makePairs row) (row.length - k)).drop (row.length - k))
    have hn : (((nthElement (makePairs row) (row.length - k)).drop
        (row.length - k)).insertionSort pairLe).Nodup :=
      (List.perm_insertionSort _ _).nodup_iff.mpr hnodupT
    have hboth := List.Pairwise.and hs hn
    exact hboth.imp (fun {a b} h => pairLt_of_le_of_ne a b h.1 h.2)
  refine ⟨?_, hdec, ?_, ?_, ?_, ?_⟩
  · rw [evalRow_eq nthElement hnth row k hk, List.length_reverse, List.length_insertionSort,
      List.length_drop, hlen]
    omega
  · intro p hp
    obtain ⟨i, hi, e⟩ := (mem_makePairs row p).mp (hmemV p hp)
    refine ⟨i, hi, by rw [e], ?_⟩
    rw [e, List.getD_eq_getElem?_getD, List.get?_eq_getElem?, List.getElem?_eq_getElem hi]
    rfl
  · intro i hi hnot q hq
    have hv : (row.getD i 0, (i : Int)) ∈ makePairs row :=
      (mem_makePairs row _).mpr ⟨i, hi, rfl⟩
    have hvN : (row.getD i 0, (i : Int)) ∈ nthElement (makePairs row) (row.length - k) :=
      hperm.mem_iff.mpr hv
    rw [← List.take_append_drop (row.length - k)
      (nthElement (makePairs row) (row.length - k))] at hvN
    rcases List.mem_append.mp hvN with h1 | h1
    · have hle := hpart _ h1 q ((hmemT q).mp hq)
      have hne : (row.getD i 0, (i : Int)) ≠ q := by
        intro e
        exact hnot q hq (by rw [← e])
      have hlt := pairLt_of_le_of_ne _ _ hle hne
      refine ⟨?_, hlt⟩
      unfold pairLt at hlt
      dsimp only at hlt
      omega
    · exact absurd rfl (hnot _ ((hmemT _).mpr h1))
  · exact hdec.imp (fun {a b} h => by
      unfold pairLt at h
      omega)
  · apply List.Nodup.map_on _ hnodupOut
    intro p hp q hq e
    obtain ⟨i, _, e1⟩ := (mem_makePairs row p).mp (hmemV p hp)
    obtain ⟨j, _, e2⟩ := (mem_makePairs row q).mp (hmemV q hq)
    rw [e1, e2] at e
    have hij : i = j := Int.ofNat.inj e
    rw [e1, e2, hij]

theorem evalRows_eq (nthElement : List (Int × Int) → Nat → List (Int × Int))
    (inputData : List Int) (rows n k : Nat) (hn : 1 ≤ n) (hkn : k ≤ n)
    (hlen : inputData.length = rows * n) (htot : rows * n < 2 ^ 31) :
    ∀ (m r0 fuel : Nat) (out : List Int × List Int), r0 + m = rows → m ≤ fuel →
      evalRows nthElement inputData (n : Int) ((rows * n : Nat) : Int) (k : Int) fuel
          ((r0 * n : Nat) : Int) out =
        .ret (out.1 ++ (List.range' r0 m).flatMap
            (fun r => (evalRow nthElement (rowOf inputData n r) k).map (fun p => p.1)),
          out.2 ++ (List.range' r0 m).flatMap
            (fun r => (evalRow nthElement (rowOf inputData n r) k).map (fun p => p.2))) := by
  intro m
  induction m with
  | zero =>
    intro r0 fuel out hr _
    have e : r0 = rows := by omega
    subst e
    have hnot : ¬ (((r0 * n : Nat) : Int) < ((r0 * n : Nat) : Int)) := Int.lt_irrefl _
    cases fuel with
    | zero =>
      unfold evalRows
      rw [if_neg hnot]
      simp
    | succ f =>
      unfold evalRows
      rw [if_neg hnot]
      simp
  | succ m ih =>
    intro r0 fuel out hr hf
    cases fuel with
    | zero => omega
    | succ f =>
      have hltN : r0 * n < rows * n := Nat.mul_lt_mul_of_pos_right (by omega) (by omega)
      have hfitN : r0 * n + n ≤ rows * n := by
        have : (r0 + 1) * n ≤ rows * n := Nat.mul_le_mul_right n (by omega)
        rw [Nat.add_mul, Nat.one_mul] at this
        exact this
      have hlt : ((r0 * n : Nat) : Int) < ((rows * n : Nat) : Int) := Int.ofNat_lt.mpr hltN
      have hfit : 0 ≤ ((r0 * n : Nat) : Int) ∧
          ((r0 * n : Nat) : Int) + (n : Int) ≤ ((inputData.length : Nat) : Int) := by
        rw [hlen]
        constructor
        · exact Int.ofNat_nonneg _
        · have := Int.ofNat_le.mpr hfitN
          rw [Int.ofNat_add] at this
          exact this
      have hk : 0 ≤ (k : Int) ∧ (k : Int) ≤ (n : Int) :=
        ⟨Int.ofNat_nonneg _, Int.ofNat_le.mpr hkn⟩
      have hov : ((r0 * n : Nat) : Int) + (n : Int) < 2 ^ 31 := by
        have h1 : ((r0 * n + n : Nat) : Int) < ((2 ^ 31 : Nat) : Int) :=
          Int.ofNat_lt.mpr (by omega)
        rw [Int.ofNat_add] at h1
        exact h1
      have e : ((r0 * n : Nat) : Int) + (n : Int) = (((r0 + 1) * n : Nat) : Int) := by
        rw [Nat.add_mul, Nat.one_mul, Int.ofNat_add]
      unfold evalRows
      rw [if_pos hlt, if_pos hfit, if_pos hk]
      dsimp only
      rw [if_pos hov, e, ih (r0 + 1) f _ (by omega) (by omega)]
      rw [List.range'_succ, List.flatMap_cons, List.flatMap_cons, List.append_assoc,
        List.append_assoc, Int.toNat_ofNat, Int.toNat_ofNat, Int.toNat_ofNat]
      rfl

theorem length_rowOf (inputData : List Int) (rows n r : Nat)
    (hlen : inputData.length = rows * n) (hr : r < rows) :
    (rowOf inputData n r).length = n := by
  unfold rowOf
  rw [List.length_take, List.length_drop, hlen]
  have : (r + 1) * n ≤ rows * n := Nat.mul_le_mul_right n (by omega)
  rw [Nat.add_mul, Nat.one_mul] at this
  omega

theorem sortingNthElement_contract : NthElementContract sortingNthElement := by
  intro values n
  refine ⟨List.perm_insertionSort _ _, ?_⟩
  intro p hp q hq
  have hs := sorted_insertionSort_pairLe values
  unfold sortingNthElement at hp hq
  rw [← List.take_append_drop n (values.insertionSort pairLe)] at hs
  have h := (List.pairwise_append.mp hs).2.2 p hp q hq
  exact h

end topk_v2

/-- C39 (counterexample): an input of 2 rows of `2^30` elements with `k = 1`. The element
count `2^31` becomes the negative `int` `totalSize`, the loop over the rows is not entered,
and `evalGeneric` returns true with nothing written, where two values and two indices are
due. With a last dimension of `2^31` the `int` `rowSize` is negative and the vector `values`
cannot be constructed. -/
theorem C39_counterexample :
    (1 ≤ 2 ^ 30 ∧ (List.replicate (2 * 2 ^ 30) (0 : Int)).length = 2 * 2 ^ 30 ∧
      ∀ fuel, topk_v2.evalGeneric topk_v2.sortingNthElement (List.replicate (2 * 2 ^ 30) 0)
        (2 ^ 30) (2 * 2 ^ 30) 1 fuel = .ret (true, [], [])) ∧
    ∀ fuel, topk_v2.evalGeneric topk_v2.sortingNthElement [] (2 ^ 31) 0 1 fuel = .abort := by
  have e1 : toInt32 (2 ^ 30) = 2 ^ 30 := by decide
  have e2 : toInt32 (2 * 2 ^ 30) = -2 ^ 31 := by decide
  have e3 : toInt32 (2 ^ 31) = -2 ^ 31 := by decide
  refine ⟨⟨by decide, List.length_replicate _ _, ?_⟩, ?_⟩
  · intro fuel
    unfold topk_v2.evalGeneric
    dsimp only
    rw [e1, e2, if_neg (by decide)]
    cases fuel with
    | zero =>
      unfold topk_v2.evalRows
      rw [if_neg (by decide)]
      rfl
    | succ f =>
      unfold topk_v2.evalRows
      rw [if_neg (by decide)]
      rfl
  · intro fuel
    unfold topk_v2.evalGeneric
    dsimp only
    rw [e3, if_pos (by decide)]

/-- C39 (amended): for an integer element type, an input of `rows` rows of `n >= 1` elements
with fewer than `2^31` elements in all and a last dimension below `2^31`, and `k <= n`, with
`std::nth_element` any function that meets the contract of the C++ standard, `evalGeneric`
returns true and writes, row after row, the values and the indices of the pairs `evalRow` of
the row. For each row these are `k` pairs (value, index), strictly decreasing in the
lexicographic order; each index is in range and the row holds the value at the index; every
element of the row whose index is not written is at most every written value, and its pair
is less than every written pair; the written values are non-increasing and the written
indices are distinct. -/
theorem C39_topk_rows (nthElement : List (Int × Int) → Nat → List (Int × Int))
    (hnth : topk_v2.NthElementContract nthElement) (inputData : List Int) (rows n k : Nat)
    (hn : 1 ≤ n) (hkn : k ≤ n) (hlen : inputData.length = rows * n)
    (hn31 : n < 2 ^ 31) (htot : rows * n < 2 ^ 31) (fuel : Nat)
    (hfuel : rows ≤ fuel) :
    topk_v2.evalGeneric nthElement inputData n (rows * n) (k : Int) fuel =
      .ret (true,
        (List.range rows).flatMap (fun r =>
          (topk_v2.evalRow nthElement (topk_v2.rowOf inputData n r) k).map (fun p => p.1)),
        (List.range rows).flatMap (fun r =>
          (topk_v2.evalRow nthElement (topk_v2.rowOf inputData n r) k).map (fun p => p.2))) ∧
    ∀ r, r < rows →
      (topk_v2.rowOf inputData n r).length = n ∧
      (topk_v2.evalRow nthElement (topk_v2.rowOf inputData n r) k).length = k ∧
      (topk_v2.evalRow nthElement (topk_v2.rowOf inputData n r) k).Pairwise
        (fun a b => topk_v2.pairLt b a) ∧
      (∀ p ∈ topk_v2.evalRow nthElement (topk_v2.rowOf inputData n r) k,
        ∃ i, i < n ∧ p.2 = (i : Int) ∧ (topk_v2.rowOf inputData n r).get? i = some p.1) ∧
      (∀ i, i < n →
        (∀ p ∈ topk_v2.evalRow nthElement (topk_v2.rowOf inputData n r) k, p.2 ≠ (i : Int)) →
        ∀ q ∈ topk_v2.evalRow nthElement (topk_v2.rowOf inputData n r) k,
          (topk_v2.rowOf inputData n r).getD i 0 ≤ q.1 ∧
          topk_v2.pairLt ((topk_v2.rowOf inputData n r).getD i 0, (i : Int)) q) ∧
      (topk_v2.evalRow nthElement (topk_v2.rowOf inputData n r) k).Pairwise
        (fun a b => b.1 ≤ a.1) ∧
      ((topk_v2.evalRow nthElement (topk_v2.rowOf inputData n r) k).map (fun p => p.2)).Nodup := by
  constructor
  · unfold topk_v2.evalGeneric
    dsimp only
    rw [toInt32_of_lt n hn31, toInt32_of_lt (rows * n) htot,
      if_neg (Int.not_lt.mpr (Int.ofNat_nonneg n))]
    have h := topk_v2.evalRows_eq nthElement inputData rows n k hn hkn hlen htot rows 0 fuel
      ([], []) (by omega) hfuel
    rw [Nat.zero_mul] at h
    rw [show ((0 : Nat) : Int) = 0 from rfl] at h
    rw [h]
    simp only [Exec.bind, List.nil_append, List.range_eq_range']
  · intro r hr
    have hl := topk_v2.length_rowOf inputData rows n r hlen hr
    have hs := topk_v2.evalRow_spec nthElement hnth (topk_v2.rowOf inputData n r) k
      (by rw [hl]; exact hkn)
    rw [hl] at hs
    exact ⟨hl, hs⟩

/-- C39 (witness): two rows of three elements, `k = 2`, with `std::nth_element` a full
sort. -/
theorem C39_topk_rows_witness :
    topk_v2.evalGeneric topk_v2.sortingNthElement [3, 1, 3, 2, 5, 4] 3 (2 * 3) 2 2 =
      .ret (true, [3, 3, 5, 4], [2, 0, 1, 2]) :=
  (C39_topk_rows topk_v2.sortingNthElement topk_v2.sortingNthElement_contract
    [3, 1, 3, 2, 5, 4] 2 3 2 (by decide) (by decide) rfl (by decide) (by decide) 2
    (by decide)).1

/-! ## CHANNEL_SHUFFLE: what `eval` writes -/

namespace channel_shuffle

/-- A loop over `0, ..., m - 1` that keeps an invariant returns, and the invariant holds at
the end. -/
theorem foldl_range'_inv {σ : Type} (f : σ → Nat → Exec σ) (P : Nat → σ → Prop) :
    ∀ (m start : Nat) (s : σ), P start s →
      (∀ k s, start ≤ k → k < start + m → P k s → ∃ s1, f s k = .ret s1 ∧ P (k + 1) s1) →
      ∃ s1, Exec.foldl f s (List.range' start m) = .ret s1 ∧ P (start + m) s1 := by
  intro m
  induction m with
  | zero =>
    intro start s h0 _
    exact ⟨s, rfl, h0⟩
  | succ m ih =>
    intro start s h0 hstep
    obtain ⟨s1, hs1, hP1⟩ := hstep start s (Nat.le_refl _) (by omega) h0
    obtain ⟨s2, hs2, hP2⟩ := ih (start + 1) s1 hP1
      (fun k s hk hlt hP => hstep k s (by omega) (by omega) hP)
    refine ⟨s2, ?_, ?_⟩
    · rw [List.range'_succ]
      unfold Exec.foldl
      rw [hs1]
      exact hs2
    · have e : start + (m + 1) = start + 1 + m := by omega
      rw [e]
      exact hP2

theorem foldl_range_inv {σ : Type} (f : σ → Nat → Exec σ) (P : Nat → σ → Prop) (m : Nat)
    (s : σ) (h0 : P 0 s)
    (hstep : ∀ k s, k < m → P k s → ∃ s1, f s k = .ret s1 ∧ P (k + 1) s1) :
    ∃ s1, Exec.foldl f s (List.range m) = .ret s1 ∧ P m s1 := by
  have h := foldl_range'_inv f P m 0 s h0
    (fun k s _ hlt hP => hstep k s (by omega) hP)
  rw [Nat.zero_add] at h
  rw [List.range_eq_range']
  exact h

theorem channel_lt (S G i j : Nat) (hi : i < S) (hj : j < G) : i * G + j < S * G := by
  have h : (i + 1) * G ≤ S * G := Nat.mul_le_mul_right G hi
  rw [Nat.add_mul, Nat.one_mul] at h
  omega

theorem offset_lt (O A I o t n : Nat) (ho : o < O) (ht : t < A) (hn : n < I) :
    o * A * I + t * I + n < O * A * I := by
  have h1 : (o + 1) * A ≤ O * A := Nat.mul_le_mul_right A ho
  rw [Nat.add_mul, Nat.one_mul] at h1
  have h2 : (o * A + t + 1) * I ≤ O * A * I := Nat.mul_le_mul_right I (by omega)
  rw [Nat.add_mul, Nat.add_mul, Nat.one_mul] at h2
  omega

theorem offset_div (A I o t n : Nat) (hn : n < I) :
    (o * A * I + t * I + n) / I = o * A + t := by
  apply Nat.div_eq_of_lt_le
  · rw [Nat.add_mul]
    omega
  · rw [Nat.add_mul, Nat.add_mul, Nat.one_mul]
    omega

theorem offset_mod (A I o t n : Nat) (hn : n < I) :
    (o * A * I + t * I + n) % I = n := by
  have e : o * A * I + t * I + n = n + I * (o * A + t) := by
    rw [Nat.mul_comm I, Nat.add_mul]
    omega
  rw [e, Nat.add_mul_mod_self_left]
  exact Nat.mod_eq_of_lt hn

theorem offset_outer (A I o t n : Nat) (ht : t < A) (hn : n < I) :
    (o * A * I + t * I + n) / (A * I) = o := by
  have h2 : (t + 1) * I ≤ A * I := Nat.mul_le_mul_right I ht
  rw [Nat.add_mul, Nat.one_mul] at h2
  apply Nat.div_eq_of_lt_le
  · rw [← Nat.mul_assoc]
    omega
  · rw [Nat.add_mul, Nat.one_mul, ← Nat.mul_assoc]
    omega

/-- The source of the output element of channel `i * G + j` is the element of channel
`j * S + i`. -/
theorem sourceOffset_eq (S G I o i j n : Nat) (hi : i < S) (hj : j < G) (hn : n < I) :
    sourceOffset (S * G) I G (o * (S * G) * I + (i * G + j) * I + n) =
      o * (S * G) * I + (j * S + i) * I + n := by
  have ht : i * G + j < S * G := channel_lt S G i j hi hj
  have hG : 0 < G := by omega
  unfold sourceOffset
  dsimp only
  rw [offset_outer (S * G) I o (i * G + j) n ht hn, offset_div (S * G) I o (i * G + j) n hn,
    offset_mod (S * G) I o (i * G + j) n hn]
  have e1 : (o * (S * G) + (i * G + j)) % (S * G) = i * G + j := by
    rw [Nat.add_comm, Nat.add_mul_mod_self_right]
    exact Nat.mod_eq_of_lt ht
  have e2 : (i * G + j) % G = j := by
    rw [Nat.add_comm, Nat.add_mul_mod_self_right]
    exact Nat.mod_eq_of_lt hj
  have e3 : (i * G + j) / G = i := by
    apply Nat.div_eq_of_lt_le
    · omega
    · rw [Nat.add_mul, Nat.one_mul]
      omega
  have e4 : S * G / G = S := Nat.mul_div_cancel S hG
  rw [e1, e2, e3, e4]

/-- Every offset of the tensor is the offset of one channel of one group. -/
theorem decompose (O S G I p : Nat) (hG : 0 < G) (hp : p < O * (S * G) * I) :
    ∃ o i j n, o < O ∧ i < S ∧ j < G ∧ n < I ∧
      p = o * (S * G) * I + (i * G + j) * I + n := by
  have hI : 0 < I := by
    rcases Nat.eq_zero_or_pos I with h | h
    · rw [h, Nat.mul_zero] at hp
      exact absurd hp (Nat.not_lt_zero _)
    · exact h
  have hA : 0 < S * G := by
    rcases Nat.eq_zero_or_pos (S * G) with h | h
    · rw [h, Nat.mul_zero, Nat.zero_mul] at hp
      exact absurd hp (Nat.not_lt_zero _)
    · exact h
  have h1 : p / I < O * (S * G) := (Nat.div_lt_iff_lt_mul hI).mpr hp
  have h2 : p / I / (S * G) < O := (Nat.div_lt_iff_lt_mul hA).mpr h1
  have h3 : p / I % (S * G) < S * G := Nat.mod_lt _ hA
  have h4 : p / I % (S * G) / G < S := (Nat.div_lt_iff_lt_mul hG).mpr h3
  refine ⟨p / I / (S * G), p / I % (S * G) / G, p / I % (S * G) % G, p % I, h2, h4,
    Nat.mod_lt _ hG, Nat.mod_lt _ hI, ?_⟩
  have d1 := Nat.div_add_mod p I
  have d2 := Nat.div_add_mod (p / I) (S * G)
  have d3 := Nat.div_add_mod (p / I % (S * G)) G
  have e3 : p / I % (S * G) / G * G + p / I % (S * G) % G = p / I % (S * G) := by
    rw [Nat.mul_comm]
    exact d3
  have e2 : p / I / (S * G) * (S * G) + p / I % (S * G) = p / I := by
    rw [Nat.mul_comm]
    exact d2
  rw [e3, ← Nat.add_mul, e2, Nat.mul_comm]
  exact d1.symm

theorem shuffledOn_mono (inp : List Int) (A I G total : Nat) (D D1 : Nat → Prop)
    (out : List Int) (h : ∀ p, D1 p → D p) (hs : ShuffledOn inp A I G total D out) :
    ShuffledOn inp A I G total D1 out :=
  ⟨hs.1, fun p hp => hs.2 p (h p hp)⟩

/-- One iteration of the innermost loop. -/
theorem copyElement_step (inp : List Int) (O S G I o n i j : Nat)
    (htot : O * (S * G) * I < 2 ^ 32) (hin : inp.length = O * (S * G) * I) (ho : o < O)
    (hn : n < I) (hi : i < S) (hj : j < G) (out : List Int)
    (hout : ShuffledOn inp (S * G) I G (O * (S * G) * I)
      (doneBefore (S * G) I o n (i * G + j)) out) :
    ∃ out1, copyElement inp I S (o * (S * G) * I + n) i
        (out, o * (S * G) * I + n + (i * G + j) * I) j =
        .ret (out1, o * (S * G) * I + n + (i * G + j) * I + I) ∧
      ShuffledOn inp (S * G) I G (O * (S * G) * I)
        (doneBefore (S * G) I o n (i * G + j + 1)) out1 := by
  have hsrc : j * S + i < S * G := by
    have h := channel_lt G S j i hj hi
    rwa [Nat.mul_comm G S] at h
  have hdst : i * G + j < S * G := channel_lt S G i j hi hj
  have hsrcLt := offset_lt O (S * G) I o (j * S + i) n ho hsrc hn
  have hdstLt := offset_lt O (S * G) I o (i * G + j) n ho hdst hn
  have hI : 0 < I := by omega
  have hle : j * S + i ≤ (j * S + i) * I := Nat.le_mul_of_pos_right _ hI
  have m1 : j * S % 2 ^ 32 = j * S := Nat.mod_eq_of_lt (by omega)
  have m2 : (i + j * S) % 2 ^ 32 = i + j * S := Nat.mod_eq_of_lt (by omega)
  have e : I * (i + j * S) = (j * S + i) * I := by rw [Nat.mul_comm, Nat.add_comm]
  have m3 : I * (i + j * S) % 2 ^ 32 = (j * S + i) * I := by
    rw [e]
    exact Nat.mod_eq_of_lt (by omega)
  have hidx : o * (S * G) * I + n + (j * S + i) * I < inp.length := by
    rw [hin]
    omega
  have hb : o * (S * G) * I + n + (i * G + j) * I < out.length := by
    rw [hout.1]
    omega
  unfold copyElement
  rw [m1, m2, m3, List.get?_eq_get hidx]
  dsimp only
  rw [if_pos hb]
  refine ⟨_, rfl, ?_, ?_⟩
  · rw [List.length_set]
    exact hout.1
  · intro p hp
    by_cases hpb : p = o * (S * G) * I + n + (i * G + j) * I
    · rw [hpb, List.get?_eq_getElem?, List.getElem?_set_self hb]
      have e1 : o * (S * G) * I + n + (i * G + j) * I =
          o * (S * G) * I + (i * G + j) * I + n := by omega
      have e2 : o * (S * G) * I + (j * S + i) * I + n =
          o * (S * G) * I + n + (j * S + i) * I := by omega
      rw [e1, sourceOffset_eq S G I o i j n hi hj hn, e2, List.get?_eq_get hidx]
    · rw [get?_set_ne _ _ _ _ (Ne.symm hpb)]
      apply hout.2 p
      rcases hp with h1 | h1 | ⟨t1, ht1, e1⟩
      · exact Or.inl h1
      · exact Or.inr (Or.inl h1)
      · by_cases ht : t1 < i * G + j
        · exact Or.inr (Or.inr ⟨t1, ht, e1⟩)
        · have e2 : t1 = i * G + j := by omega
          rw [e2] at e1
          exact absurd (by omega) hpb

/-- The loop over `j`, for one `i`. -/
theorem loop_j (inp : List Int) (O S G I o n i : Nat)
    (htot : O * (S * G) * I < 2 ^ 32) (hin : inp.length = O * (S * G) * I) (ho : o < O)
    (hn : n < I) (hi : i < S) (out : List Int)
    (hout : ShuffledOn inp (S * G) I G (O * (S * G) * I)
      (doneBefore (S * G) I o n (i * G)) out) :
    ∃ out1, Exec.foldl (copyElement inp I S (o * (S * G) * I + n) i)
        (out, o * (S * G) * I + n + (i * G) * I) (List.range G) =
        .ret (out1, o * (S * G) * I + n + ((i + 1) * G) * I) ∧
      ShuffledOn inp (S * G) I G (O * (S * G) * I)
        (doneBefore (S * G) I o n ((i + 1) * G)) out1 := by
  obtain ⟨st, hst, hb, hs⟩ := foldl_range_inv
    (copyElement inp I S (o * (S * G) * I + n) i)
    (fun j st => st.2 = o * (S * G) * I + n + (i * G + j) * I ∧
      ShuffledOn inp (S * G) I G (O * (S * G) * I)
        (doneBefore (S * G) I o n (i * G + j)) st.1)
    G (out, o * (S * G) * I + n + (i * G) * I) ⟨rfl, hout⟩
    (by
      intro j st hj hP
      obtain ⟨out0, b0⟩ := st
      obtain ⟨hb0, hs0⟩ := hP
      dsimp only at hb0 hs0
      subst hb0
      obtain ⟨out1, h1, h2⟩ := copyElement_step inp O S G I o n i j htot hin ho hn hi hj out0 hs0
      refine ⟨_, h1, ?_, h2⟩
      show o * (S * G) * I + n + (i * G + j) * I + I =
        o * (S * G) * I + n + (i * G + j + 1) * I
      rw [Nat.add_mul (i * G + j) 1 I, Nat.one_mul]
      omega)
  obtain ⟨out1, b1⟩ := st
  dsimp only at hb hs
  have e : (i + 1) * G = i * G + G := by rw [Nat.add_mul, Nat.one_mul]
  rw [e]
  rw [hb] at hst
  exact ⟨out1, hst, hs⟩

/-- The loops over `i` and `j`, for one `outer` and one `inner`. -/
theorem evalInner_step (inp : List Int) (O S G I o n : Nat)
    (htot : O * (S * G) * I < 2 ^ 32) (hI32 : I < 2 ^ 32)
    (hin : inp.length = O * (S * G) * I) (ho : o < O) (hn : n < I) (out : List Int)
    (hout : ShuffledOn inp (S * G) I G (O * (S * G) * I) (doneBefore (S * G) I o n 0) out) :
    ∃ out1, evalInner inp (S * G) I S G o out n = .ret out1 ∧
      ShuffledOn inp (S * G) I G (O * (S * G) * I) (doneBefore (S * G) I o (n + 1) 0) out1 := by
  have hI : 0 < I := by omega
  have hbase : ((o * (S * G) % 2 ^ 32) * I % 2 ^ 32 + n) % 2 ^ 32 = o * (S * G) * I + n := by
    have h1 : o * (S * G) * I + n < 2 ^ 32 := by
      rcases Nat.eq_zero_or_pos (S * G) with hz | hpos
      · rw [hz, Nat.mul_zero, Nat.zero_mul]
        omega
      · have := offset_lt O (S * G) I o 0 n ho hpos hn
        omega
    have h2 : o * (S * G) ≤ o * (S * G) * I := Nat.le_mul_of_pos_right _ hI
    rw [Nat.mod_eq_of_lt (by omega : o * (S * G) < 2 ^ 32),
      Nat.mod_eq_of_lt (by omega : o * (S * G) * I < 2 ^ 32), Nat.mod_eq_of_lt h1]
  obtain ⟨st, hst, hb, hs⟩ := foldl_range_inv
    (fun state i =>
      Exec.foldl (copyElement inp I S (o * (S * G) * I + n) i) state (List.range G))
    (fun i st => st.2 = o * (S * G) * I + n + (i * G) * I ∧
      ShuffledOn inp (S * G) I G (O * (S * G) * I) (doneBefore (S * G) I o n (i * G)) st.1)
    S (out, o * (S * G) * I + n)
    ⟨by show _ = _ + (0 * G) * I; rw [Nat.zero_mul, Nat.zero_mul, Nat.add_zero],
      by show ShuffledOn _ _ _ _ _ (doneBefore _ _ _ _ (0 * G)) _; rw [Nat.zero_mul]; exact hout⟩
    (by
      intro i st hi hP
      obtain ⟨out0, b0⟩ := st
      obtain ⟨hb0, hs0⟩ := hP
      dsimp only at hb0 hs0
      subst hb0
      obtain ⟨out1, h1, h2⟩ := loop_j inp O S G I o n i htot hin ho hn hi out0 hs0
      exact ⟨_, h1, rfl, h2⟩)
  obtain ⟨out1, b1⟩ := st
  dsimp only at hb hs
  unfold evalInner
  dsimp only
  rw [hbase, hst]
  refine ⟨out1, rfl, ?_⟩
  apply shuffledOn_mono inp (S * G) I G _ _ _ out1 _ hs
  intro p hp
  rcases hp with h1 | ⟨n1, t1, hn1, ht1, e1⟩ | ⟨t1, ht1, _⟩
  · exact Or.inl h1
  · by_cases hlt : n1 < n
    · exact Or.inr (Or.inl ⟨n1, t1, hlt, ht1, e1⟩)
    · have e2 : n1 = n := by omega
      rw [e2] at e1
      exact Or.inr (Or.inr ⟨t1, ht1, e1⟩)
  · exact absurd ht1 (Nat.not_lt_zero _)

/-- The loop over `inner`, for one `outer`. -/
theorem loop_inner (inp : List Int) (O S G I o : Nat) (htot : O * (S * G) * I < 2 ^ 32)
    (hI32 : I < 2 ^ 32) (hin : inp.length = O * (S * G) * I) (ho : o < O) (out : List Int)
    (hout : ShuffledOn inp (S * G) I G (O * (S * G) * I) (doneBefore (S * G) I o 0 0) out) :
    ∃ out1, Exec.foldl (evalInner inp (S * G) I S G o) out (List.range I) = .ret out1 ∧
      ShuffledOn inp (S * G) I G (O * (S * G) * I)
        (doneBefore (S * G) I (o + 1) 0 0) out1 := by
  obtain ⟨out1, h1, h2⟩ := foldl_range_inv (evalInner inp (S * G) I S G o)
    (fun n out => ShuffledOn inp (S * G) I G (O * (S * G) * I) (doneBefore (S * G) I o n 0) out)
    I out hout
    (fun n out0 hn hP => evalInner_step inp O S G I o n htot hI32 hin ho hn out0 hP)
  refine ⟨out1, h1, ?_⟩
  apply shuffledOn_mono inp (S * G) I G _ _ _ out1 _ h2
  intro p hp
  rcases hp with ⟨o1, n1, t1, ho1, hn1, ht1, e1⟩ | ⟨n1, _, hn1, _⟩ | ⟨t1, ht1, _⟩
  · by_cases hlt : o1 < o
    · exact Or.inl ⟨o1, n1, t1, hlt, hn1, ht1, e1⟩
    · have e2 : o1 = o := by omega
      rw [e2] at e1
      exact Or.inr (Or.inl ⟨n1, t1, hn1, ht1, e1⟩)
  · exact absurd hn1 (Nat.not_lt_zero _)
  · exact absurd ht1 (Nat.not_lt_zero _)

/-- What `eval` returns: the output holds the shuffled input at every offset. -/
theorem eval_shuffles (inp out0 : List Int) (O S G I : Nat) (hG : 0 < G)
    (htot : O * (S * G) * I < 2 ^ 32) (hI32 : I < 2 ^ 32)
    (hin : inp.length = O * (S * G) * I) (hout : out0.length = O * (S * G) * I) :
    ∃ out, eval inp O (S * G) I G out0 = .ret (true, out) ∧
      out.length = O * (S * G) * I ∧
      ∀ p, p < O * (S * G) * I → out.get? p = inp.get? (sourceOffset (S * G) I G p) := by
  obtain ⟨out, h1, h2⟩ := foldl_range_inv
    (fun out outer => Exec.foldl (evalInner inp (S * G) I S G outer) out (List.range I))
    (fun o out => ShuffledOn inp (S * G) I G (O * (S * G) * I) (doneBefore (S * G) I o 0 0) out)
    O out0
    ⟨hout, by
      intro p hp
      rcases hp with ⟨o1, _, _, ho1, _⟩ | ⟨n1, _, hn1, _⟩ | ⟨t1, ht1, _⟩
      · exact absurd ho1 (Nat.not_lt_zero _)
      · exact absurd hn1 (Nat.not_lt_zero _)
      · exact absurd ht1 (Nat.not_lt_zero _)⟩
    (fun o out1 ho hP => loop_inner inp O S G I o htot hI32 hin ho out1 hP)
  refine ⟨out, ?_, h2.1, ?_⟩
  · unfold eval
    rw [if_neg (by omega)]
    dsimp only
    rw [Nat.mul_div_cancel S hG, h1]
    rfl
  · intro p hp
    obtain ⟨o, i, j, n, ho, hi, hj, hn, e⟩ := decompose O S G I p hG hp
    apply h2.2 p
    exact Or.inl ⟨o, n, i * G + j, ho, hn, channel_lt S G i j hi hj, e⟩

end channel_shuffle

/-- C40: for every tensor of `O * A * I` elements (`O` the product of the dimensions before
the axis, `A = S * G` the size of the axis with `G > 0` groups of `S = A / G` channels, `I`
the product of the dimensions after the axis, the number of elements below `2 ^ 32`),
`eval` returns true with an output in which the element of channel `i * G + j` is the input
element of channel `j * S + i`, for all `i < S` and `j < G`; every channel is `i * G + j` for
exactly one such pair; the output does not depend on what the output buffer held before; and
when `A > 0`, shuffling the output with `S` groups gives back the input. -/
theorem C40_channel_shuffle (inp out0 : List Int) (O S G I : Nat) (hG : 0 < G)
    (htot : O * (S * G) * I < 2 ^ 32) (hI32 : I < 2 ^ 32)
    (hin : inp.length = O * (S * G) * I) (hout : out0.length = O * (S * G) * I) :
    ∃ out, channel_shuffle.eval inp O (S * G) I G out0 = .ret (true, out) ∧
      out.length = O * (S * G) * I ∧
      (∀ o i j n, o < O → i < S → j < G → n < I →
        out.get? (o * (S * G) * I + (i * G + j) * I + n) =
          inp.get? (o * (S * G) * I + (j * S + i) * I + n)) ∧
      (∀ c, c < S * G → ∃ i j, i < S ∧ j < G ∧ c = i * G + j ∧
        ∀ i1 j1, j1 < G → c = i1 * G + j1 → i1 = i ∧ j1 = j) ∧
      (∀ out1 : List Int, out1.length = O * (S * G) * I →
        channel_shuffle.eval inp O (S * G) I G out1 = .ret (true, out)) ∧
      (0 < S → ∀ out2 : List Int, out2.length = O * (S * G) * I →
        channel_shuffle.eval out O (S * G) I S out2 = .ret (true, inp)) := by
  obtain ⟨out, h1, h2, h3⟩ := channel_shuffle.eval_shuffles inp out0 O S G I hG htot hI32 hin hout
  have hformula : ∀ o i j n, o < O → i < S → j < G → n < I →
      out.get? (o * (S * G) * I + (i * G + j) * I + n) =
        inp.get? (o * (S * G) * I + (j * S + i) * I + n) := by
    intro o i j n ho hi hj hn
    rw [h3 _ (channel_shuffle.offset_lt O (S * G) I o (i * G + j) n ho
      (channel_shuffle.channel_lt S G i j hi hj) hn),
      channel_shuffle.sourceOffset_eq S G I o i j n hi hj hn]
  refine ⟨out, h1, h2, hformula, ?_, ?_, ?_⟩
  · intro c hc
    have hi : c / G < S := (Nat.div_lt_iff_lt_mul hG).mpr hc
    refine ⟨c / G, c % G, hi, Nat.mod_lt _ hG, ?_, ?_⟩
    · have := Nat.div_add_mod c G
      rw [Nat.mul_comm] at this
      exact this.symm
    · intro i1 j1 hj1 e
      have e1 : c / G = i1 := by
        rw [e]
        apply Nat.div_eq_of_lt_le
        · omega
        · rw [Nat.add_mul, Nat.one_mul]
          omega
      have e2 : c % G = j1 := by
        rw [e, Nat.add_comm, Nat.add_mul_mod_self_right]
        exact Nat.mod_eq_of_lt hj1
      exact ⟨e1.symm, e2.symm⟩
  · intro out1 hout1
    obtain ⟨outb, k1, k2, k3⟩ :=
      channel_shuffle.eval_shuffles inp out1 O S G I hG htot hI32 hin hout1
    have e : outb = out := by
      apply List.ext_get?
      intro p
      by_cases hp : p < O * (S * G) * I
      · rw [k3 p hp, h3 p hp]
      · rw [List.get?_eq_none.mpr (by omega), List.get?_eq_none.mpr (by omega)]
    rw [k1, e]
  · intro hS out2 hout2
    have hcomm : S * G = G * S := Nat.mul_comm S G
    obtain ⟨outc, k1, k2, k3⟩ := channel_shuffle.eval_shuffles out out2 O G S I hS
      (by rw [← hcomm]; exact htot) hI32 (by rw [← hcomm]; exact h2)
      (by rw [← hcomm]; exact hout2)
    rw [← hcomm] at k1 k2 k3
    have e : outc = inp := by
      apply List.ext_get?
      intro p
      by_cases hp : p < O * (S * G) * I
      · obtain ⟨o, i, j, n, ho, hi, hj, hn, ep⟩ :=
          channel_shuffle.decompose O G S I p hS (by rw [← hcomm]; exact hp)
        rw [← hcomm] at ep
        have hsrc := channel_shuffle.sourceOffset_eq G S I o i j n hi hj hn
        rw [← hcomm] at hsrc
        rw [k3 p hp, ep, hsrc, hformula o j i n ho hj hi hn]
      · rw [List.get?_eq_none.mpr (by omega), List.get?_eq_none.mpr (by omega)]
    rw [k1, e]

theorem C40_channel_shuffle_witness :
    ∃ out, channel_shuffle.eval [0, 1, 2, 3, 4, 5] 1 (3 * 2) 1 2 [9, 9, 9, 9, 9, 9] =
        .ret (true, out) ∧
      out.length = 1 * (3 * 2) * 1 ∧
      (∀ o i j n, o < 1 → i < 3 → j < 2 → n < 1 →
        out.get? (o * (3 * 2) * 1 + (i * 2 + j) * 1 + n) =
          [0, 1, 2, 3, 4, 5].get? (o * (3 * 2) * 1 + (j * 3 + i) * 1 + n)) :=
  (C40_channel_shuffle [0, 1, 2, 3, 4, 5] [9, 9, 9, 9, 9, 9] 1 3 2 1 (by decide) (by decide)
    (by decide) rfl rfl).imp (fun _ h => ⟨h.1, h.2.1, h.2.2.1⟩)

/-! ## Cycles and the rejection by finish -/

theorem consumers_replicate_append (k v x w y : Nat) (hw : w ≠ v) :
    consumers (List.replicate k (v, x) ++ [(w, y)]) v = List.replicate k x := by
  unfold consumers
  rw [List.filter_append, List.map_append]
  have h1 := consumers_replicate k v x
  unfold consumers at h1
  rw [h1, List.filter_cons_of_neg (by simpa using hw), List.filter_nil, List.map_nil,
    List.append_nil]

/-- The sort of a producer `P` that lists operand `v` `m + 1` times as output, a consumer
`X` that lists it `k + 1` times as input, with `(k + 1) * m = 2 * 2^32`, and an operation `Y`
that consumes and produces operand `w`: the consumer is run three times, `Y` never. -/
theorem sort_counter_wraps_twice (operands : List Operand) (operations : List Operation)
    (P X Y : Operation) (v w k m c : Nat) (o o1 : Operand)
    (h0 : operations.get? 0 = some P) (h1 : operations.get? 1 = some X)
    (h2 : operations.get? 2 = some Y)
    (hPi : P.inputs = []) (hPo : P.outputs = List.replicate (m + 1) v)
    (hXi : X.inputs = List.replicate (k + 1) v) (hXo : X.outputs = [])
    (hYi : Y.inputs = [w])
    (ho : operands.get? v = some o) (hu : isUnknownLifetime o.lifetime = true)
    (ho1 : operands.get? w = some o1) (hu1 : isUnknownLifetime o1.lifetime = true)
    (hw : w ≠ v)
    (hkm : (k + 1) * m = (c + 1 + 1) + (c + 1 + 1)) (hc : c + 1 = 0xFFFFFFFF) (fuel : Nat) :
    sortInit operands operations [0, 1, 2]
        { operandToOperations := [], unknownInputCount := [0, 0, 0], opsReadyToRun := [] } =
      .ret { operandToOperations := List.replicate (k + 1) (v, 1) ++ [(w, 2)]
             unknownInputCount := [0, k + 1, 1]
             opsReadyToRun := [0] } ∧
    sortLoop operations (List.replicate (k + 1) (v, 1) ++ [(w, 2)]) (fuel + 5) [0]
        [0, k + 1, 1] [] [] =
      .ret ([P, X, X, X], [0, 1, 1, 1]) := by
  constructor
  · unfold ModelBuilder.sortInit
    rw [h0]
    dsimp only
    rw [hPi, show countUnknownInputs operands 0 [] (0, []) = .ret (0, []) from rfl]
    dsimp only [Exec.bind]
    rw [if_pos rfl]
    unfold ModelBuilder.sortInit
    rw [h1]
    dsimp only
    rw [hXi, countUnknownInputs_replicate operands 1 v o ho hu]
    dsimp only [Exec.bind]
    rw [if_neg (by omega)]
    unfold ModelBuilder.sortInit
    rw [h2]
    dsimp only
    rw [hYi]
    have hY : countUnknownInputs operands 2 [w] (0, [] ++ List.replicate (k + 1) (v, 1)) =
        .ret (1, List.replicate (k + 1) (v, 1) ++ [(w, 2)]) := by
      unfold ModelBuilder.countUnknownInputs
      rw [ho1]
      dsimp only
      rw [if_pos hu1, List.nil_append]
      rfl
    rw [hY]
    dsimp only [Exec.bind]
    rw [if_neg (by omega)]
    unfold ModelBuilder.sortInit
    rw [Nat.zero_add]
    rfl
  · have hev : (List.replicate (m + 1) v).flatMap
          (consumers (List.replicate (k + 1) (v, 1) ++ [(w, 2)])) =
        List.replicate (k + 1) 1 ++
          (List.replicate (c + 1 + 1) 1 ++ List.replicate (c + 1 + 1) 1) := by
      rw [flatMap_replicate _ (m + 1) (k + 1) v 1
          (consumers_replicate_append (k + 1) v 1 w 2 hw),
        ← List.replicate_add, ← List.replicate_add]
      congr 1
      rw [Nat.succ_mul, Nat.mul_comm m (k + 1), hkm, Nat.add_comm]
    have hmark : markOutputs (List.replicate (k + 1) (v, 1) ++ [(w, 2)])
        (List.replicate (m + 1) v) ([0, k + 1, 1], []) = ([0, 0, 1], [1, 1, 1]) := by
      rw [markOutputs_eq_foldl, hev, List.foldl_append, List.foldl_append,
        countdown 1 k [0, k + 1, 1] [] (by show 1 < 3; decide) rfl,
        countdown_wraps 1 c hc ([0, k + 1, 1].set 1 0) [1]
          (by rw [List.length_set]; show 1 < 3; decide) rfl,
        countdown_wraps 1 c hc (([0, k + 1, 1].set 1 0).set 1 0) [1, 1]
          (by rw [List.length_set, List.length_set]; show 1 < 3; decide) rfl]
      rfl
    have hnil : ∀ s : List Nat × List Nat,
        markOutputs (List.replicate (k + 1) (v, 1) ++ [(w, 2)]) [] s = s := fun _ => rfl
    unfold ModelBuilder.sortLoop
    dsimp only
    rw [h0]
    dsimp only
    rw [hPo, hmark]
    dsimp only
    unfold ModelBuilder.sortLoop
    dsimp only
    rw [h1]
    dsimp only
    rw [hXo, hnil]
    dsimp only
    unfold ModelBuilder.sortLoop
    dsimp only
    rw [h1]
    dsimp only
    rw [hXo, hnil]
    dsimp only
    unfold ModelBuilder.sortLoop
    dsimp only
    rw [h1]
    dsimp only
    rw [hXo, hnil]
    dsimp only
    unfold ModelBuilder.sortLoop
    rfl

/-- The two loops of the sort on `wrapCycleBuilder`. -/
theorem wrapCycleBuilder_loops (fuel : Nat) :
    sortInit wrapCycleBuilder.mOperands wrapCycleBuilder.mOperations [0, 1, 2]
        { operandToOperations := [], unknownInputCount := [0, 0, 0], opsReadyToRun := [] } =
      .ret { operandToOperations := List.replicate (65535 + 1) (0, 1) ++ [(1, 2)]
             unknownInputCount := [0, 65535 + 1, 1]
             opsReadyToRun := [0] } ∧
    sortLoop wrapCycleBuilder.mOperations (List.replicate (65535 + 1) (0, 1) ++ [(1, 2)])
      (fuel + 5) [0] [0, 65535 + 1, 1] [] [] =
      .ret ([wrapTwiceProducer, wrapConsumer, wrapConsumer, wrapConsumer], [0, 1, 1, 1]) :=
  sort_counter_wraps_twice wrapCycleBuilder.mOperands wrapCycleBuilder.mOperations
    wrapTwiceProducer wrapConsumer selfLoopOperation 0 1 65535 131072 4294967294
    (tensorOperand LifeTime.TEMPORARY_VARIABLE) (tensorOperand LifeTime.TEMPORARY_VARIABLE)
    rfl rfl rfl rfl rfl rfl rfl rfl rfl rfl rfl rfl (by decide)
    (by norm_num) (by norm_num) fuel

theorem wrapCycleBuilder_init :
    sortInit wrapCycleBuilder.mOperands wrapCycleBuilder.mOperations
      (List.range wrapCycleBuilder.operationCount)
      { operandToOperations := []
        unknownInputCount := List.replicate wrapCycleBuilder.operationCount 0
        opsReadyToRun := [] } =
      .ret { operandToOperations := List.replicate (65535 + 1) (0, 1) ++ [(1, 2)]
             unknownInputCount := [0, 65535 + 1, 1]
             opsReadyToRun := [0] } := by
  have e1 : wrapCycleBuilder.operationCount = 3 := rfl
  rw [e1]
  exact (wrapCycleBuilder_loops 0).1

theorem wrapCycleBuilder_sort (fuel : Nat) :
    sortIntoRunOrder (fuel + 5) wrapCycleBuilder = .abort :=
  sortIntoRunOrder_aborts (fuel + 5) wrapCycleBuilder _ _ rfl wrapCycleBuilder_init
    (wrapCycleBuilder_loops fuel).2 (by show 3 < 4; decide)

theorem wrapCycleBuilder_cycle :
    ∃ j, Relation.TransGen
      (Feeds wrapCycleBuilder.mOperands wrapCycleBuilder.mOperations) j j :=
  ⟨2, Relation.TransGen.single
    ⟨selfLoopOperation, selfLoopOperation, 1, rfl, rfl, List.mem_singleton.mpr rfl,
      List.mem_singleton.mpr rfl, rfl⟩⟩

theorem readN_replicate (n a : Nat) : readN (List.replicate n a) n = List.replicate n a := by
  unfold readN
  apply List.ext_getElem
  · rw [List.length_map, List.length_range, List.length_replicate]
  · intro i h1 h2
    rw [List.length_map, List.length_range] at h1
    rw [List.getElem_map, List.getElem_range, List.getElem_replicate,
      List.getD_eq_getElem?_getD, List.getElem?_replicate, if_pos h1]
    rfl

theorem makeVector_replicate (n a : Nat) :
    makeVector (some (List.replicate (n + 1) a)) (n + 1) = List.replicate (n + 1) a := by
  unfold makeVector
  rw [if_pos (Nat.succ_pos n)]
  exact readN_replicate (n + 1) a

/-- `addOperation` of an OEM operation in the sample environment, on a builder that is
neither finished nor invalid, with lists of operand indices. -/
theorem addOperation_oem (b : ModelBuilder) (inputCount : Nat) (inputs : Option (List Nat))
    (outputCount : Nat) (outputs : Option (List Nat)) (hb : b.badState = false)
    (hin : nullOrSizedFails inputs inputCount = false)
    (hout : nullOrSizedFails outputs outputCount = false)
    (hvi : ∀ i ∈ makeVector inputs inputCount, i < b.mOperands.length)
    (hvo : ∀ i ∈ makeVector outputs outputCount, i < b.mOperands.length)
    (hlen : b.mOperations.length < 4294967294) :
    b.addOperation sampleEnv sampleTypeManager OperationType.OEM_OPERATION inputCount inputs
        outputCount outputs =
      .ret (ANEURALNETWORKS_NO_ERROR,
        { b with
          mOperations := b.mOperations ++
            [{ type := OperationType.OEM_OPERATION
               inputs := makeVector inputs inputCount
               outputs := makeVector outputs outputCount }]
          mHasOEMOperation := true }) := by
  have hval : sampleEnv.validateOperationButNotOperands
      { type := OperationType.OEM_OPERATION
        inputs := makeVector inputs inputCount
        outputs := makeVector outputs outputCount } b.mOperands
      b.mReferencedSubgraphsForValidation = true := by
    show ((makeVector inputs inputCount).all (fun i => decide (i < b.mOperands.length)) &&
      (makeVector outputs outputCount).all (fun i => decide (i < b.mOperands.length))) = true
    rw [Bool.and_eq_true, List.all_eq_true, List.all_eq_true]
    exact ⟨fun i hi => decide_eq_true (hvi i hi), fun i hi => decide_eq_true (hvo i hi)⟩
  have hext : sampleEnv.isExtensionOperationType OperationType.OEM_OPERATION = false := by
    decide
  have hcode : sampleEnv.validCode sampleEnv.kNumberOfOperationTypes
      sampleEnv.kNumberOfOperationTypesOEM OperationType.OEM_OPERATION = true := by decide
  have hcount : ¬ (b.operationCount ≥ MAX_NUMBER_OF_OPERATIONS) := by
    unfold ModelBuilder.operationCount
    have hmax : MAX_NUMBER_OF_OPERATIONS = 4294967294 := rfl
    rw [hmax, Nat.mod_eq_of_lt (by omega)]
    omega
  unfold ModelBuilder.addOperation
  rw [hb]
  dsimp only
  rw [hext, hcode, hin, hout, hval, if_neg hcount]
  have hcf : (OperationType.OEM_OPERATION == OperationType.IF ||
      OperationType.OEM_OPERATION == OperationType.WHILE) = false := by decide
  have hoem : (OperationType.OEM_OPERATION == OperationType.OEM_OPERATION) = true := by decide
  simp only [Bool.false_eq_true, if_false, Bool.false_and, Bool.not_true, Bool.and_false,
    Bool.not_false, Bool.or_false, Bool.or_true, hcf, hoem]

theorem wrapCycleBuilder_reachable : Reachable sampleEnv wrapCycleBuilder := by
  have h0 : Reachable sampleEnv
      { mOperands :=
          [tensorOperand LifeTime.TEMPORARY_VARIABLE,
           tensorOperand LifeTime.TEMPORARY_VARIABLE] } :=
    reachable_runCalls sampleEnv sampleTypeManager emptyHeap 0
      [.addOperand tensorType, .addOperand tensorType] _ _ Reachable.init (by decide)
  have h1 : Reachable sampleEnv
      { mOperands :=
          [tensorOperand LifeTime.TEMPORARY_VARIABLE,
           tensorOperand LifeTime.TEMPORARY_VARIABLE]
        mOperations := [wrapTwiceProducer]
        mHasOEMOperation := true } := by
    refine Reachable.step sampleTypeManager emptyHeap 0
      (Call.addOperation OperationType.OEM_OPERATION 0 none (131072 + 1)
        (some (List.replicate (131072 + 1) 0))) ANEURALNETWORKS_NO_ERROR h0 ?_
    show ModelBuilder.addOperation _ _ _ _ _ _ _ _ = _
    rw [addOperation_oem
      { mOperands :=
          [tensorOperand LifeTime.TEMPORARY_VARIABLE,
           tensorOperand LifeTime.TEMPORARY_VARIABLE] } 0 none (131072 + 1)
      (some (List.replicate (131072 + 1) 0)) rfl rfl rfl
      (fun i hi => absurd hi (List.not_mem_nil i))
      (fun i hi => by
        rw [makeVector_replicate] at hi
        rw [List.eq_of_mem_replicate hi]
        show 0 < 2
        decide) (by show 0 < 4294967294; decide), makeVector_replicate]
    rfl
  have h2 : Reachable sampleEnv
      { mOperands :=
          [tensorOperand LifeTime.TEMPORARY_VARIABLE,
           tensorOperand LifeTime.TEMPORARY_VARIABLE]
        mOperations := [wrapTwiceProducer, wrapConsumer]
        mHasOEMOperation := true } := by
    refine Reachable.step sampleTypeManager emptyHeap 0
      (Call.addOperation OperationType.OEM_OPERATION (65535 + 1)
        (some (List.replicate (65535 + 1) 0)) 0 none) ANEURALNETWORKS_NO_ERROR h1 ?_
    show ModelBuilder.addOperation _ _ _ _ _ _ _ _ = _
    rw [addOperation_oem
      { mOperands :=
          [tensorOperand LifeTime.TEMPORARY_VARIABLE,
           tensorOperand LifeTime.TEMPORARY_VARIABLE]
        mOperations := [wrapTwiceProducer]
        mHasOEMOperation := true } (65535 + 1) (some (List.replicate (65535 + 1) 0)) 0 none
      rfl rfl rfl
      (fun i hi => by
        rw [makeVector_replicate] at hi
        rw [List.eq_of_mem_replicate hi]
        show 0 < 2
        decide)
      (fun i hi => absurd hi (List.not_mem_nil i)) (by show 1 < 4294967294; decide),
      makeVector_replicate]
    rfl
  refine Reachable.step sampleTypeManager emptyHeap 0
    (Call.addOperation OperationType.OEM_OPERATION 1 (some [1]) 1 (some [1]))
    ANEURALNETWORKS_NO_ERROR h2 ?_
  show ModelBuilder.addOperation _ _ _ _ _ _ _ _ = _
  rw [addOperation_oem
    { mOperands :=
        [tensorOperand LifeTime.TEMPORARY_VARIABLE,
         tensorOperand LifeTime.TEMPORARY_VARIABLE]
      mOperations := [wrapTwiceProducer, wrapConsumer]
      mHasOEMOperation := true } 1 (some [1]) 1 (some [1]) rfl rfl rfl
    (fun i hi => by
      have e : i = 1 := List.mem_singleton.mp hi
      rw [e]
      show 1 < 2
      decide)
    (fun i hi => by
      have e : i = 1 := List.mem_singleton.mp hi
      rw [e]
      show 1 < 2
      decide) (by show 2 < 4294967294; decide)]
  rfl

/-- A successful sort whose stored order writes no operand twice excludes a cycle of the
relation "A feeds B". -/
theorem sortIntoRunOrder_no_cycle (fuel : Nat) (b b1 : ModelBuilder)
    (hmap : b.mSortedOperationIndexMap = []) (hlen : b.mOperations.length < 2 ^ 32)
    (h : sortIntoRunOrder fuel b = .ret (true, b1))
    (hnd : (produced b1.mOperations).Nodup) :
    ∀ j, ¬ Relation.TransGen (Feeds b.mOperands b.mOperations) j j := by
  obtain ⟨s, r, hs, hr, hcase⟩ := sortIntoRunOrder_result fuel b true b1 hmap hlen h
  rcases hcase with ⟨_, hl, hb1⟩ | ⟨hf, _, _⟩
  swap
  · cases hf
  obtain ⟨hm, hinv0⟩ := sortInit_spec b.mOperands b.mOperations s hs
  rw [hm] at hr
  have hrun := sortLoop_run b.mOperations _ fuel _ _ [] [] r rfl hr
  have hops : b1.mOperations = r.1 := by rw [hb1]
  rw [hops] at hnd
  have hrel : ∀ order1, order1 <+: r.2 → order1.Nodup →
      (∀ j ∈ order1, j < b.mOperations.length) →
      WrittenOnce b.mOperands b.mOperations
        (order1.filterMap (fun j => b.mOperations.get? j)) := by
    intro order1 hpre _ _ j v _
    obtain ⟨t, ht⟩ := hpre
    have : produced r.1 = produced (order1.filterMap (fun j => b.mOperations.get? j)) ++
        produced (t.filterMap (fun j => b.mOperations.get? j)) := by
      rw [hrun, ← ht, List.filterMap_append, produced_append]
    have hc := List.nodup_iff_count_le_one.mp hnd v
    rw [this, List.count_append] at hc
    omega
  obtain ⟨cntF, hinv⟩ := sortLoop_sound b.mOperands b.mOperations fuel _ _ _ _ r hinv0 hr hrel
  have hb : ∀ j ∈ r.2, j < b.mOperations.length :=
    fun j hj => hinv.bound j (List.mem_append_left _ hj)
  have hndo : r.2.Nodup := by
    have := hinv.nodup
    rw [List.append_nil] at this
    exact this
  have hfull : r.2.length = b.mOperations.length := by
    rw [← hl, hinv.run, length_filterMap_get b.mOperations r.2 hb]
  have hperm : r.1.Perm b.mOperations := by
    rw [hinv.run]
    exact perm_of_full b.mOperations r.2 hndo hb hfull
  have hsingle : NoUnknownInputWrittenTwice b.mOperands b.mOperations := by
    intro op _ v _ _
    have e : (produced r.1).count v = (produced b.mOperations).count v :=
      List.Perm.count_eq (List.Perm.flatMap_right _ hperm) v
    have hc := List.nodup_iff_count_le_one.mp hnd v
    omega
  intro j hj
  obtain ⟨ka, kc, h1, h2, h3⟩ :=
    transGen_forward b.mOperands b.mOperations cntF r.1 r.2 hinv hfull hsingle j j hj
  have := nodup_get_inj r.2 hndo ka kc j h1 h2
  omega

theorem rewrittenCycleBuilder_reachable : Reachable sampleEnv rewrittenCycleBuilder :=
  reachable_runCalls sampleEnv sampleTypeManager emptyHeap 0 rewrittenCycleCalls _ _
    Reachable.init (by decide)

theorem rewrittenCycleBuilder_cycle :
    ∃ j, Relation.TransGen
      (Feeds rewrittenCycleBuilder.mOperands rewrittenCycleBuilder.mOperations) j j :=
  ⟨0, Relation.TransGen.tail
    (Relation.TransGen.single ((feeds_iff _ _ 0 1).mpr (by decide)))
    ((feeds_iff _ _ 1 0).mpr (by decide))⟩

theorem scenarioThreeBuilder_reachable : Reachable sampleEnv scenarioThreeBuilder :=
  reachable_runCalls sampleEnv sampleTypeManager emptyHeap 0 scenarioThreeCalls _ _
    Reachable.init (by decide)

theorem scenarioThreeBuilder_cycle :
    ∃ j, Relation.TransGen
      (Feeds scenarioThreeBuilder.mOperands scenarioThreeBuilder.mOperations) j j :=
  ⟨0, Relation.TransGen.tail
    (Relation.TransGen.single ((feeds_iff _ _ 0 1).mpr (by decide)))
    ((feeds_iff _ _ 1 0).mpr (by decide))⟩

theorem cycleResetBuilder_reachable : Reachable sampleEnv cycleResetBuilder :=
  reachable_runCalls sampleEnv sampleTypeManager emptyHeap 0 cycleResetCalls _ _
    Reachable.init (by decide)

theorem cycleResetBuilder_cycle :
    ∃ j, Relation.TransGen
      (Feeds cycleResetBuilder.mOperands cycleResetBuilder.mOperations) j j :=
  ⟨0, Relation.TransGen.tail
    (Relation.TransGen.single ((feeds_iff _ _ 0 1).mpr (by decide)))
    ((feeds_iff _ _ 1 0).mpr (by decide))⟩

/-- C2 (counterexample): three reachable builders whose operations contain a cycle and on
which `finish` does not return `BAD_DATA`. `cycleRejectedBuilder` (build the cycle X, Y and
call `finish` once) is invalid, and `finish` returns `BAD_STATE` on it. The other two are
neither finished nor invalid. On `cycleResetBuilder` (the cycle X, Y, and an operand that was
given a large value and then no value) `finish` starts with `copyLargeValuesToSharedMemory`,
whose check of the operand lifetime fails, and does not return. On `wrapCycleBuilder` (an
operation that feeds itself, a producer that lists operand 0 as output 131073 times and a
consumer that lists it as input 65536 times) the large values are consolidated, the 32-bit
counter of the consumer reaches 0 three times, the run order holds 4 entries for 3
operations, and `CHECK_LT` fails in `sortIntoRunOrder`. -/
theorem C2_counterexample :
    (Reachable sampleEnv cycleRejectedBuilder ∧
      (∃ j, Relation.TransGen
        (Feeds cycleRejectedBuilder.mOperands cycleRejectedBuilder.mOperations) j j) ∧
      cycleRejectedBuilder.finish sampleEnv sampleTypeManager emptyHeap 3 =
        .ret (ANEURALNETWORKS_BAD_STATE, cycleRejectedBuilder) ∧
      ANEURALNETWORKS_BAD_STATE ≠ ANEURALNETWORKS_BAD_DATA) ∧
    (Reachable sampleEnv cycleResetBuilder ∧
      cycleResetBuilder.mCompletedModel = false ∧ cycleResetBuilder.mInvalidModel = false ∧
      (∃ j, Relation.TransGen
        (Feeds cycleResetBuilder.mOperands cycleResetBuilder.mOperations) j j) ∧
      copyLargeValuesToSharedMemory sampleEnv cycleResetBuilder = .abort ∧
      ∀ fuel, cycleResetBuilder.finish sampleEnv sampleTypeManager emptyHeap fuel = .abort) ∧
    (Reachable sampleEnv wrapCycleBuilder ∧
      wrapCycleBuilder.mCompletedModel = false ∧ wrapCycleBuilder.mInvalidModel = false ∧
      (∃ j, Relation.TransGen
        (Feeds wrapCycleBuilder.mOperands wrapCycleBuilder.mOperations) j j) ∧
      copyLargeValuesToSharedMemory sampleEnv wrapCycleBuilder =
        .ret (ANEURALNETWORKS_NO_ERROR, wrapCycleBuilder) ∧
      ∀ fuel, sortIntoRunOrder (fuel + 5) wrapCycleBuilder = .abort ∧
        wrapCycleBuilder.finish sampleEnv sampleTypeManager emptyHeap (fuel + 5) = .abort) :=
  have hcopy : copyLargeValuesToSharedMemory sampleEnv cycleResetBuilder = .abort := by decide
  ⟨⟨Reachable.step sampleTypeManager emptyHeap 3 Call.finish ANEURALNETWORKS_BAD_DATA
      cycleBuilder_reachable (by decide),
    cycleBuilder_cycle, by decide, by decide⟩,
   ⟨cycleResetBuilder_reachable, rfl, rfl, cycleResetBuilder_cycle, hcopy, fun fuel => by
      unfold ModelBuilder.finish
      rw [hcopy]
      rfl⟩,
   ⟨wrapCycleBuilder_reachable, rfl, rfl, wrapCycleBuilder_cycle, rfl, fun fuel =>
      ⟨wrapCycleBuilder_sort fuel,
        finish_aborts_of_sort sampleEnv sampleTypeManager emptyHeap (fuel + 5)
          wrapCycleBuilder wrapCycleBuilder rfl rfl rfl (wrapCycleBuilder_sort fuel)⟩⟩⟩

/-- C2 (amended): on a reachable builder that is neither finished nor invalid, whose large
values are consolidated without error and whose operations contain a directed cycle of the
relation "A feeds B", `finish` returns `BAD_DATA` and marks the builder invalid whenever the
steps before the rejection return: `sortIntoRunOrder` returns and, if it returns true,
`makeModel` returns; a true result of the sort is rejected by `validate`, which accepts no
model in which an operand is written more than once. When the operation inputs are operand
indices and no operation input of lifetime `TEMPORARY_VARIABLE` or `SUBGRAPH_OUTPUT` is
listed twice among the outputs of the operations, `sortIntoRunOrder` (given more fuel than
operations) returns false, and `finish` returns `BAD_DATA` on the builder as consolidated. -/
theorem C2_finish_rejects_cycle (env : Env) (tm : TypeManager) (heap : Heap) (fuel : Nat)
    (b c : ModelBuilder) (hr : Reachable env b)
    (hc : b.mCompletedModel = false) (hi : b.mInvalidModel = false)
    (hcopy : copyLargeValuesToSharedMemory env b = .ret (ANEURALNETWORKS_NO_ERROR, c))
    (hcycle : ∃ j, Relation.TransGen (Feeds b.mOperands b.mOperations) j j) :
    (ValidateRejectsRewrittenOperands env →
      ∀ (ok : Bool) (s : ModelBuilder), sortIntoRunOrder fuel c = .ret (ok, s) →
        (ok = true → ∃ m, makeModel env tm heap fuel s = .ret m) →
        b.finish env tm heap fuel =
          .ret (ANEURALNETWORKS_BAD_DATA, { s with mInvalidModel := true })) ∧
    (InputsValid b.mOperands b.mOperations →
      NoUnknownInputWrittenTwice b.mOperands b.mOperations →
      b.mOperations.length < fuel →
      sortIntoRunOrder fuel c = .ret (false, c) ∧
      b.finish env tm heap fuel =
        .ret (ANEURALNETWORKS_BAD_DATA, { c with mInvalidModel := true })) := by
  obtain ⟨hl, hinv⟩ := reachable_inv env b hr
  obtain ⟨e0, e1, e2, e3, _⟩ := copyLargeValuesToSharedMemory_frame env b _ _ hcopy
  have hfresh : b.mSortedOperationIndexMap = [] ∧ b.mSimplifyModel = false := by
    rcases hinv with h | h | h
    · rw [hc] at h; cases h
    · rw [hi] at h; cases h
    · exact h
  have hmax : MAX_NUMBER_OF_OPERATIONS = 4294967294 := rfl
  have hlen : c.mOperations.length < 2 ^ 32 := by
    rw [e1]; rw [hmax] at hl; omega
  have hcycle1 : ∃ j, Relation.TransGen (Feeds c.mOperands c.mOperations) j j := by
    rw [e1, feeds_of_map_eq e0]; exact hcycle
  constructor
  · intro hv ok s hsort hmodel
    cases ok with
    | false =>
      unfold ModelBuilder.finish
      rw [hc, hi, hcopy]
      simp only [Bool.false_eq_true, if_false, Exec.bind, ne_eq, not_true_eq_false, hsort,
        Bool.not_false, if_true]
    | true =>
      obtain ⟨m, hm⟩ := hmodel rfl
      have hsimp : s.mSimplifyModel = false := by
        rcases sortIntoRunOrder_frame fuel c _ s hsort with hs | ⟨_, _, _, _, hs⟩ <;>
          rw [hs] <;> show c.mSimplifyModel = false <;> rw [e3] <;> exact hfresh.2
      have hval : env.validate m = none := by
        cases hval : env.validate m with
        | none => rfl
        | some version =>
          exfalso
          have hnd := hv m (by rw [hval]; rfl)
          rw [makeModel_operations env tm heap fuel s m hsimp hm] at hnd
          obtain ⟨j, hj⟩ := hcycle1
          exact sortIntoRunOrder_no_cycle fuel c s (by rw [e2]; exact hfresh.1) hlen hsort
            hnd j hj
      unfold ModelBuilder.finish
      rw [hc, hi, hcopy]
      simp only [Bool.false_eq_true, if_false, Exec.bind, ne_eq, not_true_eq_false, hsort,
        Bool.not_true, hm, hval]
  · intro hvalid hsingle hfuel
    have hvalid1 : InputsValid c.mOperands c.mOperations := by
      intro op hop v hv
      rw [e1] at hop
      have := hvalid op hop v hv
      have hlen2 := congrArg List.length e0
      simp only [List.length_map] at hlen2
      omega
    have hsingle1 : NoUnknownInputWrittenTwice c.mOperands c.mOperations := by
      intro op hop v hv hu
      rw [e1] at hop ⊢
      rw [isUnknownOperand_of_map_eq e0] at hu
      exact hsingle op hop v hv hu
    have hsort := sortIntoRunOrder_fails_on_cycle fuel c (by rw [e2, hfresh.1]) hlen hvalid1
      hsingle1 hcycle1 (by rw [e1]; exact hfuel)
    refine ⟨hsort, ?_⟩
    unfold ModelBuilder.finish
    rw [hc, hi, hcopy]
    simp only [Bool.false_eq_true, if_false, Exec.bind, ne_eq, not_true_eq_false, hsort,
      Bool.not_false, if_true]

/-- C2 (witness): three cycles. The cycle X, Y without a second writer (`cycleBuilder`): the
sort returns false. The third scenario of section 8, where operand 2 has the writers Y and
W: the sort returns false. The cycle X, Y with the second writer W of operand 2, which only
reads the input of the model: the sort returns true with the order W, X, Y, and `validate`
rejects the model. In each case `finish` returns `BAD_DATA`. -/
theorem C2_finish_rejects_cycle_witness :
    (cycleBuilder.finish sampleEnv sampleTypeManager emptyHeap 3 =
      .ret (ANEURALNETWORKS_BAD_DATA, { cycleBuilder with mInvalidModel := true })) ∧
    (sortIntoRunOrder 5 scenarioThreeBuilder = .ret (false, scenarioThreeBuilder) ∧
      scenarioThreeBuilder.finish sampleEnv sampleTypeManager emptyHeap 5 =
        .ret (ANEURALNETWORKS_BAD_DATA, { scenarioThreeBuilder with mInvalidModel := true })) ∧
    (sortIntoRunOrder 4 rewrittenCycleBuilder = .ret (true, rewrittenCycleSorted) ∧
      rewrittenCycleBuilder.finish sampleEnv sampleTypeManager emptyHeap 4 =
        .ret (ANEURALNETWORKS_BAD_DATA, { rewrittenCycleSorted with mInvalidModel := true })) :=
  ⟨((C2_finish_rejects_cycle sampleEnv sampleTypeManager emptyHeap 3 cycleBuilder cycleBuilder
      cycleBuilder_reachable rfl rfl (by decide) cycleBuilder_cycle).2
      (by unfold InputsValid; decide) (by unfold NoUnknownInputWrittenTwice; decide)
      (by decide)).2,
    ⟨by decide,
      (C2_finish_rejects_cycle sampleEnv sampleTypeManager emptyHeap 5 scenarioThreeBuilder
        scenarioThreeBuilder scenarioThreeBuilder_reachable rfl rfl (by decide)
        scenarioThreeBuilder_cycle).1 sampleEnv_validate false scenarioThreeBuilder
        (by decide) (fun h => Bool.noConfusion h)⟩,
    ⟨by decide,
      (C2_finish_rejects_cycle sampleEnv sampleTypeManager emptyHeap 4 rewrittenCycleBuilder
        rewrittenCycleBuilder rewrittenCycleBuilder_reachable rfl rfl (by decide)
        rewrittenCycleBuilder_cycle).1 sampleEnv_validate true rewrittenCycleSorted
        (by decide) (fun _ => ⟨_, rfl⟩)⟩⟩

end NNAPI
